import Mathlib

/-!
Verification of the core chess-engine components of this repository:
bitboard primitives, precomputed move maps, the pseudo-legal move
generator with attack detection, the make/unmake mutator with its
incremental Zobrist hash, the transposition table, and the search
driver (move ordering, quiescence, iterative deepening).

The source tree contains two parallel generations of the same design
(a newer strongly-typed one under `chess_core`, an older one under
`src/game`); the algorithms are line-for-line identical up to the
representation of squares, moves and flags.  The embedding below
follows the newer generation's files where they exist and the older
generation's files for the components only present there
(`move.rs` for the move list, `search.rs`, `zobrist_numbers.rs`,
`game_state.rs`).  Bitboards are 64-bit words modelled as `Nat`
(with explicit complement within 64 bits where Rust uses `!`),
squares are `Nat` indices 0–63, and Rust panics are modelled by
`Option`.
-/

namespace Chess

/-! ## Bitboards (`bitboard.rs`)

A bitboard is a 64-bit integer; square `i` is member iff bit `i` is
set.  Rust's `u64` complement is complement within 64 bits. -/

/-- All 64 bits set (`BitBoard::FULL`, i.e. `u64::MAX`). -/
def FULL : Nat := 2 ^ 64 - 1

/-- Rust `!b` on a `u64`: complement within 64 bits. -/
def not64 (b : Nat) : Nat := b ^^^ FULL

/-- `u64::trailing_zeros`, computed by scanning low bits with explicit
fuel (64 is enough for any 64-bit word; the result on 0 is 64, exactly
as in Rust). -/
def ctzAux : Nat → Nat → Nat
  | 0, _ => 0
  | f + 1, b => if b % 2 = 1 then 0 else ctzAux f (b / 2) + 1

/-- `u64::trailing_zeros`. -/
def ctz (b : Nat) : Nat := ctzAux 64 b

/-- `BitBoard::get_first_square`: index of the least significant set
bit, `none` on the empty board (where Rust's `Option`-returning
accessor yields `None` / the untyped `get_lsb` yields the sentinel 64). -/
def getFirstSquare (b : Nat) : Option Nat :=
  if b = 0 then none else some (ctz b)

/-- `u64` most significant set bit index, with explicit fuel. -/
def msbAux : Nat → Nat → Nat
  | 0, _ => 0
  | f + 1, b => if b < 2 then 0 else msbAux f (b / 2) + 1

/-- Index of the most significant set bit (`63 - leading_zeros`). -/
def msb (b : Nat) : Nat := msbAux 64 b

/-- `BitBoard::get_last_square`: index of the most significant set
bit, `none` on the empty board. -/
def getLastSquare (b : Nat) : Option Nat :=
  if b = 0 then none else some (msb b)

/-- Clear the least significant set bit
(`*self &= !(1 << lsb)` in `pop_first_square`). -/
def clearLsb (b : Nat) : Nat := b ^^^ (1 <<< ctz b)

theorem ctzAux_spec :
    ∀ (f b : Nat), b ≠ 0 → b < 2 ^ f →
      b.testBit (ctzAux f b) = true ∧
        ∀ i, i < ctzAux f b → b.testBit i = false := by
  intro f
  induction f with
  | zero => intro b hb hlt; omega
  | succ f ih =>
    intro b hb hlt
    rcases Nat.mod_two_eq_zero_or_one b with hpar | hpar
    · have hb2 : b / 2 ≠ 0 := by omega
      have hlt2 : b / 2 < 2 ^ f := by
        rw [pow_succ] at hlt; omega
      obtain ⟨ih1, ih2⟩ := ih (b / 2) hb2 hlt2
      rw [ctzAux, if_neg (by omega)]
      constructor
      · rw [Nat.testBit_succ]; exact ih1
      · intro i hi
        cases i with
        | zero => rw [Nat.testBit_zero]; simpa using hpar
        | succ j => rw [Nat.testBit_succ]; exact ih2 j (by omega)
    · rw [ctzAux, if_pos hpar]
      refine ⟨?_, by omega⟩
      rw [Nat.testBit_zero]
      simpa using hpar

theorem testBit_ctz_self {b : Nat} (hb : b ≠ 0) (h64 : b < 2 ^ 64) :
    b.testBit (ctz b) = true :=
  (ctzAux_spec 64 b hb h64).1

theorem testBit_lt_ctz {b i : Nat} (h64 : b < 2 ^ 64) (h : i < ctz b) :
    b.testBit i = false := by
  rcases eq_or_ne b 0 with rfl | hb
  · simp
  · exact (ctzAux_spec 64 b hb h64).2 i h

theorem two_pow_ctz_le {b : Nat} (hb : b ≠ 0) (h64 : b < 2 ^ 64) :
    2 ^ ctz b ≤ b :=
  Nat.testBit_implies_ge (testBit_ctz_self hb h64)

theorem ctz_lt_64 {b : Nat} (hb : b ≠ 0) (h64 : b < 2 ^ 64) : ctz b < 64 := by
  by_contra h
  have h1 : (2 : Nat) ^ 64 ≤ 2 ^ ctz b :=
    Nat.pow_le_pow_right (by norm_num) (by omega)
  have := two_pow_ctz_le hb h64
  omega

theorem testBit_clearLsb {b i : Nat} (hb : b ≠ 0) (h64 : b < 2 ^ 64) :
    (clearLsb b).testBit i = (b.testBit i && !(decide (i = ctz b))) := by
  rw [clearLsb, Nat.shiftLeft_eq, one_mul, Nat.testBit_xor, Nat.testBit_two_pow]
  rcases eq_or_ne i (ctz b) with rfl | h
  · simp [testBit_ctz_self hb h64]
  · simp [h, Ne.symm h]

theorem clearLsb_lt {b : Nat} (hb : b ≠ 0) (h64 : b < 2 ^ 64) :
    clearLsb b < b := by
  refine Nat.lt_of_testBit (ctz b) ?_ (testBit_ctz_self hb h64) ?_
  · rw [testBit_clearLsb hb h64]; simp
  · intro j hj
    rw [testBit_clearLsb hb h64]
    simp [Nat.ne_of_gt hj]

theorem clearLsb_lt_64 {b : Nat} (hb : b ≠ 0) (h64 : b < 2 ^ 64) :
    clearLsb b < 2 ^ 64 :=
  (clearLsb_lt hb h64).trans h64

theorem msbAux_spec :
    ∀ (f b : Nat), b ≠ 0 → b < 2 ^ f →
      b.testBit (msbAux f b) = true ∧
        ∀ i, msbAux f b < i → b.testBit i = false := by
  intro f
  induction f with
  | zero => intro b hb hlt; omega
  | succ f ih =>
    intro b hb hlt
    by_cases h2 : b < 2
    · have hb1 : b = 1 := by omega
      subst hb1
      rw [msbAux, if_pos h2]
      refine ⟨by decide, ?_⟩
      intro i hi
      exact Nat.testBit_lt_two_pow
        (by calc (1 : Nat) < 2 ^ 1 := by norm_num
              _ ≤ 2 ^ i := Nat.pow_le_pow_right (by norm_num) (by omega))
    · have hb2 : b / 2 ≠ 0 := by omega
      have hlt2 : b / 2 < 2 ^ f := by
        rw [pow_succ] at hlt; omega
      obtain ⟨ih1, ih2⟩ := ih (b / 2) hb2 hlt2
      rw [msbAux, if_neg h2]
      constructor
      · rw [Nat.testBit_succ]; exact ih1
      · intro i hi
        cases i with
        | zero => omega
        | succ j => rw [Nat.testBit_succ]; exact ih2 j (by omega)

theorem testBit_msb_self {b : Nat} (hb : b ≠ 0) (h64 : b < 2 ^ 64) :
    b.testBit (msb b) = true :=
  (msbAux_spec 64 b hb h64).1

theorem testBit_gt_msb {b i : Nat} (h64 : b < 2 ^ 64) (h : msb b < i) :
    b.testBit i = false := by
  rcases eq_or_ne b 0 with rfl | hb
  · simp
  · exact (msbAux_spec 64 b hb h64).2 i h

theorem msb_lt_64 {b : Nat} (h64 : b < 2 ^ 64) : msb b < 64 := by
  rcases eq_or_ne b 0 with rfl | hb
  · decide
  · by_contra h
    have h1 := testBit_msb_self hb h64
    rw [Nat.testBit_lt_two_pow
      (h64.trans_le (Nat.pow_le_pow_right (by norm_num) (by omega)))] at h1
    exact Bool.noConfusion h1

/-- The list of squares of a bitboard in increasing order, as produced
by the `while let Some(sq) = board.pop_first_square()` loops (fuel 64
covers every 64-bit board). -/
def bitsAux : Nat → Nat → List Nat
  | 0, _ => []
  | f + 1, b => if b = 0 then [] else ctz b :: bitsAux f (clearLsb b)

def bits (b : Nat) : List Nat := bitsAux 64 b

theorem bitsAux_spec :
    ∀ (f b : Nat), b < 2 ^ 64 → (∀ i, i < 64 - f → b.testBit i = false) →
      (∀ i, (i ∈ bitsAux f b ↔ b.testBit i = true)) ∧
        (bitsAux f b).Sorted (· < ·) := by
  intro f
  induction f with
  | zero =>
    intro b h64 hlow
    refine ⟨fun i => ?_, by simp [bitsAux]⟩
    rw [bitsAux]
    simp only [List.not_mem_nil, false_iff]
    intro hbit
    rcases Nat.lt_or_ge i 64 with hi | hi
    · rw [hlow i (by omega)] at hbit; exact Bool.noConfusion hbit
    · rw [Nat.testBit_lt_two_pow
        (h64.trans_le (Nat.pow_le_pow_right (by norm_num) hi))] at hbit
      exact Bool.noConfusion hbit
  | succ f ih =>
    intro b h64 hlow
    rcases eq_or_ne b 0 with rfl | hb
    · rw [bitsAux, if_pos rfl]
      exact ⟨fun i => by simp, by simp⟩
    rw [bitsAux, if_neg hb]
    have hctz_ge : 64 - (f + 1) ≤ ctz b := by
      by_contra h
      have := hlow (ctz b) (by omega)
      rw [testBit_ctz_self hb h64] at this
      exact Bool.noConfusion this
    have hcl64 : clearLsb b < 2 ^ 64 := clearLsb_lt_64 hb h64
    have hlow' : ∀ i, i < 64 - f → (clearLsb b).testBit i = false := by
      intro i hi
      rw [testBit_clearLsb hb h64]
      rcases eq_or_ne i (ctz b) with rfl | hne
      · simp
      · have hilt : i < ctz b := by omega
        rw [testBit_lt_ctz h64 hilt]
        rfl
    obtain ⟨ihmem, ihsorted⟩ := ih (clearLsb b) hcl64 hlow'
    have hgt : ∀ x ∈ bitsAux f (clearLsb b), ctz b < x := by
      intro x hx
      have hxbit := (ihmem x).mp hx
      rw [testBit_clearLsb hb h64] at hxbit
      rcases Nat.lt_trichotomy x (ctz b) with hlt | rfl | hgt
      · rw [testBit_lt_ctz h64 hlt] at hxbit; exact Bool.noConfusion hxbit
      · simp at hxbit
      · exact hgt
    refine ⟨fun i => ?_, List.sorted_cons.mpr ⟨hgt, ihsorted⟩⟩
    rw [List.mem_cons, ihmem i, testBit_clearLsb hb h64]
    rcases eq_or_ne i (ctz b) with rfl | hne
    · simp [testBit_ctz_self hb h64]
    · simp [hne]

theorem mem_bits {b : Nat} (h64 : b < 2 ^ 64) {i : Nat} :
    i ∈ bits b ↔ b.testBit i = true :=
  (bitsAux_spec 64 b h64 (fun i hi => by omega)).1 i

theorem bits_sorted {b : Nat} (h64 : b < 2 ^ 64) :
    (bits b).Sorted (· < ·) :=
  (bitsAux_spec 64 b h64 (fun i hi => by omega)).2

theorem bits_nodup {b : Nat} (h64 : b < 2 ^ 64) : (bits b).Nodup :=
  (bits_sorted h64).nodup

/-! ## XOR folds

The incremental Zobrist hash is maintained by XOR updates; the
from-scratch hash XORs one number per set bit of each board.  We
develop the small algebra that connects the two. -/

/-- XOR of `f i` over the elements of `l`, in the iteration order of the
source's accumulation loops. -/
def xorFold (f : Nat → Nat) (l : List Nat) : Nat :=
  l.foldl (fun h i => h ^^^ f i) 0

theorem foldl_xor_eq (f : Nat → Nat) (l : List Nat) (a : Nat) :
    l.foldl (fun h i => h ^^^ f i) a = a ^^^ xorFold f l := by
  induction l generalizing a with
  | nil => simp [xorFold]
  | cons x t ih =>
    rw [xorFold, List.foldl_cons, List.foldl_cons, ih, ih (0 ^^^ f x)]
    simp [Nat.xor_assoc]

theorem xorFold_nil (f : Nat → Nat) : xorFold f [] = 0 := rfl

theorem xorFold_cons (f : Nat → Nat) (x : Nat) (t : List Nat) :
    xorFold f (x :: t) = f x ^^^ xorFold f t := by
  rw [xorFold, List.foldl_cons, foldl_xor_eq]
  simp

theorem xorFold_perm (f : Nat → Nat) {l l' : List Nat} (h : List.Perm l l') :
    xorFold f l = xorFold f l' := by
  induction h with
  | nil => rfl
  | cons x _ ih => rw [xorFold_cons, xorFold_cons, ih]
  | swap x y t =>
    rw [xorFold_cons, xorFold_cons, xorFold_cons, xorFold_cons,
      ← Nat.xor_assoc, ← Nat.xor_assoc, Nat.xor_comm (f x) (f y)]
  | trans _ _ ih1 ih2 => rw [ih1, ih2]

/-- The from-scratch hash contribution of one piece board: XOR of the
per-square Zobrist numbers over the set bits
(the `while let Some(lsb) = b.pop_first_square()` loop in
`GameState::hash`). -/
def hashBoard (b : Nat) (nums : Nat → Nat) : Nat := xorFold nums (bits b)

/-- Flipping one bit of a board XORs its hash contribution by that
square's number — the algebraic heart of incremental Zobrist updates. -/
theorem xor_pow_lt_64 {b j : Nat} (hb : b < 2 ^ 64) (hj : j < 64) :
    b ^^^ (1 <<< j) < 2 ^ 64 := by
  rw [Nat.shiftLeft_eq, one_mul]
  exact Nat.xor_lt_two_pow hb
    ((Nat.pow_lt_pow_right (by norm_num) hj).trans_le (le_refl _))

theorem hashBoard_flip {b j : Nat} (hb : b < 2 ^ 64) (hj : j < 64)
    (nums : Nat → Nat) :
    hashBoard (b ^^^ (1 <<< j)) nums = hashBoard b nums ^^^ nums j := by
  have key : ∀ c : Nat, c < 2 ^ 64 → c.testBit j = false →
      hashBoard (c ^^^ (1 <<< j)) nums = hashBoard c nums ^^^ nums j := by
    intro c hc64 hc
    have hx64 : c ^^^ (1 <<< j) < 2 ^ 64 := xor_pow_lt_64 hc64 hj
    have hmem : ∀ i, (c ^^^ (1 <<< j)).testBit i = true ↔
        (i = j ∨ c.testBit i = true) := by
      intro i
      rw [Nat.shiftLeft_eq, one_mul, Nat.testBit_xor, Nat.testBit_two_pow]
      rcases eq_or_ne i j with rfl | h
      · simp [hc]
      · simp [h, Ne.symm h]
    have hnotmem : j ∉ bits c := fun hjm => by
      rw [mem_bits hc64] at hjm; rw [hjm] at hc; exact Bool.noConfusion hc
    have hperm : List.Perm (bits (c ^^^ (1 <<< j))) (j :: bits c) := by
      refine (List.perm_ext_iff_of_nodup (bits_nodup hx64) ?_).mpr ?_
      · exact List.nodup_cons.mpr ⟨hnotmem, bits_nodup hc64⟩
      · intro a
        rw [mem_bits hx64, hmem, List.mem_cons, mem_bits hc64]
    rw [hashBoard, xorFold_perm nums hperm, xorFold_cons, hashBoard,
      Nat.xor_comm]
  cases h : b.testBit j with
  | false => exact key b hb h
  | true =>
    have hb' : (b ^^^ (1 <<< j)).testBit j = false := by
      rw [Nat.shiftLeft_eq, one_mul, Nat.testBit_xor, h,
        Nat.testBit_two_pow_self]
      rfl
    have h2 := key (b ^^^ (1 <<< j)) (xor_pow_lt_64 hb hj) hb'
    rw [Nat.xor_assoc, Nat.xor_self, Nat.xor_zero] at h2
    rw [h2, Nat.xor_assoc, Nat.xor_self, Nat.xor_zero]

/-- Clearing a set bit with `board &= !(1 << j)` is an XOR, for 64-bit
boards and square indices. -/
theorem and_not64_eq_xor {b j : Nat} (hb : b < 2 ^ 64) (hj : j < 64)
    (h : b.testBit j = true) : b &&& not64 (1 <<< j) = b ^^^ (1 <<< j) := by
  apply Nat.eq_of_testBit_eq
  intro i
  rw [Nat.testBit_and, not64, FULL, Nat.testBit_xor, Nat.testBit_xor,
    Nat.shiftLeft_eq, one_mul, Nat.testBit_two_pow,
    Nat.testBit_two_pow_sub_one]
  rcases eq_or_ne j i with rfl | hne
  · simp [h, hj]
  · rcases Nat.lt_or_ge i 64 with hi | hi
    · simp [hne, hi]
    · have hfb : b.testBit i = false := Nat.testBit_lt_two_pow
        (hb.trans_le (Nat.pow_le_pow_right (by omega) hi))
      have hni : ¬ i < 64 := by omega
      simp [hne, hfb, hni]

/-- Setting an unset bit with `board |= 1 << j` is an XOR. -/
theorem or_eq_xor {b j : Nat} (h : b.testBit j = false) :
    b ||| (1 <<< j) = b ^^^ (1 <<< j) := by
  apply Nat.eq_of_testBit_eq
  intro i
  rw [Nat.testBit_or, Nat.testBit_xor, Nat.shiftLeft_eq, one_mul,
    Nat.testBit_two_pow]
  rcases eq_or_ne j i with rfl | hne
  · simp [h]
  · simp [hne]

/-! ## Piece types (`chess_board.rs`) -/

/-- `PieceType`: the six piece kinds, in the order of
`ChessBoardSide::as_array`. -/
inductive PieceType where
  | pawn | knight | bishop | rook | queen | king
deriving DecidableEq, Repr

/-! ## Move encoding

The newer generation (`chess_core`) uses a `Move` struct with a
`MoveCode` enum; the older generation (`move.rs`) packs (from, to,
flag) into a `u16`.  Both carry the same fourteen codes. -/

/-- `MoveCode`: the special-move code of a move. -/
inductive MoveCode where
  | quietMove | doublePawnPush | kingCastle | queenCastle
  | capture | enPassant
  | knightPromotion | bishopPromotion | rookPromotion | queenPromotion
  | knightPromotionCapture | bishopPromotionCapture
  | rookPromotionCapture | queenPromotionCapture
deriving DecidableEq, Repr

namespace MoveCode

/-- `MoveCode::is_capture`. -/
def is_capture : MoveCode → Bool
  | capture | enPassant
  | knightPromotionCapture | bishopPromotionCapture
  | rookPromotionCapture | queenPromotionCapture => true
  | _ => false

/-- `MoveCode::is_castle`. -/
def is_castle : MoveCode → Bool
  | kingCastle | queenCastle => true
  | _ => false

/-- `MoveCode::promotion`: the promoted piece type of a promotion or
promotion-capture code. -/
def promotion : MoveCode → Option PieceType
  | knightPromotion | knightPromotionCapture => some PieceType.knight
  | bishopPromotion | bishopPromotionCapture => some PieceType.bishop
  | rookPromotion | rookPromotionCapture => some PieceType.rook
  | queenPromotion | queenPromotionCapture => some PieceType.queen
  | _ => none

/-- `Move::is_quiet` (the same classification in both generations):
quiet, double pawn push and both castles count as quiet. -/
def is_quiet : MoveCode → Bool
  | quietMove | doublePawnPush | kingCastle | queenCastle => true
  | _ => false

end MoveCode

/-- `Move` (newer generation): from square, to square, special code. -/
structure Move where
  fromSq : Nat
  toSq : Nat
  code : MoveCode
deriving DecidableEq, Repr

/-- `Move::new`. -/
def Move.new (f t : Nat) (c : MoveCode) : Move := ⟨f, t, c⟩

/-! ## Transposition table
(`chess_engines/src/alpha_beta/transposition_table.rs`)

A fixed-size direct-mapped table indexed by `hash % TABLE_SIZE`,
holding `Option<TtEntry>` slots.  `store` always overwrites,
`get` demands an exact full-hash match. -/

namespace TT

/-- `TABLE_SIZE = 1 << 20`. -/
def TABLE_SIZE : Nat := 1 <<< 20

/-- `TtEntry`: full hash, search depth, score, best move. -/
structure TtEntry where
  hash : Nat
  depth : Nat
  score : Int
  best_move : Move
deriving DecidableEq, Repr

/-- `TranspositionTable`: the slot array, modelled as a function from
slot index to slot contents (all slots start `None`). -/
def TranspositionTable := Nat → Option TtEntry

/-- `TranspositionTable::new()`: every slot empty. -/
def new : TranspositionTable := fun _ => none

/-- `TranspositionTable::store`: unconditionally overwrite slot
`entry.hash % TABLE_SIZE`. -/
def store (t : TranspositionTable) (entry : TtEntry) : TranspositionTable :=
  fun i => if i = entry.hash % TABLE_SIZE then some entry else t i

/-- `TranspositionTable::get`: read slot `hash % TABLE_SIZE`, return the
entry only when its stored full hash matches exactly. -/
def get (t : TranspositionTable) (hash : Nat) : Option TtEntry :=
  match t (hash % TABLE_SIZE) with
  | some e => if e.hash = hash then some e else none
  | none => none

end TT

/-! ## Packed move words and the move list (`move.rs`)

The older generation packs a move into a `u16`:
bits 0–5 `from`, bits 6–11 `to`, bits 12–15 the flag. -/

namespace MoveBits

def FROM_MASK : Nat := 0x3F
def TO_MASK : Nat := 0x3F <<< 6
def FLAG_MASK : Nat := 0xF <<< 12

def QUIET_MOVE : Nat := 0 <<< 12
def DOUBLE_PAWN_PUSH : Nat := 1 <<< 12
def KING_CASTLE : Nat := 2 <<< 12
def QUEEN_CASTLE : Nat := 3 <<< 12
def CAPTURE : Nat := 4 <<< 12
def EN_PASSANT : Nat := 5 <<< 12
def KNIGHT_PROMOTION : Nat := 6 <<< 12
def BISHOP_PROMOTION : Nat := 7 <<< 12
def ROOK_PROMOTION : Nat := 8 <<< 12
def QUEEN_PROMOTION : Nat := 9 <<< 12
def KNIGHT_PROMOTION_CAPTURE : Nat := 10 <<< 12
def BISHOP_PROMOTION_CAPTURE : Nat := 11 <<< 12
def ROOK_PROMOTION_CAPTURE : Nat := 12 <<< 12
def QUEEN_PROMOTION_CAPTURE : Nat := 13 <<< 12

/-- `Move::new(from, to, flag)`. -/
def new (f t flag : Nat) : Nat := f ||| (t <<< 6) ||| flag

/-- The flag bits of a packed move. -/
def flagOf (m : Nat) : Nat := m &&& FLAG_MASK

/-- `Move::is_quiet`: quiet, double pawn push, and both castles. -/
def is_quiet (m : Nat) : Bool :=
  flagOf m = QUIET_MOVE || flagOf m = DOUBLE_PAWN_PUSH ||
  flagOf m = KING_CASTLE || flagOf m = QUEEN_CASTLE

/-- `Move::is_capture`. -/
def is_capture (m : Nat) : Bool :=
  flagOf m = CAPTURE || flagOf m = EN_PASSANT ||
  flagOf m = KNIGHT_PROMOTION_CAPTURE || flagOf m = BISHOP_PROMOTION_CAPTURE ||
  flagOf m = ROOK_PROMOTION_CAPTURE || flagOf m = QUEEN_PROMOTION_CAPTURE

/-- `Move::is_promotion`. -/
def is_promotion (m : Nat) : Bool :=
  flagOf m = KNIGHT_PROMOTION || flagOf m = BISHOP_PROMOTION ||
  flagOf m = ROOK_PROMOTION || flagOf m = QUEEN_PROMOTION ||
  flagOf m = KNIGHT_PROMOTION_CAPTURE || flagOf m = BISHOP_PROMOTION_CAPTURE ||
  flagOf m = ROOK_PROMOTION_CAPTURE || flagOf m = QUEEN_PROMOTION_CAPTURE

/-- `Move::is_castle`. -/
def is_castle (m : Nat) : Bool :=
  flagOf m = KING_CASTLE || flagOf m = QUEEN_CASTLE

end MoveBits

/-! ### `MoveList::order_ply`

`order_ply` reorders the current ply slice in place: it first swaps the
supplied best move (if found) to position 0, then runs a swap-based
partition placing every move with `!is_quiet` before the quiet ones.
The slice is modelled as a `List Nat` of packed moves; `slice.swap` is
modelled by `lswap`. -/

/-- `slice.swap(i, j)` on a list (both indices in bounds in the source;
out-of-range indices leave the list unchanged up to `getD` defaults). -/
def lswap (l : List Nat) (i j : Nat) : List Nat :=
  (l.set i (l.getD j 0)).set j (l.getD i 0)

theorem length_lswap (l : List Nat) (i j : Nat) :
    (lswap l i j).length = l.length := by
  simp [lswap]

/-- The partition loop of `order_ply`: for `i` from the current point to
the end, swap each non-quiet move down to `sorted_index` and advance it
(the fuel is the number of remaining loop iterations, `ply.len() - i`
at the call site). -/
def partitionLoudAux (fuel : Nat) (ply : List Nat) (i s : Nat) : List Nat :=
  match fuel with
  | 0 => ply
  | f + 1 =>
    if i < ply.length then
      if MoveBits.is_quiet (ply.getD i 0) then
        partitionLoudAux f ply (i + 1) s
      else
        partitionLoudAux f (lswap ply i s) (i + 1) (s + 1)
    else ply

def partitionLoud (ply : List Nat) (i s : Nat) : List Nat :=
  partitionLoudAux (ply.length - i) ply i s

/-- The initial scan of `order_ply`: index of the first occurrence of
the best move in the ply (`for i in 0..ply.len() { if ply[i] == first
{ ... break; } }`). -/
def idxOf? (f : Nat) : List Nat → Option Nat
  | [] => none
  | x :: t => if x = f then some 0 else (idxOf? f t).map (· + 1)

/-- `MoveList::order_ply` restricted to the current ply slice: place the
optional best move first (if found), then partition non-quiet before
quiet. -/
def orderPly (first : Option Nat) (ply : List Nat) : List Nat :=
  match first with
  | none => partitionLoud ply 0 0
  | some f =>
    match idxOf? f ply with
    | some i => partitionLoud (lswap ply i 0) 1 1
    | none => partitionLoud ply 0 0

theorem getD_of_lt {l : List Nat} {n : Nat} (h : n < l.length) :
    l.getD n 0 = l[n] := by
  rw [List.getD_eq_getElem?_getD, List.getElem?_eq_getElem h]
  rfl

theorem set_getD_self {l : List Nat} {n : Nat} (h : n < l.length) :
    l.set n (l.getD n 0) = l := by
  apply List.ext_getElem?
  intro k
  rcases eq_or_ne n k with rfl | hne
  · rw [List.getElem?_set_self h, getD_of_lt h, List.getElem?_eq_getElem h]
  · rw [List.getElem?_set_ne hne]

theorem lswap_perm {l : List Nat} {i j : Nat} (hi : i < l.length)
    (hj : j < l.length) : List.Perm (lswap l i j) l := by
  rcases eq_or_ne i j with rfl | hne
  · rw [lswap, List.set_set, set_getD_self hi]
  · obtain ⟨X, Y, hl, _, hset1⟩ :=
      @List.exists_of_set Nat i (l.getD j 0) l hi
    have hj1 : j < (l.set i (l.getD j 0)).length := by simpa using hj
    obtain ⟨P, Q, hl1, _, hset2⟩ :=
      @List.exists_of_set Nat j (l.getD i 0) (l.set i (l.getD j 0)) hj1
    have hBj : (l.set i (l.getD j 0))[j] = l[j] := by
      rw [List.getElem_set_ne hne]
    rw [lswap, hset2]
    have perm1 : List.Perm (P ++ l.getD i 0 :: Q) (l.getD i 0 :: (P ++ Q)) :=
      List.perm_middle
    have perm2 : List.Perm (P ++ Q) (X ++ Y) := by
      have hA : List.Perm (l.set i (l.getD j 0)) (l[j] :: (P ++ Q)) := by
        rw [hl1, hBj]; exact List.perm_middle
      have hB : List.Perm (l.set i (l.getD j 0)) (l[j] :: (X ++ Y)) := by
        rw [hset1, getD_of_lt hj]
        exact List.perm_middle
      exact (List.perm_cons _).mp (hA.symm.trans hB)
    have perm3 : List.Perm (l.getD i 0 :: (X ++ Y)) l := by
      rw [getD_of_lt hi]
      conv_rhs => rw [hl]
      exact List.perm_middle.symm
    exact perm1.trans ((perm2.cons _).trans perm3)

theorem lswap_getD_fst {l : List Nat} {i j : Nat} (hj : j < l.length) :
    (lswap l i j).getD j 0 = l.getD i 0 := by
  rw [lswap, List.getD_eq_getElem?_getD, List.getElem?_set_self (by simpa using hj)]
  rfl

theorem lswap_getD_other {l : List Nat} {i j k : Nat} (hk1 : k ≠ i)
    (hk2 : k ≠ j) : (lswap l i j).getD k 0 = l.getD k 0 := by
  rw [lswap, List.getD_eq_getElem?_getD, List.getElem?_set_ne (Ne.symm hk2),
    List.getElem?_set_ne (Ne.symm hk1), List.getD_eq_getElem?_getD]

theorem lswap_getD_snd {l : List Nat} {i j : Nat} (hi : i < l.length)
    (hne : i ≠ j) : (lswap l i j).getD i 0 = l.getD j 0 := by
  rw [lswap, List.getD_eq_getElem?_getD, List.getElem?_set_ne (Ne.symm hne),
    List.getElem?_set_self hi]
  rfl

theorem lswap_drop {l : List Nat} {i s : Nat} (hs : s ≤ i) :
    (lswap l i s).drop s = lswap (l.drop s) (i - s) 0 := by
  rw [lswap, lswap, List.drop_set, if_neg (by omega), List.drop_set,
    if_neg (by omega), Nat.sub_self]
  congr 1
  · congr 1
    rw [List.getD_eq_getElem?_getD, List.getD_eq_getElem?_getD,
      List.getElem?_drop, Nat.add_zero]
  · rw [List.getD_eq_getElem?_getD, List.getD_eq_getElem?_getD,
      List.getElem?_drop]
    congr 2
    omega

theorem lswap_drop_perm {l : List Nat} {i s : Nat} (hs : s ≤ i)
    (hi : i < l.length) : List.Perm ((lswap l i s).drop s) (l.drop s) := by
  rw [lswap_drop hs]
  have h1 : i - s < (l.drop s).length := by
    rw [List.length_drop]; omega
  have h2 : 0 < (l.drop s).length := by
    rw [List.length_drop]; omega
  exact lswap_perm h1 h2

theorem idxOf?_spec {f : Nat} :
    ∀ {l : List Nat} {i : Nat}, idxOf? f l = some i →
      i < l.length ∧ l.getD i 0 = f := by
  intro l
  induction l with
  | nil => intro i h; simp [idxOf?] at h
  | cons x t ih =>
    intro i h
    rw [idxOf?] at h
    by_cases hx : x = f
    · rw [if_pos hx] at h
      cases h
      exact ⟨by simp, hx⟩
    · rw [if_neg hx] at h
      cases ht : idxOf? f t with
      | none => rw [ht] at h; exact absurd h (by simp)
      | some j =>
        rw [ht] at h
        simp only [Option.map] at h
        cases h
        obtain ⟨h1, h2⟩ := ih ht
        exact ⟨by simpa using h1, by simpa using h2⟩

theorem idxOf?_isSome {f : Nat} :
    ∀ {l : List Nat}, f ∈ l → (idxOf? f l).isSome = true := by
  intro l
  induction l with
  | nil => intro h; exact absurd h (by simp)
  | cons x t ih =>
    intro h
    rw [idxOf?]
    by_cases hx : x = f
    · rw [if_pos hx]; rfl
    · rw [if_neg hx]
      rcases List.mem_cons.mp h with rfl | hmem
      · exact absurd rfl hx
      · cases ht : idxOf? f t with
        | none => rw [ht] at ih; exact absurd (ih hmem) (by simp)
        | some j => simp

/-- Loop invariant proof for the partition phase of `order_ply`:
positions below `s` are untouched, the scanned-and-skipped region
`[s, i)` is quiet, and the loop produces a boundary `t` with all
non-quiet moves in `[s, t)` and all quiet moves in `[t, len)`, the
region from `s` on being permuted in place. -/
theorem partitionLoudAux_spec :
    ∀ (fuel : Nat) (ply : List Nat) (i s : Nat),
      ply.length ≤ i + fuel → s ≤ i →
      (∀ k, s ≤ k → k < i → MoveBits.is_quiet (ply.getD k 0) = true) →
      ∃ t, s ≤ t ∧
        (partitionLoudAux fuel ply i s).length = ply.length ∧
        (∀ k, k < s → (partitionLoudAux fuel ply i s).getD k 0 = ply.getD k 0) ∧
        (∀ k, s ≤ k → k < t →
          MoveBits.is_quiet ((partitionLoudAux fuel ply i s).getD k 0) = false) ∧
        (∀ k, t ≤ k → k < ply.length →
          MoveBits.is_quiet ((partitionLoudAux fuel ply i s).getD k 0) = true) ∧
        List.Perm ((partitionLoudAux fuel ply i s).drop s) (ply.drop s) := by
  intro fuel
  induction fuel with
  | zero =>
    intro ply i s hfuel hsi hq
    refine ⟨s, le_refl s, rfl, fun k _ => rfl, fun k h1 h2 => by omega,
      fun k h1 h2 => ?_, List.Perm.refl _⟩
    exact hq k h1 (by omega)
  | succ f ih =>
    intro ply i s hfuel hsi hq
    by_cases hi : i < ply.length
    · by_cases hqi : MoveBits.is_quiet (ply.getD i 0) = true
      · simp only [partitionLoudAux]
        rw [if_pos hi, if_pos hqi]
        refine ih ply (i + 1) s (by omega) (by omega) ?_
        intro k h1 h2
        rcases eq_or_ne k i with rfl | hk
        · exact hqi
        · exact hq k h1 (by omega)
      · simp only [partitionLoudAux]
        rw [if_pos hi, if_neg hqi]
        have hlen' : (lswap ply i s).length = ply.length := length_lswap ply i s
        have hq' : ∀ k, s + 1 ≤ k → k < i + 1 →
            MoveBits.is_quiet ((lswap ply i s).getD k 0) = true := by
          intro k h1 h2
          rcases eq_or_ne k i with rfl | hk
          · have hsk : s < k := by omega
            rw [lswap_getD_snd hi (by omega)]
            exact hq s (le_refl s) hsk
          · rw [lswap_getD_other hk (by omega)]
            exact hq k (by omega) (by omega)
        obtain ⟨t, ht1, ht2, ht3, ht4, ht5, ht6⟩ :=
          ih (lswap ply i s) (i + 1) (s + 1) (by omega) (by omega) hq'
        rw [hlen'] at ht2 ht5
        have hs_len : s < ply.length := by omega
        have hres_s : (partitionLoudAux f (lswap ply i s) (i + 1) (s + 1)).getD s 0 =
            ply.getD i 0 := by
          rw [ht3 s (by omega), lswap_getD_fst hs_len]
        refine ⟨t, by omega, ht2, ?_, ?_, ht5, ?_⟩
        · intro k hk
          rw [ht3 k (by omega), lswap_getD_other (by omega) (by omega)]
        · intro k h1 h2
          rcases eq_or_ne k s with rfl | hk
          · rw [hres_s]
            exact Bool.not_eq_true _ |>.mp hqi
          · exact ht4 k (by omega) h2
        · have hslen : s < (partitionLoudAux f (lswap ply i s) (i + 1) (s + 1)).length := by
            omega
          have hs_len' : s < (lswap ply i s).length := by omega
          have hmid : List.Perm ((lswap ply i s).drop s) (ply.drop s) :=
            lswap_drop_perm hsi hi
          have hd1 : (partitionLoudAux f (lswap ply i s) (i + 1) (s + 1)).drop s =
              ply.getD i 0 :: (partitionLoudAux f (lswap ply i s) (i + 1) (s + 1)).drop (s + 1) := by
            rw [List.drop_eq_getElem_cons hslen, ← getD_of_lt hslen, hres_s]
          have hd2 : (lswap ply i s).drop s =
              ply.getD i 0 :: (lswap ply i s).drop (s + 1) := by
            rw [List.drop_eq_getElem_cons hs_len', ← getD_of_lt hs_len',
              lswap_getD_fst hs_len]
          rw [hd1]
          have step1 : List.Perm
              (ply.getD i 0 :: (partitionLoudAux f (lswap ply i s) (i + 1) (s + 1)).drop (s + 1))
              ((lswap ply i s).drop s) := by
            rw [hd2]; exact ht6.cons _
          exact step1.trans hmid
    · simp only [partitionLoudAux]
      rw [if_neg hi]
      refine ⟨s, le_refl s, rfl, fun k _ => rfl, fun k h1 h2 => by omega,
        fun k h1 h2 => ?_, List.Perm.refl _⟩
      exact hq k h1 (by omega)

theorem idxOf?_of_not_mem {f : Nat} {l : List Nat} (h : f ∉ l) :
    idxOf? f l = none := by
  cases hf : idxOf? f l with
  | none => rfl
  | some i =>
    obtain ⟨h1, h2⟩ := idxOf?_spec hf
    exact absurd (h2 ▸ getD_of_lt h1 ▸ List.getElem_mem h1) h

/-- The slot reserved for the best move at the front of the ordered
ply: one position when the best move is present, none otherwise. -/
def bestSlot (first : Option Nat) (ply : List Nat) : Nat :=
  match first with
  | some f => if f ∈ ply then 1 else 0
  | none => 0

/-- C5 (amended).  `order_ply` keeps the moves of the ply (as a
permutation), places the supplied best move first when it occurs in the
ply, and after that slot places every move that is non-quiet in the
code's own classification (`Move::is_quiet`: captures, en passant and
promotions are non-quiet) before every quiet one (plain quiet moves,
double pawn pushes and castles). -/
theorem order_ply_correct (first : Option Nat) (ply : List Nat) :
    List.Perm (orderPly first ply) ply ∧
    (orderPly first ply).length = ply.length ∧
    (∀ f, first = some f → f ∈ ply → (orderPly first ply).getD 0 0 = f) ∧
    ∃ t, (∀ k, bestSlot first ply ≤ k → k < t →
        MoveBits.is_quiet ((orderPly first ply).getD k 0) = false) ∧
      (∀ k, t ≤ k → k < ply.length →
        MoveBits.is_quiet ((orderPly first ply).getD k 0) = true) := by
  have base : ∀ p : List Nat,
      List.Perm (partitionLoud p 0 0) p ∧
      (partitionLoud p 0 0).length = p.length ∧
      ∃ t, (∀ k, 0 ≤ k → k < t →
          MoveBits.is_quiet ((partitionLoud p 0 0).getD k 0) = false) ∧
        (∀ k, t ≤ k → k < p.length →
          MoveBits.is_quiet ((partitionLoud p 0 0).getD k 0) = true) := by
    intro p
    obtain ⟨t, _, hlen, _, hloud, hquiet, hperm⟩ :=
      partitionLoudAux_spec (p.length - 0) p 0 0 (by omega) (le_refl 0)
        (fun k h1 h2 => by omega)
    rw [List.drop_zero, List.drop_zero] at hperm
    exact ⟨hperm, hlen, t, hloud, hquiet⟩
  match first with
  | none =>
    obtain ⟨h1, h2, t, h3, h4⟩ := base ply
    exact ⟨h1, h2, fun f hf => Option.noConfusion hf, t, h3, h4⟩
  | some f =>
    by_cases hmem : f ∈ ply
    · cases hidx : idxOf? f ply with
      | none =>
        have := idxOf?_isSome hmem
        rw [hidx] at this
        exact absurd this (by simp)
      | some i =>
        obtain ⟨hi, hgi⟩ := idxOf?_spec hidx
        have h0 : 0 < ply.length := by omega
        have hlen' : (lswap ply i 0).length = ply.length := length_lswap ply i 0
        obtain ⟨t, ht1, ht2, ht3, ht4, ht5, ht6⟩ :=
          partitionLoudAux_spec ((lswap ply i 0).length - 1) (lswap ply i 0) 1 1
            (by omega) (le_refl 1) (fun k h1 h2 => by omega)
        have hres : orderPly (some f) ply =
            partitionLoudAux ((lswap ply i 0).length - 1) (lswap ply i 0) 1 1 := by
          rw [orderPly, hidx]
          rfl
        have hreslen : (orderPly (some f) ply).length = ply.length := by
          rw [hres, ht2, hlen']
        have hfst : (orderPly (some f) ply).getD 0 0 = f := by
          rw [hres, ht3 0 (by omega), lswap_getD_fst h0, hgi]
        refine ⟨?_, hreslen, fun f' hf' _ => by
          cases hf'; exact hfst, t, ?_, ?_⟩
        · -- permutation with the original ply
          have h0r : 0 < (orderPly (some f) ply).length := by omega
          have h0s : 0 < (lswap ply i 0).length := by omega
          have hd1 : orderPly (some f) ply =
              f :: (orderPly (some f) ply).drop 1 := by
            have hh := @List.drop_eq_getElem_cons Nat 0 (orderPly (some f) ply) h0r
            rw [← getD_of_lt h0r, hfst] at hh
            simpa using hh
          have hd2 : lswap ply i 0 = f :: (lswap ply i 0).drop 1 := by
            have hh := @List.drop_eq_getElem_cons Nat 0 (lswap ply i 0) h0s
            rw [← getD_of_lt h0s, lswap_getD_fst h0, hgi] at hh
            simpa using hh
          have hp1 : List.Perm (orderPly (some f) ply) (lswap ply i 0) := by
            rw [hd1, hd2]
            refine List.Perm.cons f ?_
            rw [← hres] at ht6
            exact ht6
          exact hp1.trans (lswap_perm hi h0)
        · intro k hk1 hk2
          have hk1' : 1 ≤ k := by
            simpa [bestSlot, hmem] using hk1
          rw [hres]
          exact ht4 k hk1' hk2
        · intro k hk1 hk2
          rw [hres]
          exact ht5 k hk1 (by omega)
    · have hidx : idxOf? f ply = none := idxOf?_of_not_mem hmem
      have hres : orderPly (some f) ply = partitionLoud ply 0 0 := by
        rw [orderPly, hidx]
      obtain ⟨h1, h2, t, h3, h4⟩ := base ply
      rw [← hres] at h1 h2 h3 h4
      exact ⟨h1, h2, fun f' hf' hf'' => by cases hf'; exact absurd hf'' hmem,
        t, fun k hk1 hk2 => h3 k (by omega) hk2, h4⟩

/-- C5 — counterexample to the claim as stated.  The claim counts
castles among the non-quiet moves to be placed before every quiet
move, but the code's `Move::is_quiet` classifies castles (and double
pawn pushes) as quiet, so `order_ply` leaves a king-castle move after
a plain quiet move: on the ply `[quiet (b1→c1), king castle (e1→g1)]`
with no recorded best move, ordering returns the ply unchanged, the
castle move last. -/
theorem order_ply_counterexample :
    orderPly none
        [MoveBits.new 1 2 MoveBits.QUIET_MOVE,
          MoveBits.new 4 6 MoveBits.KING_CASTLE] =
      [MoveBits.new 1 2 MoveBits.QUIET_MOVE,
        MoveBits.new 4 6 MoveBits.KING_CASTLE] ∧
    MoveBits.is_castle (MoveBits.new 4 6 MoveBits.KING_CASTLE) = true ∧
    MoveBits.is_capture (MoveBits.new 1 2 MoveBits.QUIET_MOVE) = false ∧
    MoveBits.is_castle (MoveBits.new 1 2 MoveBits.QUIET_MOVE) = false ∧
    MoveBits.is_promotion (MoveBits.new 1 2 MoveBits.QUIET_MOVE) = false := by
  decide

/-- C5 — witness: the amended ordering theorem applied to a concrete
ply, placing the recorded best move (a capture on square 16) first. -/
theorem order_ply_correct_witness :
    (orderPly (some (MoveBits.new 8 16 MoveBits.CAPTURE))
        [MoveBits.new 1 2 MoveBits.QUIET_MOVE,
          MoveBits.new 8 16 MoveBits.CAPTURE]).getD 0 0 =
      MoveBits.new 8 16 MoveBits.CAPTURE :=
  (order_ply_correct (some (MoveBits.new 8 16 MoveBits.CAPTURE))
      [MoveBits.new 1 2 MoveBits.QUIET_MOVE,
        MoveBits.new 8 16 MoveBits.CAPTURE]).2.2.1
    (MoveBits.new 8 16 MoveBits.CAPTURE) rfl (by decide)

/-- C4.  The transposition table is direct-mapped with an
always-replace policy: `store` overwrites exactly the slot
`hash % TABLE_SIZE`; `get` returns the slot's entry precisely when the
stored full hash matches, so a stored entry is found again, and a
later store of an aliasing hash at the same index turns the lookup
into a miss. -/
theorem tt_store_get (t : TT.TranspositionTable) (e e2 : TT.TtEntry)
    (h : Nat) :
    TT.store t e (e.hash % TT.TABLE_SIZE) = some e ∧
    (∀ i, i ≠ e.hash % TT.TABLE_SIZE → TT.store t e i = t i) ∧
    (∀ e', t (h % TT.TABLE_SIZE) = some e' →
      TT.get t h = if e'.hash = h then some e' else none) ∧
    (t (h % TT.TABLE_SIZE) = none → TT.get t h = none) ∧
    TT.get (TT.store t e) e.hash = some e ∧
    (e2.hash % TT.TABLE_SIZE = e.hash % TT.TABLE_SIZE → e2.hash ≠ e.hash →
      TT.get (TT.store (TT.store t e) e2) e.hash = none) := by
  refine ⟨?_, ?_, ?_, ?_, ?_, ?_⟩
  · rw [TT.store]
    simp
  · intro i hi
    rw [TT.store, if_neg hi]
  · intro e' he'
    rw [TT.get, he']
  · intro he
    rw [TT.get, he]
  · rw [TT.get, TT.store, if_pos rfl]
    simp
  · intro hidx hne
    rw [TT.get, TT.store, hidx, if_pos rfl]
    simp [hne]

/-- C4 — witness: storing hash 5, then an aliasing entry whose hash
`5 + 2^20` maps to the same slot, makes the original lookup miss,
while before the second store the lookup succeeded. -/
theorem tt_store_get_witness :
    TT.get (TT.store TT.new
        ⟨5, 3, 7, Move.new 0 1 MoveCode.quietMove⟩) 5 =
      some ⟨5, 3, 7, Move.new 0 1 MoveCode.quietMove⟩ ∧
    TT.get (TT.store (TT.store TT.new
          ⟨5, 3, 7, Move.new 0 1 MoveCode.quietMove⟩)
        ⟨5 + TT.TABLE_SIZE, 2, 9, Move.new 2 3 MoveCode.capture⟩) 5 =
      none := by
  constructor
  · exact (tt_store_get TT.new ⟨5, 3, 7, Move.new 0 1 MoveCode.quietMove⟩
      ⟨5 + TT.TABLE_SIZE, 2, 9, Move.new 2 3 MoveCode.capture⟩ 5).2.2.2.2.1
  · exact (tt_store_get TT.new ⟨5, 3, 7, Move.new 0 1 MoveCode.quietMove⟩
      ⟨5 + TT.TABLE_SIZE, 2, 9, Move.new 2 3 MoveCode.capture⟩ 5).2.2.2.2.2
      (by decide) (by decide)

/-! ## Iterative deepening (`search.rs`, `SearchContext::iterative_deepen`)

The wall clock is modelled as an input: `dur n` is the elapsed time the
n-th completed fixed-depth search was measured to take, and `search n`
is the `(score, pv)` pair `self.search` returns for that iteration
(the iteration index determines `self.max_depth` and the previous
principal variation, so the whole loop is a deterministic function of
these two streams).  The loop body mirrors the source: run a full
search, measure only that search's elapsed time into `time_taken`,
bump the depth, and re-check `time_taken < max_time`.  The fuel bounds
the number of loop iterations we inspect; `none` means the loop has
not yet terminated within `fuel` iterations. -/

/-- The `while time_taken < max_time` loop of `iterative_deepen`. -/
def iterativeDeepenAux (search : Nat → Int × List Nat) (dur : Nat → Nat)
    (maxTime fuel n timeTaken : Nat) (acc : Int × List Nat) :
    Option (Int × List Nat) :=
  match fuel with
  | 0 => if timeTaken < maxTime then none else some acc
  | f + 1 =>
    if timeTaken < maxTime then
      iterativeDeepenAux search dur maxTime f (n + 1) (dur n) (search n)
    else some acc

/-- `SearchContext::iterative_deepen`: `time_taken` starts at zero and
the result accumulator at `(0, vec![])`. -/
def iterativeDeepen (search : Nat → Int × List Nat) (dur : Nat → Nat)
    (maxTime fuel : Nat) : Option (Int × List Nat) :=
  iterativeDeepenAux search dur maxTime fuel 0 0 (0, [])

/-- Modelled from the spec: the claimed loop, which accumulates the
elapsed times of completed depths and stops once the cumulative time
exceeds the budget ("repeat until the cumulative elapsed time across
completed depths exceeds a caller-supplied budget"). -/
def iterativeDeepenCumulative (search : Nat → Int × List Nat)
    (dur : Nat → Nat) (maxTime fuel n timeTaken : Nat)
    (acc : Int × List Nat) : Option (Int × List Nat) :=
  match fuel with
  | 0 => if timeTaken < maxTime then none else some acc
  | f + 1 =>
    if timeTaken < maxTime then
      iterativeDeepenCumulative search dur maxTime f (n + 1)
        (timeTaken + dur n) (search n)
    else some acc

theorem iterativeDeepenAux_sound
    (search : Nat → Int × List Nat) (dur : Nat → Nat) (maxTime : Nat) :
    ∀ (fuel n timeTaken : Nat) (acc r : Int × List Nat),
      iterativeDeepenAux search dur maxTime fuel n timeTaken acc = some r →
      (¬ timeTaken < maxTime ∧ r = acc) ∨
        (timeTaken < maxTime ∧ ∃ k, n ≤ k ∧ r = search k ∧ maxTime ≤ dur k ∧
          ∀ m, n ≤ m → m < k → dur m < maxTime) := by
  intro fuel
  induction fuel with
  | zero =>
    intro n t acc r h
    rw [iterativeDeepenAux] at h
    by_cases ht : t < maxTime
    · rw [if_pos ht] at h; exact Option.noConfusion h
    · rw [if_neg ht] at h
      cases h
      exact Or.inl ⟨ht, rfl⟩
  | succ f ih =>
    intro n t acc r h
    rw [iterativeDeepenAux] at h
    by_cases ht : t < maxTime
    · rw [if_pos ht] at h
      refine Or.inr ⟨ht, ?_⟩
      rcases ih (n + 1) (dur n) (search n) r h with ⟨hd, rfl⟩ | ⟨hd, k, hk1, hk2, hk3, hk4⟩
      · exact ⟨n, le_refl n, rfl, by omega, fun m h1 h2 => by omega⟩
      · refine ⟨k, by omega, hk2, hk3, ?_⟩
        intro m h1 h2
        rcases eq_or_ne m n with rfl | hm
        · exact hd
        · exact hk4 m (by omega) h2
    · rw [if_neg ht] at h
      cases h
      exact Or.inl ⟨ht, rfl⟩

theorem iterativeDeepenAux_complete
    (search : Nat → Int × List Nat) (dur : Nat → Nat) (maxTime : Nat) :
    ∀ (fuel n timeTaken : Nat) (acc : Int × List Nat) (k : Nat),
      timeTaken < maxTime → n ≤ k → maxTime ≤ dur k →
      (∀ m, n ≤ m → m < k → dur m < maxTime) → k - n < fuel →
      iterativeDeepenAux search dur maxTime fuel n timeTaken acc =
        some (search k) := by
  intro fuel
  induction fuel with
  | zero => intro n t acc k h1 h2 h3 h4 h5; omega
  | succ f ih =>
    intro n t acc k h1 h2 h3 h4 h5
    rw [iterativeDeepenAux, if_pos h1]
    rcases eq_or_ne k n with rfl | hk
    · cases f with
      | zero => rw [iterativeDeepenAux, if_neg (by omega)]
      | succ g => rw [iterativeDeepenAux, if_neg (by omega)]
    · refine ih (n + 1) (dur n) (search n) k ?_ (by omega) h3
        (fun m hm1 hm2 => h4 m (by omega) hm2) (by omega)
      exact h4 n (le_refl n) (by omega)

/-- C6 (amended).  `iterative_deepen` runs complete fixed-depth
searches and always returns the full result of the last completed
search (no mid-depth cancellation); it keeps iterating while the most
recently completed depth's own measured elapsed time is below the
caller's budget, i.e. it stops at the first depth whose own duration
meets or exceeds the budget — not when the cumulative time does.
With a zero budget no search runs at all and `(0, [])` is returned. -/
theorem iterative_deepen_correct (search : Nat → Int × List Nat)
    (dur : Nat → Nat) (maxTime fuel : Nat) :
    (maxTime = 0 → iterativeDeepen search dur maxTime fuel = some (0, [])) ∧
    (∀ r, 0 < maxTime → iterativeDeepen search dur maxTime fuel = some r →
      ∃ k, r = search k ∧ maxTime ≤ dur k ∧ ∀ m, m < k → dur m < maxTime) ∧
    (∀ k, 0 < maxTime → maxTime ≤ dur k → (∀ m, m < k → dur m < maxTime) →
      k < fuel →
      iterativeDeepen search dur maxTime fuel = some (search k)) := by
  refine ⟨?_, ?_, ?_⟩
  · intro h0
    subst h0
    cases fuel with
    | zero => rw [iterativeDeepen, iterativeDeepenAux, if_neg (by omega)]
    | succ f => rw [iterativeDeepen, iterativeDeepenAux, if_neg (by omega)]
  · intro r hM h
    rcases iterativeDeepenAux_sound search dur maxTime fuel 0 0 (0, []) r h with
      ⟨hd, _⟩ | ⟨_, k, _, hk2, hk3, hk4⟩
    · omega
    · exact ⟨k, hk2, hk3, fun m hm => hk4 m (by omega) hm⟩
  · intro k hM hk1 hk2 hk3
    exact iterativeDeepenAux_complete search dur maxTime fuel 0 0 (0, []) k
      hM (by omega) hk1 (fun m _ hm => hk2 m hm) (by omega)

/-- C6 — counterexample to the claim as stated: with a budget of 5 and
per-depth durations 3, 3, 7, …, the cumulative time (6) exceeds the
budget after the second depth, so the claimed loop stops there and
returns depth 1's result; the code compares only the last depth's own
duration, keeps going, and returns depth 2's result. -/
theorem iterative_deepen_counterexample :
    iterativeDeepen (fun n => ((n : Int), [n]))
        (fun n => if n < 2 then 3 else 7) 5 10 = some (2, [2]) ∧
    iterativeDeepenCumulative (fun n => ((n : Int), [n]))
        (fun n => if n < 2 then 3 else 7) 5 10 0 0 (0, []) =
      some (1, [1]) := by
  constructor
  · rfl
  · rfl

/-- C6 — witness: the amended theorem applied to the same duration
stream, exhibiting the first depth whose own duration reaches the
budget (depth 2) as the returned result. -/
theorem iterative_deepen_correct_witness :
    iterativeDeepen (fun n => ((n : Int), [n]))
        (fun n => if n < 2 then 3 else 7) 5 10 = some (2, [2]) :=
  (iterative_deepen_correct (fun n => ((n : Int), [n]))
      (fun n => if n < 2 then 3 else 7) 5 10).2.2 2 (by decide) (by decide)
    (fun m hm => by interval_cases m <;> decide) (by decide)

/-! ## Colors and state flags (`color.rs`, `flags.rs`)

Flags are a packed byte: bit 0 the active color (0 = white), bits 4–7
the four castling rights. -/

inductive Color where
  | white | black
deriving DecidableEq, Repr

namespace StateFlags

def ACTIVE_COLOR : Nat := 0x01
def WHITE_KING_CASTLE : Nat := 0x10
def WHITE_QUEEN_CASTLE : Nat := 0x20
def BLACK_KING_CASTLE : Nat := 0x40
def BLACK_QUEEN_CASTLE : Nat := 0x80

/-- `StateFlags::is_white_to_play`. -/
def is_white_to_play (f : Nat) : Bool := f &&& ACTIVE_COLOR = 0

/-- `StateFlags::active_color` (newer generation's typed accessor). -/
def active_color (f : Nat) : Color :=
  if is_white_to_play f then Color.white else Color.black

def white_king_castle_right (f : Nat) : Bool := f &&& WHITE_KING_CASTLE ≠ 0
def white_queen_castle_right (f : Nat) : Bool := f &&& WHITE_QUEEN_CASTLE ≠ 0
def black_king_castle_right (f : Nat) : Bool := f &&& BLACK_KING_CASTLE ≠ 0
def black_queen_castle_right (f : Nat) : Bool := f &&& BLACK_QUEEN_CASTLE ≠ 0

def toggle_active_color (f : Nat) : Nat := f ^^^ ACTIVE_COLOR
def toggle_white_king_castle (f : Nat) : Nat := f ^^^ WHITE_KING_CASTLE
def toggle_white_queen_castle (f : Nat) : Nat := f ^^^ WHITE_QUEEN_CASTLE
def toggle_black_king_castle (f : Nat) : Nat := f ^^^ BLACK_KING_CASTLE
def toggle_black_queen_castle (f : Nat) : Nat := f ^^^ BLACK_QUEEN_CASTLE

end StateFlags

/-! ## Boards and game state (`chess_board.rs`, `game_state.rs`) -/

/-- `ChessBoardSide`: one bitboard per piece type for one color. -/
structure ChessBoardSide where
  pawn : Nat
  knight : Nat
  bishop : Nat
  rook : Nat
  queen : Nat
  king : Nat
deriving DecidableEq, Repr

namespace ChessBoardSide

/-- `ChessBoardSide::union`. -/
def union (s : ChessBoardSide) : Nat :=
  s.pawn ||| s.knight ||| s.bishop ||| s.rook ||| s.queen ||| s.king

/-- Board of one piece type (field projection used by `as_array`). -/
def get (s : ChessBoardSide) : PieceType → Nat
  | PieceType.pawn => s.pawn
  | PieceType.knight => s.knight
  | PieceType.bishop => s.bishop
  | PieceType.rook => s.rook
  | PieceType.queen => s.queen
  | PieceType.king => s.king

/-- Replace the board of one piece type (the mutable-reference writes
through `as_array_mut`). -/
def set (s : ChessBoardSide) : PieceType → Nat → ChessBoardSide
  | PieceType.pawn, b => { s with pawn := b }
  | PieceType.knight, b => { s with knight := b }
  | PieceType.bishop, b => { s with bishop := b }
  | PieceType.rook, b => { s with rook := b }
  | PieceType.queen, b => { s with queen := b }
  | PieceType.king, b => { s with king := b }

end ChessBoardSide

/-- The iteration order of `ChessBoardSide::as_array`. -/
def pieceOrder : List PieceType :=
  [PieceType.pawn, PieceType.knight, PieceType.bishop,
    PieceType.rook, PieceType.queen, PieceType.king]

/-- `ChessBoard`: both sides. -/
structure ChessBoard where
  white : ChessBoardSide
  black : ChessBoardSide
deriving DecidableEq, Repr

/-- `GameState`: boards, en-passant target bitboard, packed flags,
halfmove clock. -/
structure GameState where
  boards : ChessBoard
  en_passant : Nat
  flags : Nat
  halfmove : Nat
deriving DecidableEq, Repr

namespace GameState

/-- `GameState::split_boards`: (friendly, enemy) by active color. -/
def split_boards (s : GameState) : ChessBoardSide × ChessBoardSide :=
  if StateFlags.active_color s.flags = Color.white then
    (s.boards.white, s.boards.black)
  else
    (s.boards.black, s.boards.white)

end GameState

/-! ## Zobrist numbers (`zobrist_numbers.rs`) -/

/-- `ZobristSide`: one 64-entry table per piece type, modelled as
functions from square index. -/
structure ZobristSide where
  pawn : Nat → Nat
  knight : Nat → Nat
  bishop : Nat → Nat
  rook : Nat → Nat
  queen : Nat → Nat
  king : Nat → Nat

/-- Table of one piece type (`ZobristSide::as_array` order). -/
def ZobristSide.get (z : ZobristSide) : PieceType → Nat → Nat
  | PieceType.pawn => z.pawn
  | PieceType.knight => z.knight
  | PieceType.bishop => z.bishop
  | PieceType.rook => z.rook
  | PieceType.queen => z.queen
  | PieceType.king => z.king

structure ZobristBoard where
  white : ZobristSide
  black : ZobristSide

structure ZobristCastling where
  white_king_side : Nat
  white_queen_side : Nat
  black_king_side : Nat
  black_queen_side : Nat

structure ZobristNumbers where
  board : ZobristBoard
  active_color : Nat
  castling : ZobristCastling
  en_passant_file : Nat → Nat

/-- `ZobristNumbers::new`, parameterised by the pseudo-random stream it
consumes.  The source draws, for each square index `i` in 0..64, the
twelve numbers white pawn/knight/bishop/rook/queen/king then black
pawn/…/king, then the side-to-move number, the four castling numbers
(white king side, white queen side, black king side, black queen side)
and the eight en-passant file numbers, in that order. -/
def ZobristNumbers.new (stream : Nat → Nat) : ZobristNumbers where
  board :=
    { white :=
        { pawn := fun i => stream (12 * i)
          knight := fun i => stream (12 * i + 1)
          bishop := fun i => stream (12 * i + 2)
          rook := fun i => stream (12 * i + 3)
          queen := fun i => stream (12 * i + 4)
          king := fun i => stream (12 * i + 5) }
      black :=
        { pawn := fun i => stream (12 * i + 6)
          knight := fun i => stream (12 * i + 7)
          bishop := fun i => stream (12 * i + 8)
          rook := fun i => stream (12 * i + 9)
          queen := fun i => stream (12 * i + 10)
          king := fun i => stream (12 * i + 11) } }
  active_color := stream 768
  castling :=
    { white_king_side := stream 769
      white_queen_side := stream 770
      black_king_side := stream 771
      black_queen_side := stream 772 }
  en_passant_file := fun f => stream (773 + f)

/-- `SEED`: the fixed compile-time seed `0xdeadbeef`. -/
def SEED : Nat := 0xdeadbeef

/-- Modelled from the spec: the `rand_chacha` `ChaCha20Rng` output
stream seeded via `seed_from_u64(SEED)`.  The crate is an external
dependency whose algorithm the spec does not give; all that matters
for the claims is that the stream is a fixed, pure function of the
compile-time seed (no per-process entropy input exists), so it is
modelled as an explicit deterministic mixing function of the seed and
the draw index, truncated to 64 bits like the `u64` draws. -/
def chacha20Stream (seed : Nat) : Nat → Nat := fun i =>
  ((seed + 1) * (i + 1) * 6364136223846793005 + 1442695040888963407) % 2 ^ 64

/-- The process-wide Zobrist constants: `ZobristNumbers::new()` as
called by `MakeUnmaker::new`, drawing from the seeded stream. -/
def zobristNumbers : ZobristNumbers := ZobristNumbers.new (chacha20Stream SEED)

/-! ## The from-scratch hash (`GameState::hash`) -/

/-- `GameState::hash`: XOR the per-square numbers of every piece on
every board (white pawn through black king in `board_hash_pairs`
order), the side-to-move number when black is to move, the castling
numbers for the rights still held, and the en-passant file number when
an en-passant target is set. -/
def GameState.hash (s : GameState) (zn : ZobristNumbers) : Nat :=
  let h := hashBoard s.boards.white.pawn zn.board.white.pawn
  let h := h ^^^ hashBoard s.boards.white.knight zn.board.white.knight
  let h := h ^^^ hashBoard s.boards.white.bishop zn.board.white.bishop
  let h := h ^^^ hashBoard s.boards.white.rook zn.board.white.rook
  let h := h ^^^ hashBoard s.boards.white.queen zn.board.white.queen
  let h := h ^^^ hashBoard s.boards.white.king zn.board.white.king
  let h := h ^^^ hashBoard s.boards.black.pawn zn.board.black.pawn
  let h := h ^^^ hashBoard s.boards.black.knight zn.board.black.knight
  let h := h ^^^ hashBoard s.boards.black.bishop zn.board.black.bishop
  let h := h ^^^ hashBoard s.boards.black.rook zn.board.black.rook
  let h := h ^^^ hashBoard s.boards.black.queen zn.board.black.queen
  let h := h ^^^ hashBoard s.boards.black.king zn.board.black.king
  let h := if StateFlags.is_white_to_play s.flags then h
    else h ^^^ zn.active_color
  let h := if StateFlags.white_king_castle_right s.flags then
    h ^^^ zn.castling.white_king_side else h
  let h := if StateFlags.white_queen_castle_right s.flags then
    h ^^^ zn.castling.white_queen_side else h
  let h := if StateFlags.black_king_castle_right s.flags then
    h ^^^ zn.castling.black_king_side else h
  let h := if StateFlags.black_queen_castle_right s.flags then
    h ^^^ zn.castling.black_queen_side else h
  match getFirstSquare s.en_passant with
  | some lsb => h ^^^ zn.en_passant_file (lsb % 8)
  | none => h

/-! ## Attack maps (`move_maps.rs`)

Built once by offset validation (leapers) and ray casting (sliders). -/

/-- `FILE`: the a-file mask `0x0101_0101_0101_0101`. -/
def FILE_BB : Nat := 0x0101010101010101

/-- `BitBoard::file(n)`. -/
def fileBB (n : Nat) : Nat := FILE_BB <<< n

/-- `BitBoard::rank(n)`. -/
def rankBB (n : Nat) : Nat := 0xFF <<< (8 * n)

/-- `MoveMaps::generate_from_offsets`: each (offset, illegal-file) pair
contributes the target `square + offset` when it is on the board and
the source square is not on the wraparound mask. -/
def generateFromOffsets (pairs : List (Int × Nat)) (sq : Nat) : Nat :=
  pairs.foldl
    (fun acc p =>
      let tgt : Int := (sq : Int) + p.1
      if 0 ≤ tgt ∧ tgt < 64 ∧ ¬ (p.2.testBit sq = true) then
        acc ||| (1 <<< tgt.toNat)
      else acc)
    0

/-- The ray-casting loop of `MoveMaps::generate_from_direction`: step
from the square in the given direction until the stop mask is hit,
accumulating every square stepped onto (fuel 8 covers the board). -/
def rayAux : Nat → Int → Nat → Nat → Nat → Nat
  | 0, _, _, _, acc => acc
  | f + 1, dir, stop, curr, acc =>
    if (1 <<< curr) &&& stop ≠ 0 then acc
    else
      let c : Nat := ((curr : Int) + dir).toNat
      rayAux f dir stop c (acc ||| (1 <<< c))

/-- `MoveMaps::generate_from_direction`. -/
def rayFrom (dir : Int) (stop : Nat) (sq : Nat) : Nat :=
  rayAux 8 dir stop sq 0

/-- `MoveMaps`: the sixteen per-square move/attack tables. -/
structure MoveMaps where
  knight : Nat → Nat
  king : Nat → Nat
  ne_diagonal : Nat → Nat
  nw_diagonal : Nat → Nat
  sw_diagonal : Nat → Nat
  se_diagonal : Nat → Nat
  e_rank : Nat → Nat
  w_rank : Nat → Nat
  n_file : Nat → Nat
  s_file : Nat → Nat
  white_pawn_passive : Nat → Nat
  black_pawn_passive : Nat → Nat
  white_pawn_double : Nat → Nat
  black_pawn_double : Nat → Nat
  white_pawn_attack : Nat → Nat
  black_pawn_attack : Nat → Nat

/-- `MoveMaps::new`. -/
def MoveMaps.new : MoveMaps where
  knight := generateFromOffsets
    [(-17, fileBB 0), (-15, fileBB 7), (-10, fileBB 0 ||| fileBB 1),
      (-6, fileBB 6 ||| fileBB 7), (6, fileBB 0 ||| fileBB 1),
      (10, fileBB 6 ||| fileBB 7), (15, fileBB 0), (17, fileBB 7)]
  king := generateFromOffsets
    [(-9, fileBB 0), (-8, 0), (-7, fileBB 7), (-1, fileBB 0),
      (1, fileBB 7), (7, fileBB 0), (8, 0), (9, fileBB 7)]
  ne_diagonal := rayFrom 9 (fileBB 7 ||| rankBB 7)
  nw_diagonal := rayFrom 7 (fileBB 0 ||| rankBB 7)
  sw_diagonal := rayFrom (-9) (fileBB 0 ||| rankBB 0)
  se_diagonal := rayFrom (-7) (fileBB 7 ||| rankBB 0)
  e_rank := rayFrom 1 (fileBB 7)
  w_rank := rayFrom (-1) (fileBB 0)
  n_file := rayFrom 8 (rankBB 7)
  s_file := rayFrom (-8) (rankBB 0)
  white_pawn_passive := generateFromOffsets [(8, rankBB 7)]
  black_pawn_passive := generateFromOffsets [(-8, rankBB 0)]
  white_pawn_double := generateFromOffsets [(16, not64 (rankBB 1))]
  black_pawn_double := generateFromOffsets [(-16, not64 (rankBB 6))]
  white_pawn_attack := generateFromOffsets [(7, fileBB 0), (9, fileBB 7)]
  black_pawn_attack := generateFromOffsets [(-7, fileBB 7), (-9, fileBB 0)]

/-! ## The move generator (`move_generator.rs`, newer generation)

Moves are collected into lists in the exact emission order of the
source's `add_move` calls.  The `.unwrap()` on the king lookup is
modelled with `Option`: `none` is a panic. -/

/-- Wrapping 64-bit left shift (`u64` `<<`). -/
def shl64 (x n : Nat) : Nat := (x <<< n) % 2 ^ 64

/-- The squares of a bitboard in decreasing order, as produced by the
`pop_last_square` loops. -/
def bitsDesc (b : Nat) : List Nat := (bits b).reverse

structure MoveGeneratorContext where
  state : GameState
  move_maps : MoveMaps
  friendly_pieces : ChessBoardSide
  enemy_pieces : ChessBoardSide
  friendly_occupation : Nat
  enemy_occupation : Nat

/-- `MoveGeneratorContext::new`. -/
def MoveGeneratorContext.new (state : GameState) (maps : MoveMaps) :
    MoveGeneratorContext :=
  let fe := state.split_boards
  { state := state
    move_maps := maps
    friendly_pieces := fe.1
    enemy_pieces := fe.2
    friendly_occupation := fe.1.union
    enemy_occupation := fe.2.union }

/-- `capture_in_increasing_direction`. -/
def capture_in_increasing_direction (direction targets blocking : Nat) :
    Bool :=
  match getFirstSquare (direction &&& blocking),
      getFirstSquare (direction &&& targets) with
  | none, some _ => true
  | some f, some t => t < f
  | _, _ => false

/-- `capture_in_decreasing_direction`. -/
def capture_in_decreasing_direction (direction targets blocking : Nat) :
    Bool :=
  match getLastSquare (direction &&& blocking),
      getLastSquare (direction &&& targets) with
  | none, some _ => true
  | some f, some t => f < t
  | _, _ => false

namespace MoveGeneratorContext

/-- `get_pseudo_legal_knight_moves`: captures then quiet moves per
knight, knights scanned in pop-lsb order. -/
def get_pseudo_legal_knight_moves (ctx : MoveGeneratorContext) :
    List Move :=
  (bits ctx.friendly_pieces.knight).flatMap fun fr =>
    let to_board := ctx.move_maps.knight fr &&& not64 ctx.friendly_occupation
    ((bits (to_board &&& ctx.enemy_occupation)).map fun t =>
      Move.new fr t MoveCode.capture) ++
    ((bits (to_board &&& not64 ctx.enemy_occupation)).map fun t =>
      Move.new fr t MoveCode.quietMove)

/-- `get_pseudo_legal_moves_in_increasing_direction`: one capture on
the nearest blocker when it is an enemy, then quiet moves walking the
ray in increasing order until the blocking square. -/
def get_pseudo_legal_moves_in_increasing_direction
    (ctx : MoveGeneratorContext) (direction fr : Nat) : List Move :=
  let friendly_sb := getFirstSquare (ctx.friendly_occupation &&& direction)
  let enemy_sb := getFirstSquare (ctx.enemy_occupation &&& direction)
  let bc : Option Nat × Option Nat :=
    match friendly_sb, enemy_sb with
    | none, none => (none, none)
    | none, some e => (some e, some e)
    | some f, none => (some f, none)
    | some f, some e => if e < f then (some e, some e) else (some f, none)
  let caps : List Move :=
    match bc.2 with
    | some c => [Move.new fr c MoveCode.capture]
    | none => []
  caps ++
    ((bits direction).takeWhile fun t =>
        match bc.1 with
        | none => true
        | some b => t < b).map
      (fun t => Move.new fr t MoveCode.quietMove)

/-- `get_pseudo_legal_moves_in_decreasing_direction`. -/
def get_pseudo_legal_moves_in_decreasing_direction
    (ctx : MoveGeneratorContext) (direction fr : Nat) : List Move :=
  let friendly_sb := getLastSquare (ctx.friendly_occupation &&& direction)
  let enemy_sb := getLastSquare (ctx.enemy_occupation &&& direction)
  let bc : Option Nat × Option Nat :=
    match friendly_sb, enemy_sb with
    | none, none => (none, none)
    | none, some e => (some e, some e)
    | some f, none => (some f, none)
    | some f, some e => if f < e then (some e, some e) else (some f, none)
  let caps : List Move :=
    match bc.2 with
    | some c => [Move.new fr c MoveCode.capture]
    | none => []
  caps ++
    ((bitsDesc direction).takeWhile fun t =>
        match bc.1 with
        | none => true
        | some b => b < t).map
      (fun t => Move.new fr t MoveCode.quietMove)

/-- `get_pseudo_legal_diagonal_moves`. -/
def get_pseudo_legal_diagonal_moves (ctx : MoveGeneratorContext)
    (pieces : Nat) : List Move :=
  (bits pieces).flatMap fun fr =>
    ctx.get_pseudo_legal_moves_in_increasing_direction
        (ctx.move_maps.ne_diagonal fr) fr ++
    ctx.get_pseudo_legal_moves_in_increasing_direction
        (ctx.move_maps.nw_diagonal fr) fr ++
    ctx.get_pseudo_legal_moves_in_decreasing_direction
        (ctx.move_maps.se_diagonal fr) fr ++
    ctx.get_pseudo_legal_moves_in_decreasing_direction
        (ctx.move_maps.sw_diagonal fr) fr

/-- `get_pseudo_legal_rank_file_moves`. -/
def get_pseudo_legal_rank_file_moves (ctx : MoveGeneratorContext)
    (pieces : Nat) : List Move :=
  (bits pieces).flatMap fun fr =>
    ctx.get_pseudo_legal_moves_in_increasing_direction
        (ctx.move_maps.n_file fr) fr ++
    ctx.get_pseudo_legal_moves_in_decreasing_direction
        (ctx.move_maps.s_file fr) fr ++
    ctx.get_pseudo_legal_moves_in_increasing_direction
        (ctx.move_maps.e_rank fr) fr ++
    ctx.get_pseudo_legal_moves_in_decreasing_direction
        (ctx.move_maps.w_rank fr) fr

/-- `get_pseudo_legal_pawn_moves`. -/
def get_pseudo_legal_pawn_moves (ctx : MoveGeneratorContext) :
    List Move :=
  let white := StateFlags.active_color ctx.state.flags = Color.white
  let unoccupied :=
    not64 (ctx.friendly_occupation ||| ctx.enemy_occupation)
  let passive_map := if white then ctx.move_maps.white_pawn_passive
    else ctx.move_maps.black_pawn_passive
  let double_map := if white then ctx.move_maps.white_pawn_double
    else ctx.move_maps.black_pawn_double
  let attack_map := if white then ctx.move_maps.white_pawn_attack
    else ctx.move_maps.black_pawn_attack
  (bits ctx.friendly_pieces.pawn).flatMap fun fr =>
    let will_promote :=
      (white ∧ 48 ≤ fr) ∨ (¬ white ∧ fr < 16)
    let passive_board := passive_map fr &&& unoccupied
    let double_board0 := double_map fr &&& unoccupied
    let double_board :=
      if double_board0 ≠ 0 then
        double_board0 &&&
          (if white then shl64 passive_board 8 else passive_board >>> 8)
      else double_board0
    let attack_board :=
      attack_map fr &&& (ctx.enemy_occupation ||| ctx.state.en_passant)
    ((bits passive_board).flatMap fun t =>
      if will_promote then
        [Move.new fr t MoveCode.queenPromotion,
          Move.new fr t MoveCode.rookPromotion,
          Move.new fr t MoveCode.bishopPromotion,
          Move.new fr t MoveCode.knightPromotion]
      else [Move.new fr t MoveCode.quietMove]) ++
    ((bits double_board).map fun t =>
      Move.new fr t MoveCode.doublePawnPush) ++
    ((bits attack_board).flatMap fun t =>
      if will_promote then
        [Move.new fr t MoveCode.queenPromotionCapture,
          Move.new fr t MoveCode.rookPromotionCapture,
          Move.new fr t MoveCode.bishopPromotionCapture,
          Move.new fr t MoveCode.knightPromotionCapture]
      else if getFirstSquare ctx.state.en_passant = some t then
        [Move.new fr t MoveCode.enPassant]
      else [Move.new fr t MoveCode.capture])

/-- `get_pseudo_legal_king_moves`: the king square lookup is an
`unwrap` — `none` models the panic on an empty king board. -/
def get_pseudo_legal_king_moves (ctx : MoveGeneratorContext) :
    Option (List Move) :=
  match getFirstSquare ctx.friendly_pieces.king with
  | none => none
  | some king =>
    let to_board := ctx.move_maps.king king &&& not64 ctx.friendly_occupation
    some
      (((bits (to_board &&& ctx.enemy_occupation)).map fun t =>
          Move.new king t MoveCode.capture) ++
        ((bits (to_board &&& not64 ctx.enemy_occupation)).map fun t =>
          Move.new king t MoveCode.quietMove))

/-- `is_square_attacked`: the super-piece test. -/
def is_square_attacked (ctx : MoveGeneratorContext) (square : Nat)
    (by_color : Color) : Bool :=
  let ad : ChessBoardSide × ChessBoardSide :=
    if by_color = Color.black then
      (ctx.state.boards.black, ctx.state.boards.white)
    else
      (ctx.state.boards.white, ctx.state.boards.black)
  let attacking_pieces := ad.1
  let defending_pieces := ad.2
  let defending_occupation := defending_pieces.union
  let blocking_bishop_queen_rook := defending_occupation |||
    attacking_pieces.pawn ||| attacking_pieces.knight |||
    attacking_pieces.king
  let blocking_bishop_queen := blocking_bishop_queen_rook |||
    attacking_pieces.rook
  let blocking_rook_queen := blocking_bishop_queen_rook |||
    attacking_pieces.bishop
  let attacking_bishops_and_queens :=
    attacking_pieces.bishop ||| attacking_pieces.queen
  if capture_in_increasing_direction (ctx.move_maps.ne_diagonal square)
      attacking_bishops_and_queens blocking_bishop_queen ||
    capture_in_increasing_direction (ctx.move_maps.nw_diagonal square)
      attacking_bishops_and_queens blocking_bishop_queen ||
    capture_in_decreasing_direction (ctx.move_maps.se_diagonal square)
      attacking_bishops_and_queens blocking_bishop_queen ||
    capture_in_decreasing_direction (ctx.move_maps.sw_diagonal square)
      attacking_bishops_and_queens blocking_bishop_queen then
    true
  else
    let enemy_rooks_and_queens :=
      attacking_pieces.rook ||| attacking_pieces.queen
    if capture_in_increasing_direction (ctx.move_maps.n_file square)
        enemy_rooks_and_queens blocking_rook_queen ||
      capture_in_decreasing_direction (ctx.move_maps.s_file square)
        enemy_rooks_and_queens blocking_rook_queen ||
      capture_in_increasing_direction (ctx.move_maps.e_rank square)
        enemy_rooks_and_queens blocking_rook_queen ||
      capture_in_decreasing_direction (ctx.move_maps.w_rank square)
        enemy_rooks_and_queens blocking_rook_queen then
      true
    else
      let attack_map := if by_color = Color.white then
        ctx.move_maps.black_pawn_attack
      else ctx.move_maps.white_pawn_attack
      if attack_map square &&& attacking_pieces.pawn ≠ 0 then true
      else if ctx.move_maps.knight square &&& attacking_pieces.knight ≠ 0 then
        true
      else if ctx.move_maps.king square &&& attacking_pieces.king ≠ 0 then
        true
      else false

/-- `get_pseudo_legal_castles`: the four right-specific blocks, in
source order. -/
def get_pseudo_legal_castles (ctx : MoveGeneratorContext) : List Move :=
  let white := StateFlags.active_color ctx.state.flags = Color.white
  let all_pieces := ctx.friendly_occupation ||| ctx.enemy_occupation
  (if white ∧ StateFlags.white_king_castle_right ctx.state.flags ∧
      ((1 <<< 5) &&& all_pieces = 0 ∧ (1 <<< 6) &&& all_pieces = 0) ∧
      (¬ ctx.is_square_attacked 4 Color.black = true ∧
        ¬ ctx.is_square_attacked 5 Color.black = true) then
    [Move.new 4 6 MoveCode.kingCastle]
  else []) ++
  (if white ∧ StateFlags.white_queen_castle_right ctx.state.flags ∧
      ((1 <<< 1) &&& all_pieces = 0 ∧ (1 <<< 2) &&& all_pieces = 0 ∧
        (1 <<< 3) &&& all_pieces = 0) ∧
      (¬ ctx.is_square_attacked 3 Color.black = true ∧
        ¬ ctx.is_square_attacked 4 Color.black = true) then
    [Move.new 4 2 MoveCode.queenCastle]
  else []) ++
  (if ¬ white ∧ StateFlags.black_king_castle_right ctx.state.flags ∧
      ((1 <<< 61) &&& all_pieces = 0 ∧ (1 <<< 62) &&& all_pieces = 0) ∧
      (¬ ctx.is_square_attacked 60 Color.white = true ∧
        ¬ ctx.is_square_attacked 61 Color.white = true) then
    [Move.new 60 62 MoveCode.kingCastle]
  else []) ++
  (if ¬ white ∧ StateFlags.black_queen_castle_right ctx.state.flags ∧
      ((1 <<< 57) &&& all_pieces = 0 ∧ (1 <<< 58) &&& all_pieces = 0 ∧
        (1 <<< 59) &&& all_pieces = 0) ∧
      (¬ ctx.is_square_attacked 59 Color.white = true ∧
        ¬ ctx.is_square_attacked 60 Color.white = true) then
    [Move.new 60 58 MoveCode.queenCastle]
  else [])

/-- `generate_pseudo_legal_moves`: knight, bishop, queen-diagonal,
rook, queen-straight, pawn, king, castle moves in source order; `none`
when the king lookup panics. -/
def generate_pseudo_legal_moves (ctx : MoveGeneratorContext) :
    Option (List Move) :=
  match ctx.get_pseudo_legal_king_moves with
  | none => none
  | some kingMoves =>
    some (ctx.get_pseudo_legal_knight_moves ++
      ctx.get_pseudo_legal_diagonal_moves ctx.friendly_pieces.bishop ++
      ctx.get_pseudo_legal_diagonal_moves ctx.friendly_pieces.queen ++
      ctx.get_pseudo_legal_rank_file_moves ctx.friendly_pieces.rook ++
      ctx.get_pseudo_legal_rank_file_moves ctx.friendly_pieces.queen ++
      ctx.get_pseudo_legal_pawn_moves ++
      kingMoves ++
      ctx.get_pseudo_legal_castles)

/-- `was_move_legal`: is the just-moved (non-active) side's king safe?
`none` models the panic when that king board is empty. -/
def was_move_legal (ctx : MoveGeneratorContext) : Option Bool :=
  if StateFlags.active_color ctx.state.flags = Color.white then
    match getFirstSquare ctx.state.boards.black.king with
    | none => none
    | some k => some (¬ ctx.is_square_attacked k Color.white = true)
  else
    match getFirstSquare ctx.state.boards.white.king with
    | none => none
    | some k => some (¬ ctx.is_square_attacked k Color.black = true)

/-- `is_check`: is the active side's king attacked?  `none` models the
panic when that king board is empty. -/
def is_check (ctx : MoveGeneratorContext) : Option Bool :=
  if StateFlags.active_color ctx.state.flags = Color.white then
    match getFirstSquare ctx.state.boards.white.king with
    | none => none
    | some k => some (ctx.is_square_attacked k Color.black)
  else
    match getFirstSquare ctx.state.boards.black.king with
    | none => none
    | some k => some (ctx.is_square_attacked k Color.white)

end MoveGeneratorContext

/-! ### `MoveGenerator`: the public entry points, with the maps built
by `MoveGenerator::new`. -/

/-- `MoveGenerator::get_pseudo_legal_moves`. -/
def get_pseudo_legal_moves (state : GameState) : Option (List Move) :=
  (MoveGeneratorContext.new state MoveMaps.new).generate_pseudo_legal_moves

/-- `MoveGenerator::is_check`. -/
def is_check (state : GameState) : Option Bool :=
  (MoveGeneratorContext.new state MoveMaps.new).is_check

/-- `MoveGenerator::was_move_legal`. -/
def was_move_legal (state : GameState) : Option Bool :=
  (MoveGeneratorContext.new state MoveMaps.new).was_move_legal

/-- `MoveGenerator::is_square_attacked`. -/
def is_square_attacked (state : GameState) (square : Nat)
    (by_color : Color) : Bool :=
  (MoveGeneratorContext.new state MoveMaps.new).is_square_attacked square
    by_color

/-! ## Make/unmake (`make_unmake.rs`)

`MakeUnmaker` mutates a `GameState` in place while maintaining the
incremental Zobrist hash and a stack of irreversible snapshots.  Rust
panics (`unwrap` on an empty undo stack, missing captured piece type)
are modelled with `Option`.  The `u8` halfmove clock is modelled as a
`Nat` counter (it is snapshotted and restored verbatim, and no claim
depends on its 8-bit wrap). -/

/-- `IrreversibleInfo`. -/
structure IrreversibleInfo where
  halfmove : Nat
  en_passant : Nat
  flags : Nat
  captured_piece_type : Option PieceType
deriving DecidableEq, Repr

/-- `MakeUnmaker`. -/
structure MakeUnmaker where
  state : GameState
  zobrist_hash : Nat
  irreversible_stack : List IrreversibleInfo
  zobrist_numbers : ZobristNumbers

namespace MakeUnmaker

/-- `MakeUnmaker::new`: fresh stack, hash computed from scratch, the
process-wide seeded Zobrist constants. -/
def new (state : GameState) : MakeUnmaker :=
  { state := state
    zobrist_hash := state.hash zobristNumbers
    irreversible_stack := []
    zobrist_numbers := zobristNumbers }

/-- `MakeUnmaker::get_en_passant_file`: `trailing_zeros % 8`. -/
def get_en_passant_file (mu : MakeUnmaker) : Nat :=
  ctz mu.state.en_passant % 8

/-- `MakeUnmaker::update_flags`: clear castling rights lost by this
move (XORing the matching Zobrist constants), then flip the active
color.  The conditional reads chain on the successively updated flag
byte exactly as the source's sequential `if`s do. -/
def update_flags (mu : MakeUnmaker) (m : Move) : MakeUnmaker :=
  let zn := mu.zobrist_numbers
  let fh : Nat × Nat :=
    if StateFlags.active_color mu.state.flags = Color.white then
      let fh0 := (mu.state.flags, mu.zobrist_hash)
      let fh1 :=
        if StateFlags.white_king_castle_right fh0.1 ∧
            (m.fromSq = 4 ∨ m.fromSq = 7) then
          (StateFlags.toggle_white_king_castle fh0.1,
            fh0.2 ^^^ zn.castling.white_king_side)
        else fh0
      let fh2 :=
        if StateFlags.white_queen_castle_right fh1.1 ∧
            (m.fromSq = 4 ∨ m.fromSq = 0) then
          (StateFlags.toggle_white_queen_castle fh1.1,
            fh1.2 ^^^ zn.castling.white_queen_side)
        else fh1
      if m.code.is_capture then
        if m.toSq = 56 ∧ StateFlags.black_queen_castle_right fh2.1 then
          (StateFlags.toggle_black_queen_castle fh2.1,
            fh2.2 ^^^ zn.castling.black_queen_side)
        else if m.toSq = 63 ∧ StateFlags.black_king_castle_right fh2.1 then
          (StateFlags.toggle_black_king_castle fh2.1,
            fh2.2 ^^^ zn.castling.black_king_side)
        else fh2
      else fh2
    else
      let fh0 := (mu.state.flags, mu.zobrist_hash)
      let fh1 :=
        if StateFlags.black_king_castle_right fh0.1 ∧
            (m.fromSq = 60 ∨ m.fromSq = 63) then
          (StateFlags.toggle_black_king_castle fh0.1,
            fh0.2 ^^^ zn.castling.black_king_side)
        else fh0
      let fh2 :=
        if StateFlags.black_queen_castle_right fh1.1 ∧
            (m.fromSq = 60 ∨ m.fromSq = 56) then
          (StateFlags.toggle_black_queen_castle fh1.1,
            fh1.2 ^^^ zn.castling.black_queen_side)
        else fh1
      if m.code.is_capture then
        if m.toSq = 0 ∧ StateFlags.white_queen_castle_right fh2.1 then
          (StateFlags.toggle_white_queen_castle fh2.1,
            fh2.2 ^^^ zn.castling.white_queen_side)
        else if m.toSq = 7 ∧ StateFlags.white_king_castle_right fh2.1 then
          (StateFlags.toggle_white_king_castle fh2.1,
            fh2.2 ^^^ zn.castling.white_king_side)
        else fh2
      else fh2
  { mu with
    state := { mu.state with
      flags := StateFlags.toggle_active_color fh.1 }
    zobrist_hash := fh.2 ^^^ zn.active_color }

/-- `MakeUnmaker::make_castle`: reposition king and rook directly and
XOR the four affected piece-square numbers. -/
def make_castle (mu : MakeUnmaker) (m : Move) : MakeUnmaker :=
  if StateFlags.active_color mu.state.flags = Color.black then
    let bb := mu.state.boards.black
    let bz := mu.zobrist_numbers.board.black
    if m.code = MoveCode.kingCastle then
      { mu with
        state := { mu.state with boards := { mu.state.boards with
          black := { bb with
            king := 1 <<< 62
            rook := (bb.rook &&& not64 (1 <<< 63)) ||| (1 <<< 61) } } }
        zobrist_hash := mu.zobrist_hash ^^^
          (bz.king 62 ^^^ bz.king 60 ^^^ bz.rook 63 ^^^ bz.rook 61) }
    else
      { mu with
        state := { mu.state with boards := { mu.state.boards with
          black := { bb with
            king := 1 <<< 58
            rook := (bb.rook &&& not64 (1 <<< 56)) ||| (1 <<< 59) } } }
        zobrist_hash := mu.zobrist_hash ^^^
          (bz.king 58 ^^^ bz.king 60 ^^^ bz.rook 56 ^^^ bz.rook 59) }
  else
    let wb := mu.state.boards.white
    let wz := mu.zobrist_numbers.board.white
    if m.code = MoveCode.kingCastle then
      { mu with
        state := { mu.state with boards := { mu.state.boards with
          white := { wb with
            king := 1 <<< 6
            rook := (wb.rook &&& not64 (1 <<< 7)) ||| (1 <<< 5) } } }
        zobrist_hash := mu.zobrist_hash ^^^
          (wz.king 6 ^^^ wz.king 4 ^^^ wz.rook 7 ^^^ wz.rook 5) }
    else
      { mu with
        state := { mu.state with boards := { mu.state.boards with
          white := { wb with
            king := 1 <<< 2
            rook := (wb.rook &&& not64 (1 <<< 0)) ||| (1 <<< 3) } } }
        zobrist_hash := mu.zobrist_hash ^^^
          (wz.king 2 ^^^ wz.king 4 ^^^ wz.rook 0 ^^^ wz.rook 3) }

/-- The friendly-piece scan of `make_non_castle`/`unmake_non_castle`:
the first piece-type board (in `as_array` order) containing the mask
square is cleared there, its Zobrist number XORed in; no match leaves
everything unchanged (the source's dummy board). -/
def removeMovedPiece (side : ChessBoardSide) (fz : ZobristSide)
    (sq h : Nat) : ChessBoardSide × Nat × Option PieceType :=
  match pieceOrder.find? (fun p => side.get p &&& (1 <<< sq) ≠ 0) with
  | some p =>
    (side.set p (side.get p &&& not64 (1 <<< sq)), h ^^^ fz.get p sq,
      some p)
  | none => (side, h, none)

/-- The placement step of `make_non_castle`: a non-promotion re-adds
the moved piece on the destination (the dummy-board no-op when no
piece was found), a promotion adds the promoted piece instead. -/
def placeMovedPiece (side : ChessBoardSide) (fz : ZobristSide)
    (moved : Option PieceType) (code : MoveCode) (sq h : Nat) :
    ChessBoardSide × Nat :=
  match code.promotion with
  | none =>
    match moved with
    | some p => (side.set p (side.get p ||| (1 <<< sq)), h ^^^ fz.get p sq)
    | none => (side, h ^^^ 0)
  | some pt =>
    (side.set pt (side.get pt ||| (1 <<< sq)), h ^^^ fz.get pt sq)

/-- The capture scan of `make_non_castle`: on a capture move, clear
the capture mask from the first enemy board intersecting it and report
the piece type for the undo frame. -/
def removeCapturedPiece (side : ChessBoardSide) (ez : ZobristSide)
    (mask sq : Nat) (isCap : Bool) (h : Nat) :
    ChessBoardSide × Nat × Option PieceType :=
  if isCap then
    match pieceOrder.find? (fun p => side.get p &&& mask ≠ 0) with
    | some p =>
      (side.set p (side.get p &&& not64 mask), h ^^^ ez.get p sq, some p)
    | none => (side, h, none)
  else (side, h, none)

/-- `MakeUnmaker::make_non_castle`: update the en-passant target (with
hash out/in), move the friendly piece found at the origin (or place
the promoted piece), remove a captured enemy piece (shifted one rank
for en passant), returning its type for the undo frame.  When no
friendly piece occupies the origin the source writes through a dummy
board with all-zero Zobrist entries, i.e. the non-promotion write is a
no-op — the promotion branch still writes the promoted piece's real
board. -/
def make_non_castle (mu : MakeUnmaker) (m : Move) :
    MakeUnmaker × Option PieceType :=
  let white_to_play : Bool :=
    StateFlags.active_color mu.state.flags = Color.white
  let zn := mu.zobrist_numbers
  let friendly_zobrist := if white_to_play then zn.board.white
    else zn.board.black
  let enemy_zobrist := if white_to_play then zn.board.black
    else zn.board.white
  let h0 :=
    if mu.state.en_passant ≠ 0 then
      mu.zobrist_hash ^^^ zn.en_passant_file (get_en_passant_file mu)
    else mu.zobrist_hash
  let new_ep :=
    if m.code = MoveCode.doublePawnPush then
      if white_to_play then 1 <<< (m.fromSq + 8) else 1 <<< (m.fromSq - 8)
    else 0
  let h1 :=
    if new_ep ≠ 0 then h0 ^^^ zn.en_passant_file (ctz new_ep % 8) else h0
  let friendly := if white_to_play then mu.state.boards.white
    else mu.state.boards.black
  let enemy := if white_to_play then mu.state.boards.black
    else mu.state.boards.white
  let step1 := removeMovedPiece friendly friendly_zobrist m.fromSq h1
  let step2 := placeMovedPiece step1.1 friendly_zobrist step1.2.2 m.code
    m.toSq step1.2.1
  let tt : Nat × Nat :=
    if m.code = MoveCode.enPassant then
      if white_to_play then ((1 <<< m.toSq) >>> 8, m.toSq - 8)
      else (shl64 (1 <<< m.toSq) 8, m.toSq + 8)
    else (1 <<< m.toSq, m.toSq)
  let step3 := removeCapturedPiece enemy enemy_zobrist tt.1 tt.2
    m.code.is_capture step2.2
  let newBoards : ChessBoard :=
    if white_to_play then { white := step2.1, black := step3.1 }
    else { white := step3.1, black := step2.1 }
  let newState : GameState :=
    ⟨newBoards, new_ep, mu.state.flags, mu.state.halfmove⟩
  (⟨newState, step3.2.1, mu.irreversible_stack, mu.zobrist_numbers⟩,
    step3.2.2)

/-- `MakeUnmaker::make_move`: snapshot the irreversible data, apply the
castle or non-castle mutation (castles also clear the en-passant
target with its hash term), push the undo frame, bump the halfmove
clock and update flags/active color. -/
def make_move (mu : MakeUnmaker) (m : Move) : MakeUnmaker :=
  let halfmove := mu.state.halfmove
  let en_passant := mu.state.en_passant
  let flags := mu.state.flags
  let mc : MakeUnmaker × Option PieceType :=
    if m.code.is_castle then
      let mu1 := make_castle mu m
      let h :=
        if mu1.state.en_passant ≠ 0 then
          mu1.zobrist_hash ^^^
            mu1.zobrist_numbers.en_passant_file (get_en_passant_file mu1)
        else mu1.zobrist_hash
      ({ mu1 with
          state := { mu1.state with en_passant := 0 }
          zobrist_hash := h }, none)
    else make_non_castle mu m
  let mu2 := { mc.1 with
    irreversible_stack :=
      ⟨halfmove, en_passant, flags, mc.2⟩ :: mc.1.irreversible_stack
    state := { mc.1.state with halfmove := mc.1.state.halfmove + 1 } }
  update_flags mu2 m

/-- `MakeUnmaker::unmake_castle` (the color is read after the flip, so
`white` here means black just castled). -/
def unmake_castle (mu : MakeUnmaker) (m : Move) : MakeUnmaker :=
  if StateFlags.active_color mu.state.flags = Color.white then
    let bb := mu.state.boards.black
    let bz := mu.zobrist_numbers.board.black
    if m.code = MoveCode.kingCastle then
      { mu with
        state := { mu.state with boards := { mu.state.boards with
          black := { bb with
            king := 1 <<< 60
            rook := (bb.rook &&& not64 (1 <<< 61)) ||| (1 <<< 63) } } }
        zobrist_hash := mu.zobrist_hash ^^^ (bz.king 62 ^^^ bz.king 60) ^^^
          (bz.rook 61 ^^^ bz.rook 63) }
    else
      { mu with
        state := { mu.state with boards := { mu.state.boards with
          black := { bb with
            king := 1 <<< 60
            rook := (bb.rook &&& not64 (1 <<< 59)) ||| (1 <<< 56) } } }
        zobrist_hash := mu.zobrist_hash ^^^ (bz.king 58 ^^^ bz.king 60) ^^^
          (bz.rook 59 ^^^ bz.rook 56) }
  else
    let wb := mu.state.boards.white
    let wz := mu.zobrist_numbers.board.white
    if m.code = MoveCode.kingCastle then
      { mu with
        state := { mu.state with boards := { mu.state.boards with
          white := { wb with
            king := 1 <<< 4
            rook := (wb.rook &&& not64 (1 <<< 5)) ||| (1 <<< 7) } } }
        zobrist_hash := mu.zobrist_hash ^^^ (wz.king 6 ^^^ wz.king 4) ^^^
          (wz.rook 5 ^^^ wz.rook 7) }
    else
      { mu with
        state := { mu.state with boards := { mu.state.boards with
          white := { wb with
            king := 1 <<< 4
            rook := (wb.rook &&& not64 (1 <<< 3)) ||| (1 <<< 0) } } }
        zobrist_hash := mu.zobrist_hash ^^^ (wz.king 2 ^^^ wz.king 4) ^^^
          (wz.rook 3 ^^^ wz.rook 0) }

/-- `MakeUnmaker::unmake_non_castle`: mirror image of
`make_non_castle`, restoring the captured piece from the undo frame
(`none` models the fatal "no captured piece type" panic). -/
def placeUnmovedPiece (side : ChessBoardSide) (fz : ZobristSide)
    (moved : Option PieceType) (code : MoveCode) (sq h : Nat) :
    ChessBoardSide × Nat :=
  match code.promotion with
  | none =>
    match moved with
    | some p => (side.set p (side.get p ||| (1 <<< sq)), h ^^^ fz.get p sq)
    | none => (side, h ^^^ 0)
  | some _ =>
    (side.set PieceType.pawn (side.pawn ||| (1 <<< sq)), h ^^^ fz.pawn sq)

/-- The capture-restoration step of `unmake_non_castle`: `none` models
the fatal "No captured piece type in irreversible info" panic. -/
def restoreCapturedPiece (side : ChessBoardSide) (ez : ZobristSide)
    (mask sq : Nat) (isCap : Bool) (captured : Option PieceType)
    (h : Nat) : Option (ChessBoardSide × Nat) :=
  if isCap then
    match captured with
    | some pt =>
      some (side.set pt (side.get pt ||| mask), h ^^^ ez.get pt sq)
    | none => none
  else some (side, h)

/-- `MakeUnmaker::unmake_non_castle`: mirror image of
`make_non_castle` — remove the moved piece from the destination (a
promotion restores a pawn on the origin instead), restore the captured
piece recorded in the undo frame. -/
def unmake_non_castle (mu : MakeUnmaker) (m : Move)
    (info : IrreversibleInfo) : Option MakeUnmaker :=
  let white_to_play : Bool :=
    StateFlags.active_color mu.state.flags = Color.white
  -- `split_boards_mut` yields (active, other); the mover is the
  -- non-active side, named `friendly_boards` in the source.
  let friendly := if white_to_play then mu.state.boards.black
    else mu.state.boards.white
  let enemy := if white_to_play then mu.state.boards.white
    else mu.state.boards.black
  let friendly_zobrist := if white_to_play then mu.zobrist_numbers.board.black
    else mu.zobrist_numbers.board.white
  let enemy_zobrist := if white_to_play then mu.zobrist_numbers.board.white
    else mu.zobrist_numbers.board.black
  let step1 := removeMovedPiece friendly friendly_zobrist m.toSq
    mu.zobrist_hash
  let step2 := placeUnmovedPiece step1.1 friendly_zobrist step1.2.2 m.code
    m.fromSq step1.2.1
  let tt : Nat × Nat :=
    if m.code = MoveCode.enPassant then
      if white_to_play then (shl64 (1 <<< m.toSq) 8, m.toSq + 8)
      else ((1 <<< m.toSq) >>> 8, m.toSq - 8)
    else (1 <<< m.toSq, m.toSq)
  let ehOpt := restoreCapturedPiece enemy enemy_zobrist tt.1 tt.2
    m.code.is_capture info.captured_piece_type step2.2
  ehOpt.map fun eh =>
    let newBoards : ChessBoard :=
      if white_to_play then { white := eh.1, black := step2.1 }
      else { white := step2.1, black := eh.1 }
    let newState : GameState :=
      ⟨newBoards, mu.state.en_passant, mu.state.flags, mu.state.halfmove⟩
    ⟨newState, eh.2, mu.irreversible_stack, mu.zobrist_numbers⟩

/-- `MakeUnmaker::unmake_move`: pop the undo frame (`none` on an empty
stack), undo the board mutation, restore halfmove/en passant/flags
with the matching hash terms. -/
def unmake_move (mu : MakeUnmaker) (m : Move) : Option MakeUnmaker :=
  match mu.irreversible_stack with
  | [] => none
  | info :: rest =>
    let mu0 := { mu with irreversible_stack := rest }
    let mu1? : Option MakeUnmaker :=
      if m.code.is_castle then some (unmake_castle mu0 m)
      else unmake_non_castle mu0 m info
    match mu1? with
    | none => none
    | some mu1 =>
      let zn := mu1.zobrist_numbers
      let mu2 := { mu1 with
        state := { mu1.state with halfmove := info.halfmove } }
      let h0 :=
        if mu2.state.en_passant ≠ 0 then
          mu2.zobrist_hash ^^^ zn.en_passant_file (get_en_passant_file mu2)
        else mu2.zobrist_hash
      let mu3 := { mu2 with
        state := { mu2.state with en_passant := info.en_passant }
        zobrist_hash := h0 }
      let h1 :=
        if mu3.state.en_passant ≠ 0 then
          mu3.zobrist_hash ^^^ zn.en_passant_file (get_en_passant_file mu3)
        else mu3.zobrist_hash
      let h2 := h1 ^^^ zn.active_color
      let flag_diff := mu3.state.flags ^^^ info.flags
      let h3 :=
        if StateFlags.white_king_castle_right flag_diff then
          h2 ^^^ zn.castling.white_king_side
        else h2
      let h4 :=
        if StateFlags.white_queen_castle_right flag_diff then
          h3 ^^^ zn.castling.white_queen_side
        else h3
      let h5 :=
        if StateFlags.black_king_castle_right flag_diff then
          h4 ^^^ zn.castling.black_king_side
        else h4
      let h6 :=
        if StateFlags.black_queen_castle_right flag_diff then
          h5 ^^^ zn.castling.black_queen_side
        else h5
      some { mu3 with
        state := { mu3.state with flags := info.flags }
        zobrist_hash := h6 }

end MakeUnmaker

/-! ## Quiescence search (`search.rs`, `SearchContext::quiesce`)

The search layer drives the generator and the make/unmaker.  The
static evaluator is the external collaborator required by the spec
("the core only requires an `Evaluator` that maps a position to a
signed centipawn score from the mover's perspective"), so it is a
parameter.  `search.rs` belongs to the older generation, whose move
list holds packed move words; its `order_ply`/`is_quiet` act exactly
as `MoveList::order_ply` on the classification of `MoveCode`
(cf. `order_ply` above), so the ordering is restated here on the typed
moves.  The recursion depth check `depth >= self.max_depth + 4` is
carried as the structural fuel `max_depth + 4 - depth`; fuel `0` is
the depth-ceiling branch.  Rust panics propagate as `none`. -/

/-- The all-zero move word (`best_move = 0`, also the `getD` filler for
in-bounds slice accesses that never miss in the source). -/
def mvDefault : Move := Move.new 0 0 MoveCode.quietMove

/-- `slice.swap` on the current ply of typed moves. -/
def lswapM (l : List Move) (i j : Nat) : List Move :=
  (l.set i (l.getD j mvDefault)).set j (l.getD i mvDefault)

/-- The partition loop of `order_ply` on typed moves. -/
def partitionLoudMovesAux (fuel : Nat) (ply : List Move) (i s : Nat) :
    List Move :=
  match fuel with
  | 0 => ply
  | f + 1 =>
    if i < ply.length then
      if (ply.getD i mvDefault).code.is_quiet then
        partitionLoudMovesAux f ply (i + 1) s
      else
        partitionLoudMovesAux f (lswapM ply i s) (i + 1) (s + 1)
    else ply

/-- The best-move scan of `order_ply` on typed moves. -/
def idxOfMove? (f : Move) : List Move → Option Nat
  | [] => none
  | x :: t => if x = f then some 0 else (idxOfMove? f t).map (· + 1)

/-- `MoveList::order_ply` on the current ply of typed moves. -/
def orderPlyMoves (first : Option Move) (ply : List Move) : List Move :=
  match first with
  | none => partitionLoudMovesAux (ply.length - 0) ply 0 0
  | some f =>
    match idxOfMove? f ply with
    | some i =>
      partitionLoudMovesAux ((lswapM ply i 0).length - 1) (lswapM ply i 0)
        1 1
    | none => partitionLoudMovesAux (ply.length - 0) ply 0 0

/-- The outcome of one `quiesce` call: returned score, the contents of
the caller's `pv` out-parameter, and the mutated context
(make/unmaker, the shared `prev_pv` vector, transposition table). -/
structure QuiesceResult where
  score : Int
  pv : List Move
  mu : MakeUnmaker
  prev_pv : List Move
  transpos : TT.TranspositionTable

/-- The running state of `quiesce`'s move loop. -/
structure QLoopState where
  alpha : Int
  best_score : Int
  best_move : Option Move
  pv : List Move
  line : List Move
  mu : MakeUnmaker
  prev_pv : List Move
  transpos : TT.TranspositionTable

/-- The `for i in 0..ply_size` loop of `quiesce`: skip quiet moves,
make each capture/promotion, drop it if it left the mover in check,
otherwise recurse (negamax) and fold the fail-soft bests; a score at
or above beta breaks out of the loop. -/
def quiesceLoop (beta : Int)
    (child : Int → Int → MakeUnmaker → List Move → List Move →
      TT.TranspositionTable → Option QuiesceResult) :
    List Move → QLoopState → Option QLoopState
  | [], st => some st
  | m :: rest, st =>
    if m.code.is_quiet then quiesceLoop beta child rest st
    else
      let mu1 := st.mu.make_move m
      match was_move_legal mu1.state with
      | none => none
      | some legal =>
        if ¬ legal then
          match mu1.unmake_move m with
          | none => none
          | some mu2 => quiesceLoop beta child rest { st with mu := mu2 }
        else
          match child (-beta) (-st.alpha) mu1 st.prev_pv st.line
              st.transpos with
          | none => none
          | some r =>
            let score := -r.score
            match r.mu.unmake_move m with
            | none => none
            | some mu2 =>
              let st1 := { st with
                mu := mu2
                prev_pv := r.prev_pv
                line := r.pv
                transpos := r.transpos }
              let st2 :=
                if st1.best_score < score then
                  let stb := { st1 with
                    best_score := score
                    best_move := some m }
                  if stb.alpha < score then
                    { stb with alpha := score, pv := r.pv ++ [m] }
                  else stb
                else st1
              if beta ≤ score then some st2
              else quiesceLoop beta child rest st2

/-- `SearchContext::quiesce`.  Fuel `max_depth + 4 - depth` replaces
the `depth >= self.max_depth + 4` ceiling; `pv` is the caller's
in-out `pv` vector, `prev_pv` the shared best-line vector whose last
element is popped for move ordering. -/
def quiesce (eval : GameState → Int) :
    Nat → Int → Int → MakeUnmaker → List Move → List Move →
      TT.TranspositionTable → Option QuiesceResult
  | 0, _, _, mu, prev_pv, _, transpos =>
    some ⟨eval mu.state, [], mu, prev_pv, transpos⟩
  | fuel + 1, alpha, beta, mu, prev_pv, pv, transpos =>
    match get_pseudo_legal_moves mu.state with
    | none => none
    | some moves =>
      let ordered := orderPlyMoves prev_pv.getLast? moves
      let prev1 := prev_pv.dropLast
      let static_score := eval mu.state
      if beta ≤ static_score then
        some ⟨static_score, [], mu, prev1, transpos⟩
      else
        let alpha1 := if alpha < static_score then static_score else alpha
        match quiesceLoop beta
            (fun a b mu1 pp l tt => quiesce eval fuel a b mu1 pp l tt)
            ordered ⟨alpha1, static_score, none, pv, [], mu, prev1,
              transpos⟩ with
        | none => none
        | some st =>
          match st.best_move with
          | none => some ⟨static_score, [], st.mu, st.prev_pv, st.transpos⟩
          | some bm =>
            some ⟨st.best_score, st.pv, st.mu, st.prev_pv,
              TT.store st.transpos
                ⟨st.mu.zobrist_hash, 0, st.best_score, bm⟩⟩

/-- Elements of a `getD` access: in the list, or the default. -/
theorem getD_mem_or (l : List Move) (j : Nat) :
    l.getD j mvDefault ∈ l ∨ l.getD j mvDefault = mvDefault := by
  rcases Nat.lt_or_ge j l.length with h | h
  · left
    rw [List.getD_eq_getElem?_getD, List.getElem?_eq_getElem h]
    exact List.getElem_mem h
  · right
    exact List.getD_eq_default _ _ h

/-- A predicate true of every ply move and of the filler move survives
a swap. -/
theorem mem_lswapM {P : Move → Prop} {l : List Move}
    (hP : ∀ m ∈ l, P m) (hd : P mvDefault) (i j : Nat) :
    ∀ m ∈ lswapM l i j, P m := by
  intro m hm
  have hgetD : ∀ k, P (l.getD k mvDefault) := by
    intro k
    rcases getD_mem_or l k with h | h
    · exact hP _ h
    · rw [h]; exact hd
  rcases List.mem_or_eq_of_mem_set hm with hm1 | hm1
  · rcases List.mem_or_eq_of_mem_set hm1 with hm2 | hm2
    · exact hP _ hm2
    · rw [hm2]; exact hgetD j
  · rw [hm1]; exact hgetD i

/-- A predicate true of every ply move and of the filler survives the
loud/quiet partition loop. -/
theorem mem_partitionLoudMovesAux {P : Move → Prop} (fuel : Nat) :
    ∀ {l : List Move}, (∀ m ∈ l, P m) → P mvDefault → ∀ i s,
      ∀ m ∈ partitionLoudMovesAux fuel l i s, P m := by
  induction fuel with
  | zero => intro l hP _ i s m hm; exact hP m hm
  | succ f ih =>
    intro l hP hd i s m hm
    rw [partitionLoudMovesAux] at hm
    by_cases hi : i < l.length
    · rw [if_pos hi] at hm
      by_cases hq : (l.getD i mvDefault).code.is_quiet = true
      · rw [if_pos hq] at hm
        exact ih hP hd _ _ m hm
      · rw [if_neg hq] at hm
        exact ih (mem_lswapM hP hd i s) hd _ _ m hm
    · rw [if_neg hi] at hm
      exact hP m hm

/-- A predicate true of every ply move and of the filler survives
`order_ply`. -/
theorem mem_orderPlyMoves {P : Move → Prop} {first : Option Move}
    {l : List Move} (hP : ∀ m ∈ l, P m) (hd : P mvDefault) :
    ∀ m ∈ orderPlyMoves first l, P m := by
  cases first with
  | none => exact mem_partitionLoudMovesAux _ hP hd 0 0
  | some f =>
    show ∀ m ∈ (match idxOfMove? f l with
      | some i =>
        partitionLoudMovesAux ((lswapM l i 0).length - 1) (lswapM l i 0) 1 1
      | none => partitionLoudMovesAux (l.length - 0) l 0 0), P m
    cases idxOfMove? f l with
    | some i => exact mem_partitionLoudMovesAux _ (mem_lswapM hP hd i 0) hd 1 1
    | none => exact mem_partitionLoudMovesAux _ hP hd 0 0

/-- The quiescence move loop skips every quiet move, so an all-quiet
ply leaves its state untouched. -/
theorem quiesceLoop_quiet (beta : Int)
    (child : Int → Int → MakeUnmaker → List Move → List Move →
      TT.TranspositionTable → Option QuiesceResult) :
    ∀ (l : List Move) (st : QLoopState),
      (∀ m ∈ l, m.code.is_quiet = true) →
      quiesceLoop beta child l st = some st := by
  intro l
  induction l with
  | nil => intro st _; rfl
  | cons m rest ih =>
    intro st h
    rw [quiesceLoop, if_pos (h m (List.mem_cons_self m rest))]
    exact ih st fun x hx => h x (List.mem_cons_of_mem m hx)

/-- C7 counterexample evaluator: a queen-count material evaluator from
the mover's perspective (the spec leaves the `Evaluator` collaborator
free, so any such function instantiates it). -/
def evalQ (s : GameState) : Int :=
  let d : Int := 900 * ((bits s.boards.white.queen).length : Int) -
    900 * ((bits s.boards.black.queen).length : Int)
  if StateFlags.is_white_to_play s.flags then d else -d

/-- The standard chess starting position. -/
def startState : GameState :=
  ⟨⟨⟨0xFF00, 0x42, 0x24, 0x81, 0x8, 0x10⟩,
    ⟨0xFF000000000000, 0x4200000000000000, 0x2400000000000000,
      0x8100000000000000, 0x800000000000000, 0x1000000000000000⟩⟩,
    0, 0xF0, 0⟩

/-- White pawn a7, white king h1, black king h8, white to move: a
position with zero available captures but four available non-capture
promotions. -/
def promoState : GameState :=
  ⟨⟨⟨0x1000000000000, 0, 0, 0, 0, 0x80⟩,
    ⟨0, 0, 0, 0, 0, 0x8000000000000000⟩⟩,
    0, 0, 0⟩

/-- C7: FALSIFIED by `promoState`.  Every generated pseudo-legal move
there is a non-capture (so the position has zero available captures)
and the static evaluation is 0, yet `quiesce` explores the four
promotions and returns 900 with the queen promotion as principal
variation, because the loop skips only `is_quiet` moves and
promotions are not quiet. -/
theorem quiesce_counterexample :
    (∀ m ∈ (get_pseudo_legal_moves promoState).getD [],
        m.code.is_capture = false) ∧
    evalQ promoState = 0 ∧
    (quiesce evalQ 5 (-2147483647) 2147483647
        (MakeUnmaker.new promoState) [] [] TT.new).map
        (fun r => (r.score, r.pv)) =
      some (900, [Move.new 48 56 MoveCode.queenPromotion]) := by
  refine ⟨by decide, by decide, ?_⟩
  rfl

/-- C7 (amended): on a position whose generated pseudo-legal moves are
all quiet in the code's classification — no captures AND no
promotions — `quiesce` returns exactly the static evaluator score
with an empty principal variation, leaves the make/unmaker untouched,
and only pops the ordering hint off the shared previous-pv vector. -/
theorem quiesce_no_loud (eval : GameState → Int) (fuel : Nat)
    (alpha beta : Int) (mu : MakeUnmaker) (prev_pv pv : List Move)
    (tt : TT.TranspositionTable) (moves : List Move)
    (hm : get_pseudo_legal_moves mu.state = some moves)
    (hq : ∀ m ∈ moves, m.code.is_quiet = true) :
    quiesce eval (fuel + 1) alpha beta mu prev_pv pv tt =
      some ⟨eval mu.state, [], mu, prev_pv.dropLast, tt⟩ := by
  have hall : ∀ m ∈ orderPlyMoves prev_pv.getLast? moves,
      m.code.is_quiet = true :=
    mem_orderPlyMoves hq rfl
  rw [quiesce, hm]
  dsimp only
  by_cases hb : beta ≤ eval mu.state
  · rw [if_pos hb]
  · rw [if_neg hb,
      quiesceLoop_quiet _ _ (orderPlyMoves prev_pv.getLast? moves) _ hall]

/-- C7 amended-theorem witness: the starting position generates twenty
moves, all quiet, and `quiesce` there returns the static score with
empty pv. -/
theorem quiesce_no_loud_witness :
    (∀ m ∈ (get_pseudo_legal_moves startState).getD [],
        m.code.is_quiet = true) ∧
    quiesce evalQ 1 (-2147483647) 2147483647 (MakeUnmaker.new startState)
        [] [] TT.new =
      some ⟨evalQ startState, [], MakeUnmaker.new startState, [], TT.new⟩ :=
  ⟨by decide,
    quiesce_no_loud evalQ 0 (-2147483647) 2147483647
      (MakeUnmaker.new startState) [] [] TT.new
      ((get_pseudo_legal_moves startState).getD []) (by rfl) (by decide)⟩

/-! ## C10: Zobrist determinism across instances -/

/-- C10: Zobrist numbers come from the fixed compile-time seed
`0xdeadbeef`, so hashing is deterministic across `MakeUnmaker`
instances: every instance built by `new` carries the one process-wide
table drawn from the seeded stream, bit-identical `GameState`s
receive the same 64-bit from-scratch hash, and running the same move
sequence through either instance leaves their incrementally
maintained hashes equal. -/
theorem zobrist_hash_deterministic (s1 s2 : GameState) (ms : List Move)
    (h : s1 = s2) :
    (MakeUnmaker.new s1).zobrist_numbers =
        ZobristNumbers.new (chacha20Stream SEED) ∧
    (MakeUnmaker.new s2).zobrist_numbers =
        ZobristNumbers.new (chacha20Stream SEED) ∧
    (MakeUnmaker.new s1).zobrist_hash = (MakeUnmaker.new s2).zobrist_hash ∧
    (ms.foldl MakeUnmaker.make_move (MakeUnmaker.new s1)).zobrist_hash =
      (ms.foldl MakeUnmaker.make_move (MakeUnmaker.new s2)).zobrist_hash := by
  subst h
  exact ⟨rfl, rfl, rfl, rfl⟩

/-- C10 witness: two independently written, bit-identical copies of
the starting position, pushed through the double pawn push e2e4 on
each instance, hash identically. -/
theorem zobrist_hash_deterministic_witness :
    startState =
      (⟨⟨⟨65280, 66, 36, 129, 8, 16⟩,
        ⟨71776119061217280, 4755801206503243776, 2594073385365405696,
          9295429630892703744, 576460752303423488,
          1152921504606846976⟩⟩, 0, 240, 0⟩ : GameState) ∧
    ((MakeUnmaker.new startState).zobrist_numbers =
        ZobristNumbers.new (chacha20Stream SEED) ∧
      (MakeUnmaker.new (⟨⟨⟨65280, 66, 36, 129, 8, 16⟩,
          ⟨71776119061217280, 4755801206503243776, 2594073385365405696,
            9295429630892703744, 576460752303423488,
            1152921504606846976⟩⟩, 0, 240, 0⟩ : GameState)).zobrist_numbers =
        ZobristNumbers.new (chacha20Stream SEED) ∧
      (MakeUnmaker.new startState).zobrist_hash =
        (MakeUnmaker.new (⟨⟨⟨65280, 66, 36, 129, 8, 16⟩,
          ⟨71776119061217280, 4755801206503243776, 2594073385365405696,
            9295429630892703744, 576460752303423488,
            1152921504606846976⟩⟩, 0, 240, 0⟩ : GameState)).zobrist_hash ∧
      ([Move.new 12 28 MoveCode.doublePawnPush].foldl MakeUnmaker.make_move
          (MakeUnmaker.new startState)).zobrist_hash =
        ([Move.new 12 28 MoveCode.doublePawnPush].foldl MakeUnmaker.make_move
          (MakeUnmaker.new (⟨⟨⟨65280, 66, 36, 129, 8, 16⟩,
            ⟨71776119061217280, 4755801206503243776, 2594073385365405696,
              9295429630892703744, 576460752303423488,
              1152921504606846976⟩⟩, 0, 240, 0⟩ : GameState))).zobrist_hash) :=
  ⟨by decide,
    zobrist_hash_deterministic startState
      (⟨⟨⟨65280, 66, 36, 129, 8, 16⟩,
        ⟨71776119061217280, 4755801206503243776, 2594073385365405696,
          9295429630892703744, 576460752303423488,
          1152921504606846976⟩⟩, 0, 240, 0⟩ : GameState)
      [Move.new 12 28 MoveCode.doublePawnPush] (by decide)⟩

/-! ## C9: the king-unwrap precondition -/

/-- The generator returns `none` exactly when the active side's king
board is empty (the `unwrap` panic in
`get_pseudo_legal_king_moves`). -/
theorem generate_eq_none_iff (s : GameState) :
    get_pseudo_legal_moves s = none ↔ s.split_boards.1.king = 0 := by
  rw [get_pseudo_legal_moves,
    MoveGeneratorContext.generate_pseudo_legal_moves]
  have hfp : (MoveGeneratorContext.new s MoveMaps.new).friendly_pieces =
      s.split_boards.1 := rfl
  rw [MoveGeneratorContext.get_pseudo_legal_king_moves, hfp, getFirstSquare]
  rcases eq_or_ne s.split_boards.1.king 0 with h0 | h0
  · rw [if_pos h0]
    simp [h0]
  · rw [if_neg h0]
    simp [h0]

/-- `is_check` returns `none` exactly when the active side's king
board is empty. -/
theorem is_check_eq_none_iff (s : GameState) :
    is_check s = none ↔
      (if StateFlags.active_color s.flags = Color.white then
        s.boards.white.king else s.boards.black.king) = 0 := by
  rw [is_check, MoveGeneratorContext.is_check]
  have hst : (MoveGeneratorContext.new s MoveMaps.new).state = s := rfl
  rw [hst]
  by_cases hac : StateFlags.active_color s.flags = Color.white
  · rw [if_pos hac, if_pos hac, getFirstSquare]
    rcases eq_or_ne s.boards.white.king 0 with h0 | h0
    · rw [if_pos h0]; simp [h0]
    · rw [if_neg h0]; simp [h0]
  · rw [if_neg hac, if_neg hac, getFirstSquare]
    rcases eq_or_ne s.boards.black.king 0 with h0 | h0
    · rw [if_pos h0]; simp [h0]
    · rw [if_neg h0]; simp [h0]

/-- `was_move_legal` returns `none` exactly when the side that just
moved (the non-active side) has an empty king board. -/
theorem was_move_legal_eq_none_iff (s : GameState) :
    was_move_legal s = none ↔
      (if StateFlags.active_color s.flags = Color.white then
        s.boards.black.king else s.boards.white.king) = 0 := by
  rw [was_move_legal, MoveGeneratorContext.was_move_legal]
  have hst : (MoveGeneratorContext.new s MoveMaps.new).state = s := rfl
  rw [hst]
  by_cases hac : StateFlags.active_color s.flags = Color.white
  · rw [if_pos hac, if_pos hac, getFirstSquare]
    rcases eq_or_ne s.boards.black.king 0 with h0 | h0
    · rw [if_pos h0]; simp [h0]
    · rw [if_neg h0]; simp [h0]
  · rw [if_neg hac, if_neg hac, getFirstSquare]
    rcases eq_or_ne s.boards.white.king 0 with h0 | h0
    · rw [if_pos h0]; simp [h0]
    · rw [if_neg h0]; simp [h0]

/-- The active side's board side of `split_boards`. -/
theorem split_boards_fst (s : GameState) :
    s.split_boards.1 =
      (if StateFlags.active_color s.flags = Color.white then
        s.boards.white else s.boards.black) := by
  rw [GameState.split_boards]
  by_cases hac : StateFlags.active_color s.flags = Color.white
  · rw [if_pos hac, if_pos hac]
  · rw [if_neg hac, if_neg hac]

/-- C9: `get_pseudo_legal_moves`, `is_check` and `was_move_legal`
carry the undocumented precondition that the relevant side's king
board is nonempty.  When both king boards hold at least one bit the
three operations return a value (no panic); when the relevant king
board is empty the king-square `unwrap` panics (modelled as
`none`). -/
theorem king_unwrap_precondition (s : GameState) :
    (s.boards.white.king ≠ 0 → s.boards.black.king ≠ 0 →
      (get_pseudo_legal_moves s).isSome = true ∧
      (is_check s).isSome = true ∧
      (was_move_legal s).isSome = true) ∧
    ((if StateFlags.active_color s.flags = Color.white then
        s.boards.white.king else s.boards.black.king) = 0 →
      get_pseudo_legal_moves s = none ∧ is_check s = none) ∧
    ((if StateFlags.active_color s.flags = Color.white then
        s.boards.black.king else s.boards.white.king) = 0 →
      was_move_legal s = none) := by
  refine ⟨fun hw hb => ⟨?_, ?_, ?_⟩, fun h0 => ⟨?_, ?_⟩, fun h0 => ?_⟩
  · rw [Option.isSome_iff_ne_none]
    intro hn
    rw [generate_eq_none_iff, split_boards_fst] at hn
    by_cases hac : StateFlags.active_color s.flags = Color.white
    · rw [if_pos hac] at hn; exact hw hn
    · rw [if_neg hac] at hn; exact hb hn
  · rw [Option.isSome_iff_ne_none]
    intro hn
    rw [is_check_eq_none_iff] at hn
    by_cases hac : StateFlags.active_color s.flags = Color.white
    · rw [if_pos hac] at hn; exact hw hn
    · rw [if_neg hac] at hn; exact hb hn
  · rw [Option.isSome_iff_ne_none]
    intro hn
    rw [was_move_legal_eq_none_iff] at hn
    by_cases hac : StateFlags.active_color s.flags = Color.white
    · rw [if_pos hac] at hn; exact hb hn
    · rw [if_neg hac] at hn; exact hw hn
  · rw [generate_eq_none_iff, split_boards_fst]
    by_cases hac : StateFlags.active_color s.flags = Color.white
    · rw [if_pos hac]; rw [if_pos hac] at h0; exact h0
    · rw [if_neg hac]; rw [if_neg hac] at h0; exact h0
  · rw [is_check_eq_none_iff]
    exact h0
  · rw [was_move_legal_eq_none_iff]
    exact h0

/-- C9 witness: at the starting position all three operations return
values; with the white king removed (white to move) the generator and
`is_check` panic, and with the black king removed `was_move_legal`
panics. -/
theorem king_unwrap_precondition_witness :
    ((get_pseudo_legal_moves startState).isSome = true ∧
      (is_check startState).isSome = true ∧
      (was_move_legal startState).isSome = true) ∧
    (get_pseudo_legal_moves
        ⟨⟨⟨0xFF00, 0x42, 0x24, 0x81, 0x8, 0⟩,
          startState.boards.black⟩, 0, 0xF0, 0⟩ = none ∧
      is_check
        ⟨⟨⟨0xFF00, 0x42, 0x24, 0x81, 0x8, 0⟩,
          startState.boards.black⟩, 0, 0xF0, 0⟩ = none) ∧
    was_move_legal
      ⟨⟨startState.boards.white,
        ⟨0xFF000000000000, 0x4200000000000000, 0x2400000000000000,
          0x8100000000000000, 0x800000000000000, 0⟩⟩, 0, 0xF0, 0⟩ =
      none :=
  ⟨(king_unwrap_precondition startState).1 (by decide) (by decide),
    (king_unwrap_precondition
      ⟨⟨⟨0xFF00, 0x42, 0x24, 0x81, 0x8, 0⟩,
        startState.boards.black⟩, 0, 0xF0, 0⟩).2.1 (by decide),
    (king_unwrap_precondition
      ⟨⟨startState.boards.white,
        ⟨0xFF000000000000, 0x4200000000000000, 0x2400000000000000,
          0x8100000000000000, 0x800000000000000, 0⟩⟩, 0, 0xF0, 0⟩).2.2
      (by decide)⟩

/-! ## C8: castle emission -/

/-- All occupied squares of a state. -/
def occupied (s : GameState) : Nat :=
  s.boards.white.union ||| s.boards.black.union

/-- The single-bit occupancy test of the castle code, as a `testBit`. -/
theorem pow_and_eq_zero_iff (i b : Nat) :
    ((1 <<< i) &&& b = 0) ↔ b.testBit i = false := by
  rw [Nat.shiftLeft_eq, one_mul]
  constructor
  · intro h
    have ht := congrArg (fun n => n.testBit i) h
    simpa [Nat.testBit_and] using ht
  · intro h
    apply Nat.eq_of_testBit_eq
    intro j
    rw [Nat.testBit_and, Nat.zero_testBit]
    rcases eq_or_ne i j with rfl | hne
    · simp [h]
    · simp [Nat.testBit_two_pow_of_ne hne]

/-- The generator context's combined occupation is the state's. -/
theorem context_occupation (s : GameState) :
    (MoveGeneratorContext.new s MoveMaps.new).friendly_occupation |||
      (MoveGeneratorContext.new s MoveMaps.new).enemy_occupation =
    occupied s := by
  show (s.split_boards.1.union ||| s.split_boards.2.union) = occupied s
  rw [GameState.split_boards]
  by_cases hac : StateFlags.active_color s.flags = Color.white
  · rw [if_pos hac]; rfl
  · rw [if_neg hac]
    exact Nat.or_comm _ _

/-- Occurrence count of a move in one conditional castle block. -/
theorem count_castle_block (c : Prop) [Decidable c] (mv m : Move) :
    (if c then [mv] else []).count m = if c ∧ m = mv then 1 else 0 := by
  by_cases hc : c
  · rw [if_pos hc]
    by_cases hm : m = mv
    · rw [if_pos ⟨hc, hm⟩, hm]
      simp
    · rw [if_neg fun hcm => hm hcm.2]
      have hmv : ¬ mv = m := fun hcm => hm hcm.symm
      simp [List.count_cons, hmv]
  · rw [if_neg hc, if_neg fun h => hc h.1]
    rfl

/-- Membership in one conditional castle block forces the block's
move. -/
theorem mem_castle_block {c : Prop} [Decidable c] {mv m : Move}
    (h : m ∈ (if c then [mv] else [])) : m = mv := by
  by_cases hc : c
  · rw [if_pos hc] at h
    simpa using h
  · rw [if_neg hc] at h
    simp at h

/-- C8: a castle move is emitted exactly when its color is the side
to move, its castling right is still held, the squares strictly
between king and rook are unoccupied, and the king's square and the
square it crosses (not the destination) are unattacked by the
opponent; each right contributes at most one move (the count is 0 or
1), and no move other than the four castle moves is ever emitted by
the castle generator. -/
theorem castle_emission (s : GameState) :
    ((MoveGeneratorContext.new s MoveMaps.new).get_pseudo_legal_castles.count
        (Move.new 4 6 MoveCode.kingCastle) =
      if StateFlags.active_color s.flags = Color.white ∧
          StateFlags.white_king_castle_right s.flags = true ∧
          ((occupied s).testBit 5 = false ∧ (occupied s).testBit 6 = false) ∧
          (is_square_attacked s 4 Color.black = false ∧
            is_square_attacked s 5 Color.black = false)
        then 1 else 0) ∧
    ((MoveGeneratorContext.new s MoveMaps.new).get_pseudo_legal_castles.count
        (Move.new 4 2 MoveCode.queenCastle) =
      if StateFlags.active_color s.flags = Color.white ∧
          StateFlags.white_queen_castle_right s.flags = true ∧
          ((occupied s).testBit 1 = false ∧ (occupied s).testBit 2 = false ∧
            (occupied s).testBit 3 = false) ∧
          (is_square_attacked s 3 Color.black = false ∧
            is_square_attacked s 4 Color.black = false)
        then 1 else 0) ∧
    ((MoveGeneratorContext.new s MoveMaps.new).get_pseudo_legal_castles.count
        (Move.new 60 62 MoveCode.kingCastle) =
      if ¬ StateFlags.active_color s.flags = Color.white ∧
          StateFlags.black_king_castle_right s.flags = true ∧
          ((occupied s).testBit 61 = false ∧
            (occupied s).testBit 62 = false) ∧
          (is_square_attacked s 60 Color.white = false ∧
            is_square_attacked s 61 Color.white = false)
        then 1 else 0) ∧
    ((MoveGeneratorContext.new s MoveMaps.new).get_pseudo_legal_castles.count
        (Move.new 60 58 MoveCode.queenCastle) =
      if ¬ StateFlags.active_color s.flags = Color.white ∧
          StateFlags.black_queen_castle_right s.flags = true ∧
          ((occupied s).testBit 57 = false ∧
            (occupied s).testBit 58 = false ∧
            (occupied s).testBit 59 = false) ∧
          (is_square_attacked s 59 Color.white = false ∧
            is_square_attacked s 60 Color.white = false)
        then 1 else 0) ∧
    (∀ m ∈ (MoveGeneratorContext.new s MoveMaps.new).get_pseudo_legal_castles,
      m = Move.new 4 6 MoveCode.kingCastle ∨
      m = Move.new 4 2 MoveCode.queenCastle ∨
      m = Move.new 60 62 MoveCode.kingCastle ∨
      m = Move.new 60 58 MoveCode.queenCastle) := by
  have hst : (MoveGeneratorContext.new s MoveMaps.new).state = s := rfl
  refine ⟨?_, ?_, ?_, ?_, ?_⟩
  · rw [MoveGeneratorContext.get_pseudo_legal_castles]
    simp only [List.count_append, count_castle_block, context_occupation,
      pow_and_eq_zero_iff, Bool.not_eq_true, is_square_attacked, hst]
    simp [Move.new]
  · rw [MoveGeneratorContext.get_pseudo_legal_castles]
    simp only [List.count_append, count_castle_block, context_occupation,
      pow_and_eq_zero_iff, Bool.not_eq_true, is_square_attacked, hst]
    simp [Move.new]
  · rw [MoveGeneratorContext.get_pseudo_legal_castles]
    simp only [List.count_append, count_castle_block, context_occupation,
      pow_and_eq_zero_iff, Bool.not_eq_true, is_square_attacked, hst]
    simp [Move.new]
  · rw [MoveGeneratorContext.get_pseudo_legal_castles]
    simp only [List.count_append, count_castle_block, context_occupation,
      pow_and_eq_zero_iff, Bool.not_eq_true, is_square_attacked, hst]
    simp [Move.new]
  · intro m hm
    rw [MoveGeneratorContext.get_pseudo_legal_castles] at hm
    rcases List.mem_append.mp hm with hm1 | hm4
    · rcases List.mem_append.mp hm1 with hm2 | hm3
      · rcases List.mem_append.mp hm2 with hm5 | hm6
        · exact Or.inl (mem_castle_block hm5)
        · exact Or.inr (Or.inl (mem_castle_block hm6))
      · exact Or.inr (Or.inr (Or.inl (mem_castle_block hm3)))
    · exact Or.inr (Or.inr (Or.inr (mem_castle_block hm4)))

/-- White king e1, rook h1, black king e8, white to move with only
the white king-side right: the king-side castle is generated. -/
def castleWKState : GameState :=
  ⟨⟨⟨0, 0, 0, 0x80, 0, 0x10⟩,
    ⟨0, 0, 0, 0, 0, 0x1000000000000000⟩⟩, 0, 0x10, 0⟩

/-- C8 witness: in `castleWKState` the white king-side castle is
emitted exactly once, and the instantiated membership disjunction
holds for it. -/
theorem castle_emission_witness :
    (MoveGeneratorContext.new castleWKState
        MoveMaps.new).get_pseudo_legal_castles.count
      (Move.new 4 6 MoveCode.kingCastle) = 1 ∧
    (Move.new 4 6 MoveCode.kingCastle = Move.new 4 6 MoveCode.kingCastle ∨
      Move.new 4 6 MoveCode.kingCastle = Move.new 4 2 MoveCode.queenCastle ∨
      Move.new 4 6 MoveCode.kingCastle = Move.new 60 62 MoveCode.kingCastle ∨
      Move.new 4 6 MoveCode.kingCastle =
        Move.new 60 58 MoveCode.queenCastle) := by
  constructor
  · rw [(castle_emission castleWKState).1, if_pos (by decide)]
  · exact (castle_emission castleWKState).2.2.2.2 _ (by decide)

/-! ## C2: slider ray emission -/

/-- `&&&` distributes over `|||`. -/
theorem or_and_right (a b c : Nat) :
    (a ||| b) &&& c = (a &&& c) ||| (b &&& c) := by
  apply Nat.eq_of_testBit_eq
  intro i
  simp only [Nat.testBit_and, Nat.testBit_or]
  cases a.testBit i <;> cases b.testBit i <;> cases c.testBit i <;> rfl

/-- `ctz` is determined by its bit characterization. -/
theorem ctz_eq_of {b k : Nat} (h64 : b < 2 ^ 64)
    (hk : b.testBit k = true) (hlow : ∀ i, i < k → b.testBit i = false) :
    ctz b = k := by
  have hb : b ≠ 0 := by
    intro h0
    rw [h0] at hk
    simp at hk
  rcases Nat.lt_trichotomy (ctz b) k with h | h | h
  · have := hlow _ h
    rw [testBit_ctz_self hb h64] at this
    exact absurd this (by simp)
  · exact h
  · have := testBit_lt_ctz h64 h
    rw [hk] at this
    exact absurd this (by simp)

/-- `msb` is determined by its bit characterization. -/
theorem msb_eq_of {b k : Nat} (h64 : b < 2 ^ 64)
    (hk : b.testBit k = true) (hhigh : ∀ i, k < i → b.testBit i = false) :
    msb b = k := by
  have hb : b ≠ 0 := by
    intro h0
    rw [h0] at hk
    simp at hk
  rcases Nat.lt_trichotomy (msb b) k with h | h | h
  · have := testBit_gt_msb h64 h
    rw [hk] at this
    exact absurd this (by simp)
  · exact h
  · have := hhigh _ h
    rw [testBit_msb_self hb h64] at this
    exact absurd this (by simp)

/-- The first set bit of a union is the smaller of the first set
bits. -/
theorem ctz_or {a b : Nat} (ha : a ≠ 0) (hb : b ≠ 0)
    (h64a : a < 2 ^ 64) (h64b : b < 2 ^ 64) :
    ctz (a ||| b) = min (ctz a) (ctz b) := by
  have h64 : a ||| b < 2 ^ 64 := Nat.or_lt_two_pow h64a h64b
  apply ctz_eq_of h64
  · rcases Nat.le_total (ctz a) (ctz b) with h | h
    · rw [Nat.min_eq_left h, Nat.testBit_or, testBit_ctz_self ha h64a]
      rfl
    · rw [Nat.min_eq_right h, Nat.testBit_or, testBit_ctz_self hb h64b]
      simp
  · intro i hi
    rw [Nat.testBit_or, testBit_lt_ctz h64a (lt_of_lt_of_le hi
      (Nat.min_le_left _ _)), testBit_lt_ctz h64b (lt_of_lt_of_le hi
      (Nat.min_le_right _ _))]
    rfl

/-- The last set bit of a union is the larger of the last set bits. -/
theorem msb_or {a b : Nat} (ha : a ≠ 0) (hb : b ≠ 0)
    (h64a : a < 2 ^ 64) (h64b : b < 2 ^ 64) :
    msb (a ||| b) = max (msb a) (msb b) := by
  have h64 : a ||| b < 2 ^ 64 := Nat.or_lt_two_pow h64a h64b
  apply msb_eq_of h64
  · rcases Nat.le_total (msb a) (msb b) with h | h
    · rw [Nat.max_eq_right h, Nat.testBit_or, testBit_msb_self hb h64b]
      simp
    · rw [Nat.max_eq_left h, Nat.testBit_or, testBit_msb_self ha h64a]
      rfl
  · intro i hi
    rw [Nat.testBit_or, testBit_gt_msb h64a (lt_of_le_of_lt
      (Nat.le_max_left _ _) hi), testBit_gt_msb h64b (lt_of_le_of_lt
      (Nat.le_max_right _ _) hi)]
    rfl

/-- Membership in `takeWhile` over a pairwise-related list whose
predicate is closed under the relation. -/
theorem mem_takeWhile_of_pairwise {R : Nat → Nat → Prop} {p : Nat → Bool}
    (hp : ∀ x y, R x y → p y = true → p x = true) {t : Nat} :
    ∀ {l : List Nat}, List.Pairwise R l →
      (t ∈ l.takeWhile p ↔ t ∈ l ∧ p t = true) := by
  intro l
  induction l with
  | nil => intro _; simp [List.takeWhile]
  | cons x xs ih =>
    intro hpair
    rcases List.pairwise_cons.mp hpair with ⟨hx, hxs⟩
    rw [List.takeWhile]
    cases hpx : p x with
    | false =>
      simp only [List.mem_cons]
      constructor
      · intro h
        simp at h
      · rintro ⟨hmem | hmem, hpt⟩
        · rw [hmem, hpx] at hpt
          cases hpt
        · have := hp x t (hx t hmem) hpt
          rw [hpx] at this
          cases this
    | true =>
      simp only [List.mem_cons]
      constructor
      · intro h
        rcases h with rfl | hmem
        · exact ⟨Or.inl rfl, hpx⟩
        · rcases (ih hxs).mp hmem with ⟨h1, h2⟩
          exact ⟨Or.inr h1, h2⟩
      · rintro ⟨hmem | hmem, hpt⟩
        · exact Or.inl hmem
        · exact Or.inr ((ih hxs).mpr ⟨hmem, hpt⟩)

/-- Quiet-move wrapping never produces a capture. -/
theorem filter_capture_map_quiet (fr : Nat) (xs : List Nat) :
    (xs.map fun t => Move.new fr t MoveCode.quietMove).filter
      (fun m => m.code.is_capture) = [] := by
  induction xs with
  | nil => rfl
  | cons x xs ih => simp [List.filter, ih, Move.new, MoveCode.is_capture]

/-- `bitsDesc` is strictly decreasing. -/
theorem bitsDesc_sorted {b : Nat} (h64 : b < 2 ^ 64) :
    List.Pairwise (· > ·) (bitsDesc b) := by
  rw [bitsDesc]
  exact List.pairwise_reverse.mpr (bits_sorted h64)

/-- The capture block of the increasing-direction ray generator. -/
theorem increasing_captures (ctx : MoveGeneratorContext) (d fr : Nat) :
    (ctx.get_pseudo_legal_moves_in_increasing_direction d fr).filter
        (fun m => m.code.is_capture) =
      (match getFirstSquare (ctx.enemy_occupation &&& d),
          getFirstSquare (ctx.friendly_occupation &&& d) with
      | some e, none => [Move.new fr e MoveCode.capture]
      | some e, some f =>
        if e < f then [Move.new fr e MoveCode.capture] else []
      | none, _ => ([] : List Move)) := by
  rw [MoveGeneratorContext.get_pseudo_legal_moves_in_increasing_direction]
  rcases eq_or_ne (ctx.friendly_occupation &&& d) 0 with hf0 | hf0 <;>
    rcases eq_or_ne (ctx.enemy_occupation &&& d) 0 with he0 | he0
  · simp [getFirstSquare, hf0, he0, List.filter_append,
      filter_capture_map_quiet, List.filter, Move.new, MoveCode.is_capture]
  · simp [getFirstSquare, hf0, he0, List.filter_append,
      filter_capture_map_quiet, List.filter, Move.new, MoveCode.is_capture]
  · simp [getFirstSquare, hf0, he0, List.filter_append,
      filter_capture_map_quiet, List.filter, Move.new, MoveCode.is_capture]
  · by_cases hef :
      ctz (ctx.enemy_occupation &&& d) < ctz (ctx.friendly_occupation &&& d)
    · simp [getFirstSquare, hf0, he0, hef, List.filter_append,
        filter_capture_map_quiet, List.filter, Move.new, MoveCode.is_capture]
    · simp [getFirstSquare, hf0, he0, hef, List.filter_append,
        filter_capture_map_quiet, List.filter, Move.new, MoveCode.is_capture]

/-- The capture block of the decreasing-direction ray generator. -/
theorem decreasing_captures (ctx : MoveGeneratorContext) (d fr : Nat) :
    (ctx.get_pseudo_legal_moves_in_decreasing_direction d fr).filter
        (fun m => m.code.is_capture) =
      (match getLastSquare (ctx.enemy_occupation &&& d),
          getLastSquare (ctx.friendly_occupation &&& d) with
      | some e, none => [Move.new fr e MoveCode.capture]
      | some e, some f =>
        if f < e then [Move.new fr e MoveCode.capture] else []
      | none, _ => ([] : List Move)) := by
  rw [MoveGeneratorContext.get_pseudo_legal_moves_in_decreasing_direction]
  rcases eq_or_ne (ctx.friendly_occupation &&& d) 0 with hf0 | hf0 <;>
    rcases eq_or_ne (ctx.enemy_occupation &&& d) 0 with he0 | he0
  · simp [getLastSquare, hf0, he0, List.filter_append,
      filter_capture_map_quiet, List.filter, Move.new, MoveCode.is_capture]
  · simp [getLastSquare, hf0, he0, List.filter_append,
      filter_capture_map_quiet, List.filter, Move.new, MoveCode.is_capture]
  · simp [getLastSquare, hf0, he0, List.filter_append,
      filter_capture_map_quiet, List.filter, Move.new, MoveCode.is_capture]
  · by_cases hef :
      msb (ctx.friendly_occupation &&& d) < msb (ctx.enemy_occupation &&& d)
    · simp [getLastSquare, hf0, he0, hef, List.filter_append,
        filter_capture_map_quiet, List.filter, Move.new, MoveCode.is_capture]
    · simp [getLastSquare, hf0, he0, hef, List.filter_append,
        filter_capture_map_quiet, List.filter, Move.new, MoveCode.is_capture]

/-- Quiet-move membership in a generic increasing ray block: capture
prefix, then quiet moves along the sorted ray squares up to the first
failure of a downward-closed predicate. -/
theorem quiet_mem_inc (fr t d : Nat) (hd : d < 2 ^ 64) (c : List Move)
    (hcaps : Move.new fr t MoveCode.quietMove ∉ c) (p : Nat → Bool)
    (hp : ∀ x y : Nat, x < y → p y = true → p x = true) :
    (Move.new fr t MoveCode.quietMove ∈
        c ++ (((bits d).takeWhile p).map
          (fun u => Move.new fr u MoveCode.quietMove))) ↔
      (d.testBit t = true ∧ p t = true) := by
  rw [List.mem_append]
  constructor
  · rintro (h | h)
    · exact absurd h hcaps
    · rcases List.mem_map.mp h with ⟨u, hu, heq⟩
      have hut : u = t := by
        have := congrArg Move.toSq heq
        simpa [Move.new] using this
      rw [hut] at hu
      rcases (mem_takeWhile_of_pairwise hp (bits_sorted hd)).mp hu
        with ⟨hmem, hpred⟩
      exact ⟨(mem_bits hd).mp hmem, hpred⟩
  · rintro ⟨ht, hpt⟩
    right
    refine List.mem_map.mpr ⟨t, ?_, rfl⟩
    exact (mem_takeWhile_of_pairwise hp (bits_sorted hd)).mpr
      ⟨(mem_bits hd).mpr ht, hpt⟩

/-- Quiet-move membership in a generic decreasing ray block. -/
theorem quiet_mem_dec (fr t d : Nat) (hd : d < 2 ^ 64) (c : List Move)
    (hcaps : Move.new fr t MoveCode.quietMove ∉ c) (p : Nat → Bool)
    (hp : ∀ x y : Nat, x > y → p y = true → p x = true) :
    (Move.new fr t MoveCode.quietMove ∈
        c ++ (((bitsDesc d).takeWhile p).map
          (fun u => Move.new fr u MoveCode.quietMove))) ↔
      (d.testBit t = true ∧ p t = true) := by
  rw [List.mem_append]
  constructor
  · rintro (h | h)
    · exact absurd h hcaps
    · rcases List.mem_map.mp h with ⟨u, hu, heq⟩
      have hut : u = t := by
        have := congrArg Move.toSq heq
        simpa [Move.new] using this
      rw [hut] at hu
      rcases (mem_takeWhile_of_pairwise hp (bitsDesc_sorted hd)).mp hu
        with ⟨hmem, hpred⟩
      rw [bitsDesc, List.mem_reverse] at hmem
      exact ⟨(mem_bits hd).mp hmem, hpred⟩
  · rintro ⟨ht, hpt⟩
    right
    refine List.mem_map.mpr ⟨t, ?_, rfl⟩
    refine (mem_takeWhile_of_pairwise hp (bitsDesc_sorted hd)).mpr
      ⟨?_, hpt⟩
    rw [bitsDesc, List.mem_reverse]
    exact (mem_bits hd).mpr ht

/-- A zero union has a zero left operand. -/
theorem or_eq_zero_left {a b : Nat} (h : a ||| b = 0) : a = 0 := by
  apply Nat.eq_of_testBit_eq
  intro i
  have hbit := congrArg (fun n => n.testBit i) h
  simp only [Nat.testBit_or, Nat.zero_testBit] at hbit ⊢
  cases ha : a.testBit i
  · rfl
  · rw [ha] at hbit
    simp at hbit

/-- Quiet emissions of the increasing-direction ray generator: a quiet
move is emitted to a ray square exactly when it lies strictly before
the first occupied square of the ray (every ray square if the ray is
unoccupied). -/
theorem increasing_quiets (ctx : MoveGeneratorContext) (d fr : Nat)
    (hd : d < 2 ^ 64) (t : Nat) :
    (Move.new fr t MoveCode.quietMove ∈
        ctx.get_pseudo_legal_moves_in_increasing_direction d fr) ↔
      (d.testBit t = true ∧
        ∀ b, getFirstSquare ((ctx.friendly_occupation |||
            ctx.enemy_occupation) &&& d) = some b → t < b) := by
  have hF : ctx.friendly_occupation &&& d < 2 ^ 64 :=
    lt_of_le_of_lt (Nat.and_le_right) hd
  have hE : ctx.enemy_occupation &&& d < 2 ^ 64 :=
    lt_of_le_of_lt (Nat.and_le_right) hd
  rw [MoveGeneratorContext.get_pseudo_legal_moves_in_increasing_direction,
    or_and_right]
  rcases eq_or_ne (ctx.friendly_occupation &&& d) 0 with hf0 | hf0 <;>
    rcases eq_or_ne (ctx.enemy_occupation &&& d) 0 with he0 | he0
  · have hgf : getFirstSquare (ctx.friendly_occupation &&& d) = none := by
      rw [getFirstSquare, if_pos hf0]
    have hge : getFirstSquare (ctx.enemy_occupation &&& d) = none := by
      rw [getFirstSquare, if_pos he0]
    have hu : getFirstSquare ((ctx.friendly_occupation &&& d) |||
        (ctx.enemy_occupation &&& d)) = none := by
      rw [hf0, he0]
      rfl
    rw [hu]
    simp only [hgf, hge]
    rw [quiet_mem_inc fr t d hd [] (by simp) (fun u => true)
      (fun x y h hy => hy)]
    simp
  · have hgf : getFirstSquare (ctx.friendly_occupation &&& d) = none := by
      rw [getFirstSquare, if_pos hf0]
    have hge : getFirstSquare (ctx.enemy_occupation &&& d) =
        some (ctz (ctx.enemy_occupation &&& d)) := by
      rw [getFirstSquare, if_neg he0]
    have hu : getFirstSquare ((ctx.friendly_occupation &&& d) |||
        (ctx.enemy_occupation &&& d)) =
        some (ctz (ctx.enemy_occupation &&& d)) := by
      rw [hf0, Nat.zero_or]
      exact hge
    rw [hu]
    simp only [hgf, hge]
    rw [quiet_mem_inc fr t d hd
      [Move.new fr (ctz (ctx.enemy_occupation &&& d)) MoveCode.capture]
      (by simp [Move.new])
      (fun u => decide (u < ctz (ctx.enemy_occupation &&& d)))
      (by intro x y hxy hy; simp only [decide_eq_true_eq] at hy ⊢; omega)]
    simp only [decide_eq_true_eq, Option.some.injEq]
    constructor
    · rintro ⟨h1, h2⟩
      exact ⟨h1, fun b hb => hb ▸ h2⟩
    · rintro ⟨h1, h2⟩
      exact ⟨h1, h2 _ rfl⟩
  · have hgf : getFirstSquare (ctx.friendly_occupation &&& d) =
        some (ctz (ctx.friendly_occupation &&& d)) := by
      rw [getFirstSquare, if_neg hf0]
    have hge : getFirstSquare (ctx.enemy_occupation &&& d) = none := by
      rw [getFirstSquare, if_pos he0]
    have hu : getFirstSquare ((ctx.friendly_occupation &&& d) |||
        (ctx.enemy_occupation &&& d)) =
        some (ctz (ctx.friendly_occupation &&& d)) := by
      rw [he0, Nat.or_zero]
      exact hgf
    rw [hu]
    simp only [hgf, hge]
    rw [quiet_mem_inc fr t d hd [] (by simp)
      (fun u => decide (u < ctz (ctx.friendly_occupation &&& d)))
      (by intro x y hxy hy; simp only [decide_eq_true_eq] at hy ⊢; omega)]
    simp only [decide_eq_true_eq, Option.some.injEq]
    constructor
    · rintro ⟨h1, h2⟩
      exact ⟨h1, fun b hb => hb ▸ h2⟩
    · rintro ⟨h1, h2⟩
      exact ⟨h1, h2 _ rfl⟩
  · have hgf : getFirstSquare (ctx.friendly_occupation &&& d) =
        some (ctz (ctx.friendly_occupation &&& d)) := by
      rw [getFirstSquare, if_neg hf0]
    have hge : getFirstSquare (ctx.enemy_occupation &&& d) =
        some (ctz (ctx.enemy_occupation &&& d)) := by
      rw [getFirstSquare, if_neg he0]
    have hor0 : (ctx.friendly_occupation &&& d) |||
        (ctx.enemy_occupation &&& d) ≠ 0 := by
      intro h
      exact hf0 (or_eq_zero_left h)
    have hu : getFirstSquare ((ctx.friendly_occupation &&& d) |||
        (ctx.enemy_occupation &&& d)) =
        some (min (ctz (ctx.friendly_occupation &&& d))
          (ctz (ctx.enemy_occupation &&& d))) := by
      rw [getFirstSquare, if_neg hor0, ctz_or hf0 he0 hF hE]
    rw [hu]
    simp only [hgf, hge]
    by_cases hef : ctz (ctx.enemy_occupation &&& d) <
        ctz (ctx.friendly_occupation &&& d)
    · rw [if_pos hef]
      rw [quiet_mem_inc fr t d hd
        [Move.new fr (ctz (ctx.enemy_occupation &&& d)) MoveCode.capture]
        (by simp [Move.new])
        (fun u => decide (u < ctz (ctx.enemy_occupation &&& d)))
        (by intro x y hxy hy; simp only [decide_eq_true_eq] at hy ⊢; omega)]
      rw [Nat.min_eq_right (le_of_lt hef)]
      simp only [decide_eq_true_eq, Option.some.injEq]
      constructor
      · rintro ⟨h1, h2⟩
        exact ⟨h1, fun b hb => hb ▸ h2⟩
      · rintro ⟨h1, h2⟩
        exact ⟨h1, h2 _ rfl⟩
    · rw [if_neg hef]
      rw [quiet_mem_inc fr t d hd [] (by simp)
        (fun u => decide (u < ctz (ctx.friendly_occupation &&& d)))
        (by intro x y hxy hy; simp only [decide_eq_true_eq] at hy ⊢; omega)]
      rw [Nat.min_eq_left (le_of_not_lt hef)]
      simp only [decide_eq_true_eq, Option.some.injEq]
      constructor
      · rintro ⟨h1, h2⟩
        exact ⟨h1, fun b hb => hb ▸ h2⟩
      · rintro ⟨h1, h2⟩
        exact ⟨h1, h2 _ rfl⟩

/-- Quiet emissions of the decreasing-direction ray generator: a quiet
move is emitted to a ray square exactly when it lies strictly past
(above) the last occupied square of the ray in index order — strictly
before it in travel order — or anywhere on an unoccupied ray. -/
theorem decreasing_quiets (ctx : MoveGeneratorContext) (d fr : Nat)
    (hd : d < 2 ^ 64) (t : Nat) :
    (Move.new fr t MoveCode.quietMove ∈
        ctx.get_pseudo_legal_moves_in_decreasing_direction d fr) ↔
      (d.testBit t = true ∧
        ∀ b, getLastSquare ((ctx.friendly_occupation |||
            ctx.enemy_occupation) &&& d) = some b → b < t) := by
  have hF : ctx.friendly_occupation &&& d < 2 ^ 64 :=
    lt_of_le_of_lt (Nat.and_le_right) hd
  have hE : ctx.enemy_occupation &&& d < 2 ^ 64 :=
    lt_of_le_of_lt (Nat.and_le_right) hd
  rw [MoveGeneratorContext.get_pseudo_legal_moves_in_decreasing_direction,
    or_and_right]
  rcases eq_or_ne (ctx.friendly_occupation &&& d) 0 with hf0 | hf0 <;>
    rcases eq_or_ne (ctx.enemy_occupation &&& d) 0 with he0 | he0
  · have hgf : getLastSquare (ctx.friendly_occupation &&& d) = none := by
      rw [getLastSquare, if_pos hf0]
    have hge : getLastSquare (ctx.enemy_occupation &&& d) = none := by
      rw [getLastSquare, if_pos he0]
    have hu : getLastSquare ((ctx.friendly_occupation &&& d) |||
        (ctx.enemy_occupation &&& d)) = none := by
      rw [hf0, he0]
      rfl
    rw [hu]
    simp only [hgf, hge]
    rw [quiet_mem_dec fr t d hd [] (by simp) (fun u => true)
      (fun x y h hy => hy)]
    simp
  · have hgf : getLastSquare (ctx.friendly_occupation &&& d) = none := by
      rw [getLastSquare, if_pos hf0]
    have hge : getLastSquare (ctx.enemy_occupation &&& d) =
        some (msb (ctx.enemy_occupation &&& d)) := by
      rw [getLastSquare, if_neg he0]
    have hu : getLastSquare ((ctx.friendly_occupation &&& d) |||
        (ctx.enemy_occupation &&& d)) =
        some (msb (ctx.enemy_occupation &&& d)) := by
      rw [hf0, Nat.zero_or]
      exact hge
    rw [hu]
    simp only [hgf, hge]
    rw [quiet_mem_dec fr t d hd
      [Move.new fr (msb (ctx.enemy_occupation &&& d)) MoveCode.capture]
      (by simp [Move.new])
      (fun u => decide (msb (ctx.enemy_occupation &&& d) < u))
      (by intro x y hxy hy; simp only [decide_eq_true_eq] at hy ⊢; omega)]
    simp only [decide_eq_true_eq, Option.some.injEq]
    constructor
    · rintro ⟨h1, h2⟩
      exact ⟨h1, fun b hb => hb ▸ h2⟩
    · rintro ⟨h1, h2⟩
      exact ⟨h1, h2 _ rfl⟩
  · have hgf : getLastSquare (ctx.friendly_occupation &&& d) =
        some (msb (ctx.friendly_occupation &&& d)) := by
      rw [getLastSquare, if_neg hf0]
    have hge : getLastSquare (ctx.enemy_occupation &&& d) = none := by
      rw [getLastSquare, if_pos he0]
    have hu : getLastSquare ((ctx.friendly_occupation &&& d) |||
        (ctx.enemy_occupation &&& d)) =
        some (msb (ctx.friendly_occupation &&& d)) := by
      rw [he0, Nat.or_zero]
      exact hgf
    rw [hu]
    simp only [hgf, hge]
    rw [quiet_mem_dec fr t d hd [] (by simp)
      (fun u => decide (msb (ctx.friendly_occupation &&& d) < u))
      (by intro x y hxy hy; simp only [decide_eq_true_eq] at hy ⊢; omega)]
    simp only [decide_eq_true_eq, Option.some.injEq]
    constructor
    · rintro ⟨h1, h2⟩
      exact ⟨h1, fun b hb => hb ▸ h2⟩
    · rintro ⟨h1, h2⟩
      exact ⟨h1, h2 _ rfl⟩
  · have hgf : getLastSquare (ctx.friendly_occupation &&& d) =
        some (msb (ctx.friendly_occupation &&& d)) := by
      rw [getLastSquare, if_neg hf0]
    have hge : getLastSquare (ctx.enemy_occupation &&& d) =
        some (msb (ctx.enemy_occupation &&& d)) := by
      rw [getLastSquare, if_neg he0]
    have hor0 : (ctx.friendly_occupation &&& d) |||
        (ctx.enemy_occupation &&& d) ≠ 0 := by
      intro h
      exact hf0 (or_eq_zero_left h)
    have hu : getLastSquare ((ctx.friendly_occupation &&& d) |||
        (ctx.enemy_occupation &&& d)) =
        some (max (msb (ctx.friendly_occupation &&& d))
          (msb (ctx.enemy_occupation &&& d))) := by
      rw [getLastSquare, if_neg hor0, msb_or hf0 he0 hF hE]
    rw [hu]
    simp only [hgf, hge]
    by_cases hef : msb (ctx.friendly_occupation &&& d) <
        msb (ctx.enemy_occupation &&& d)
    · rw [if_pos hef]
      rw [quiet_mem_dec fr t d hd
        [Move.new fr (msb (ctx.enemy_occupation &&& d)) MoveCode.capture]
        (by simp [Move.new])
        (fun u => decide (msb (ctx.enemy_occupation &&& d) < u))
        (by intro x y hxy hy; simp only [decide_eq_true_eq] at hy ⊢; omega)]
      rw [Nat.max_eq_right (le_of_lt hef)]
      simp only [decide_eq_true_eq, Option.some.injEq]
      constructor
      · rintro ⟨h1, h2⟩
        exact ⟨h1, fun b hb => hb ▸ h2⟩
      · rintro ⟨h1, h2⟩
        exact ⟨h1, h2 _ rfl⟩
    · rw [if_neg hef]
      rw [quiet_mem_dec fr t d hd [] (by simp)
        (fun u => decide (msb (ctx.friendly_occupation &&& d) < u))
        (by intro x y hxy hy; simp only [decide_eq_true_eq] at hy ⊢; omega)]
      rw [Nat.max_eq_left (le_of_not_lt hef)]
      simp only [decide_eq_true_eq, Option.some.injEq]
      constructor
      · rintro ⟨h1, h2⟩
        exact ⟨h1, fun b hb => hb ▸ h2⟩
      · rintro ⟨h1, h2⟩
        exact ⟨h1, h2 _ rfl⟩

/-- C2: along every single ray (the per-direction workers that the
bishop/rook/queen wrappers call on each ray map), the generator emits
exactly one capture — on the nearest enemy piece in travel order —
precisely when that enemy is strictly nearer than the nearest friendly
blocker or there is no friendly blocker, emits no capture otherwise,
and emits a quiet move to exactly the ray squares strictly before the
nearest occupied square of the ray (all ray squares when the ray is
unoccupied).  Travel order is increasing square index for the
increasing worker and decreasing square index for the decreasing
worker. -/
theorem slider_ray_emission (ctx : MoveGeneratorContext) (d fr : Nat)
    (hd : d < 2 ^ 64) :
    ((ctx.get_pseudo_legal_moves_in_increasing_direction d fr).filter
        (fun m => m.code.is_capture) =
      (match getFirstSquare (ctx.enemy_occupation &&& d),
          getFirstSquare (ctx.friendly_occupation &&& d) with
      | some e, none => [Move.new fr e MoveCode.capture]
      | some e, some f =>
        if e < f then [Move.new fr e MoveCode.capture] else []
      | none, _ => ([] : List Move))) ∧
    (∀ t, (Move.new fr t MoveCode.quietMove ∈
        ctx.get_pseudo_legal_moves_in_increasing_direction d fr) ↔
      (d.testBit t = true ∧
        ∀ b, getFirstSquare ((ctx.friendly_occupation |||
            ctx.enemy_occupation) &&& d) = some b → t < b)) ∧
    ((ctx.get_pseudo_legal_moves_in_decreasing_direction d fr).filter
        (fun m => m.code.is_capture) =
      (match getLastSquare (ctx.enemy_occupation &&& d),
          getLastSquare (ctx.friendly_occupation &&& d) with
      | some e, none => [Move.new fr e MoveCode.capture]
      | some e, some f =>
        if f < e then [Move.new fr e MoveCode.capture] else []
      | none, _ => ([] : List Move))) ∧
    (∀ t, (Move.new fr t MoveCode.quietMove ∈
        ctx.get_pseudo_legal_moves_in_decreasing_direction d fr) ↔
      (d.testBit t = true ∧
        ∀ b, getLastSquare ((ctx.friendly_occupation |||
            ctx.enemy_occupation) &&& d) = some b → b < t)) :=
  ⟨increasing_captures ctx d fr,
    fun t => increasing_quiets ctx d fr hd t,
    decreasing_captures ctx d fr,
    fun t => decreasing_quiets ctx d fr hd t⟩

/-- C2 witness: the east ray of a1 in the starting position — the
friendly knight on b1 blocks immediately, so square d1 gets no quiet
move; the instantiated characterization evaluates on both sides. -/
theorem slider_ray_emission_witness :
    MoveMaps.new.e_rank 0 < 2 ^ 64 ∧
    ((Move.new 0 3 MoveCode.quietMove ∈
        (MoveGeneratorContext.new startState
            MoveMaps.new).get_pseudo_legal_moves_in_increasing_direction
          (MoveMaps.new.e_rank 0) 0) ↔
      ((MoveMaps.new.e_rank 0).testBit 3 = true ∧
        ∀ b, getFirstSquare
            (((MoveGeneratorContext.new startState
                MoveMaps.new).friendly_occupation |||
              (MoveGeneratorContext.new startState
                MoveMaps.new).enemy_occupation) &&&
              MoveMaps.new.e_rank 0) = some b → 3 < b)) :=
  ⟨by decide,
    (slider_ray_emission (MoveGeneratorContext.new startState MoveMaps.new)
      (MoveMaps.new.e_rank 0) 0 (by decide)).2.1 3⟩

/-! ## C3: `is_square_attacked` vs brute-force enumeration -/

/-- Complement bit access below 64. -/
theorem testBit_not64 {b i : Nat} (hi : i < 64) :
    (not64 b).testBit i = !b.testBit i := by
  rw [not64, FULL, Nat.testBit_xor, Nat.testBit_two_pow_sub_one]
  simp [hi]

/-- Bits of the strictly-below mask. -/
theorem testBit_belowMask {p i : Nat} :
    ((1 <<< p) - 1).testBit i = decide (i < p) := by
  rw [Nat.shiftLeft_eq, one_mul, Nat.testBit_two_pow_sub_one]

/-- A set bit makes a number nonzero. -/
theorem ne_zero_of_testBit {b i : Nat} (h : b.testBit i = true) : b ≠ 0 := by
  intro h0
  rw [h0, Nat.zero_testBit] at h
  cases h

/-- Bitwise conjunction distributes over disjunction, left form. -/
theorem and_or_left (a b c : Nat) :
    a &&& (b ||| c) = (a &&& b) ||| (a &&& c) := by
  apply Nat.eq_of_testBit_eq
  intro i
  simp only [Nat.testBit_and, Nat.testBit_or]
  cases a.testBit i <;> cases b.testBit i <;> cases c.testBit i <;> rfl

/-- Disjointness survives a common mask. -/
theorem and_pair_zero {T B : Nat} (ray : Nat) (h : T &&& B = 0) :
    (ray &&& T) &&& (ray &&& B) = 0 := by
  apply Nat.eq_of_testBit_eq
  intro i
  have hi := congrArg (fun n => n.testBit i) h
  simp only [Nat.testBit_and, Nat.zero_testBit] at hi ⊢
  cases ht : T.testBit i <;> cases hb : B.testBit i <;>
    cases hr : ray.testBit i <;> simp_all

/-- `capture_in_increasing_direction` holds exactly when some target
bit sits on the ray with no occupied ray square strictly below it,
the occupation being targets plus blockers. -/
theorem capture_inc_iff {ray T B : Nat} (hT : T < 2 ^ 64)
    (hB : B < 2 ^ 64) (hdisj : T &&& B = 0) :
    capture_in_increasing_direction ray T B = true ↔
      ∃ p, (ray &&& T).testBit p = true ∧
        ray &&& (T ||| B) &&& ((1 <<< p) - 1) = 0 := by
  have hTr : ray &&& T < 2 ^ 64 := lt_of_le_of_lt Nat.and_le_right hT
  have hBr : ray &&& B < 2 ^ 64 := lt_of_le_of_lt Nat.and_le_right hB
  have hAC : (ray &&& T) &&& (ray &&& B) = 0 := and_pair_zero ray hdisj
  have hsplit : ray &&& (T ||| B) = (ray &&& T) ||| (ray &&& B) :=
    and_or_left ray T B
  rw [capture_in_increasing_direction, hsplit]
  have hbits0 : ∀ p, (ray &&& T).testBit p = true →
      ((∀ i, i < p → ((ray &&& T) ||| (ray &&& B)).testBit i = false) ↔
        ((ray &&& T) ||| (ray &&& B)) &&& ((1 <<< p) - 1) = 0) := by
    intro p _
    constructor
    · intro hlow
      apply Nat.eq_of_testBit_eq
      intro i
      simp only [Nat.testBit_and, testBit_belowMask, Nat.zero_testBit]
      rcases Nat.lt_or_ge i p with hi | hi
      · rw [hlow i hi]
        rfl
      · simp [show ¬ i < p by omega]
    · intro hmask i hi
      have := congrArg (fun n => n.testBit i) hmask
      simp only [Nat.testBit_and, testBit_belowMask, Nat.zero_testBit,
        hi] at this
      cases hx : ((ray &&& T) ||| (ray &&& B)).testBit i
      · rfl
      · rw [hx] at this
        simp [show i < p from hi] at this
  constructor
  · intro h
    rcases eq_or_ne (ray &&& B) 0 with hb0 | hb0 <;>
      rcases eq_or_ne (ray &&& T) 0 with ht0 | ht0
    · rw [getFirstSquare, if_pos hb0, getFirstSquare, if_pos ht0] at h
      cases h
    · refine ⟨ctz (ray &&& T), testBit_ctz_self ht0 hTr, ?_⟩
      rw [← hbits0 _ (testBit_ctz_self ht0 hTr)]
      intro i hi
      rw [Nat.testBit_or, testBit_lt_ctz hTr hi, hb0, Nat.zero_testBit]
      rfl
    · rw [getFirstSquare, if_neg hb0, getFirstSquare, if_pos ht0] at h
      cases h
    · rw [getFirstSquare, if_neg hb0, getFirstSquare, if_neg ht0] at h
      have hlt : ctz (ray &&& T) < ctz (ray &&& B) := by
        simpa using h
      refine ⟨ctz (ray &&& T), testBit_ctz_self ht0 hTr, ?_⟩
      rw [← hbits0 _ (testBit_ctz_self ht0 hTr)]
      intro i hi
      rw [Nat.testBit_or, testBit_lt_ctz hTr hi,
        testBit_lt_ctz hBr (by omega)]
      rfl
  · rintro ⟨p, hp, hempty⟩
    have ht0 : ray &&& T ≠ 0 := ne_zero_of_testBit hp
    have hlow := (hbits0 p hp).mpr hempty
    have hctz : ctz (ray &&& T) = p := by
      apply ctz_eq_of hTr hp
      intro i hi
      have := hlow i hi
      rw [Nat.testBit_or] at this
      cases hx : (ray &&& T).testBit i
      · rfl
      · rw [hx] at this
        simp at this
    rcases eq_or_ne (ray &&& B) 0 with hb0 | hb0
    · rw [getFirstSquare, if_pos hb0, getFirstSquare, if_neg ht0]
    · rw [getFirstSquare, if_neg hb0, getFirstSquare, if_neg ht0]
      have hBbit : (ray &&& B).testBit (ctz (ray &&& B)) = true :=
        testBit_ctz_self hb0 hBr
      have hge : ¬ ctz (ray &&& B) < p := by
        intro hlt
        have := hlow _ hlt
        rw [Nat.testBit_or, hBbit] at this
        simp at this
      have hne : ctz (ray &&& B) ≠ p := by
        intro he
        have h2 : (ray &&& B).testBit p = true := he ▸ hBbit
        have h3 := congrArg (fun n => n.testBit p) hAC
        simp only [Nat.testBit_and, Nat.zero_testBit] at h3
        simp only [Nat.testBit_and] at hp h2
        rw [Bool.and_eq_true] at hp h2
        rw [hp.1, hp.2, h2.2] at h3
        simp at h3
      simp only [decide_eq_true_eq]
      rw [hctz]
      omega

/-- `capture_in_decreasing_direction` holds exactly when some target
bit sits on the ray with no occupied ray square strictly above it. -/
theorem capture_dec_iff {ray T B : Nat} (hT : T < 2 ^ 64)
    (hB : B < 2 ^ 64) (hdisj : T &&& B = 0) :
    capture_in_decreasing_direction ray T B = true ↔
      ∃ p, (ray &&& T).testBit p = true ∧
        ray &&& (T ||| B) &&& not64 ((1 <<< (p + 1)) - 1) = 0 := by
  have hTr : ray &&& T < 2 ^ 64 := lt_of_le_of_lt Nat.and_le_right hT
  have hBr : ray &&& B < 2 ^ 64 := lt_of_le_of_lt Nat.and_le_right hB
  have hAC : (ray &&& T) &&& (ray &&& B) = 0 := and_pair_zero ray hdisj
  have hsplit : ray &&& (T ||| B) = (ray &&& T) ||| (ray &&& B) :=
    and_or_left ray T B
  have horlt : (ray &&& T) ||| (ray &&& B) < 2 ^ 64 :=
    Nat.or_lt_two_pow hTr hBr
  rw [capture_in_decreasing_direction, hsplit]
  have hbits0 : ∀ p,
      ((∀ i, p < i → ((ray &&& T) ||| (ray &&& B)).testBit i = false) ↔
        ((ray &&& T) ||| (ray &&& B)) &&&
          not64 ((1 <<< (p + 1)) - 1) = 0) := by
    intro p
    constructor
    · intro hhigh
      apply Nat.eq_of_testBit_eq
      intro i
      simp only [Nat.testBit_and, Nat.zero_testBit]
      rcases Nat.lt_or_ge i 64 with hi64 | hi64
      · rw [testBit_not64 hi64, testBit_belowMask]
        rcases Nat.lt_or_ge p i with hi | hi
        · rw [hhigh i hi]
          rfl
        · simp [show i < p + 1 by omega]
      · rw [Nat.testBit_lt_two_pow
          (lt_of_lt_of_le horlt (Nat.pow_le_pow_right (by norm_num) hi64))]
        rfl
    · intro hmask i hi
      rcases Nat.lt_or_ge i 64 with hi64 | hi64
      · have := congrArg (fun n => n.testBit i) hmask
        simp only [Nat.testBit_and, Nat.zero_testBit, testBit_not64 hi64,
          testBit_belowMask] at this
        cases hx : ((ray &&& T) ||| (ray &&& B)).testBit i
        · rfl
        · rw [hx] at this
          simp [show ¬ i < p + 1 by omega] at this
      · exact Nat.testBit_lt_two_pow
          (lt_of_lt_of_le horlt (Nat.pow_le_pow_right (by norm_num) hi64))
  constructor
  · intro h
    rcases eq_or_ne (ray &&& B) 0 with hb0 | hb0 <;>
      rcases eq_or_ne (ray &&& T) 0 with ht0 | ht0
    · rw [getLastSquare, if_pos hb0, getLastSquare, if_pos ht0] at h
      cases h
    · refine ⟨msb (ray &&& T), testBit_msb_self ht0 hTr, ?_⟩
      rw [← hbits0]
      intro i hi
      rw [Nat.testBit_or, testBit_gt_msb hTr hi, hb0, Nat.zero_testBit]
      rfl
    · rw [getLastSquare, if_neg hb0, getLastSquare, if_pos ht0] at h
      cases h
    · rw [getLastSquare, if_neg hb0, getLastSquare, if_neg ht0] at h
      have hlt : msb (ray &&& B) < msb (ray &&& T) := by
        simpa using h
      refine ⟨msb (ray &&& T), testBit_msb_self ht0 hTr, ?_⟩
      rw [← hbits0]
      intro i hi
      rw [Nat.testBit_or, testBit_gt_msb hTr hi,
        testBit_gt_msb hBr (by omega)]
      rfl
  · rintro ⟨p, hp, hempty⟩
    have ht0 : ray &&& T ≠ 0 := ne_zero_of_testBit hp
    have hhigh := (hbits0 p).mpr hempty
    have hmsb : msb (ray &&& T) = p := by
      apply msb_eq_of hTr hp
      intro i hi
      have := hhigh i hi
      rw [Nat.testBit_or] at this
      cases hx : (ray &&& T).testBit i
      · rfl
      · rw [hx] at this
        simp at this
    rcases eq_or_ne (ray &&& B) 0 with hb0 | hb0
    · rw [getLastSquare, if_pos hb0, getLastSquare, if_neg ht0]
    · rw [getLastSquare, if_neg hb0, getLastSquare, if_neg ht0]
      have hBbit : (ray &&& B).testBit (msb (ray &&& B)) = true :=
        testBit_msb_self hb0 hBr
      have hge : ¬ p < msb (ray &&& B) := by
        intro hlt
        have := hhigh _ hlt
        rw [Nat.testBit_or, hBbit] at this
        simp at this
      have hne : msb (ray &&& B) ≠ p := by
        intro he
        have h2 : (ray &&& B).testBit p = true := he ▸ hBbit
        have h3 := congrArg (fun n => n.testBit p) hAC
        simp only [Nat.testBit_and, Nat.zero_testBit] at h3
        simp only [Nat.testBit_and] at hp h2
        rw [Bool.and_eq_true] at hp h2
        rw [hp.1, hp.2, h2.2] at h3
        simp at h3
      simp only [decide_eq_true_eq]
      rw [hmsb]
      omega

/-- The nearest-target condition of the increasing ray worker in
first-occupied form. -/
theorem first_exists_iff {A C : Nat} (hA : A < 2 ^ 64) (hC : C < 2 ^ 64)
    (hdisj : A &&& C = 0) (p : Nat) :
    (getFirstSquare A = some p ∧ (C = 0 ∨ p < ctz C)) ↔
      (A.testBit p = true ∧ (A ||| C) &&& ((1 <<< p) - 1) = 0) := by
  constructor
  · rintro ⟨hfs, hcond⟩
    rcases eq_or_ne A 0 with rfl | hA0
    · rw [getFirstSquare, if_pos rfl] at hfs
      cases hfs
    · rw [getFirstSquare, if_neg hA0] at hfs
      have hp : ctz A = p := by
        simpa using hfs
      subst hp
      refine ⟨testBit_ctz_self hA0 hA, ?_⟩
      apply Nat.eq_of_testBit_eq
      intro i
      simp only [Nat.testBit_and, Nat.testBit_or, testBit_belowMask,
        Nat.zero_testBit]
      rcases Nat.lt_or_ge i (ctz A) with hi | hi
      · rw [testBit_lt_ctz hA hi]
        have hc : C.testBit i = false := by
          rcases hcond with h0 | hlt
          · rw [h0, Nat.zero_testBit]
          · exact testBit_lt_ctz hC (by omega)
        rw [hc]
        rfl
      · simp [show ¬ i < ctz A by omega]
  · rintro ⟨hp, hempty⟩
    have hA0 : A ≠ 0 := ne_zero_of_testBit hp
    have hlow : ∀ i, i < p → (A ||| C).testBit i = false := by
      intro i hi
      have := congrArg (fun n => n.testBit i) hempty
      simp only [Nat.testBit_and, testBit_belowMask, Nat.zero_testBit,
        hi] at this
      cases hx : (A ||| C).testBit i
      · rfl
      · rw [hx] at this
        simp [show i < p from hi] at this
    have hctz : ctz A = p := by
      apply ctz_eq_of hA hp
      intro i hi
      have := hlow i hi
      rw [Nat.testBit_or] at this
      cases hx : A.testBit i
      · rfl
      · rw [hx] at this
        simp at this
    refine ⟨by rw [getFirstSquare, if_neg hA0, hctz], ?_⟩
    rcases eq_or_ne C 0 with rfl | hC0
    · exact Or.inl rfl
    · right
      have hCbit : C.testBit (ctz C) = true := testBit_ctz_self hC0 hC
      have hge : ¬ ctz C < p := by
        intro hlt
        have := hlow _ hlt
        rw [Nat.testBit_or, hCbit] at this
        simp at this
      have hne : ctz C ≠ p := by
        intro he
        have h2 : C.testBit p = true := he ▸ hCbit
        have h3 := congrArg (fun n => n.testBit p) hdisj
        simp only [Nat.testBit_and, Nat.zero_testBit, hp, h2] at h3
        simp at h3
      omega

/-- The nearest-target condition of the decreasing ray worker in
last-occupied form. -/
theorem last_exists_iff {A C : Nat} (hA : A < 2 ^ 64) (hC : C < 2 ^ 64)
    (hdisj : A &&& C = 0) (p : Nat) :
    (getLastSquare A = some p ∧ (C = 0 ∨ msb C < p)) ↔
      (A.testBit p = true ∧
        (A ||| C) &&& not64 ((1 <<< (p + 1)) - 1) = 0) := by
  have horlt : A ||| C < 2 ^ 64 := Nat.or_lt_two_pow hA hC
  constructor
  · rintro ⟨hfs, hcond⟩
    rcases eq_or_ne A 0 with rfl | hA0
    · rw [getLastSquare, if_pos rfl] at hfs
      cases hfs
    · rw [getLastSquare, if_neg hA0] at hfs
      have hp : msb A = p := by
        simpa using hfs
      subst hp
      refine ⟨testBit_msb_self hA0 hA, ?_⟩
      apply Nat.eq_of_testBit_eq
      intro i
      simp only [Nat.testBit_and, Nat.testBit_or, Nat.zero_testBit]
      rcases Nat.lt_or_ge i 64 with hi64 | hi64
      · rw [testBit_not64 hi64, testBit_belowMask]
        rcases Nat.lt_or_ge (msb A) i with hi | hi
        · rw [testBit_gt_msb hA hi]
          have hc : C.testBit i = false := by
            rcases hcond with h0 | hlt
            · rw [h0, Nat.zero_testBit]
            · exact testBit_gt_msb hC (by omega)
          rw [hc]
          rfl
        · simp [show i < msb A + 1 by omega]
      · rw [Nat.testBit_lt_two_pow (lt_of_lt_of_le hA
            (Nat.pow_le_pow_right (by norm_num) hi64)),
          Nat.testBit_lt_two_pow (lt_of_lt_of_le hC
            (Nat.pow_le_pow_right (by norm_num) hi64))]
        rfl
  · rintro ⟨hp, hempty⟩
    have hA0 : A ≠ 0 := ne_zero_of_testBit hp
    have hhigh : ∀ i, p < i → (A ||| C).testBit i = false := by
      intro i hi
      rcases Nat.lt_or_ge i 64 with hi64 | hi64
      · have := congrArg (fun n => n.testBit i) hempty
        simp only [Nat.testBit_and, Nat.zero_testBit,
          testBit_not64 hi64, testBit_belowMask] at this
        cases hx : (A ||| C).testBit i
        · rfl
        · rw [hx] at this
          simp [show ¬ i < p + 1 by omega] at this
      · exact Nat.testBit_lt_two_pow (lt_of_lt_of_le horlt
          (Nat.pow_le_pow_right (by norm_num) hi64))
    have hmsb : msb A = p := by
      apply msb_eq_of hA hp
      intro i hi
      have := hhigh i hi
      rw [Nat.testBit_or] at this
      cases hx : A.testBit i
      · rfl
      · rw [hx] at this
        simp at this
    refine ⟨by rw [getLastSquare, if_neg hA0, hmsb], ?_⟩
    rcases eq_or_ne C 0 with rfl | hC0
    · exact Or.inl rfl
    · right
      have hCbit : C.testBit (msb C) = true := testBit_msb_self hC0 hC
      have hge : ¬ p < msb C := by
        intro hlt
        have := hhigh _ hlt
        rw [Nat.testBit_or, hCbit] at this
        simp at this
      have hne : msb C ≠ p := by
        intro he
        have h2 : C.testBit p = true := he ▸ hCbit
        have h3 := congrArg (fun n => n.testBit p) hdisj
        simp only [Nat.testBit_and, Nat.zero_testBit, hp, h2] at h3
        simp at h3
      omega

/-- `getFirstSquare` option characterizations. -/
theorem getFirstSquare_eq_none_iff {x : Nat} :
    getFirstSquare x = none ↔ x = 0 := by
  rw [getFirstSquare]
  rcases eq_or_ne x 0 with rfl | hx
  · simp
  · simp [hx]

/-- `getFirstSquare` hit characterization. -/
theorem getFirstSquare_eq_some_iff {x p : Nat} :
    getFirstSquare x = some p ↔ (x ≠ 0 ∧ ctz x = p) := by
  rw [getFirstSquare]
  rcases eq_or_ne x 0 with rfl | hx
  · simp
  · simp [hx]

/-- `getLastSquare` option characterizations. -/
theorem getLastSquare_eq_none_iff {x : Nat} :
    getLastSquare x = none ↔ x = 0 := by
  rw [getLastSquare]
  rcases eq_or_ne x 0 with rfl | hx
  · simp
  · simp [hx]

/-- `getLastSquare` hit characterization. -/
theorem getLastSquare_eq_some_iff {x p : Nat} :
    getLastSquare x = some p ↔ (x ≠ 0 ∧ msb x = p) := by
  rw [getLastSquare]
  rcases eq_or_ne x 0 with rfl | hx
  · simp
  · simp [hx]

/-- Disjointness survives masking both operands. -/
theorem and_pair_zero_right {T B : Nat} (d : Nat) (h : T &&& B = 0) :
    (T &&& d) &&& (B &&& d) = 0 := by
  apply Nat.eq_of_testBit_eq
  intro i
  have hi := congrArg (fun n => n.testBit i) h
  simp only [Nat.testBit_and, Nat.zero_testBit] at hi ⊢
  cases ht : T.testBit i <;> cases hb : B.testBit i <;>
    cases hr : d.testBit i <;> simp_all

/-- Capture membership in the increasing ray worker, in
first-occupied form. -/
theorem ray_capture_mem_inc (ctx : MoveGeneratorContext) (d fr sq : Nat)
    (hfo : ctx.friendly_occupation < 2 ^ 64)
    (heo : ctx.enemy_occupation < 2 ^ 64)
    (hdisj : ctx.enemy_occupation &&& ctx.friendly_occupation = 0) :
    (∃ m ∈ ctx.get_pseudo_legal_moves_in_increasing_direction d fr,
        m.toSq = sq ∧ m.code.is_capture = true) ↔
      ((ctx.enemy_occupation &&& d).testBit sq = true ∧
        ((ctx.enemy_occupation &&& d) ||| (ctx.friendly_occupation &&& d))
          &&& ((1 <<< sq) - 1) = 0) := by
  have hE : ctx.enemy_occupation &&& d < 2 ^ 64 :=
    lt_of_le_of_lt Nat.and_le_left heo
  have hF : ctx.friendly_occupation &&& d < 2 ^ 64 :=
    lt_of_le_of_lt Nat.and_le_left hfo
  have hdisj2 : (ctx.enemy_occupation &&& d) &&&
      (ctx.friendly_occupation &&& d) = 0 :=
    and_pair_zero_right d hdisj
  constructor
  · rintro ⟨m, hm, hsq, hcap⟩
    have hflt : m ∈ (ctx.get_pseudo_legal_moves_in_increasing_direction
        d fr).filter (fun m => m.code.is_capture) :=
      List.mem_filter.mpr ⟨hm, hcap⟩
    rw [increasing_captures] at hflt
    rcases hgE : getFirstSquare (ctx.enemy_occupation &&& d) with _ | e <;>
      rcases hgF : getFirstSquare (ctx.friendly_occupation &&& d)
        with _ | f <;>
      rw [hgE, hgF] at hflt
    · simp at hflt
    · simp at hflt
    · simp at hflt
      have hesq : e = sq := by
        rw [hflt] at hsq
        exact hsq
      subst hesq
      exact (first_exists_iff hE hF hdisj2 e).mp
        ⟨hgE, Or.inl (getFirstSquare_eq_none_iff.mp hgF)⟩
    · dsimp only at hflt
      by_cases hef : e < f
      · rw [if_pos hef] at hflt
        simp at hflt
        have hesq : e = sq := by
          rw [hflt] at hsq
          exact hsq
        subst hesq
        rcases getFirstSquare_eq_some_iff.mp hgF with ⟨hfne, hctzf⟩
        exact (first_exists_iff hE hF hdisj2 e).mp
          ⟨hgE, Or.inr (by omega)⟩
      · rw [if_neg hef] at hflt
        simp at hflt
  · rintro ⟨hbit, hempty⟩
    obtain ⟨hfs, hcond⟩ := (first_exists_iff hE hF hdisj2 sq).mpr
      ⟨hbit, hempty⟩
    refine ⟨Move.new fr sq MoveCode.capture, ?_, rfl, rfl⟩
    apply List.mem_of_mem_filter
      (show Move.new fr sq MoveCode.capture ∈
        (ctx.get_pseudo_legal_moves_in_increasing_direction d fr).filter
          (fun m => m.code.is_capture) from ?_)
    rw [increasing_captures, hfs]
    rcases hcond with h0 | hlt
    · rw [getFirstSquare_eq_none_iff.mpr h0]
      simp
    · rcases eq_or_ne (ctx.friendly_occupation &&& d) 0 with h0 | hne
      · rw [getFirstSquare_eq_none_iff.mpr h0]
        simp
      · rw [getFirstSquare_eq_some_iff.mpr ⟨hne, rfl⟩]
        dsimp only
        rw [if_pos hlt]
        simp

/-- Capture membership in the decreasing ray worker, in last-occupied
form. -/
theorem ray_capture_mem_dec (ctx : MoveGeneratorContext) (d fr sq : Nat)
    (hfo : ctx.friendly_occupation < 2 ^ 64)
    (heo : ctx.enemy_occupation < 2 ^ 64)
    (hdisj : ctx.enemy_occupation &&& ctx.friendly_occupation = 0) :
    (∃ m ∈ ctx.get_pseudo_legal_moves_in_decreasing_direction d fr,
        m.toSq = sq ∧ m.code.is_capture = true) ↔
      ((ctx.enemy_occupation &&& d).testBit sq = true ∧
        ((ctx.enemy_occupation &&& d) ||| (ctx.friendly_occupation &&& d))
          &&& not64 ((1 <<< (sq + 1)) - 1) = 0) := by
  have hE : ctx.enemy_occupation &&& d < 2 ^ 64 :=
    lt_of_le_of_lt Nat.and_le_left heo
  have hF : ctx.friendly_occupation &&& d < 2 ^ 64 :=
    lt_of_le_of_lt Nat.and_le_left hfo
  have hdisj2 : (ctx.enemy_occupation &&& d) &&&
      (ctx.friendly_occupation &&& d) = 0 :=
    and_pair_zero_right d hdisj
  constructor
  · rintro ⟨m, hm, hsq, hcap⟩
    have hflt : m ∈ (ctx.get_pseudo_legal_moves_in_decreasing_direction
        d fr).filter (fun m => m.code.is_capture) :=
      List.mem_filter.mpr ⟨hm, hcap⟩
    rw [decreasing_captures] at hflt
    rcases hgE : getLastSquare (ctx.enemy_occupation &&& d) with _ | e <;>
      rcases hgF : getLastSquare (ctx.friendly_occupation &&& d)
        with _ | f <;>
      rw [hgE, hgF] at hflt
    · simp at hflt
    · simp at hflt
    · simp at hflt
      have hesq : e = sq := by
        rw [hflt] at hsq
        exact hsq
      subst hesq
      exact (last_exists_iff hE hF hdisj2 e).mp
        ⟨hgE, Or.inl (getLastSquare_eq_none_iff.mp hgF)⟩
    · dsimp only at hflt
      by_cases hef : f < e
      · rw [if_pos hef] at hflt
        simp at hflt
        have hesq : e = sq := by
          rw [hflt] at hsq
          exact hsq
        subst hesq
        rcases getLastSquare_eq_some_iff.mp hgF with ⟨hfne, hmsbf⟩
        exact (last_exists_iff hE hF hdisj2 e).mp
          ⟨hgE, Or.inr (by omega)⟩
      · rw [if_neg hef] at hflt
        simp at hflt
  · rintro ⟨hbit, hempty⟩
    obtain ⟨hfs, hcond⟩ := (last_exists_iff hE hF hdisj2 sq).mpr
      ⟨hbit, hempty⟩
    refine ⟨Move.new fr sq MoveCode.capture, ?_, rfl, rfl⟩
    apply List.mem_of_mem_filter
      (show Move.new fr sq MoveCode.capture ∈
        (ctx.get_pseudo_legal_moves_in_decreasing_direction d fr).filter
          (fun m => m.code.is_capture) from ?_)
    rw [decreasing_captures, hfs]
    rcases hcond with h0 | hlt
    · rw [getLastSquare_eq_none_iff.mpr h0]
      simp
    · rcases eq_or_ne (ctx.friendly_occupation &&& d) 0 with h0 | hne
      · rw [getLastSquare_eq_none_iff.mpr h0]
        simp
      · rw [getLastSquare_eq_some_iff.mpr ⟨hne, rfl⟩]
        dsimp only
        rw [if_pos hlt]
        simp

/-- Set bits of bounded boards are board squares. -/
theorem testBit_lt_64 {x p : Nat} (hx : x < 2 ^ 64)
    (h : x.testBit p = true) : p < 64 := by
  by_contra hp
  have h1 := Nat.testBit_implies_ge h
  have h2 : (2 : Nat) ^ 64 ≤ 2 ^ p :=
    Nat.pow_le_pow_right (by norm_num) (by omega)
  omega

/-- The only set bit of a one-bit board. -/
theorem ctz_one_shift {k : Nat} (hk : k < 64) : ctz (1 <<< k) = k := by
  have hlt : (1 : Nat) <<< k < 2 ^ 64 := by
    rw [Nat.shiftLeft_eq, one_mul]
    exact Nat.pow_lt_pow_right (by norm_num) hk
  apply ctz_eq_of hlt
  · rw [Nat.shiftLeft_eq, one_mul]
    simp [Nat.testBit_two_pow]
  · intro i hi
    rw [Nat.shiftLeft_eq, one_mul]
    simp [Nat.testBit_two_pow]
    omega

/-- Diagonal ray reversal and betweenness: a square lies on another's
north-east ray exactly when the latter lies on its south-west ray,
and then the NE-ray prefix below the target equals the SW-ray
suffix above the source. -/
theorem geo_ne_sw : ∀ a, a < 64 → ∀ b, b < 64 →
    ((MoveMaps.new.ne_diagonal a).testBit b =
      (MoveMaps.new.sw_diagonal b).testBit a) ∧
    ((MoveMaps.new.ne_diagonal a).testBit b = true →
      MoveMaps.new.ne_diagonal a &&& ((1 <<< b) - 1) =
        MoveMaps.new.sw_diagonal b &&& not64 ((1 <<< (a + 1)) - 1)) := by
  decide

/-- North-west/south-east ray reversal and betweenness. -/
theorem geo_nw_se : ∀ a, a < 64 → ∀ b, b < 64 →
    ((MoveMaps.new.nw_diagonal a).testBit b =
      (MoveMaps.new.se_diagonal b).testBit a) ∧
    ((MoveMaps.new.nw_diagonal a).testBit b = true →
      MoveMaps.new.nw_diagonal a &&& ((1 <<< b) - 1) =
        MoveMaps.new.se_diagonal b &&& not64 ((1 <<< (a + 1)) - 1)) := by
  decide

/-- North/south file ray reversal and betweenness. -/
theorem geo_n_s : ∀ a, a < 64 → ∀ b, b < 64 →
    ((MoveMaps.new.n_file a).testBit b =
      (MoveMaps.new.s_file b).testBit a) ∧
    ((MoveMaps.new.n_file a).testBit b = true →
      MoveMaps.new.n_file a &&& ((1 <<< b) - 1) =
        MoveMaps.new.s_file b &&& not64 ((1 <<< (a + 1)) - 1)) := by
  decide

/-- East/west rank ray reversal and betweenness. -/
theorem geo_e_w : ∀ a, a < 64 → ∀ b, b < 64 →
    ((MoveMaps.new.e_rank a).testBit b =
      (MoveMaps.new.w_rank b).testBit a) ∧
    ((MoveMaps.new.e_rank a).testBit b = true →
      MoveMaps.new.e_rank a &&& ((1 <<< b) - 1) =
        MoveMaps.new.w_rank b &&& not64 ((1 <<< (a + 1)) - 1)) := by
  decide

/-- The knight map is symmetric. -/
theorem geo_knight : ∀ a, a < 64 → ∀ b, b < 64 →
    (MoveMaps.new.knight a).testBit b = (MoveMaps.new.knight b).testBit a := by
  decide

/-- The king map is symmetric. -/
theorem geo_king : ∀ a, a < 64 → ∀ b, b < 64 →
    (MoveMaps.new.king a).testBit b = (MoveMaps.new.king b).testBit a := by
  decide

/-- White pawn attacks reverse into the black pawn attack map and
vice versa. -/
theorem geo_pawn : ∀ a, a < 64 → ∀ b, b < 64 →
    (MoveMaps.new.white_pawn_attack a).testBit b =
      (MoveMaps.new.black_pawn_attack b).testBit a := by
  decide

/-- Pairwise-disjoint piece boards within one side (holds in every
reachable state: a square carries at most one piece). -/
def disjointSide (a : ChessBoardSide) : Prop :=
  a.pawn &&& a.knight = 0 ∧ a.pawn &&& a.bishop = 0 ∧
  a.pawn &&& a.rook = 0 ∧ a.pawn &&& a.queen = 0 ∧
  a.pawn &&& a.king = 0 ∧ a.knight &&& a.bishop = 0 ∧
  a.knight &&& a.rook = 0 ∧ a.knight &&& a.queen = 0 ∧
  a.knight &&& a.king = 0 ∧ a.bishop &&& a.rook = 0 ∧
  a.bishop &&& a.queen = 0 ∧ a.bishop &&& a.king = 0 ∧
  a.rook &&& a.queen = 0 ∧ a.rook &&& a.king = 0 ∧
  a.queen &&& a.king = 0

/-- All boards of one side are 64-bit values. -/
def boundedSide (a : ChessBoardSide) : Prop :=
  a.pawn < 2 ^ 64 ∧ a.knight < 2 ^ 64 ∧ a.bishop < 2 ^ 64 ∧
  a.rook < 2 ^ 64 ∧ a.queen < 2 ^ 64 ∧ a.king < 2 ^ 64

/-- The well-formedness invariant of reachable `GameState`s used by
the attack/brute-force equivalence: 64-bit boards, one piece per
square, exactly one king per side, and an en-passant target square
that is unoccupied. -/
def WFState (s : GameState) : Prop :=
  boundedSide s.boards.white ∧ boundedSide s.boards.black ∧
  disjointSide s.boards.white ∧ disjointSide s.boards.black ∧
  s.boards.white.union &&& s.boards.black.union = 0 ∧
  (∃ k, k < 64 ∧ s.boards.white.king = 1 <<< k) ∧
  (∃ k, k < 64 ∧ s.boards.black.king = 1 <<< k) ∧
  s.en_passant &&& (s.boards.white.union ||| s.boards.black.union) = 0 ∧
  s.en_passant < 2 ^ 64

instance (a : ChessBoardSide) : Decidable (boundedSide a) := by
  unfold boundedSide
  infer_instance

instance (a : ChessBoardSide) : Decidable (disjointSide a) := by
  unfold disjointSide
  infer_instance

instance (s : GameState) : Decidable (WFState s) := by
  unfold WFState
  infer_instance

/-- Disjointness from both operands gives disjointness from the
union, left side. -/
theorem or_and_zero_left {a b c : Nat} (h1 : a &&& c = 0)
    (h2 : b &&& c = 0) : (a ||| b) &&& c = 0 := by
  apply Nat.eq_of_testBit_eq
  intro i
  have e1 := congrArg (fun n => n.testBit i) h1
  have e2 := congrArg (fun n => n.testBit i) h2
  simp only [Nat.testBit_and, Nat.testBit_or, Nat.zero_testBit] at e1 e2 ⊢
  cases ha : a.testBit i <;> cases hb : b.testBit i <;>
    cases hc : c.testBit i <;> simp_all

/-- Disjointness from both operands gives disjointness from the
union, right side. -/
theorem and_or_zero_right {a b c : Nat} (h1 : a &&& b = 0)
    (h2 : a &&& c = 0) : a &&& (b ||| c) = 0 := by
  apply Nat.eq_of_testBit_eq
  intro i
  have e1 := congrArg (fun n => n.testBit i) h1
  have e2 := congrArg (fun n => n.testBit i) h2
  simp only [Nat.testBit_and, Nat.testBit_or, Nat.zero_testBit] at e1 e2 ⊢
  cases ha : a.testBit i <;> cases hb : b.testBit i <;>
    cases hc : c.testBit i <;> simp_all

/-- Disjointness flips. -/
theorem and_zero_comm {a b : Nat} (h : a &&& b = 0) : b &&& a = 0 := by
  rw [Nat.and_comm]
  exact h

/-- A set bit of one of two disjoint boards is clear in the other. -/
theorem disjoint_testBit {a b : Nat} (h : a &&& b = 0) {i : Nat}
    (ha : a.testBit i = true) : b.testBit i = false := by
  have e := congrArg (fun n => n.testBit i) h
  simp only [Nat.testBit_and, Nat.zero_testBit, ha] at e
  simpa using e

/-- The union is bounded when the boards are. -/
theorem union_lt (a : ChessBoardSide) (h : boundedSide a) :
    a.union < 2 ^ 64 := by
  rcases h with ⟨h1, h2, h3, h4, h5, h6⟩
  rw [ChessBoardSide.union]
  exact Nat.or_lt_two_pow (Nat.or_lt_two_pow (Nat.or_lt_two_pow
    (Nat.or_lt_two_pow (Nat.or_lt_two_pow h1 h2) h3) h4) h5) h6

/-- A board is covered by its side's union. -/
theorem testBit_union_of {a : ChessBoardSide} {x i : Nat}
    (hx : x = a.pawn ∨ x = a.knight ∨ x = a.bishop ∨ x = a.rook ∨
      x = a.queen ∨ x = a.king)
    (h : x.testBit i = true) : a.union.testBit i = true := by
  rw [ChessBoardSide.union]
  simp only [Nat.testBit_or]
  rcases hx with rfl | rfl | rfl | rfl | rfl | rfl <;> simp [h]

/-- Capture membership in the knight section. -/
theorem knight_capture_iff (ctx : MoveGeneratorContext) (sq : Nat)
    (hkn : ctx.friendly_pieces.knight < 2 ^ 64)
    (heo : ctx.enemy_occupation < 2 ^ 64) :
    (∃ m ∈ ctx.get_pseudo_legal_knight_moves,
        m.toSq = sq ∧ m.code.is_capture = true) ↔
      ∃ fr, (ctx.friendly_pieces.knight).testBit fr = true ∧
        ((ctx.move_maps.knight fr &&& not64 ctx.friendly_occupation) &&&
          ctx.enemy_occupation).testBit sq = true := by
  have hto : ∀ fr, (ctx.move_maps.knight fr &&&
      not64 ctx.friendly_occupation) &&& ctx.enemy_occupation < 2 ^ 64 :=
    fun fr => lt_of_le_of_lt Nat.and_le_right heo
  constructor
  · rintro ⟨m, hm, hsq, hcap⟩
    rw [MoveGeneratorContext.get_pseudo_legal_knight_moves] at hm
    rcases List.mem_flatMap.mp hm with ⟨fr, hfr, hblock⟩
    rcases List.mem_append.mp hblock with hc | hq
    · rcases List.mem_map.mp hc with ⟨t, ht, hmeq⟩
      refine ⟨fr, (mem_bits hkn).mp hfr, ?_⟩
      have htsq : t = sq := by
        rw [← hmeq] at hsq
        exact hsq
      rw [← htsq]
      exact (mem_bits (hto fr)).mp ht
    · exfalso
      rcases List.mem_map.mp hq with ⟨t, _, hmeq⟩
      rw [← hmeq] at hcap
      cases hcap
  · rintro ⟨fr, hfr, hsq'⟩
    refine ⟨Move.new fr sq MoveCode.capture, ?_, rfl, rfl⟩
    rw [MoveGeneratorContext.get_pseudo_legal_knight_moves]
    refine List.mem_flatMap.mpr ⟨fr, (mem_bits hkn).mpr hfr, ?_⟩
    refine List.mem_append.mpr (Or.inl ?_)
    exact List.mem_map.mpr ⟨sq, (mem_bits (hto fr)).mpr hsq', rfl⟩

/-- Capture membership in the king section. -/
theorem king_capture_iff (ctx : MoveGeneratorContext) (sq k : Nat)
    (hk : k < 64) (hking : ctx.friendly_pieces.king = 1 <<< k)
    (heo : ctx.enemy_occupation < 2 ^ 64) :
    ∃ l, ctx.get_pseudo_legal_king_moves = some l ∧
      ((∃ m ∈ l, m.toSq = sq ∧ m.code.is_capture = true) ↔
        ((ctx.move_maps.king k &&& not64 ctx.friendly_occupation) &&&
          ctx.enemy_occupation).testBit sq = true) := by
  have hto : (ctx.move_maps.king k &&&
      not64 ctx.friendly_occupation) &&& ctx.enemy_occupation < 2 ^ 64 :=
    lt_of_le_of_lt Nat.and_le_right heo
  have hkne : ctx.friendly_pieces.king ≠ 0 := by
    rw [hking, Nat.shiftLeft_eq, one_mul]
    exact Nat.pos_iff_ne_zero.mp (Nat.pos_pow_of_pos k (by norm_num))
  have hgfs : getFirstSquare ctx.friendly_pieces.king = some k := by
    rw [getFirstSquare_eq_some_iff]
    exact ⟨hkne, by rw [hking]; exact ctz_one_shift hk⟩
  rw [MoveGeneratorContext.get_pseudo_legal_king_moves, hgfs]
  refine ⟨_, rfl, ?_⟩
  constructor
  · rintro ⟨m, hm, hsq, hcap⟩
    rcases List.mem_append.mp hm with hc | hq
    · rcases List.mem_map.mp hc with ⟨t, ht, hmeq⟩
      have htsq : t = sq := by
        rw [← hmeq] at hsq
        exact hsq
      rw [← htsq]
      exact (mem_bits hto).mp ht
    · exfalso
      rcases List.mem_map.mp hq with ⟨t, _, hmeq⟩
      rw [← hmeq] at hcap
      cases hcap
  · intro hsq'
    refine ⟨Move.new k sq MoveCode.capture, ?_, rfl, rfl⟩
    refine List.mem_append.mpr (Or.inl ?_)
    exact List.mem_map.mpr ⟨sq, (mem_bits hto).mpr hsq', rfl⟩

/-- Castle moves are never captures. -/
theorem castles_no_capture (ctx : MoveGeneratorContext) :
    ∀ m ∈ ctx.get_pseudo_legal_castles, m.code.is_capture = false := by
  intro m hm
  rw [MoveGeneratorContext.get_pseudo_legal_castles] at hm
  rcases List.mem_append.mp hm with hm1 | hm4
  · rcases List.mem_append.mp hm1 with hm2 | hm3
    · rcases List.mem_append.mp hm2 with hm5 | hm6
      · rw [mem_castle_block hm5]
        rfl
      · rw [mem_castle_block hm6]
        rfl
    · rw [mem_castle_block hm3]
      rfl
  · rw [mem_castle_block hm4]
    rfl

/-- Capture membership in one pawn's emission block: only the attack
sub-block carries capture-coded moves, and it emits one (of capture,
en-passant, or promotion-capture kind) for every attack-board
square. -/
theorem pawn_block_capture_iff (fr sq : Nat) (wp : Prop) [Decidable wp]
    (pb db ab ep : Nat) (hab : ab < 2 ^ 64) :
    (∃ m ∈ (((bits pb).flatMap fun t =>
          if wp then
            [Move.new fr t MoveCode.queenPromotion,
              Move.new fr t MoveCode.rookPromotion,
              Move.new fr t MoveCode.bishopPromotion,
              Move.new fr t MoveCode.knightPromotion]
          else [Move.new fr t MoveCode.quietMove]) ++
        ((bits db).map fun t => Move.new fr t MoveCode.doublePawnPush) ++
        ((bits ab).flatMap fun t =>
          if wp then
            [Move.new fr t MoveCode.queenPromotionCapture,
              Move.new fr t MoveCode.rookPromotionCapture,
              Move.new fr t MoveCode.bishopPromotionCapture,
              Move.new fr t MoveCode.knightPromotionCapture]
          else if getFirstSquare ep = some t then
            [Move.new fr t MoveCode.enPassant]
          else [Move.new fr t MoveCode.capture])),
        m.toSq = sq ∧ m.code.is_capture = true) ↔
      ab.testBit sq = true := by
  constructor
  · rintro ⟨m, hm, hsq, hcap⟩
    rcases List.mem_append.mp hm with hm12 | hm3
    · exfalso
      rcases List.mem_append.mp hm12 with hm1 | hm2
      · rcases List.mem_flatMap.mp hm1 with ⟨t, _, hmm⟩
        by_cases hwp : wp
        · rw [if_pos hwp] at hmm
          simp only [List.mem_cons, List.mem_singleton] at hmm
          rcases hmm with rfl | rfl | rfl | (rfl | h)
          · cases hcap
          · cases hcap
          · cases hcap
          · cases hcap
          · cases h
        · rw [if_neg hwp] at hmm
          simp only [List.mem_singleton] at hmm
          rw [hmm] at hcap
          cases hcap
      · rcases List.mem_map.mp hm2 with ⟨t, _, hmeq⟩
        rw [← hmeq] at hcap
        cases hcap
    · rcases List.mem_flatMap.mp hm3 with ⟨t, ht, hmm⟩
      have htsq : m.toSq = t := by
        by_cases hwp : wp
        · rw [if_pos hwp] at hmm
          simp only [List.mem_cons, List.mem_singleton] at hmm
          rcases hmm with rfl | rfl | rfl | (rfl | h)
          · rfl
          · rfl
          · rfl
          · rfl
          · cases h
        · rw [if_neg hwp] at hmm
          by_cases hep : getFirstSquare ep = some t
          · rw [if_pos hep] at hmm
            simp only [List.mem_singleton] at hmm
            rw [hmm]
            rfl
          · rw [if_neg hep] at hmm
            simp only [List.mem_singleton] at hmm
            rw [hmm]
            rfl
      rw [htsq] at hsq
      rw [← hsq]
      exact (mem_bits hab).mp ht
  · intro hsq'
    have hmem : sq ∈ bits ab := (mem_bits hab).mpr hsq'
    by_cases hwp : wp
    · refine ⟨Move.new fr sq MoveCode.queenPromotionCapture,
        List.mem_append.mpr (Or.inr (List.mem_flatMap.mpr
          ⟨sq, hmem, ?_⟩)), rfl, rfl⟩
      rw [if_pos hwp]
      simp
    · by_cases hep : getFirstSquare ep = some sq
      · refine ⟨Move.new fr sq MoveCode.enPassant,
          List.mem_append.mpr (Or.inr (List.mem_flatMap.mpr
            ⟨sq, hmem, ?_⟩)), rfl, rfl⟩
        rw [if_neg hwp, if_pos hep]
        simp
      · refine ⟨Move.new fr sq MoveCode.capture,
          List.mem_append.mpr (Or.inr (List.mem_flatMap.mpr
            ⟨sq, hmem, ?_⟩)), rfl, rfl⟩
        rw [if_neg hwp, if_neg hep]
        simp

/-- Existentials over a `flatMap` decompose. -/
theorem exists_mem_flatMap {l : List Nat} {f : Nat → List Move}
    {P : Move → Prop} :
    (∃ m ∈ l.flatMap f, P m) ↔ ∃ a ∈ l, ∃ m ∈ f a, P m := by
  constructor
  · rintro ⟨m, hm, hP⟩
    rcases List.mem_flatMap.mp hm with ⟨a, ha, hmf⟩
    exact ⟨a, ha, m, hmf, hP⟩
  · rintro ⟨a, ha, m, hmf, hP⟩
    exact ⟨m, List.mem_flatMap.mpr ⟨a, ha, hmf⟩, hP⟩

/-- Capture membership in the pawn section: a capture-coded pawn move
targets a square exactly when some friendly pawn's attack map covers
it (the target being enemy-occupied). -/
theorem pawn_capture_iff (ctx : MoveGeneratorContext) (sq : Nat)
    (hpw : ctx.friendly_pieces.pawn < 2 ^ 64)
    (heo : ctx.enemy_occupation < 2 ^ 64)
    (hep : ctx.state.en_passant < 2 ^ 64)
    (hsq_enemy : ctx.enemy_occupation.testBit sq = true) :
    (∃ m ∈ ctx.get_pseudo_legal_pawn_moves,
        m.toSq = sq ∧ m.code.is_capture = true) ↔
      ∃ fr, (ctx.friendly_pieces.pawn).testBit fr = true ∧
        ((if StateFlags.active_color ctx.state.flags = Color.white then
            ctx.move_maps.white_pawn_attack
          else ctx.move_maps.black_pawn_attack) fr).testBit sq = true := by
  have hor : ctx.enemy_occupation ||| ctx.state.en_passant < 2 ^ 64 :=
    Nat.or_lt_two_pow heo hep
  constructor
  · rintro ⟨m, hm, hsq, hcap⟩
    rw [MoveGeneratorContext.get_pseudo_legal_pawn_moves] at hm
    rcases List.mem_flatMap.mp hm with ⟨fr, hfr, hblock⟩
    have hx := (pawn_block_capture_iff fr sq
      ((StateFlags.active_color ctx.state.flags = Color.white ∧ 48 ≤ fr) ∨
        (¬ StateFlags.active_color ctx.state.flags = Color.white ∧
          fr < 16)) _ _ _ _
      (lt_of_le_of_lt Nat.and_le_right hor)).mp ⟨m, hblock, hsq, hcap⟩
    refine ⟨fr, (mem_bits hpw).mp hfr, ?_⟩
    rw [Nat.testBit_and, Bool.and_eq_true] at hx
    exact hx.1
  · rintro ⟨fr, hfr, hatt⟩
    have habbit : ((if StateFlags.active_color ctx.state.flags =
          Color.white then ctx.move_maps.white_pawn_attack
        else ctx.move_maps.black_pawn_attack) fr &&&
        (ctx.enemy_occupation ||| ctx.state.en_passant)).testBit sq =
        true := by
      rw [Nat.testBit_and, Bool.and_eq_true]
      refine ⟨hatt, ?_⟩
      rw [Nat.testBit_or, hsq_enemy]
      rfl
    rw [MoveGeneratorContext.get_pseudo_legal_pawn_moves,
      exists_mem_flatMap]
    refine ⟨fr, (mem_bits hpw).mpr hfr, ?_⟩
    exact (pawn_block_capture_iff fr sq
      ((StateFlags.active_color ctx.state.flags = Color.white ∧ 48 ≤ fr) ∨
        (¬ StateFlags.active_color ctx.state.flags = Color.white ∧
          fr < 16)) _ _ _ ctx.state.en_passant
      (lt_of_le_of_lt Nat.and_le_right hor)).mpr habbit

/-- Existentials over an append decompose. -/
theorem exists_mem_append {a b : List Move} {P : Move → Prop} :
    (∃ m ∈ a ++ b, P m) ↔ (∃ m ∈ a, P m) ∨ ∃ m ∈ b, P m := by
  constructor
  · rintro ⟨m, hm, hP⟩
    rcases List.mem_append.mp hm with h | h
    · exact Or.inl ⟨m, h, hP⟩
    · exact Or.inr ⟨m, h, hP⟩
  · rintro (⟨m, hm, hP⟩ | ⟨m, hm, hP⟩)
    · exact ⟨m, List.mem_append.mpr (Or.inl hm), hP⟩
    · exact ⟨m, List.mem_append.mpr (Or.inr hm), hP⟩

/-- The nearest-target capture condition on an increasing ray. -/
def incHit (ctx : MoveGeneratorContext) (d sq : Nat) : Prop :=
  (ctx.enemy_occupation &&& d).testBit sq = true ∧
    ((ctx.enemy_occupation &&& d) ||| (ctx.friendly_occupation &&& d)) &&&
      ((1 <<< sq) - 1) = 0

/-- The nearest-target capture condition on a decreasing ray. -/
def decHit (ctx : MoveGeneratorContext) (d sq : Nat) : Prop :=
  (ctx.enemy_occupation &&& d).testBit sq = true ∧
    ((ctx.enemy_occupation &&& d) ||| (ctx.friendly_occupation &&& d)) &&&
      not64 ((1 <<< (sq + 1)) - 1) = 0

/-- Capture membership in a diagonal (bishop/queen) section. -/
theorem diagonal_capture_iff (ctx : MoveGeneratorContext)
    (pieces sq : Nat) (hpc : pieces < 2 ^ 64)
    (hfo : ctx.friendly_occupation < 2 ^ 64)
    (heo : ctx.enemy_occupation < 2 ^ 64)
    (hdisj : ctx.enemy_occupation &&& ctx.friendly_occupation = 0) :
    (∃ m ∈ ctx.get_pseudo_legal_diagonal_moves pieces,
        m.toSq = sq ∧ m.code.is_capture = true) ↔
      ∃ fr, pieces.testBit fr = true ∧
        (incHit ctx (ctx.move_maps.ne_diagonal fr) sq ∨
          incHit ctx (ctx.move_maps.nw_diagonal fr) sq ∨
          decHit ctx (ctx.move_maps.se_diagonal fr) sq ∨
          decHit ctx (ctx.move_maps.sw_diagonal fr) sq) := by
  rw [MoveGeneratorContext.get_pseudo_legal_diagonal_moves,
    exists_mem_flatMap]
  constructor
  · rintro ⟨fr, hfr, hx⟩
    refine ⟨fr, (mem_bits hpc).mp hfr, ?_⟩
    rw [exists_mem_append, exists_mem_append, exists_mem_append] at hx
    rcases hx with ((h | h) | h) | h
    · exact Or.inl ((ray_capture_mem_inc ctx _ fr sq hfo heo hdisj).mp h)
    · exact Or.inr (Or.inl
        ((ray_capture_mem_inc ctx _ fr sq hfo heo hdisj).mp h))
    · exact Or.inr (Or.inr (Or.inl
        ((ray_capture_mem_dec ctx _ fr sq hfo heo hdisj).mp h)))
    · exact Or.inr (Or.inr (Or.inr
        ((ray_capture_mem_dec ctx _ fr sq hfo heo hdisj).mp h)))
  · rintro ⟨fr, hfr, hx⟩
    refine ⟨fr, (mem_bits hpc).mpr hfr, ?_⟩
    rw [exists_mem_append, exists_mem_append, exists_mem_append]
    rcases hx with h | h | h | h
    · exact Or.inl (Or.inl (Or.inl
        ((ray_capture_mem_inc ctx _ fr sq hfo heo hdisj).mpr h)))
    · exact Or.inl (Or.inl (Or.inr
        ((ray_capture_mem_inc ctx _ fr sq hfo heo hdisj).mpr h)))
    · exact Or.inl (Or.inr
        ((ray_capture_mem_dec ctx _ fr sq hfo heo hdisj).mpr h))
    · exact Or.inr ((ray_capture_mem_dec ctx _ fr sq hfo heo hdisj).mpr h)

/-- Capture membership in a rank/file (rook/queen) section. -/
theorem rank_file_capture_iff (ctx : MoveGeneratorContext)
    (pieces sq : Nat) (hpc : pieces < 2 ^ 64)
    (hfo : ctx.friendly_occupation < 2 ^ 64)
    (heo : ctx.enemy_occupation < 2 ^ 64)
    (hdisj : ctx.enemy_occupation &&& ctx.friendly_occupation = 0) :
    (∃ m ∈ ctx.get_pseudo_legal_rank_file_moves pieces,
        m.toSq = sq ∧ m.code.is_capture = true) ↔
      ∃ fr, pieces.testBit fr = true ∧
        (incHit ctx (ctx.move_maps.n_file fr) sq ∨
          decHit ctx (ctx.move_maps.s_file fr) sq ∨
          incHit ctx (ctx.move_maps.e_rank fr) sq ∨
          decHit ctx (ctx.move_maps.w_rank fr) sq) := by
  rw [MoveGeneratorContext.get_pseudo_legal_rank_file_moves,
    exists_mem_flatMap]
  constructor
  · rintro ⟨fr, hfr, hx⟩
    refine ⟨fr, (mem_bits hpc).mp hfr, ?_⟩
    rw [exists_mem_append, exists_mem_append, exists_mem_append] at hx
    rcases hx with ((h | h) | h) | h
    · exact Or.inl ((ray_capture_mem_inc ctx _ fr sq hfo heo hdisj).mp h)
    · exact Or.inr (Or.inl
        ((ray_capture_mem_dec ctx _ fr sq hfo heo hdisj).mp h))
    · exact Or.inr (Or.inr (Or.inl
        ((ray_capture_mem_inc ctx _ fr sq hfo heo hdisj).mp h)))
    · exact Or.inr (Or.inr (Or.inr
        ((ray_capture_mem_dec ctx _ fr sq hfo heo hdisj).mp h)))
  · rintro ⟨fr, hfr, hx⟩
    refine ⟨fr, (mem_bits hpc).mpr hfr, ?_⟩
    rw [exists_mem_append, exists_mem_append, exists_mem_append]
    rcases hx with h | h | h | h
    · exact Or.inl (Or.inl (Or.inl
        ((ray_capture_mem_inc ctx _ fr sq hfo heo hdisj).mpr h)))
    · exact Or.inl (Or.inl (Or.inr
        ((ray_capture_mem_dec ctx _ fr sq hfo heo hdisj).mpr h)))
    · exact Or.inl (Or.inr
        ((ray_capture_mem_inc ctx _ fr sq hfo heo hdisj).mpr h))
    · exact Or.inr ((ray_capture_mem_dec ctx _ fr sq hfo heo hdisj).mpr h)

/-- Bridge between the attack-side increasing super-piece probe from
the target square and the generator-side decreasing ray capture from
the attacking piece, via ray reversal and betweenness. -/
theorem bridge_inc_dec (ctx : MoveGeneratorContext) (I J : Nat → Nat)
    (geo : ∀ a, a < 64 → ∀ b, b < 64 →
      ((I a).testBit b = (J b).testBit a) ∧
      ((I a).testBit b = true →
        I a &&& ((1 <<< b) - 1) = J b &&& not64 ((1 <<< (a + 1)) - 1)))
    (sq : Nat) (hsq : sq < 64) (T Bl : Nat)
    (hT : T < 2 ^ 64) (hB : Bl < 2 ^ 64) (hdisjTB : T &&& Bl = 0)
    (hcover : T ||| Bl =
      ctx.enemy_occupation ||| ctx.friendly_occupation)
    (hsq_eo : ctx.enemy_occupation.testBit sq = true) :
    capture_in_increasing_direction (I sq) T Bl = true ↔
      ∃ p, T.testBit p = true ∧ decHit ctx (J p) sq := by
  have hocc : ∀ d : Nat,
      (ctx.enemy_occupation &&& d) ||| (ctx.friendly_occupation &&& d) =
      d &&& (T ||| Bl) := by
    intro d
    rw [hcover, and_or_left, Nat.and_comm ctx.enemy_occupation d,
      Nat.and_comm ctx.friendly_occupation d]
  rw [capture_inc_iff hT hB hdisjTB]
  constructor
  · rintro ⟨p, hp, hmask⟩
    rw [Nat.testBit_and, Bool.and_eq_true] at hp
    have hp64 : p < 64 := testBit_lt_64 hT hp.2
    obtain ⟨hgsym, hgbet⟩ := geo sq hsq p hp64
    have hJ : (J p).testBit sq = true := by
      rw [← hgsym]
      exact hp.1
    refine ⟨p, hp.2, ?_, ?_⟩
    · rw [Nat.testBit_and, Bool.and_eq_true]
      exact ⟨hsq_eo, hJ⟩
    · rw [hocc (J p)]
      calc J p &&& (T ||| Bl) &&& not64 ((1 <<< (sq + 1)) - 1)
          = (T ||| Bl) &&& (J p &&& not64 ((1 <<< (sq + 1)) - 1)) := by
            rw [Nat.and_comm (J p) (T ||| Bl), Nat.and_assoc]
        _ = (T ||| Bl) &&& (I sq &&& ((1 <<< p) - 1)) := by
            rw [hgbet hp.1]
        _ = I sq &&& (T ||| Bl) &&& ((1 <<< p) - 1) := by
            rw [← Nat.and_assoc, Nat.and_comm (T ||| Bl) (I sq)]
        _ = 0 := hmask
  · rintro ⟨p, hpT, hhit⟩
    obtain ⟨hbit, hmask⟩ := hhit
    have hp64 : p < 64 := testBit_lt_64 hT hpT
    obtain ⟨hgsym, hgbet⟩ := geo sq hsq p hp64
    rw [Nat.testBit_and, Bool.and_eq_true] at hbit
    have hI : (I sq).testBit p = true := by
      rw [hgsym]
      exact hbit.2
    refine ⟨p, ?_, ?_⟩
    · rw [Nat.testBit_and, Bool.and_eq_true]
      exact ⟨hI, hpT⟩
    · rw [hocc (J p)] at hmask
      calc I sq &&& (T ||| Bl) &&& ((1 <<< p) - 1)
          = (T ||| Bl) &&& (I sq &&& ((1 <<< p) - 1)) := by
            rw [Nat.and_comm (I sq) (T ||| Bl), Nat.and_assoc]
        _ = (T ||| Bl) &&& (J p &&& not64 ((1 <<< (sq + 1)) - 1)) := by
            rw [hgbet hI]
        _ = J p &&& (T ||| Bl) &&& not64 ((1 <<< (sq + 1)) - 1) := by
            rw [← Nat.and_assoc, Nat.and_comm (T ||| Bl) (J p)]
        _ = 0 := hmask

/-- Bridge between the attack-side decreasing super-piece probe from
the target square and the generator-side increasing ray capture from
the attacking piece. -/
theorem bridge_dec_inc (ctx : MoveGeneratorContext) (I J : Nat → Nat)
    (geo : ∀ a, a < 64 → ∀ b, b < 64 →
      ((I a).testBit b = (J b).testBit a) ∧
      ((I a).testBit b = true →
        I a &&& ((1 <<< b) - 1) = J b &&& not64 ((1 <<< (a + 1)) - 1)))
    (sq : Nat) (hsq : sq < 64) (T Bl : Nat)
    (hT : T < 2 ^ 64) (hB : Bl < 2 ^ 64) (hdisjTB : T &&& Bl = 0)
    (hcover : T ||| Bl =
      ctx.enemy_occupation ||| ctx.friendly_occupation)
    (hsq_eo : ctx.enemy_occupation.testBit sq = true) :
    capture_in_decreasing_direction (J sq) T Bl = true ↔
      ∃ p, T.testBit p = true ∧ incHit ctx (I p) sq := by
  have hocc : ∀ d : Nat,
      (ctx.enemy_occupation &&& d) ||| (ctx.friendly_occupation &&& d) =
      d &&& (T ||| Bl) := by
    intro d
    rw [hcover, and_or_left, Nat.and_comm ctx.enemy_occupation d,
      Nat.and_comm ctx.friendly_occupation d]
  rw [capture_dec_iff hT hB hdisjTB]
  constructor
  · rintro ⟨p, hp, hmask⟩
    rw [Nat.testBit_and, Bool.and_eq_true] at hp
    have hp64 : p < 64 := testBit_lt_64 hT hp.2
    obtain ⟨hgsym, hgbet⟩ := geo p hp64 sq hsq
    have hI : (I p).testBit sq = true := by
      rw [hgsym, ← hp.1]
    refine ⟨p, hp.2, ?_, ?_⟩
    · rw [Nat.testBit_and, Bool.and_eq_true]
      exact ⟨hsq_eo, hI⟩
    · rw [hocc (I p)]
      calc I p &&& (T ||| Bl) &&& ((1 <<< sq) - 1)
          = (T ||| Bl) &&& (I p &&& ((1 <<< sq) - 1)) := by
            rw [Nat.and_comm (I p) (T ||| Bl), Nat.and_assoc]
        _ = (T ||| Bl) &&& (J sq &&& not64 ((1 <<< (p + 1)) - 1)) := by
            rw [hgbet hI]
        _ = J sq &&& (T ||| Bl) &&& not64 ((1 <<< (p + 1)) - 1) := by
            rw [← Nat.and_assoc, Nat.and_comm (T ||| Bl) (J sq)]
        _ = 0 := hmask
  · rintro ⟨p, hpT, hhit⟩
    obtain ⟨hbit, hmask⟩ := hhit
    have hp64 : p < 64 := testBit_lt_64 hT hpT
    obtain ⟨hgsym, hgbet⟩ := geo p hp64 sq hsq
    rw [Nat.testBit_and, Bool.and_eq_true] at hbit
    have hJ : (J sq).testBit p = true := by
      rw [← hgsym]
      exact hbit.2
    refine ⟨p, ?_, ?_⟩
    · rw [Nat.testBit_and, Bool.and_eq_true]
      exact ⟨hJ, hpT⟩
    · rw [hocc (I p)] at hmask
      calc J sq &&& (T ||| Bl) &&& not64 ((1 <<< (p + 1)) - 1)
          = (T ||| Bl) &&& (J sq &&& not64 ((1 <<< (p + 1)) - 1)) := by
            rw [Nat.and_comm (J sq) (T ||| Bl), Nat.and_assoc]
        _ = (T ||| Bl) &&& (I p &&& ((1 <<< sq) - 1)) := by
            rw [hgbet hbit.2]
        _ = I p &&& (T ||| Bl) &&& ((1 <<< sq) - 1) := by
            rw [← Nat.and_assoc, Nat.and_comm (T ||| Bl) (I p)]
        _ = 0 := hmask

/-- `is_square_attacked` as a flat disjunction of its clauses. -/
theorem attacked_disj (ctx : MoveGeneratorContext) (sq : Nat) (c : Color)
    (A D : ChessBoardSide) (am : Nat → Nat)
    (had : (if c = Color.black then
        (ctx.state.boards.black, ctx.state.boards.white)
      else (ctx.state.boards.white, ctx.state.boards.black)) = (A, D))
    (ham : (if c = Color.white then ctx.move_maps.black_pawn_attack
      else ctx.move_maps.white_pawn_attack) = am) :
    ctx.is_square_attacked sq c = true ↔
      ((capture_in_increasing_direction (ctx.move_maps.ne_diagonal sq)
          (A.bishop ||| A.queen)
          (D.union ||| A.pawn ||| A.knight ||| A.king ||| A.rook) ||
        capture_in_increasing_direction (ctx.move_maps.nw_diagonal sq)
          (A.bishop ||| A.queen)
          (D.union ||| A.pawn ||| A.knight ||| A.king ||| A.rook) ||
        capture_in_decreasing_direction (ctx.move_maps.se_diagonal sq)
          (A.bishop ||| A.queen)
          (D.union ||| A.pawn ||| A.knight ||| A.king ||| A.rook) ||
        capture_in_decreasing_direction (ctx.move_maps.sw_diagonal sq)
          (A.bishop ||| A.queen)
          (D.union ||| A.pawn ||| A.knight ||| A.king ||| A.rook)) =
          true ∨
      (capture_in_increasing_direction (ctx.move_maps.n_file sq)
          (A.rook ||| A.queen)
          (D.union ||| A.pawn ||| A.knight ||| A.king ||| A.bishop) ||
        capture_in_decreasing_direction (ctx.move_maps.s_file sq)
          (A.rook ||| A.queen)
          (D.union ||| A.pawn ||| A.knight ||| A.king ||| A.bishop) ||
        capture_in_increasing_direction (ctx.move_maps.e_rank sq)
          (A.rook ||| A.queen)
          (D.union ||| A.pawn ||| A.knight ||| A.king ||| A.bishop) ||
        capture_in_decreasing_direction (ctx.move_maps.w_rank sq)
          (A.rook ||| A.queen)
          (D.union ||| A.pawn ||| A.knight ||| A.king ||| A.bishop)) =
          true ∨
      am sq &&& A.pawn ≠ 0 ∨
      ctx.move_maps.knight sq &&& A.knight ≠ 0 ∨
      ctx.move_maps.king sq &&& A.king ≠ 0) := by
  rw [MoveGeneratorContext.is_square_attacked, had, ham]
  dsimp only
  split_ifs with h1 h2 h3 h4 h5
  · simp [h1]
  · simp [h1, h2]
  · simp [h1, h2, h3]
  · simp [h1, h2, h3, h4]
  · simp [h1, h2, h3, h4, h5]
  · simp [h1, h2, h3, h4, h5]

/-- A nonzero conjunction exhibits a common set bit. -/
theorem and_ne_zero_iff {a b : Nat} (hab : a &&& b < 2 ^ 64) :
    a &&& b ≠ 0 ↔ ∃ i, a.testBit i = true ∧ b.testBit i = true := by
  constructor
  · intro h
    refine ⟨ctz (a &&& b), ?_⟩
    have := testBit_ctz_self h hab
    rw [Nat.testBit_and, Bool.and_eq_true] at this
    exact this
  · rintro ⟨i, ha, hb⟩
    apply ne_zero_of_testBit
    rw [Nat.testBit_and, ha, hb]
    rfl

/-- Disjointness restricts to covered boards. -/
theorem sub_disjoint {x u d : Nat}
    (hsub : ∀ i, x.testBit i = true → u.testBit i = true)
    (h : u &&& d = 0) : x &&& d = 0 := by
  apply Nat.eq_of_testBit_eq
  intro i
  rw [Nat.testBit_and, Nat.zero_testBit]
  cases hx : x.testBit i
  · rfl
  · rw [disjoint_testBit h (hsub i hx)]
    rfl

/-- The bishop/queen targets plus their blockers cover exactly all
pieces. -/
theorem cover_bq (A D : ChessBoardSide) :
    (A.bishop ||| A.queen) |||
      (D.union ||| A.pawn ||| A.knight ||| A.king ||| A.rook) =
    D.union ||| A.union := by
  apply Nat.eq_of_testBit_eq
  intro i
  rw [Bool.eq_iff_iff]
  simp only [ChessBoardSide.union, Nat.testBit_or, Bool.or_eq_true]
  tauto

/-- The rook/queen targets plus their blockers cover exactly all
pieces. -/
theorem cover_rq (A D : ChessBoardSide) :
    (A.rook ||| A.queen) |||
      (D.union ||| A.pawn ||| A.knight ||| A.king ||| A.bishop) =
    D.union ||| A.union := by
  apply Nat.eq_of_testBit_eq
  intro i
  rw [Bool.eq_iff_iff]
  simp only [ChessBoardSide.union, Nat.testBit_or, Bool.or_eq_true]
  tauto

/-- Boards of a side are covered by its union. -/
theorem board_sub_union (A : ChessBoardSide) :
    (∀ i, A.pawn.testBit i = true → A.union.testBit i = true) ∧
    (∀ i, A.knight.testBit i = true → A.union.testBit i = true) ∧
    (∀ i, A.bishop.testBit i = true → A.union.testBit i = true) ∧
    (∀ i, A.rook.testBit i = true → A.union.testBit i = true) ∧
    (∀ i, A.queen.testBit i = true → A.union.testBit i = true) ∧
    (∀ i, A.king.testBit i = true → A.union.testBit i = true) := by
  refine ⟨fun i h => testBit_union_of (Or.inl rfl) h,
    fun i h => testBit_union_of (Or.inr (Or.inl rfl)) h,
    fun i h => testBit_union_of (Or.inr (Or.inr (Or.inl rfl))) h,
    fun i h => testBit_union_of (Or.inr (Or.inr (Or.inr (Or.inl rfl)))) h,
    fun i h => testBit_union_of
      (Or.inr (Or.inr (Or.inr (Or.inr (Or.inl rfl))))) h,
    fun i h => testBit_union_of
      (Or.inr (Or.inr (Or.inr (Or.inr (Or.inr rfl))))) h⟩

/-- The bishop/queen targets are disjoint from their blockers. -/
theorem disj_bq (A D : ChessBoardSide) (hA : disjointSide A)
    (hAD : A.union &&& D.union = 0) :
    (A.bishop ||| A.queen) &&&
      (D.union ||| A.pawn ||| A.knight ||| A.king ||| A.rook) = 0 := by
  obtain ⟨hpn, hpb, hpr, hpq, hpk, hnb, hnr, hnq, hnk, hbr, hbq, hbk,
    hrq, hrk, hqk⟩ := hA
  obtain ⟨hsp, hsn, hsb, hsr, hsq', hsk⟩ := board_sub_union A
  have hbD : A.bishop &&& D.union = 0 := sub_disjoint hsb hAD
  have hqD : A.queen &&& D.union = 0 := sub_disjoint hsq' hAD
  apply or_and_zero_left <;>
    refine and_or_zero_right (and_or_zero_right (and_or_zero_right
      (and_or_zero_right ?_ ?_) ?_) ?_) ?_
  · exact hbD
  · exact and_zero_comm hpb
  · exact and_zero_comm hnb
  · exact hbk
  · exact hbr
  · exact hqD
  · exact and_zero_comm hpq
  · exact and_zero_comm hnq
  · exact hqk
  · exact and_zero_comm hrq

/-- The rook/queen targets are disjoint from their blockers. -/
theorem disj_rq (A D : ChessBoardSide) (hA : disjointSide A)
    (hAD : A.union &&& D.union = 0) :
    (A.rook ||| A.queen) &&&
      (D.union ||| A.pawn ||| A.knight ||| A.king ||| A.bishop) = 0 := by
  obtain ⟨hpn, hpb, hpr, hpq, hpk, hnb, hnr, hnq, hnk, hbr, hbq, hbk,
    hrq, hrk, hqk⟩ := hA
  obtain ⟨hsp, hsn, hsb, hsr, hsq', hsk⟩ := board_sub_union A
  have hrD : A.rook &&& D.union = 0 := sub_disjoint hsr hAD
  have hqD : A.queen &&& D.union = 0 := sub_disjoint hsq' hAD
  apply or_and_zero_left <;>
    refine and_or_zero_right (and_or_zero_right (and_or_zero_right
      (and_or_zero_right ?_ ?_) ?_) ?_) ?_
  · exact hrD
  · exact and_zero_comm hpr
  · exact and_zero_comm hnr
  · exact hrk
  · exact and_zero_comm hbr
  · exact hqD
  · exact and_zero_comm hpq
  · exact and_zero_comm hnq
  · exact hqk
  · exact and_zero_comm hbq

/-- The defending side's board side of `split_boards`. -/
theorem split_boards_snd (s : GameState) :
    s.split_boards.2 =
      (if StateFlags.active_color s.flags = Color.white then
        s.boards.black else s.boards.white) := by
  rw [GameState.split_boards]
  by_cases hac : StateFlags.active_color s.flags = Color.white
  · rw [if_pos hac, if_pos hac]
  · rw [if_neg hac, if_neg hac]

/-- Existentials over the bits of a union split. -/
theorem exists_or_union {a b : Nat} {P : Nat → Prop} :
    ((∃ p, a.testBit p = true ∧ P p) ∨
        (∃ p, b.testBit p = true ∧ P p)) ↔
      ∃ p, (a ||| b).testBit p = true ∧ P p := by
  constructor
  · rintro (⟨p, h, hP⟩ | ⟨p, h, hP⟩)
    · exact ⟨p, by rw [Nat.testBit_or, h]; rfl, hP⟩
    · exact ⟨p, by rw [Nat.testBit_or, h]; simp, hP⟩
  · rintro ⟨p, h, hP⟩
    rw [Nat.testBit_or, Bool.or_eq_true] at h
    rcases h with h | h
    · exact Or.inl ⟨p, h, hP⟩
    · exact Or.inr ⟨p, h, hP⟩

/-- Four existentials over the same board merge into one. -/
theorem exists_and_or_four {T : Nat} {P Q R S : Nat → Prop} :
    ((∃ p, T.testBit p = true ∧ P p) ∨
        (∃ p, T.testBit p = true ∧ Q p) ∨
        (∃ p, T.testBit p = true ∧ R p) ∨
        (∃ p, T.testBit p = true ∧ S p)) ↔
      ∃ p, T.testBit p = true ∧ (P p ∨ Q p ∨ R p ∨ S p) := by
  constructor
  · rintro (⟨p, h, hx⟩ | ⟨p, h, hx⟩ | ⟨p, h, hx⟩ | ⟨p, h, hx⟩)
    · exact ⟨p, h, Or.inl hx⟩
    · exact ⟨p, h, Or.inr (Or.inl hx)⟩
    · exact ⟨p, h, Or.inr (Or.inr (Or.inl hx))⟩
    · exact ⟨p, h, Or.inr (Or.inr (Or.inr hx))⟩
  · rintro ⟨p, h, hx | hx | hx | hx⟩
    · exact Or.inl ⟨p, h, hx⟩
    · exact Or.inr (Or.inl ⟨p, h, hx⟩)
    · exact Or.inr (Or.inr (Or.inl ⟨p, h, hx⟩))
    · exact Or.inr (Or.inr (Or.inr ⟨p, h, hx⟩))

/-- Conjunction with a one-bit board tests exactly that bit. -/
theorem and_one_shift_ne_zero_iff {x k : Nat} (hk : k < 64)
    (hx : x < 2 ^ 64) :
    x &&& (1 <<< k) ≠ 0 ↔ x.testBit k = true := by
  have hsh : (1 : Nat) <<< k < 2 ^ 64 := by
    rw [Nat.shiftLeft_eq, one_mul]
    exact Nat.pow_lt_pow_right (by norm_num) hk
  rw [and_ne_zero_iff (lt_of_le_of_lt Nat.and_le_left hx)]
  constructor
  · rintro ⟨i, hxi, hki⟩
    rw [Nat.shiftLeft_eq, one_mul, Nat.testBit_two_pow] at hki
    have : k = i := by simpa using hki
    rw [this]
    exact hxi
  · intro h
    refine ⟨k, h, ?_⟩
    rw [Nat.shiftLeft_eq, one_mul, Nat.testBit_two_pow]
    simp

set_option maxHeartbeats 1600000 in
/-- The super-piece attack probe agrees with capture-move existence,
section by section, for the generator context of a well-formed state
whose active color is the attacker. -/
theorem attacked_iff_sections (ctx : MoveGeneratorContext) (sq : Nat)
    (c : Color) (A D : ChessBoardSide) (kA : Nat)
    (genPawnMap attackPawnMap : Nat → Nat)
    (hmaps : ctx.move_maps = MoveMaps.new)
    (hfp : ctx.friendly_pieces = A)
    (hfo : ctx.friendly_occupation = A.union)
    (heo : ctx.enemy_occupation = D.union)
    (had : (if c = Color.black then
        (ctx.state.boards.black, ctx.state.boards.white)
      else (ctx.state.boards.white, ctx.state.boards.black)) = (A, D))
    (ham : (if c = Color.white then ctx.move_maps.black_pawn_attack
      else ctx.move_maps.white_pawn_attack) = attackPawnMap)
    (hgm : (if StateFlags.active_color ctx.state.flags = Color.white then
        ctx.move_maps.white_pawn_attack
      else ctx.move_maps.black_pawn_attack) = genPawnMap)
    (hpgeo : ∀ a, a < 64 → ∀ b, b < 64 →
      (genPawnMap a).testBit b = (attackPawnMap b).testBit a)
    (hbA : boundedSide A) (hbD : boundedSide D)
    (hdA : disjointSide A) (hADu : A.union &&& D.union = 0)
    (hkA : kA < 64) (hkAeq : A.king = 1 <<< kA)
    (hep : ctx.state.en_passant < 2 ^ 64)
    (hsq_eo : D.union.testBit sq = true) :
    (ctx.is_square_attacked sq c = true ↔
      ((∃ m ∈ ctx.get_pseudo_legal_knight_moves,
          m.toSq = sq ∧ m.code.is_capture = true) ∨
        (∃ m ∈ ctx.get_pseudo_legal_diagonal_moves A.bishop,
          m.toSq = sq ∧ m.code.is_capture = true) ∨
        (∃ m ∈ ctx.get_pseudo_legal_diagonal_moves A.queen,
          m.toSq = sq ∧ m.code.is_capture = true) ∨
        (∃ m ∈ ctx.get_pseudo_legal_rank_file_moves A.rook,
          m.toSq = sq ∧ m.code.is_capture = true) ∨
        (∃ m ∈ ctx.get_pseudo_legal_rank_file_moves A.queen,
          m.toSq = sq ∧ m.code.is_capture = true) ∨
        (∃ m ∈ ctx.get_pseudo_legal_pawn_moves,
          m.toSq = sq ∧ m.code.is_capture = true) ∨
        (∃ l, ctx.get_pseudo_legal_king_moves = some l ∧
          ∃ m ∈ l, m.toSq = sq ∧ m.code.is_capture = true))) := by
  obtain ⟨hbAp, hbAn, hbAb, hbAr, hbAq, hbAk⟩ := hbA
  have hAu : A.union < 2 ^ 64 :=
    union_lt A ⟨hbAp, hbAn, hbAb, hbAr, hbAq, hbAk⟩
  have hDu : D.union < 2 ^ 64 := union_lt D hbD
  have hfo64 : ctx.friendly_occupation < 2 ^ 64 := by
    rw [hfo]
    exact hAu
  have heo64 : ctx.enemy_occupation < 2 ^ 64 := by
    rw [heo]
    exact hDu
  have hdisjctx : ctx.enemy_occupation &&& ctx.friendly_occupation = 0 := by
    rw [heo, hfo]
    exact and_zero_comm hADu
  have hsq64 : sq < 64 := testBit_lt_64 hDu hsq_eo
  have hsq_eoctx : ctx.enemy_occupation.testBit sq = true := by
    rw [heo]
    exact hsq_eo
  have hsq_foctx : ctx.friendly_occupation.testBit sq = false := by
    rw [hfo]
    exact disjoint_testBit (and_zero_comm hADu) hsq_eo
  have hTBQ : A.bishop ||| A.queen < 2 ^ 64 := Nat.or_lt_two_pow hbAb hbAq
  have hTRQ : A.rook ||| A.queen < 2 ^ 64 := Nat.or_lt_two_pow hbAr hbAq
  have hBlBQ : D.union ||| A.pawn ||| A.knight ||| A.king ||| A.rook <
      2 ^ 64 :=
    Nat.or_lt_two_pow (Nat.or_lt_two_pow (Nat.or_lt_two_pow
      (Nat.or_lt_two_pow hDu hbAp) hbAn) hbAk) hbAr
  have hBlRQ : D.union ||| A.pawn ||| A.knight ||| A.king ||| A.bishop <
      2 ^ 64 :=
    Nat.or_lt_two_pow (Nat.or_lt_two_pow (Nat.or_lt_two_pow
      (Nat.or_lt_two_pow hDu hbAp) hbAn) hbAk) hbAb
  have hcoverBQ : (A.bishop ||| A.queen) |||
      (D.union ||| A.pawn ||| A.knight ||| A.king ||| A.rook) =
      ctx.enemy_occupation ||| ctx.friendly_occupation := by
    rw [heo, hfo]
    exact cover_bq A D
  have hcoverRQ : (A.rook ||| A.queen) |||
      (D.union ||| A.pawn ||| A.knight ||| A.king ||| A.bishop) =
      ctx.enemy_occupation ||| ctx.friendly_occupation := by
    rw [heo, hfo]
    exact cover_rq A D
  have hdisjBQ := disj_bq A D hdA hADu
  have hdisjRQ := disj_rq A D hdA hADu
  rw [attacked_disj ctx sq c A D attackPawnMap had ham, hmaps]
  have h1 := bridge_inc_dec ctx MoveMaps.new.ne_diagonal
    MoveMaps.new.sw_diagonal geo_ne_sw sq hsq64 _ _ hTBQ hBlBQ hdisjBQ
    hcoverBQ hsq_eoctx
  have h2 := bridge_inc_dec ctx MoveMaps.new.nw_diagonal
    MoveMaps.new.se_diagonal geo_nw_se sq hsq64 _ _ hTBQ hBlBQ hdisjBQ
    hcoverBQ hsq_eoctx
  have h3 := bridge_dec_inc ctx MoveMaps.new.nw_diagonal
    MoveMaps.new.se_diagonal geo_nw_se sq hsq64 _ _ hTBQ hBlBQ hdisjBQ
    hcoverBQ hsq_eoctx
  have h4 := bridge_dec_inc ctx MoveMaps.new.ne_diagonal
    MoveMaps.new.sw_diagonal geo_ne_sw sq hsq64 _ _ hTBQ hBlBQ hdisjBQ
    hcoverBQ hsq_eoctx
  have h5 := bridge_inc_dec ctx MoveMaps.new.n_file
    MoveMaps.new.s_file geo_n_s sq hsq64 _ _ hTRQ hBlRQ hdisjRQ
    hcoverRQ hsq_eoctx
  have h6 := bridge_dec_inc ctx MoveMaps.new.n_file
    MoveMaps.new.s_file geo_n_s sq hsq64 _ _ hTRQ hBlRQ hdisjRQ
    hcoverRQ hsq_eoctx
  have h7 := bridge_inc_dec ctx MoveMaps.new.e_rank
    MoveMaps.new.w_rank geo_e_w sq hsq64 _ _ hTRQ hBlRQ hdisjRQ
    hcoverRQ hsq_eoctx
  have h8 := bridge_dec_inc ctx MoveMaps.new.e_rank
    MoveMaps.new.w_rank geo_e_w sq hsq64 _ _ hTRQ hBlRQ hdisjRQ
    hcoverRQ hsq_eoctx
  have hdb := diagonal_capture_iff ctx A.bishop sq hbAb hfo64 heo64
    hdisjctx
  have hdq := diagonal_capture_iff ctx A.queen sq hbAq hfo64 heo64
    hdisjctx
  have hrr := rank_file_capture_iff ctx A.rook sq hbAr hfo64 heo64
    hdisjctx
  have hrq := rank_file_capture_iff ctx A.queen sq hbAq hfo64 heo64
    hdisjctx
  rw [hmaps] at hdb hdq hrr hrq
  have hc1 : ((capture_in_increasing_direction
        (MoveMaps.new.ne_diagonal sq) (A.bishop ||| A.queen)
        (D.union ||| A.pawn ||| A.knight ||| A.king ||| A.rook) ||
      capture_in_increasing_direction (MoveMaps.new.nw_diagonal sq)
        (A.bishop ||| A.queen)
        (D.union ||| A.pawn ||| A.knight ||| A.king ||| A.rook) ||
      capture_in_decreasing_direction (MoveMaps.new.se_diagonal sq)
        (A.bishop ||| A.queen)
        (D.union ||| A.pawn ||| A.knight ||| A.king ||| A.rook) ||
      capture_in_decreasing_direction (MoveMaps.new.sw_diagonal sq)
        (A.bishop ||| A.queen)
        (D.union ||| A.pawn ||| A.knight ||| A.king ||| A.rook)) =
        true) ↔
      ((∃ m ∈ ctx.get_pseudo_legal_diagonal_moves A.bishop,
          m.toSq = sq ∧ m.code.is_capture = true) ∨
        (∃ m ∈ ctx.get_pseudo_legal_diagonal_moves A.queen,
          m.toSq = sq ∧ m.code.is_capture = true)) := by
    simp only [Bool.or_eq_true]
    rw [h1, h2, h3, h4, hdb, hdq, exists_or_union]
    constructor
    · rintro (((⟨p, h, hx⟩ | ⟨p, h, hx⟩) | ⟨p, h, hx⟩) | ⟨p, h, hx⟩)
      · exact ⟨p, h, Or.inr (Or.inr (Or.inr hx))⟩
      · exact ⟨p, h, Or.inr (Or.inr (Or.inl hx))⟩
      · exact ⟨p, h, Or.inr (Or.inl hx)⟩
      · exact ⟨p, h, Or.inl hx⟩
    · rintro ⟨p, h, hx | hx | hx | hx⟩
      · exact Or.inr ⟨p, h, hx⟩
      · exact Or.inl (Or.inr ⟨p, h, hx⟩)
      · exact Or.inl (Or.inl (Or.inr ⟨p, h, hx⟩))
      · exact Or.inl (Or.inl (Or.inl ⟨p, h, hx⟩))
  have hc2 : ((capture_in_increasing_direction (MoveMaps.new.n_file sq)
        (A.rook ||| A.queen)
        (D.union ||| A.pawn ||| A.knight ||| A.king ||| A.bishop) ||
      capture_in_decreasing_direction (MoveMaps.new.s_file sq)
        (A.rook ||| A.queen)
        (D.union ||| A.pawn ||| A.knight ||| A.king ||| A.bishop) ||
      capture_in_increasing_direction (MoveMaps.new.e_rank sq)
        (A.rook ||| A.queen)
        (D.union ||| A.pawn ||| A.knight ||| A.king ||| A.bishop) ||
      capture_in_decreasing_direction (MoveMaps.new.w_rank sq)
        (A.rook ||| A.queen)
        (D.union ||| A.pawn ||| A.knight ||| A.king ||| A.bishop)) =
        true) ↔
      ((∃ m ∈ ctx.get_pseudo_legal_rank_file_moves A.rook,
          m.toSq = sq ∧ m.code.is_capture = true) ∨
        (∃ m ∈ ctx.get_pseudo_legal_rank_file_moves A.queen,
          m.toSq = sq ∧ m.code.is_capture = true)) := by
    simp only [Bool.or_eq_true]
    rw [h5, h6, h7, h8, hrr, hrq, exists_or_union]
    constructor
    · rintro (((⟨p, h, hx⟩ | ⟨p, h, hx⟩) | ⟨p, h, hx⟩) | ⟨p, h, hx⟩)
      · exact ⟨p, h, Or.inr (Or.inl hx)⟩
      · exact ⟨p, h, Or.inl hx⟩
      · exact ⟨p, h, Or.inr (Or.inr (Or.inr hx))⟩
      · exact ⟨p, h, Or.inr (Or.inr (Or.inl hx))⟩
    · rintro ⟨p, h, hx | hx | hx | hx⟩
      · exact Or.inl (Or.inl (Or.inr ⟨p, h, hx⟩))
      · exact Or.inl (Or.inl (Or.inl ⟨p, h, hx⟩))
      · exact Or.inr ⟨p, h, hx⟩
      · exact Or.inl (Or.inr ⟨p, h, hx⟩)
  have hknight := knight_capture_iff ctx sq (by rw [hfp]; exact hbAn)
    heo64
  rw [hmaps, hfp] at hknight
  have hc4 : MoveMaps.new.knight sq &&& A.knight ≠ 0 ↔
      (∃ m ∈ ctx.get_pseudo_legal_knight_moves,
        m.toSq = sq ∧ m.code.is_capture = true) := by
    rw [hknight, and_ne_zero_iff (lt_of_le_of_lt Nat.and_le_right hbAn)]
    constructor
    · rintro ⟨i, hmi, hni⟩
      have hi64 : i < 64 := testBit_lt_64 hbAn hni
      refine ⟨i, hni, ?_⟩
      rw [Nat.testBit_and, Nat.testBit_and, Bool.and_eq_true,
        Bool.and_eq_true]
      refine ⟨⟨?_, ?_⟩, hsq_eoctx⟩
      · rw [geo_knight i hi64 sq hsq64]
        exact hmi
      · rw [testBit_not64 hsq64, hsq_foctx]
        rfl
    · rintro ⟨fr, hfr, hx⟩
      have hfr64 : fr < 64 := testBit_lt_64 hbAn hfr
      rw [Nat.testBit_and, Nat.testBit_and, Bool.and_eq_true,
        Bool.and_eq_true] at hx
      refine ⟨fr, ?_, hfr⟩
      rw [← geo_knight fr hfr64 sq hsq64]
      exact hx.1.1
  obtain ⟨kl, hkl, hkiff⟩ := king_capture_iff ctx sq kA hkA
    (by rw [hfp]; exact hkAeq) heo64
  rw [hmaps] at hkiff
  have hsh : (1 : Nat) <<< kA < 2 ^ 64 := by
    rw [Nat.shiftLeft_eq, one_mul]
    exact Nat.pow_lt_pow_right (by norm_num) hkA
  have hc5 : MoveMaps.new.king sq &&& A.king ≠ 0 ↔
      (∃ l, ctx.get_pseudo_legal_king_moves = some l ∧
        ∃ m ∈ l, m.toSq = sq ∧ m.code.is_capture = true) := by
    rw [hkAeq]
    constructor
    · intro hne
      rcases (and_ne_zero_iff
          (lt_of_le_of_lt Nat.and_le_right hsh)).mp hne with ⟨i, hmi, hki⟩
      have hik : i = kA := by
        rw [Nat.shiftLeft_eq, one_mul, Nat.testBit_two_pow] at hki
        have := of_decide_eq_true hki
        omega
      subst hik
      refine ⟨kl, hkl, hkiff.mpr ?_⟩
      rw [Nat.testBit_and, Nat.testBit_and, Bool.and_eq_true,
        Bool.and_eq_true]
      refine ⟨⟨?_, ?_⟩, hsq_eoctx⟩
      · rw [geo_king i hkA sq hsq64]
        exact hmi
      · rw [testBit_not64 hsq64, hsq_foctx]
        rfl
    · rintro ⟨l, hleq, hex⟩
      have hll : kl = l := by
        rw [hkl] at hleq
        injection hleq
      rw [← hll] at hex
      have hx := hkiff.mp hex
      rw [Nat.testBit_and, Nat.testBit_and, Bool.and_eq_true,
        Bool.and_eq_true] at hx
      apply ne_zero_of_testBit
      rw [Nat.testBit_and, Bool.and_eq_true]
      refine ⟨?_, ?_⟩
      · rw [← geo_king kA hkA sq hsq64]
        exact hx.1.1
      · rw [Nat.shiftLeft_eq, one_mul, Nat.testBit_two_pow]
        simp
  have hpawn := pawn_capture_iff ctx sq (by rw [hfp]; exact hbAp) heo64
    hep hsq_eoctx
  rw [hfp, hgm] at hpawn
  have hc6 : attackPawnMap sq &&& A.pawn ≠ 0 ↔
      (∃ m ∈ ctx.get_pseudo_legal_pawn_moves,
        m.toSq = sq ∧ m.code.is_capture = true) := by
    rw [hpawn, and_ne_zero_iff (lt_of_le_of_lt Nat.and_le_right hbAp)]
    constructor
    · rintro ⟨i, hmi, hpi⟩
      have hi64 := testBit_lt_64 hbAp hpi
      refine ⟨i, hpi, ?_⟩
      rw [hpgeo i hi64 sq hsq64]
      exact hmi
    · rintro ⟨fr, hfr, hx⟩
      have hfr64 := testBit_lt_64 hbAp hfr
      refine ⟨fr, ?_, hfr⟩
      rw [← hpgeo fr hfr64 sq hsq64]
      exact hx
  rw [hc1, hc2, hc4, hc5, hc6]
  constructor
  · rintro ((h | h) | (h | h) | h | h | h)
    · exact .inr (.inl h)
    · exact .inr (.inr (.inl h))
    · exact .inr (.inr (.inr (.inl h)))
    · exact .inr (.inr (.inr (.inr (.inl h))))
    · exact .inr (.inr (.inr (.inr (.inr (.inl h)))))
    · exact .inl h
    · exact .inr (.inr (.inr (.inr (.inr (.inr h)))))
  · rintro (h | h | h | h | h | h | h)
    · exact Or.inr (Or.inr (Or.inr (Or.inl h)))
    · exact Or.inl (Or.inl h)
    · exact Or.inl (Or.inr h)
    · exact Or.inr (Or.inl (Or.inl h))
    · exact Or.inr (Or.inl (Or.inr h))
    · exact Or.inr (Or.inr (Or.inl h))
    · exact Or.inr (Or.inr (Or.inr (Or.inr h)))

/-- C3 (amended): on a well-formed (reachable-shaped) state whose
active color is the attacker and whose target square holds a piece of
the defending side, `is_square_attacked` agrees exactly with
brute-force enumeration: it returns `true` iff the generated
pseudo-legal move list contains a capture-coded move targeting that
square.  The original claim, quantified over arbitrary targeting
moves, is false — see the counterexample. -/
theorem is_square_attacked_correct (s : GameState) (sq : Nat) (c : Color)
    (hwf : WFState s)
    (hact : StateFlags.active_color s.flags = c)
    (hdef : ((if c = Color.white then s.boards.black else
        s.boards.white).union).testBit sq = true)
    (moves : List Move)
    (hmoves : get_pseudo_legal_moves s = some moves) :
    (is_square_attacked s sq c = true ↔
      ∃ m ∈ moves, m.toSq = sq ∧ m.code.is_capture = true) := by
  obtain ⟨hbw, hbb, hdw, hdb, hWB, ⟨kw, hkw64, hkw⟩, ⟨kb, hkb64, hkb⟩,
    hepocc, hep64⟩ := hwf
  have hst : (MoveGeneratorContext.new s MoveMaps.new).state = s := rfl
  have hmm0 : (MoveGeneratorContext.new s MoveMaps.new).move_maps =
      MoveMaps.new := rfl
  rw [get_pseudo_legal_moves] at hmoves
  rw [Chess.is_square_attacked]
  cases c with
  | white =>
    rw [if_pos rfl] at hdef
    have hfp : (MoveGeneratorContext.new s MoveMaps.new).friendly_pieces =
        s.boards.white := by
      show s.split_boards.1 = _
      rw [split_boards_fst, if_pos hact]
    have hfo : (MoveGeneratorContext.new s
        MoveMaps.new).friendly_occupation = s.boards.white.union := by
      show s.split_boards.1.union = _
      rw [split_boards_fst, if_pos hact]
    have heo : (MoveGeneratorContext.new s
        MoveMaps.new).enemy_occupation = s.boards.black.union := by
      show s.split_boards.2.union = _
      rw [split_boards_snd, if_pos hact]
    have hmain := attacked_iff_sections
      (MoveGeneratorContext.new s MoveMaps.new) sq Color.white
      s.boards.white s.boards.black kw
      MoveMaps.new.white_pawn_attack MoveMaps.new.black_pawn_attack
      rfl hfp hfo heo (by rw [if_neg (by decide), hst])
      (by rw [if_pos rfl, hmm0]) (by rw [hst, if_pos hact, hmm0]) geo_pawn
      hbw hbb hdw hWB hkw64 hkw (by rw [hst]; exact hep64) hdef
    have hkingf : (MoveGeneratorContext.new s
        MoveMaps.new).friendly_pieces.king = 1 <<< kw := by
      rw [hfp]
      exact hkw
    have hknz : (1 : Nat) <<< kw ≠ 0 := by
      rw [Nat.shiftLeft_eq, one_mul]
      exact Nat.pos_iff_ne_zero.mp (Nat.pos_pow_of_pos kw (by norm_num))
    have hksome : getFirstSquare ((MoveGeneratorContext.new s
        MoveMaps.new).friendly_pieces.king) = some kw := by
      rw [hkingf, getFirstSquare_eq_some_iff]
      exact ⟨hknz, ctz_one_shift hkw64⟩
    rw [MoveGeneratorContext.generate_pseudo_legal_moves] at hmoves
    rcases hk : (MoveGeneratorContext.new s
        MoveMaps.new).get_pseudo_legal_king_moves with _ | kl
    · rw [MoveGeneratorContext.get_pseudo_legal_king_moves,
        hksome] at hk
      cases hk
    · rw [hk] at hmoves
      have hmv := hmoves
      injection hmv with hmv
      rw [← hmv]
      rw [exists_mem_append, exists_mem_append, exists_mem_append,
        exists_mem_append, exists_mem_append, exists_mem_append,
        exists_mem_append]
      rw [hmain, hfp]
      have hc8 : ¬ ∃ m ∈ (MoveGeneratorContext.new s
          MoveMaps.new).get_pseudo_legal_castles,
          m.toSq = sq ∧ m.code.is_capture = true := by
        rintro ⟨m, hm, _, hcap⟩
        rw [castles_no_capture _ m hm] at hcap
        cases hcap
      constructor
      · rintro (h | h | h | h | h | h | ⟨l, hleq, hex⟩)
        · exact Or.inl (Or.inl (Or.inl (Or.inl (Or.inl (Or.inl
            (Or.inl h))))))
        · exact Or.inl (Or.inl (Or.inl (Or.inl (Or.inl (Or.inl
            (Or.inr h))))))
        · exact Or.inl (Or.inl (Or.inl (Or.inl (Or.inl (Or.inr h)))))
        · exact Or.inl (Or.inl (Or.inl (Or.inl (Or.inr h))))
        · exact Or.inl (Or.inl (Or.inl (Or.inr h)))
        · exact Or.inl (Or.inl (Or.inr h))
        · rw [hk] at hleq
          injection hleq with he
          rw [← he] at hex
          exact Or.inl (Or.inr hex)
      · rintro (((((((h | h) | h) | h) | h) | h) | h) | h)
        · exact .inl h
        · exact .inr (.inl h)
        · exact .inr (.inr (.inl h))
        · exact .inr (.inr (.inr (.inl h)))
        · exact .inr (.inr (.inr (.inr (.inl h))))
        · exact .inr (.inr (.inr (.inr (.inr (.inl h)))))
        · exact Or.inr (Or.inr (Or.inr (Or.inr (Or.inr (Or.inr
            ⟨kl, hk, h⟩)))))
        · exact absurd h hc8
  | black =>
    rw [if_neg (by decide)] at hdef
    have hne : ¬ StateFlags.active_color s.flags = Color.white := by
      rw [hact]
      decide
    have hfp : (MoveGeneratorContext.new s MoveMaps.new).friendly_pieces =
        s.boards.black := by
      show s.split_boards.1 = _
      rw [split_boards_fst, if_neg hne]
    have hfo : (MoveGeneratorContext.new s
        MoveMaps.new).friendly_occupation = s.boards.black.union := by
      show s.split_boards.1.union = _
      rw [split_boards_fst, if_neg hne]
    have heo : (MoveGeneratorContext.new s
        MoveMaps.new).enemy_occupation = s.boards.white.union := by
      show s.split_boards.2.union = _
      rw [split_boards_snd, if_neg hne]
    have hmain := attacked_iff_sections
      (MoveGeneratorContext.new s MoveMaps.new) sq Color.black
      s.boards.black s.boards.white kb
      MoveMaps.new.black_pawn_attack MoveMaps.new.white_pawn_attack
      rfl hfp hfo heo (by rw [if_pos rfl, hst])
      (by rw [if_neg (by decide), hmm0]) (by rw [hst, if_neg hne, hmm0])
      (fun a ha b hb => (geo_pawn b hb a ha).symm)
      hbb hbw hdb (and_zero_comm hWB) hkb64 hkb
      (by rw [hst]; exact hep64) hdef
    have hkingf : (MoveGeneratorContext.new s
        MoveMaps.new).friendly_pieces.king = 1 <<< kb := by
      rw [hfp]
      exact hkb
    have hknz : (1 : Nat) <<< kb ≠ 0 := by
      rw [Nat.shiftLeft_eq, one_mul]
      exact Nat.pos_iff_ne_zero.mp (Nat.pos_pow_of_pos kb (by norm_num))
    have hksome : getFirstSquare ((MoveGeneratorContext.new s
        MoveMaps.new).friendly_pieces.king) = some kb := by
      rw [hkingf, getFirstSquare_eq_some_iff]
      exact ⟨hknz, ctz_one_shift hkb64⟩
    rw [MoveGeneratorContext.generate_pseudo_legal_moves] at hmoves
    rcases hk : (MoveGeneratorContext.new s
        MoveMaps.new).get_pseudo_legal_king_moves with _ | kl
    · rw [MoveGeneratorContext.get_pseudo_legal_king_moves,
        hksome] at hk
      cases hk
    · rw [hk] at hmoves
      have hmv := hmoves
      injection hmv with hmv
      rw [← hmv]
      rw [exists_mem_append, exists_mem_append, exists_mem_append,
        exists_mem_append, exists_mem_append, exists_mem_append,
        exists_mem_append]
      rw [hmain, hfp]
      have hc8 : ¬ ∃ m ∈ (MoveGeneratorContext.new s
          MoveMaps.new).get_pseudo_legal_castles,
          m.toSq = sq ∧ m.code.is_capture = true := by
        rintro ⟨m, hm, _, hcap⟩
        rw [castles_no_capture _ m hm] at hcap
        cases hcap
      constructor
      · rintro (h | h | h | h | h | h | ⟨l, hleq, hex⟩)
        · exact Or.inl (Or.inl (Or.inl (Or.inl (Or.inl (Or.inl
            (Or.inl h))))))
        · exact Or.inl (Or.inl (Or.inl (Or.inl (Or.inl (Or.inl
            (Or.inr h))))))
        · exact Or.inl (Or.inl (Or.inl (Or.inl (Or.inl (Or.inr h)))))
        · exact Or.inl (Or.inl (Or.inl (Or.inl (Or.inr h))))
        · exact Or.inl (Or.inl (Or.inl (Or.inr h)))
        · exact Or.inl (Or.inl (Or.inr h))
        · rw [hk] at hleq
          injection hleq with he
          rw [← he] at hex
          exact Or.inl (Or.inr hex)
      · rintro (((((((h | h) | h) | h) | h) | h) | h) | h)
        · exact .inl h
        · exact .inr (.inl h)
        · exact .inr (.inr (.inl h))
        · exact .inr (.inr (.inr (.inl h)))
        · exact .inr (.inr (.inr (.inr (.inl h))))
        · exact .inr (.inr (.inr (.inr (.inr (.inl h)))))
        · exact Or.inr (Or.inr (Or.inr (Or.inr (Or.inr (Or.inr
            ⟨kl, hk, h⟩)))))
        · exact absurd h hc8

/-- C3: FALSIFIED as stated.  At the starting position white's
generated pseudo-legal moves include the double pawn push a2a4
targeting square 24, yet `is_square_attacked(24, White)` is false —
the brute-force enumeration "yields a move targeting s" without the
square being attacked (and this is not the flagged en-passant case:
the disagreeing move is a quiet double pawn push). -/
theorem is_square_attacked_counterexample :
    (∃ m ∈ (get_pseudo_legal_moves startState).getD [],
        m.toSq = 24 ∧ m.code = MoveCode.doublePawnPush) ∧
    is_square_attacked startState 24 Color.white = false := by
  refine ⟨by decide, by decide⟩

/-- White rook a1, white king e1, black pawn a7, black king e8, white
to move: the rook attacks a7 up the open file. -/
def rookAttackState : GameState :=
  ⟨⟨⟨0, 0, 0, 1, 0, 0x10⟩,
    ⟨0x1000000000000, 0, 0, 0, 0, 0x1000000000000000⟩⟩, 0, 0, 0⟩

/-- C3 amended-theorem witness: in `rookAttackState` the attack probe
on a7 and the existence of a generated capture targeting a7 agree (and
both hold). -/
theorem is_square_attacked_correct_witness :
    WFState rookAttackState ∧
    (is_square_attacked rookAttackState 48 Color.white = true ↔
      ∃ m ∈ (get_pseudo_legal_moves rookAttackState).getD [],
        m.toSq = 48 ∧ m.code.is_capture = true) :=
  ⟨by decide,
    is_square_attacked_correct rookAttackState 48 Color.white (by decide)
      (by decide) (by decide)
      ((get_pseudo_legal_moves rookAttackState).getD []) (by rfl)⟩


/-! ## C1: `make_move`/`unmake_move` roundtrip and hash maintenance

Infrastructure: single-bit board algebra, the piece scan of the
`as_array` loops, and a component decomposition of the from-scratch
hash against which the incremental XOR updates are compared. -/

/-- Conjunction with a one-bit mask is nonzero exactly on that bit. -/
theorem and_shift_ne_zero_iff (x k : Nat) :
    x &&& (1 <<< k) ≠ 0 ↔ x.testBit k = true := by
  rw [Nat.and_comm, Ne, pow_and_eq_zero_iff]
  simp

/-- Conjunction with a one-bit mask is zero exactly off that bit. -/
theorem and_shift_eq_zero_iff (x k : Nat) :
    x &&& (1 <<< k) = 0 ↔ x.testBit k = false := by
  rw [Nat.and_comm, pow_and_eq_zero_iff]

/-- One-bit masks are nonzero. -/
theorem one_shift_ne_zero (k : Nat) : (1 : Nat) <<< k ≠ 0 := by
  rw [Nat.shiftLeft_eq, one_mul]
  have h2 : (0 : Nat) < 2 ^ k := Nat.pow_pos (by norm_num)
  omega

/-- Bits of a one-bit mask. -/
theorem testBit_one_shift (k i : Nat) :
    ((1 : Nat) <<< k).testBit i = decide (i = k) := by
  rw [Nat.shiftLeft_eq, one_mul, Nat.testBit_two_pow]
  rcases eq_or_ne i k with rfl | h
  · simp
  · simp [h, Ne.symm h]

/-- A clear bit stays clear under masking. -/
theorem testBit_and_false_left {a : Nat} (b : Nat) {i : Nat}
    (h : a.testBit i = false) : (a &&& b).testBit i = false := by
  rw [Nat.testBit_and, h, Bool.false_and]

/-- Clearing then re-setting a set bit is the identity
(`board &= !m; board |= m`). -/
theorem clear_then_set {b k : Nat} (hb : b < 2 ^ 64) (hk : k < 64)
    (h : b.testBit k = true) :
    (b &&& not64 (1 <<< k)) ||| (1 <<< k) = b := by
  rw [and_not64_eq_xor hb hk h, or_eq_xor (by
    rw [Nat.testBit_xor, h, testBit_one_shift]
    simp)]
  rw [Nat.xor_assoc, Nat.xor_self, Nat.xor_zero]

/-- Setting then clearing a clear bit is the identity
(`board |= m; board &= !m`). -/
theorem set_then_clear {b k : Nat} (hb : b < 2 ^ 64) (hk : k < 64)
    (h : b.testBit k = false) :
    (b ||| (1 <<< k)) &&& not64 (1 <<< k) = b := by
  rw [or_eq_xor h, and_not64_eq_xor (xor_pow_lt_64 hb hk) hk (by
    rw [Nat.testBit_xor, h, testBit_one_shift]
    simp)]
  rw [Nat.xor_assoc, Nat.xor_self, Nat.xor_zero]

/-- `(1 << t) >> 8` is the bit eight ranks down. -/
theorem one_shift_shiftRight8 {t : Nat} (h : 8 ≤ t) :
    (1 <<< t) >>> 8 = 1 <<< (t - 8) := by
  rw [Nat.shiftLeft_eq, Nat.shiftLeft_eq, one_mul, one_mul,
    Nat.shiftRight_eq_div_pow, Nat.pow_div h (by norm_num)]

/-- `shl64 (1 << t) 8` is the bit eight ranks up when in range. -/
theorem one_shift_shl64 {t : Nat} (h : t + 8 < 64) :
    shl64 (1 <<< t) 8 = 1 <<< (t + 8) := by
  rw [shl64, ← Nat.shiftLeft_add]
  apply Nat.mod_eq_of_lt
  rw [Nat.shiftLeft_eq, one_mul]
  exact Nat.pow_lt_pow_right (by norm_num) h

/-- Reading back the board just written (`as_array_mut` write/read). -/
theorem get_set_same (s : ChessBoardSide) (p : PieceType) (v : Nat) :
    (s.set p v).get p = v := by
  cases p <;> rfl

/-- Reading another piece's board after a write. -/
theorem get_set_ne (s : ChessBoardSide) {p q : PieceType} (v : Nat)
    (h : p ≠ q) : (s.set p v).get q = s.get q := by
  cases p <;> cases q <;> first | exact absurd rfl h | rfl

/-- Consecutive writes to the same board collapse. -/
theorem set_set_same (s : ChessBoardSide) (p : PieceType) (v w : Nat) :
    (s.set p v).set p w = s.set p w := by
  cases p <;> rfl

/-- Writing back a board's own value is the identity. -/
theorem set_get_self (s : ChessBoardSide) (p : PieceType) :
    s.set p (s.get p) = s := by
  cases p <;> rfl

/-- The union bit is the disjunction of the per-piece bits. -/
theorem union_testBit (a : ChessBoardSide) (i : Nat) :
    a.union.testBit i =
      (a.pawn.testBit i || a.knight.testBit i || a.bishop.testBit i ||
        a.rook.testBit i || a.queen.testBit i || a.king.testBit i) := by
  simp [ChessBoardSide.union, Nat.testBit_or]

/-- An occupied union square is occupied on some piece board. -/
theorem exists_piece_of_union {a : ChessBoardSide} {i : Nat}
    (h : a.union.testBit i = true) : ∃ p, (a.get p).testBit i = true := by
  rw [union_testBit] at h
  simp only [Bool.or_eq_true] at h
  rcases h with ((((h | h) | h) | h) | h) | h
  exacts [⟨PieceType.pawn, h⟩, ⟨PieceType.knight, h⟩,
    ⟨PieceType.bishop, h⟩, ⟨PieceType.rook, h⟩,
    ⟨PieceType.queen, h⟩, ⟨PieceType.king, h⟩]

/-- A piece-board bit is visible in the union. -/
theorem union_testBit_of_get {a : ChessBoardSide} {p : PieceType} {i : Nat}
    (h : (a.get p).testBit i = true) : a.union.testBit i = true := by
  apply testBit_union_of _ h
  cases p <;> simp [ChessBoardSide.get]

/-- Distinct piece boards of a disjoint side share no squares. -/
theorem get_and_zero {a : ChessBoardSide} (hd : disjointSide a)
    {p q : PieceType} (h : p ≠ q) : a.get p &&& a.get q = 0 := by
  obtain ⟨h1, h2, h3, h4, h5, h6, h7, h8, h9, h10, h11, h12, h13, h14, h15⟩ :=
    hd
  cases p <;> cases q <;>
    first
      | exact absurd rfl h
      | assumption
      | exact and_zero_comm (by assumption)

/-- On a disjoint side, only one piece board holds a given square. -/
theorem disjoint_unique_piece {a : ChessBoardSide} (hd : disjointSide a)
    {p : PieceType} {i : Nat} (hp : (a.get p).testBit i = true) :
    ∀ q, q ≠ p → (a.get q).testBit i = false :=
  fun q hq => disjoint_testBit (get_and_zero hd (Ne.symm hq)) hp

/-- The `for i in 0..6` scan of the board array finds exactly the piece
whose board holds the probed square, when the others are clear there. -/
theorem find_piece_eq (side : ChessBoardSide) (sq : Nat) (p0 : PieceType)
    (h0 : (side.get p0).testBit sq = true)
    (hother : ∀ q, q ≠ p0 → (side.get q).testBit sq = false) :
    pieceOrder.find? (fun p => side.get p &&& (1 <<< sq) ≠ 0) = some p0 := by
  have hyes : (decide (side.get p0 &&& (1 <<< sq) ≠ 0)) = true :=
    decide_eq_true ((and_shift_ne_zero_iff _ _).mpr h0)
  have hno : ∀ q, q ≠ p0 →
      (decide (side.get q &&& (1 <<< sq) ≠ 0)) = false := fun q hq =>
    decide_eq_false
      (not_not_intro ((and_shift_eq_zero_iff _ _).mpr (hother q hq)))
  cases p0
  case pawn =>
    simp only [pieceOrder, List.find?_cons, hyes]
  case knight =>
    have n1 := hno PieceType.pawn (by decide)
    simp only [pieceOrder, List.find?_cons, n1, hyes]
  case bishop =>
    have n1 := hno PieceType.pawn (by decide)
    have n2 := hno PieceType.knight (by decide)
    simp only [pieceOrder, List.find?_cons, n1, n2, hyes]
  case rook =>
    have n1 := hno PieceType.pawn (by decide)
    have n2 := hno PieceType.knight (by decide)
    have n3 := hno PieceType.bishop (by decide)
    simp only [pieceOrder, List.find?_cons, n1, n2, n3, hyes]
  case queen =>
    have n1 := hno PieceType.pawn (by decide)
    have n2 := hno PieceType.knight (by decide)
    have n3 := hno PieceType.bishop (by decide)
    have n4 := hno PieceType.rook (by decide)
    simp only [pieceOrder, List.find?_cons, n1, n2, n3, n4, hyes]
  case king =>
    have n1 := hno PieceType.pawn (by decide)
    have n2 := hno PieceType.knight (by decide)
    have n3 := hno PieceType.bishop (by decide)
    have n4 := hno PieceType.rook (by decide)
    have n5 := hno PieceType.queen (by decide)
    simp only [pieceOrder, List.find?_cons, n1, n2, n3, n4, n5, hyes]

/-- Conditional XOR contribution of a guarded hash term. -/
def condXor (b : Bool) (x : Nat) : Nat := if b then x else 0

theorem condXor_true (x : Nat) : condXor true x = x := rfl

theorem condXor_false (x : Nat) : condXor false x = 0 := rfl

theorem condXor_xor (a b : Bool) (x : Nat) :
    condXor (a.xor b) x = condXor a x ^^^ condXor b x := by
  cases a <;> cases b <;> simp [condXor]

theorem testBit_condXor (b : Bool) (x i : Nat) :
    (condXor b x).testBit i = (b && x.testBit i) := by
  cases b <;> simp [condXor]

/-- A guarded XOR update written as a `condXor` term. -/
theorem ite_xor_eq (c : Prop) [Decidable c] (h x : Nat) :
    (if c then h ^^^ x else h) = h ^^^ condXor (decide c) x := by
  by_cases hc : c <;> simp [hc, condXor]

/-- The twelve piece-board contributions of `GameState::hash`, in the
source's accumulation order. -/
def hashBoards (bd : ChessBoard) (zn : ZobristNumbers) : Nat :=
  hashBoard bd.white.pawn zn.board.white.pawn ^^^
    hashBoard bd.white.knight zn.board.white.knight ^^^
    hashBoard bd.white.bishop zn.board.white.bishop ^^^
    hashBoard bd.white.rook zn.board.white.rook ^^^
    hashBoard bd.white.queen zn.board.white.queen ^^^
    hashBoard bd.white.king zn.board.white.king ^^^
    hashBoard bd.black.pawn zn.board.black.pawn ^^^
    hashBoard bd.black.knight zn.board.black.knight ^^^
    hashBoard bd.black.bishop zn.board.black.bishop ^^^
    hashBoard bd.black.rook zn.board.black.rook ^^^
    hashBoard bd.black.queen zn.board.black.queen ^^^
    hashBoard bd.black.king zn.board.black.king

/-- The side-to-move contribution of `GameState::hash`. -/
def hashColor (f : Nat) (zn : ZobristNumbers) : Nat :=
  condXor (!StateFlags.is_white_to_play f) zn.active_color

/-- The castling-rights contribution of `GameState::hash`. -/
def hashCastles (f : Nat) (zn : ZobristNumbers) : Nat :=
  condXor (StateFlags.white_king_castle_right f) zn.castling.white_king_side ^^^
    condXor (StateFlags.white_queen_castle_right f)
      zn.castling.white_queen_side ^^^
    condXor (StateFlags.black_king_castle_right f)
      zn.castling.black_king_side ^^^
    condXor (StateFlags.black_queen_castle_right f)
      zn.castling.black_queen_side

/-- The en-passant contribution of `GameState::hash`. -/
def hashEp (ep : Nat) (zn : ZobristNumbers) : Nat :=
  condXor (!decide (ep = 0)) (zn.en_passant_file (ctz ep % 8))

/-- `GameState::hash` split into its four independent components. -/
theorem hash_decompose (s : GameState) (zn : ZobristNumbers) :
    s.hash zn = hashBoards s.boards zn ^^^ hashColor s.flags zn ^^^
      hashCastles s.flags zn ^^^ hashEp s.en_passant zn := by
  simp only [GameState.hash, hashBoards, hashColor, hashCastles, hashEp,
    condXor]
  cases hw : StateFlags.is_white_to_play s.flags <;>
    cases h1 : StateFlags.white_king_castle_right s.flags <;>
    cases h2 : StateFlags.white_queen_castle_right s.flags <;>
    cases h3 : StateFlags.black_king_castle_right s.flags <;>
    cases h4 : StateFlags.black_queen_castle_right s.flags <;>
    rcases eq_or_ne s.en_passant 0 with he | he <;>
    simp [getFirstSquare, he, Nat.xor_assoc]

/-- XOR left commutativity, for AC normalization. -/
theorem xor_left_comm (a b c : Nat) : a ^^^ (b ^^^ c) = b ^^^ (a ^^^ c) := by
  rw [← Nat.xor_assoc, Nat.xor_comm a b, Nat.xor_assoc]

/-- Pulling one slot's delta out of a twelve-term XOR chain. -/
theorem xor12_slot1 (A1 A2 A3 A4 A5 A6 A7 A8 A9 A10 A11 A12 d : Nat) :
    (A1 ^^^ d) ^^^ A2 ^^^ A3 ^^^ A4 ^^^ A5 ^^^ A6 ^^^ A7 ^^^ A8 ^^^ A9 ^^^ A10 ^^^ A11 ^^^ A12 =
      (A1 ^^^ A2 ^^^ A3 ^^^ A4 ^^^ A5 ^^^ A6 ^^^ A7 ^^^ A8 ^^^ A9 ^^^ A10 ^^^ A11 ^^^ A12) ^^^ d := by
  simp [Nat.xor_assoc, Nat.xor_comm, xor_left_comm]

theorem xor12_slot2 (A1 A2 A3 A4 A5 A6 A7 A8 A9 A10 A11 A12 d : Nat) :
    A1 ^^^ (A2 ^^^ d) ^^^ A3 ^^^ A4 ^^^ A5 ^^^ A6 ^^^ A7 ^^^ A8 ^^^ A9 ^^^ A10 ^^^ A11 ^^^ A12 =
      (A1 ^^^ A2 ^^^ A3 ^^^ A4 ^^^ A5 ^^^ A6 ^^^ A7 ^^^ A8 ^^^ A9 ^^^ A10 ^^^ A11 ^^^ A12) ^^^ d := by
  simp [Nat.xor_assoc, Nat.xor_comm, xor_left_comm]

theorem xor12_slot3 (A1 A2 A3 A4 A5 A6 A7 A8 A9 A10 A11 A12 d : Nat) :
    A1 ^^^ A2 ^^^ (A3 ^^^ d) ^^^ A4 ^^^ A5 ^^^ A6 ^^^ A7 ^^^ A8 ^^^ A9 ^^^ A10 ^^^ A11 ^^^ A12 =
      (A1 ^^^ A2 ^^^ A3 ^^^ A4 ^^^ A5 ^^^ A6 ^^^ A7 ^^^ A8 ^^^ A9 ^^^ A10 ^^^ A11 ^^^ A12) ^^^ d := by
  simp [Nat.xor_assoc, Nat.xor_comm, xor_left_comm]

theorem xor12_slot4 (A1 A2 A3 A4 A5 A6 A7 A8 A9 A10 A11 A12 d : Nat) :
    A1 ^^^ A2 ^^^ A3 ^^^ (A4 ^^^ d) ^^^ A5 ^^^ A6 ^^^ A7 ^^^ A8 ^^^ A9 ^^^ A10 ^^^ A11 ^^^ A12 =
      (A1 ^^^ A2 ^^^ A3 ^^^ A4 ^^^ A5 ^^^ A6 ^^^ A7 ^^^ A8 ^^^ A9 ^^^ A10 ^^^ A11 ^^^ A12) ^^^ d := by
  simp [Nat.xor_assoc, Nat.xor_comm, xor_left_comm]

theorem xor12_slot5 (A1 A2 A3 A4 A5 A6 A7 A8 A9 A10 A11 A12 d : Nat) :
    A1 ^^^ A2 ^^^ A3 ^^^ A4 ^^^ (A5 ^^^ d) ^^^ A6 ^^^ A7 ^^^ A8 ^^^ A9 ^^^ A10 ^^^ A11 ^^^ A12 =
      (A1 ^^^ A2 ^^^ A3 ^^^ A4 ^^^ A5 ^^^ A6 ^^^ A7 ^^^ A8 ^^^ A9 ^^^ A10 ^^^ A11 ^^^ A12) ^^^ d := by
  simp [Nat.xor_assoc, Nat.xor_comm, xor_left_comm]

theorem xor12_slot6 (A1 A2 A3 A4 A5 A6 A7 A8 A9 A10 A11 A12 d : Nat) :
    A1 ^^^ A2 ^^^ A3 ^^^ A4 ^^^ A5 ^^^ (A6 ^^^ d) ^^^ A7 ^^^ A8 ^^^ A9 ^^^ A10 ^^^ A11 ^^^ A12 =
      (A1 ^^^ A2 ^^^ A3 ^^^ A4 ^^^ A5 ^^^ A6 ^^^ A7 ^^^ A8 ^^^ A9 ^^^ A10 ^^^ A11 ^^^ A12) ^^^ d := by
  simp [Nat.xor_assoc, Nat.xor_comm, xor_left_comm]

theorem xor12_slot7 (A1 A2 A3 A4 A5 A6 A7 A8 A9 A10 A11 A12 d : Nat) :
    A1 ^^^ A2 ^^^ A3 ^^^ A4 ^^^ A5 ^^^ A6 ^^^ (A7 ^^^ d) ^^^ A8 ^^^ A9 ^^^ A10 ^^^ A11 ^^^ A12 =
      (A1 ^^^ A2 ^^^ A3 ^^^ A4 ^^^ A5 ^^^ A6 ^^^ A7 ^^^ A8 ^^^ A9 ^^^ A10 ^^^ A11 ^^^ A12) ^^^ d := by
  simp [Nat.xor_assoc, Nat.xor_comm, xor_left_comm]

theorem xor12_slot8 (A1 A2 A3 A4 A5 A6 A7 A8 A9 A10 A11 A12 d : Nat) :
    A1 ^^^ A2 ^^^ A3 ^^^ A4 ^^^ A5 ^^^ A6 ^^^ A7 ^^^ (A8 ^^^ d) ^^^ A9 ^^^ A10 ^^^ A11 ^^^ A12 =
      (A1 ^^^ A2 ^^^ A3 ^^^ A4 ^^^ A5 ^^^ A6 ^^^ A7 ^^^ A8 ^^^ A9 ^^^ A10 ^^^ A11 ^^^ A12) ^^^ d := by
  simp [Nat.xor_assoc, Nat.xor_comm, xor_left_comm]

theorem xor12_slot9 (A1 A2 A3 A4 A5 A6 A7 A8 A9 A10 A11 A12 d : Nat) :
    A1 ^^^ A2 ^^^ A3 ^^^ A4 ^^^ A5 ^^^ A6 ^^^ A7 ^^^ A8 ^^^ (A9 ^^^ d) ^^^ A10 ^^^ A11 ^^^ A12 =
      (A1 ^^^ A2 ^^^ A3 ^^^ A4 ^^^ A5 ^^^ A6 ^^^ A7 ^^^ A8 ^^^ A9 ^^^ A10 ^^^ A11 ^^^ A12) ^^^ d := by
  simp [Nat.xor_assoc, Nat.xor_comm, xor_left_comm]

theorem xor12_slot10 (A1 A2 A3 A4 A5 A6 A7 A8 A9 A10 A11 A12 d : Nat) :
    A1 ^^^ A2 ^^^ A3 ^^^ A4 ^^^ A5 ^^^ A6 ^^^ A7 ^^^ A8 ^^^ A9 ^^^ (A10 ^^^ d) ^^^ A11 ^^^ A12 =
      (A1 ^^^ A2 ^^^ A3 ^^^ A4 ^^^ A5 ^^^ A6 ^^^ A7 ^^^ A8 ^^^ A9 ^^^ A10 ^^^ A11 ^^^ A12) ^^^ d := by
  simp [Nat.xor_assoc, Nat.xor_comm, xor_left_comm]

theorem xor12_slot11 (A1 A2 A3 A4 A5 A6 A7 A8 A9 A10 A11 A12 d : Nat) :
    A1 ^^^ A2 ^^^ A3 ^^^ A4 ^^^ A5 ^^^ A6 ^^^ A7 ^^^ A8 ^^^ A9 ^^^ A10 ^^^ (A11 ^^^ d) ^^^ A12 =
      (A1 ^^^ A2 ^^^ A3 ^^^ A4 ^^^ A5 ^^^ A6 ^^^ A7 ^^^ A8 ^^^ A9 ^^^ A10 ^^^ A11 ^^^ A12) ^^^ d := by
  simp [Nat.xor_assoc, Nat.xor_comm, xor_left_comm]

theorem xor12_slot12 (A1 A2 A3 A4 A5 A6 A7 A8 A9 A10 A11 A12 d : Nat) :
    A1 ^^^ A2 ^^^ A3 ^^^ A4 ^^^ A5 ^^^ A6 ^^^ A7 ^^^ A8 ^^^ A9 ^^^ A10 ^^^ A11 ^^^ (A12 ^^^ d) =
      (A1 ^^^ A2 ^^^ A3 ^^^ A4 ^^^ A5 ^^^ A6 ^^^ A7 ^^^ A8 ^^^ A9 ^^^ A10 ^^^ A11 ^^^ A12) ^^^ d := by
  simp [Nat.xor_assoc, Nat.xor_comm, xor_left_comm]

/-- Replacing one white piece board shifts `hashBoards` by the board's
own hash delta. -/
theorem hashBoards_set_white (bd : ChessBoard) (zn : ZobristNumbers)
    (p : PieceType) (v d : Nat)
    (hv : hashBoard v (ZobristSide.get zn.board.white p) =
      hashBoard (bd.white.get p) (ZobristSide.get zn.board.white p) ^^^ d) :
    hashBoards ⟨bd.white.set p v, bd.black⟩ zn = hashBoards bd zn ^^^ d := by
  cases p
  case pawn =>
    simp only [hashBoards, ChessBoardSide.set, ChessBoardSide.get,
      ZobristSide.get] at hv ⊢
    rw [hv]
    exact xor12_slot1 _ _ _ _ _ _ _ _ _ _ _ _ _
  case knight =>
    simp only [hashBoards, ChessBoardSide.set, ChessBoardSide.get,
      ZobristSide.get] at hv ⊢
    rw [hv]
    exact xor12_slot2 _ _ _ _ _ _ _ _ _ _ _ _ _
  case bishop =>
    simp only [hashBoards, ChessBoardSide.set, ChessBoardSide.get,
      ZobristSide.get] at hv ⊢
    rw [hv]
    exact xor12_slot3 _ _ _ _ _ _ _ _ _ _ _ _ _
  case rook =>
    simp only [hashBoards, ChessBoardSide.set, ChessBoardSide.get,
      ZobristSide.get] at hv ⊢
    rw [hv]
    exact xor12_slot4 _ _ _ _ _ _ _ _ _ _ _ _ _
  case queen =>
    simp only [hashBoards, ChessBoardSide.set, ChessBoardSide.get,
      ZobristSide.get] at hv ⊢
    rw [hv]
    exact xor12_slot5 _ _ _ _ _ _ _ _ _ _ _ _ _
  case king =>
    simp only [hashBoards, ChessBoardSide.set, ChessBoardSide.get,
      ZobristSide.get] at hv ⊢
    rw [hv]
    exact xor12_slot6 _ _ _ _ _ _ _ _ _ _ _ _ _

/-- Replacing one black piece board shifts `hashBoards` by the board's
own hash delta. -/
theorem hashBoards_set_black (bd : ChessBoard) (zn : ZobristNumbers)
    (p : PieceType) (v d : Nat)
    (hv : hashBoard v (ZobristSide.get zn.board.black p) =
      hashBoard (bd.black.get p) (ZobristSide.get zn.board.black p) ^^^ d) :
    hashBoards ⟨bd.white, bd.black.set p v⟩ zn = hashBoards bd zn ^^^ d := by
  cases p
  case pawn =>
    simp only [hashBoards, ChessBoardSide.set, ChessBoardSide.get,
      ZobristSide.get] at hv ⊢
    rw [hv]
    exact xor12_slot7 _ _ _ _ _ _ _ _ _ _ _ _ _
  case knight =>
    simp only [hashBoards, ChessBoardSide.set, ChessBoardSide.get,
      ZobristSide.get] at hv ⊢
    rw [hv]
    exact xor12_slot8 _ _ _ _ _ _ _ _ _ _ _ _ _
  case bishop =>
    simp only [hashBoards, ChessBoardSide.set, ChessBoardSide.get,
      ZobristSide.get] at hv ⊢
    rw [hv]
    exact xor12_slot9 _ _ _ _ _ _ _ _ _ _ _ _ _
  case rook =>
    simp only [hashBoards, ChessBoardSide.set, ChessBoardSide.get,
      ZobristSide.get] at hv ⊢
    rw [hv]
    exact xor12_slot10 _ _ _ _ _ _ _ _ _ _ _ _ _
  case queen =>
    simp only [hashBoards, ChessBoardSide.set, ChessBoardSide.get,
      ZobristSide.get] at hv ⊢
    rw [hv]
    exact xor12_slot11 _ _ _ _ _ _ _ _ _ _ _ _ _
  case king =>
    simp only [hashBoards, ChessBoardSide.set, ChessBoardSide.get,
      ZobristSide.get] at hv ⊢
    rw [hv]
    exact xor12_slot12 _ _ _ _ _ _ _ _ _ _ _ _ _

/-- The white king-side right is flag bit 4. -/
theorem wk_eq_testBit (f : Nat) :
    StateFlags.white_king_castle_right f = f.testBit 4 := by
  rw [StateFlags.white_king_castle_right, StateFlags.WHITE_KING_CASTLE]
  cases h : f.testBit 4
  · have h0 : f &&& 16 = 0 := by
      rw [Nat.and_comm]
      exact (pow_and_eq_zero_iff 4 f).mpr h
    simp [h0]
  · have h0 : f &&& 16 ≠ 0 := by
      intro he
      rw [Nat.and_comm] at he
      rw [(pow_and_eq_zero_iff 4 f).mp he] at h
      cases h
    simp [h0]

/-- The white queen-side right is flag bit 5. -/
theorem wq_eq_testBit (f : Nat) :
    StateFlags.white_queen_castle_right f = f.testBit 5 := by
  rw [StateFlags.white_queen_castle_right, StateFlags.WHITE_QUEEN_CASTLE]
  cases h : f.testBit 5
  · have h0 : f &&& 32 = 0 := by
      rw [Nat.and_comm]
      exact (pow_and_eq_zero_iff 5 f).mpr h
    simp [h0]
  · have h0 : f &&& 32 ≠ 0 := by
      intro he
      rw [Nat.and_comm] at he
      rw [(pow_and_eq_zero_iff 5 f).mp he] at h
      cases h
    simp [h0]

/-- The black king-side right is flag bit 6. -/
theorem bk_eq_testBit (f : Nat) :
    StateFlags.black_king_castle_right f = f.testBit 6 := by
  rw [StateFlags.black_king_castle_right, StateFlags.BLACK_KING_CASTLE]
  cases h : f.testBit 6
  · have h0 : f &&& 64 = 0 := by
      rw [Nat.and_comm]
      exact (pow_and_eq_zero_iff 6 f).mpr h
    simp [h0]
  · have h0 : f &&& 64 ≠ 0 := by
      intro he
      rw [Nat.and_comm] at he
      rw [(pow_and_eq_zero_iff 6 f).mp he] at h
      cases h
    simp [h0]

/-- The black queen-side right is flag bit 7. -/
theorem bq_eq_testBit (f : Nat) :
    StateFlags.black_queen_castle_right f = f.testBit 7 := by
  rw [StateFlags.black_queen_castle_right, StateFlags.BLACK_QUEEN_CASTLE]
  cases h : f.testBit 7
  · have h0 : f &&& 128 = 0 := by
      rw [Nat.and_comm]
      exact (pow_and_eq_zero_iff 7 f).mpr h
    simp [h0]
  · have h0 : f &&& 128 ≠ 0 := by
      intro he
      rw [Nat.and_comm] at he
      rw [(pow_and_eq_zero_iff 7 f).mp he] at h
      cases h
    simp [h0]

/-- White to play is a clear flag bit 0. -/
theorem white_play_eq_testBit (f : Nat) :
    StateFlags.is_white_to_play f = !f.testBit 0 := by
  rw [StateFlags.is_white_to_play, StateFlags.ACTIVE_COLOR]
  cases h : f.testBit 0
  · have h0 : f &&& 1 = 0 := by
      rw [Nat.and_comm]
      exact (pow_and_eq_zero_iff 0 f).mpr h
    simp [h0]
  · have h0 : f &&& 1 ≠ 0 := by
      intro he
      rw [Nat.and_comm] at he
      rw [(pow_and_eq_zero_iff 0 f).mp he] at h
      cases h
    rw [Nat.testBit_zero] at h
    simp [h0, of_decide_eq_true h]

/-- XOR with a mask clear at a bit leaves that bit unchanged. -/
theorem testBit_xor_mask (x m i : Nat) (h : m.testBit i = false) :
    (x ^^^ m).testBit i = x.testBit i := by
  rw [Nat.testBit_xor, h, Bool.xor_false]

/-- `active_color = White` reads flag bit 0 clear. -/
theorem active_white_iff (f : Nat) :
    StateFlags.active_color f = Color.white ↔
      StateFlags.is_white_to_play f = true := by
  rw [StateFlags.active_color]
  cases h : StateFlags.is_white_to_play f <;> simp [h]

/-- `active_color ≠ White` reads flag bit 0 set. -/
theorem active_black_iff (f : Nat) :
    ¬ StateFlags.active_color f = Color.white ↔
      StateFlags.is_white_to_play f = false := by
  rw [StateFlags.active_color]
  cases h : StateFlags.is_white_to_play f <;> simp [h]

theorem stab_wq_wk (x : Nat) :
    StateFlags.white_queen_castle_right (StateFlags.toggle_white_king_castle x)
      = StateFlags.white_queen_castle_right x := by
  rw [wq_eq_testBit, wq_eq_testBit, StateFlags.toggle_white_king_castle,
    StateFlags.WHITE_KING_CASTLE, testBit_xor_mask _ _ _ (by decide)]

theorem stab_bq_wk (x : Nat) :
    StateFlags.black_queen_castle_right (StateFlags.toggle_white_king_castle x)
      = StateFlags.black_queen_castle_right x := by
  rw [bq_eq_testBit, bq_eq_testBit, StateFlags.toggle_white_king_castle,
    StateFlags.WHITE_KING_CASTLE, testBit_xor_mask _ _ _ (by decide)]

theorem stab_bq_wq (x : Nat) :
    StateFlags.black_queen_castle_right (StateFlags.toggle_white_queen_castle x)
      = StateFlags.black_queen_castle_right x := by
  rw [bq_eq_testBit, bq_eq_testBit, StateFlags.toggle_white_queen_castle,
    StateFlags.WHITE_QUEEN_CASTLE, testBit_xor_mask _ _ _ (by decide)]

theorem stab_bk_wk (x : Nat) :
    StateFlags.black_king_castle_right (StateFlags.toggle_white_king_castle x)
      = StateFlags.black_king_castle_right x := by
  rw [bk_eq_testBit, bk_eq_testBit, StateFlags.toggle_white_king_castle,
    StateFlags.WHITE_KING_CASTLE, testBit_xor_mask _ _ _ (by decide)]

theorem stab_bk_wq (x : Nat) :
    StateFlags.black_king_castle_right (StateFlags.toggle_white_queen_castle x)
      = StateFlags.black_king_castle_right x := by
  rw [bk_eq_testBit, bk_eq_testBit, StateFlags.toggle_white_queen_castle,
    StateFlags.WHITE_QUEEN_CASTLE, testBit_xor_mask _ _ _ (by decide)]

theorem stab_bq_bk (x : Nat) :
    StateFlags.black_queen_castle_right (StateFlags.toggle_black_king_castle x)
      = StateFlags.black_queen_castle_right x := by
  rw [bq_eq_testBit, bq_eq_testBit, StateFlags.toggle_black_king_castle,
    StateFlags.BLACK_KING_CASTLE, testBit_xor_mask _ _ _ (by decide)]

theorem stab_wq_bk (x : Nat) :
    StateFlags.white_queen_castle_right (StateFlags.toggle_black_king_castle x)
      = StateFlags.white_queen_castle_right x := by
  rw [wq_eq_testBit, wq_eq_testBit, StateFlags.toggle_black_king_castle,
    StateFlags.BLACK_KING_CASTLE, testBit_xor_mask _ _ _ (by decide)]

theorem stab_wq_bq (x : Nat) :
    StateFlags.white_queen_castle_right (StateFlags.toggle_black_queen_castle x)
      = StateFlags.white_queen_castle_right x := by
  rw [wq_eq_testBit, wq_eq_testBit, StateFlags.toggle_black_queen_castle,
    StateFlags.BLACK_QUEEN_CASTLE, testBit_xor_mask _ _ _ (by decide)]

theorem stab_wk_bk (x : Nat) :
    StateFlags.white_king_castle_right (StateFlags.toggle_black_king_castle x)
      = StateFlags.white_king_castle_right x := by
  rw [wk_eq_testBit, wk_eq_testBit, StateFlags.toggle_black_king_castle,
    StateFlags.BLACK_KING_CASTLE, testBit_xor_mask _ _ _ (by decide)]

theorem stab_wk_bq (x : Nat) :
    StateFlags.white_king_castle_right (StateFlags.toggle_black_queen_castle x)
      = StateFlags.white_king_castle_right x := by
  rw [wk_eq_testBit, wk_eq_testBit, StateFlags.toggle_black_queen_castle,
    StateFlags.BLACK_QUEEN_CASTLE, testBit_xor_mask _ _ _ (by decide)]

/-- Does this move toggle the white king-side castling right in
`update_flags`? -/
def togWK (f : Nat) (m : Move) : Bool :=
  if StateFlags.active_color f = Color.white then
    decide (StateFlags.white_king_castle_right f ∧
      (m.fromSq = 4 ∨ m.fromSq = 7))
  else
    m.code.is_capture &&
      !decide (m.toSq = 0 ∧ StateFlags.white_queen_castle_right f) &&
      decide (m.toSq = 7 ∧ StateFlags.white_king_castle_right f)

/-- Does this move toggle the white queen-side castling right? -/
def togWQ (f : Nat) (m : Move) : Bool :=
  if StateFlags.active_color f = Color.white then
    decide (StateFlags.white_queen_castle_right f ∧
      (m.fromSq = 4 ∨ m.fromSq = 0))
  else
    m.code.is_capture &&
      decide (m.toSq = 0 ∧ StateFlags.white_queen_castle_right f)

/-- Does this move toggle the black king-side castling right? -/
def togBK (f : Nat) (m : Move) : Bool :=
  if StateFlags.active_color f = Color.white then
    m.code.is_capture &&
      !decide (m.toSq = 56 ∧ StateFlags.black_queen_castle_right f) &&
      decide (m.toSq = 63 ∧ StateFlags.black_king_castle_right f)
  else
    decide (StateFlags.black_king_castle_right f ∧
      (m.fromSq = 60 ∨ m.fromSq = 63))

/-- Does this move toggle the black queen-side castling right? -/
def togBQ (f : Nat) (m : Move) : Bool :=
  if StateFlags.active_color f = Color.white then
    m.code.is_capture &&
      decide (m.toSq = 56 ∧ StateFlags.black_queen_castle_right f)
  else
    decide (StateFlags.black_queen_castle_right f ∧
      (m.fromSq = 60 ∨ m.fromSq = 56))

/-- The flag byte after `update_flags`: castle toggles, then the
active-color flip. -/
def togFlags (f : Nat) (m : Move) : Nat :=
  ((((f ^^^ condXor (togWK f m) 0x10) ^^^ condXor (togWQ f m) 0x20) ^^^
    condXor (togBK f m) 0x40) ^^^ condXor (togBQ f m) 0x80) ^^^ 0x01

/-- The castling Zobrist terms XORed into the hash by `update_flags`. -/
def togNums (f : Nat) (m : Move) (zn : ZobristNumbers) : Nat :=
  ((condXor (togWK f m) zn.castling.white_king_side ^^^
    condXor (togWQ f m) zn.castling.white_queen_side) ^^^
    condXor (togBK f m) zn.castling.black_king_side) ^^^
    condXor (togBQ f m) zn.castling.black_queen_side

/-- `update_flags` in canonical form: flags become `togFlags`, the hash
gains the toggled castling numbers and the active-color number. -/
theorem update_flags_eq (mu : MakeUnmaker) (m : Move) :
    MakeUnmaker.update_flags mu m = { mu with
      state := { mu.state with flags := togFlags mu.state.flags m }
      zobrist_hash := (mu.zobrist_hash ^^^
        togNums mu.state.flags m mu.zobrist_numbers) ^^^
        mu.zobrist_numbers.active_color } := by
  by_cases hw : StateFlags.active_color mu.state.flags = Color.white
  · simp only [MakeUnmaker.update_flags, if_pos hw]
    by_cases hc1 : (StateFlags.white_king_castle_right mu.state.flags ∧ (Move.fromSq m = 4 ∨ Move.fromSq m = 7))
    · rw [if_pos hc1]
      rw [stab_wq_wk]
      by_cases hc2 : (StateFlags.white_queen_castle_right mu.state.flags ∧ (Move.fromSq m = 4 ∨ Move.fromSq m = 0))
      · rw [if_pos hc2]
        rw [stab_bq_wq, stab_bq_wk, stab_bk_wq, stab_bk_wk]
        cases hcp : Move.code m |>.is_capture
        next =>
          rw [if_neg Bool.false_ne_true]
          simp [togWK, togWQ, togBK, togBQ, togFlags, togNums, condXor, StateFlags.toggle_white_king_castle, StateFlags.toggle_white_queen_castle, StateFlags.toggle_black_king_castle, StateFlags.toggle_black_queen_castle, StateFlags.toggle_active_color, StateFlags.ACTIVE_COLOR, StateFlags.WHITE_KING_CASTLE, StateFlags.WHITE_QUEEN_CASTLE, StateFlags.BLACK_KING_CASTLE, StateFlags.BLACK_QUEEN_CASTLE, Nat.xor_assoc, Nat.xor_comm, xor_left_comm, hw, hc1, hc2, hcp]
        next =>
          rw [if_pos rfl]
          by_cases hc3 : (Move.toSq m = 56 ∧ StateFlags.black_queen_castle_right mu.state.flags)
          · rw [if_pos hc3]
            simp [togWK, togWQ, togBK, togBQ, togFlags, togNums, condXor, StateFlags.toggle_white_king_castle, StateFlags.toggle_white_queen_castle, StateFlags.toggle_black_king_castle, StateFlags.toggle_black_queen_castle, StateFlags.toggle_active_color, StateFlags.ACTIVE_COLOR, StateFlags.WHITE_KING_CASTLE, StateFlags.WHITE_QUEEN_CASTLE, StateFlags.BLACK_KING_CASTLE, StateFlags.BLACK_QUEEN_CASTLE, Nat.xor_assoc, Nat.xor_comm, xor_left_comm, hw, hc1, hc2, hcp, hc3]
          · rw [if_neg hc3]
            by_cases hc4 : (Move.toSq m = 63 ∧ StateFlags.black_king_castle_right mu.state.flags)
            · rw [if_pos hc4]
              simp [togWK, togWQ, togBK, togBQ, togFlags, togNums, condXor, StateFlags.toggle_white_king_castle, StateFlags.toggle_white_queen_castle, StateFlags.toggle_black_king_castle, StateFlags.toggle_black_queen_castle, StateFlags.toggle_active_color, StateFlags.ACTIVE_COLOR, StateFlags.WHITE_KING_CASTLE, StateFlags.WHITE_QUEEN_CASTLE, StateFlags.BLACK_KING_CASTLE, StateFlags.BLACK_QUEEN_CASTLE, Nat.xor_assoc, Nat.xor_comm, xor_left_comm, hw, hc1, hc2, hcp, hc3, hc4]
            · rw [if_neg hc4]
              simp [togWK, togWQ, togBK, togBQ, togFlags, togNums, condXor, StateFlags.toggle_white_king_castle, StateFlags.toggle_white_queen_castle, StateFlags.toggle_black_king_castle, StateFlags.toggle_black_queen_castle, StateFlags.toggle_active_color, StateFlags.ACTIVE_COLOR, StateFlags.WHITE_KING_CASTLE, StateFlags.WHITE_QUEEN_CASTLE, StateFlags.BLACK_KING_CASTLE, StateFlags.BLACK_QUEEN_CASTLE, Nat.xor_assoc, Nat.xor_comm, xor_left_comm, hw, hc1, hc2, hcp, hc3, hc4]
      · rw [if_neg hc2]
        rw [stab_bq_wk, stab_bk_wk]
        cases hcp : Move.code m |>.is_capture
        next =>
          rw [if_neg Bool.false_ne_true]
          simp [togWK, togWQ, togBK, togBQ, togFlags, togNums, condXor, StateFlags.toggle_white_king_castle, StateFlags.toggle_white_queen_castle, StateFlags.toggle_black_king_castle, StateFlags.toggle_black_queen_castle, StateFlags.toggle_active_color, StateFlags.ACTIVE_COLOR, StateFlags.WHITE_KING_CASTLE, StateFlags.WHITE_QUEEN_CASTLE, StateFlags.BLACK_KING_CASTLE, StateFlags.BLACK_QUEEN_CASTLE, Nat.xor_assoc, Nat.xor_comm, xor_left_comm, hw, hc1, hc2, hcp]
        next =>
          rw [if_pos rfl]
          by_cases hc3 : (Move.toSq m = 56 ∧ StateFlags.black_queen_castle_right mu.state.flags)
          · rw [if_pos hc3]
            simp [togWK, togWQ, togBK, togBQ, togFlags, togNums, condXor, StateFlags.toggle_white_king_castle, StateFlags.toggle_white_queen_castle, StateFlags.toggle_black_king_castle, StateFlags.toggle_black_queen_castle, StateFlags.toggle_active_color, StateFlags.ACTIVE_COLOR, StateFlags.WHITE_KING_CASTLE, StateFlags.WHITE_QUEEN_CASTLE, StateFlags.BLACK_KING_CASTLE, StateFlags.BLACK_QUEEN_CASTLE, Nat.xor_assoc, Nat.xor_comm, xor_left_comm, hw, hc1, hc2, hcp, hc3]
          · rw [if_neg hc3]
            by_cases hc4 : (Move.toSq m = 63 ∧ StateFlags.black_king_castle_right mu.state.flags)
            · rw [if_pos hc4]
              simp [togWK, togWQ, togBK, togBQ, togFlags, togNums, condXor, StateFlags.toggle_white_king_castle, StateFlags.toggle_white_queen_castle, StateFlags.toggle_black_king_castle, StateFlags.toggle_black_queen_castle, StateFlags.toggle_active_color, StateFlags.ACTIVE_COLOR, StateFlags.WHITE_KING_CASTLE, StateFlags.WHITE_QUEEN_CASTLE, StateFlags.BLACK_KING_CASTLE, StateFlags.BLACK_QUEEN_CASTLE, Nat.xor_assoc, Nat.xor_comm, xor_left_comm, hw, hc1, hc2, hcp, hc3, hc4]
            · rw [if_neg hc4]
              simp [togWK, togWQ, togBK, togBQ, togFlags, togNums, condXor, StateFlags.toggle_white_king_castle, StateFlags.toggle_white_queen_castle, StateFlags.toggle_black_king_castle, StateFlags.toggle_black_queen_castle, StateFlags.toggle_active_color, StateFlags.ACTIVE_COLOR, StateFlags.WHITE_KING_CASTLE, StateFlags.WHITE_QUEEN_CASTLE, StateFlags.BLACK_KING_CASTLE, StateFlags.BLACK_QUEEN_CASTLE, Nat.xor_assoc, Nat.xor_comm, xor_left_comm, hw, hc1, hc2, hcp, hc3, hc4]
    · rw [if_neg hc1]
      by_cases hc2 : (StateFlags.white_queen_castle_right mu.state.flags ∧ (Move.fromSq m = 4 ∨ Move.fromSq m = 0))
      · rw [if_pos hc2]
        rw [stab_bq_wq, stab_bk_wq]
        cases hcp : Move.code m |>.is_capture
        next =>
          rw [if_neg Bool.false_ne_true]
          simp [togWK, togWQ, togBK, togBQ, togFlags, togNums, condXor, StateFlags.toggle_white_king_castle, StateFlags.toggle_white_queen_castle, StateFlags.toggle_black_king_castle, StateFlags.toggle_black_queen_castle, StateFlags.toggle_active_color, StateFlags.ACTIVE_COLOR, StateFlags.WHITE_KING_CASTLE, StateFlags.WHITE_QUEEN_CASTLE, StateFlags.BLACK_KING_CASTLE, StateFlags.BLACK_QUEEN_CASTLE, Nat.xor_assoc, Nat.xor_comm, xor_left_comm, hw, hc1, hc2, hcp]
        next =>
          rw [if_pos rfl]
          by_cases hc3 : (Move.toSq m = 56 ∧ StateFlags.black_queen_castle_right mu.state.flags)
          · rw [if_pos hc3]
            simp [togWK, togWQ, togBK, togBQ, togFlags, togNums, condXor, StateFlags.toggle_white_king_castle, StateFlags.toggle_white_queen_castle, StateFlags.toggle_black_king_castle, StateFlags.toggle_black_queen_castle, StateFlags.toggle_active_color, StateFlags.ACTIVE_COLOR, StateFlags.WHITE_KING_CASTLE, StateFlags.WHITE_QUEEN_CASTLE, StateFlags.BLACK_KING_CASTLE, StateFlags.BLACK_QUEEN_CASTLE, Nat.xor_assoc, Nat.xor_comm, xor_left_comm, hw, hc1, hc2, hcp, hc3]
          · rw [if_neg hc3]
            by_cases hc4 : (Move.toSq m = 63 ∧ StateFlags.black_king_castle_right mu.state.flags)
            · rw [if_pos hc4]
              simp [togWK, togWQ, togBK, togBQ, togFlags, togNums, condXor, StateFlags.toggle_white_king_castle, StateFlags.toggle_white_queen_castle, StateFlags.toggle_black_king_castle, StateFlags.toggle_black_queen_castle, StateFlags.toggle_active_color, StateFlags.ACTIVE_COLOR, StateFlags.WHITE_KING_CASTLE, StateFlags.WHITE_QUEEN_CASTLE, StateFlags.BLACK_KING_CASTLE, StateFlags.BLACK_QUEEN_CASTLE, Nat.xor_assoc, Nat.xor_comm, xor_left_comm, hw, hc1, hc2, hcp, hc3, hc4]
            · rw [if_neg hc4]
              simp [togWK, togWQ, togBK, togBQ, togFlags, togNums, condXor, StateFlags.toggle_white_king_castle, StateFlags.toggle_white_queen_castle, StateFlags.toggle_black_king_castle, StateFlags.toggle_black_queen_castle, StateFlags.toggle_active_color, StateFlags.ACTIVE_COLOR, StateFlags.WHITE_KING_CASTLE, StateFlags.WHITE_QUEEN_CASTLE, StateFlags.BLACK_KING_CASTLE, StateFlags.BLACK_QUEEN_CASTLE, Nat.xor_assoc, Nat.xor_comm, xor_left_comm, hw, hc1, hc2, hcp, hc3, hc4]
      · rw [if_neg hc2]
        cases hcp : Move.code m |>.is_capture
        next =>
          rw [if_neg Bool.false_ne_true]
          simp [togWK, togWQ, togBK, togBQ, togFlags, togNums, condXor, StateFlags.toggle_white_king_castle, StateFlags.toggle_white_queen_castle, StateFlags.toggle_black_king_castle, StateFlags.toggle_black_queen_castle, StateFlags.toggle_active_color, StateFlags.ACTIVE_COLOR, StateFlags.WHITE_KING_CASTLE, StateFlags.WHITE_QUEEN_CASTLE, StateFlags.BLACK_KING_CASTLE, StateFlags.BLACK_QUEEN_CASTLE, Nat.xor_assoc, Nat.xor_comm, xor_left_comm, hw, hc1, hc2, hcp]
        next =>
          rw [if_pos rfl]
          by_cases hc3 : (Move.toSq m = 56 ∧ StateFlags.black_queen_castle_right mu.state.flags)
          · rw [if_pos hc3]
            simp [togWK, togWQ, togBK, togBQ, togFlags, togNums, condXor, StateFlags.toggle_white_king_castle, StateFlags.toggle_white_queen_castle, StateFlags.toggle_black_king_castle, StateFlags.toggle_black_queen_castle, StateFlags.toggle_active_color, StateFlags.ACTIVE_COLOR, StateFlags.WHITE_KING_CASTLE, StateFlags.WHITE_QUEEN_CASTLE, StateFlags.BLACK_KING_CASTLE, StateFlags.BLACK_QUEEN_CASTLE, Nat.xor_assoc, Nat.xor_comm, xor_left_comm, hw, hc1, hc2, hcp, hc3]
          · rw [if_neg hc3]
            by_cases hc4 : (Move.toSq m = 63 ∧ StateFlags.black_king_castle_right mu.state.flags)
            · rw [if_pos hc4]
              simp [togWK, togWQ, togBK, togBQ, togFlags, togNums, condXor, StateFlags.toggle_white_king_castle, StateFlags.toggle_white_queen_castle, StateFlags.toggle_black_king_castle, StateFlags.toggle_black_queen_castle, StateFlags.toggle_active_color, StateFlags.ACTIVE_COLOR, StateFlags.WHITE_KING_CASTLE, StateFlags.WHITE_QUEEN_CASTLE, StateFlags.BLACK_KING_CASTLE, StateFlags.BLACK_QUEEN_CASTLE, Nat.xor_assoc, Nat.xor_comm, xor_left_comm, hw, hc1, hc2, hcp, hc3, hc4]
            · rw [if_neg hc4]
              simp [togWK, togWQ, togBK, togBQ, togFlags, togNums, condXor, StateFlags.toggle_white_king_castle, StateFlags.toggle_white_queen_castle, StateFlags.toggle_black_king_castle, StateFlags.toggle_black_queen_castle, StateFlags.toggle_active_color, StateFlags.ACTIVE_COLOR, StateFlags.WHITE_KING_CASTLE, StateFlags.WHITE_QUEEN_CASTLE, StateFlags.BLACK_KING_CASTLE, StateFlags.BLACK_QUEEN_CASTLE, Nat.xor_assoc, Nat.xor_comm, xor_left_comm, hw, hc1, hc2, hcp, hc3, hc4]
  · simp only [MakeUnmaker.update_flags, if_neg hw]
    by_cases hc1 : (StateFlags.black_king_castle_right mu.state.flags ∧ (Move.fromSq m = 60 ∨ Move.fromSq m = 63))
    · rw [if_pos hc1]
      rw [stab_bq_bk]
      by_cases hc2 : (StateFlags.black_queen_castle_right mu.state.flags ∧ (Move.fromSq m = 60 ∨ Move.fromSq m = 56))
      · rw [if_pos hc2]
        rw [stab_wq_bq, stab_wq_bk, stab_wk_bq, stab_wk_bk]
        cases hcp : Move.code m |>.is_capture
        next =>
          rw [if_neg Bool.false_ne_true]
          simp [togWK, togWQ, togBK, togBQ, togFlags, togNums, condXor, StateFlags.toggle_white_king_castle, StateFlags.toggle_white_queen_castle, StateFlags.toggle_black_king_castle, StateFlags.toggle_black_queen_castle, StateFlags.toggle_active_color, StateFlags.ACTIVE_COLOR, StateFlags.WHITE_KING_CASTLE, StateFlags.WHITE_QUEEN_CASTLE, StateFlags.BLACK_KING_CASTLE, StateFlags.BLACK_QUEEN_CASTLE, Nat.xor_assoc, Nat.xor_comm, xor_left_comm, hw, hc1, hc2, hcp]
        next =>
          rw [if_pos rfl]
          by_cases hc3 : (Move.toSq m = 0 ∧ StateFlags.white_queen_castle_right mu.state.flags)
          · rw [if_pos hc3]
            simp [togWK, togWQ, togBK, togBQ, togFlags, togNums, condXor, StateFlags.toggle_white_king_castle, StateFlags.toggle_white_queen_castle, StateFlags.toggle_black_king_castle, StateFlags.toggle_black_queen_castle, StateFlags.toggle_active_color, StateFlags.ACTIVE_COLOR, StateFlags.WHITE_KING_CASTLE, StateFlags.WHITE_QUEEN_CASTLE, StateFlags.BLACK_KING_CASTLE, StateFlags.BLACK_QUEEN_CASTLE, Nat.xor_assoc, Nat.xor_comm, xor_left_comm, hw, hc1, hc2, hcp, hc3]
          · rw [if_neg hc3]
            by_cases hc4 : (Move.toSq m = 7 ∧ StateFlags.white_king_castle_right mu.state.flags)
            · rw [if_pos hc4]
              simp [togWK, togWQ, togBK, togBQ, togFlags, togNums, condXor, StateFlags.toggle_white_king_castle, StateFlags.toggle_white_queen_castle, StateFlags.toggle_black_king_castle, StateFlags.toggle_black_queen_castle, StateFlags.toggle_active_color, StateFlags.ACTIVE_COLOR, StateFlags.WHITE_KING_CASTLE, StateFlags.WHITE_QUEEN_CASTLE, StateFlags.BLACK_KING_CASTLE, StateFlags.BLACK_QUEEN_CASTLE, Nat.xor_assoc, Nat.xor_comm, xor_left_comm, hw, hc1, hc2, hcp, hc3, hc4]
            · rw [if_neg hc4]
              simp [togWK, togWQ, togBK, togBQ, togFlags, togNums, condXor, StateFlags.toggle_white_king_castle, StateFlags.toggle_white_queen_castle, StateFlags.toggle_black_king_castle, StateFlags.toggle_black_queen_castle, StateFlags.toggle_active_color, StateFlags.ACTIVE_COLOR, StateFlags.WHITE_KING_CASTLE, StateFlags.WHITE_QUEEN_CASTLE, StateFlags.BLACK_KING_CASTLE, StateFlags.BLACK_QUEEN_CASTLE, Nat.xor_assoc, Nat.xor_comm, xor_left_comm, hw, hc1, hc2, hcp, hc3, hc4]
      · rw [if_neg hc2]
        rw [stab_wq_bk, stab_wk_bk]
        cases hcp : Move.code m |>.is_capture
        next =>
          rw [if_neg Bool.false_ne_true]
          simp [togWK, togWQ, togBK, togBQ, togFlags, togNums, condXor, StateFlags.toggle_white_king_castle, StateFlags.toggle_white_queen_castle, StateFlags.toggle_black_king_castle, StateFlags.toggle_black_queen_castle, StateFlags.toggle_active_color, StateFlags.ACTIVE_COLOR, StateFlags.WHITE_KING_CASTLE, StateFlags.WHITE_QUEEN_CASTLE, StateFlags.BLACK_KING_CASTLE, StateFlags.BLACK_QUEEN_CASTLE, Nat.xor_assoc, Nat.xor_comm, xor_left_comm, hw, hc1, hc2, hcp]
        next =>
          rw [if_pos rfl]
          by_cases hc3 : (Move.toSq m = 0 ∧ StateFlags.white_queen_castle_right mu.state.flags)
          · rw [if_pos hc3]
            simp [togWK, togWQ, togBK, togBQ, togFlags, togNums, condXor, StateFlags.toggle_white_king_castle, StateFlags.toggle_white_queen_castle, StateFlags.toggle_black_king_castle, StateFlags.toggle_black_queen_castle, StateFlags.toggle_active_color, StateFlags.ACTIVE_COLOR, StateFlags.WHITE_KING_CASTLE, StateFlags.WHITE_QUEEN_CASTLE, StateFlags.BLACK_KING_CASTLE, StateFlags.BLACK_QUEEN_CASTLE, Nat.xor_assoc, Nat.xor_comm, xor_left_comm, hw, hc1, hc2, hcp, hc3]
          · rw [if_neg hc3]
            by_cases hc4 : (Move.toSq m = 7 ∧ StateFlags.white_king_castle_right mu.state.flags)
            · rw [if_pos hc4]
              simp [togWK, togWQ, togBK, togBQ, togFlags, togNums, condXor, StateFlags.toggle_white_king_castle, StateFlags.toggle_white_queen_castle, StateFlags.toggle_black_king_castle, StateFlags.toggle_black_queen_castle, StateFlags.toggle_active_color, StateFlags.ACTIVE_COLOR, StateFlags.WHITE_KING_CASTLE, StateFlags.WHITE_QUEEN_CASTLE, StateFlags.BLACK_KING_CASTLE, StateFlags.BLACK_QUEEN_CASTLE, Nat.xor_assoc, Nat.xor_comm, xor_left_comm, hw, hc1, hc2, hcp, hc3, hc4]
            · rw [if_neg hc4]
              simp [togWK, togWQ, togBK, togBQ, togFlags, togNums, condXor, StateFlags.toggle_white_king_castle, StateFlags.toggle_white_queen_castle, StateFlags.toggle_black_king_castle, StateFlags.toggle_black_queen_castle, StateFlags.toggle_active_color, StateFlags.ACTIVE_COLOR, StateFlags.WHITE_KING_CASTLE, StateFlags.WHITE_QUEEN_CASTLE, StateFlags.BLACK_KING_CASTLE, StateFlags.BLACK_QUEEN_CASTLE, Nat.xor_assoc, Nat.xor_comm, xor_left_comm, hw, hc1, hc2, hcp, hc3, hc4]
    · rw [if_neg hc1]
      by_cases hc2 : (StateFlags.black_queen_castle_right mu.state.flags ∧ (Move.fromSq m = 60 ∨ Move.fromSq m = 56))
      · rw [if_pos hc2]
        rw [stab_wq_bq, stab_wk_bq]
        cases hcp : Move.code m |>.is_capture
        next =>
          rw [if_neg Bool.false_ne_true]
          simp [togWK, togWQ, togBK, togBQ, togFlags, togNums, condXor, StateFlags.toggle_white_king_castle, StateFlags.toggle_white_queen_castle, StateFlags.toggle_black_king_castle, StateFlags.toggle_black_queen_castle, StateFlags.toggle_active_color, StateFlags.ACTIVE_COLOR, StateFlags.WHITE_KING_CASTLE, StateFlags.WHITE_QUEEN_CASTLE, StateFlags.BLACK_KING_CASTLE, StateFlags.BLACK_QUEEN_CASTLE, Nat.xor_assoc, Nat.xor_comm, xor_left_comm, hw, hc1, hc2, hcp]
        next =>
          rw [if_pos rfl]
          by_cases hc3 : (Move.toSq m = 0 ∧ StateFlags.white_queen_castle_right mu.state.flags)
          · rw [if_pos hc3]
            simp [togWK, togWQ, togBK, togBQ, togFlags, togNums, condXor, StateFlags.toggle_white_king_castle, StateFlags.toggle_white_queen_castle, StateFlags.toggle_black_king_castle, StateFlags.toggle_black_queen_castle, StateFlags.toggle_active_color, StateFlags.ACTIVE_COLOR, StateFlags.WHITE_KING_CASTLE, StateFlags.WHITE_QUEEN_CASTLE, StateFlags.BLACK_KING_CASTLE, StateFlags.BLACK_QUEEN_CASTLE, Nat.xor_assoc, Nat.xor_comm, xor_left_comm, hw, hc1, hc2, hcp, hc3]
          · rw [if_neg hc3]
            by_cases hc4 : (Move.toSq m = 7 ∧ StateFlags.white_king_castle_right mu.state.flags)
            · rw [if_pos hc4]
              simp [togWK, togWQ, togBK, togBQ, togFlags, togNums, condXor, StateFlags.toggle_white_king_castle, StateFlags.toggle_white_queen_castle, StateFlags.toggle_black_king_castle, StateFlags.toggle_black_queen_castle, StateFlags.toggle_active_color, StateFlags.ACTIVE_COLOR, StateFlags.WHITE_KING_CASTLE, StateFlags.WHITE_QUEEN_CASTLE, StateFlags.BLACK_KING_CASTLE, StateFlags.BLACK_QUEEN_CASTLE, Nat.xor_assoc, Nat.xor_comm, xor_left_comm, hw, hc1, hc2, hcp, hc3, hc4]
            · rw [if_neg hc4]
              simp [togWK, togWQ, togBK, togBQ, togFlags, togNums, condXor, StateFlags.toggle_white_king_castle, StateFlags.toggle_white_queen_castle, StateFlags.toggle_black_king_castle, StateFlags.toggle_black_queen_castle, StateFlags.toggle_active_color, StateFlags.ACTIVE_COLOR, StateFlags.WHITE_KING_CASTLE, StateFlags.WHITE_QUEEN_CASTLE, StateFlags.BLACK_KING_CASTLE, StateFlags.BLACK_QUEEN_CASTLE, Nat.xor_assoc, Nat.xor_comm, xor_left_comm, hw, hc1, hc2, hcp, hc3, hc4]
      · rw [if_neg hc2]
        cases hcp : Move.code m |>.is_capture
        next =>
          rw [if_neg Bool.false_ne_true]
          simp [togWK, togWQ, togBK, togBQ, togFlags, togNums, condXor, StateFlags.toggle_white_king_castle, StateFlags.toggle_white_queen_castle, StateFlags.toggle_black_king_castle, StateFlags.toggle_black_queen_castle, StateFlags.toggle_active_color, StateFlags.ACTIVE_COLOR, StateFlags.WHITE_KING_CASTLE, StateFlags.WHITE_QUEEN_CASTLE, StateFlags.BLACK_KING_CASTLE, StateFlags.BLACK_QUEEN_CASTLE, Nat.xor_assoc, Nat.xor_comm, xor_left_comm, hw, hc1, hc2, hcp]
        next =>
          rw [if_pos rfl]
          by_cases hc3 : (Move.toSq m = 0 ∧ StateFlags.white_queen_castle_right mu.state.flags)
          · rw [if_pos hc3]
            simp [togWK, togWQ, togBK, togBQ, togFlags, togNums, condXor, StateFlags.toggle_white_king_castle, StateFlags.toggle_white_queen_castle, StateFlags.toggle_black_king_castle, StateFlags.toggle_black_queen_castle, StateFlags.toggle_active_color, StateFlags.ACTIVE_COLOR, StateFlags.WHITE_KING_CASTLE, StateFlags.WHITE_QUEEN_CASTLE, StateFlags.BLACK_KING_CASTLE, StateFlags.BLACK_QUEEN_CASTLE, Nat.xor_assoc, Nat.xor_comm, xor_left_comm, hw, hc1, hc2, hcp, hc3]
          · rw [if_neg hc3]
            by_cases hc4 : (Move.toSq m = 7 ∧ StateFlags.white_king_castle_right mu.state.flags)
            · rw [if_pos hc4]
              simp [togWK, togWQ, togBK, togBQ, togFlags, togNums, condXor, StateFlags.toggle_white_king_castle, StateFlags.toggle_white_queen_castle, StateFlags.toggle_black_king_castle, StateFlags.toggle_black_queen_castle, StateFlags.toggle_active_color, StateFlags.ACTIVE_COLOR, StateFlags.WHITE_KING_CASTLE, StateFlags.WHITE_QUEEN_CASTLE, StateFlags.BLACK_KING_CASTLE, StateFlags.BLACK_QUEEN_CASTLE, Nat.xor_assoc, Nat.xor_comm, xor_left_comm, hw, hc1, hc2, hcp, hc3, hc4]
            · rw [if_neg hc4]
              simp [togWK, togWQ, togBK, togBQ, togFlags, togNums, condXor, StateFlags.toggle_white_king_castle, StateFlags.toggle_white_queen_castle, StateFlags.toggle_black_king_castle, StateFlags.toggle_black_queen_castle, StateFlags.toggle_active_color, StateFlags.ACTIVE_COLOR, StateFlags.WHITE_KING_CASTLE, StateFlags.WHITE_QUEEN_CASTLE, StateFlags.BLACK_KING_CASTLE, StateFlags.BLACK_QUEEN_CASTLE, Nat.xor_assoc, Nat.xor_comm, xor_left_comm, hw, hc1, hc2, hcp, hc3, hc4]

/-- The white king-side right after `update_flags` toggles by `togWK`. -/
theorem wk_togFlags (f : Nat) (m : Move) :
    StateFlags.white_king_castle_right (togFlags f m) =
      (StateFlags.white_king_castle_right f).xor (togWK f m) := by
  rw [wk_eq_testBit, wk_eq_testBit]
  cases h4 : f.testBit 4 <;> cases ht : togWK f m <;>
    simp [togFlags, Nat.testBit_xor, testBit_condXor, h4, ht,
      (by decide : Nat.testBit 16 4 = true),
      (by decide : Nat.testBit 32 4 = false),
      (by decide : Nat.testBit 64 4 = false),
      (by decide : Nat.testBit 128 4 = false),
      (by decide : Nat.testBit 1 4 = false)]

/-- The white queen-side right after `update_flags` toggles by `togWQ`. -/
theorem wq_togFlags (f : Nat) (m : Move) :
    StateFlags.white_queen_castle_right (togFlags f m) =
      (StateFlags.white_queen_castle_right f).xor (togWQ f m) := by
  rw [wq_eq_testBit, wq_eq_testBit]
  cases h5 : f.testBit 5 <;> cases ht : togWQ f m <;>
    simp [togFlags, Nat.testBit_xor, testBit_condXor, h5, ht,
      (by decide : Nat.testBit 16 5 = false),
      (by decide : Nat.testBit 32 5 = true),
      (by decide : Nat.testBit 64 5 = false),
      (by decide : Nat.testBit 128 5 = false),
      (by decide : Nat.testBit 1 5 = false)]

/-- The black king-side right after `update_flags` toggles by `togBK`. -/
theorem bk_togFlags (f : Nat) (m : Move) :
    StateFlags.black_king_castle_right (togFlags f m) =
      (StateFlags.black_king_castle_right f).xor (togBK f m) := by
  rw [bk_eq_testBit, bk_eq_testBit]
  cases h6 : f.testBit 6 <;> cases ht : togBK f m <;>
    simp [togFlags, Nat.testBit_xor, testBit_condXor, h6, ht,
      (by decide : Nat.testBit 16 6 = false),
      (by decide : Nat.testBit 32 6 = false),
      (by decide : Nat.testBit 64 6 = true),
      (by decide : Nat.testBit 128 6 = false),
      (by decide : Nat.testBit 1 6 = false)]

/-- The black queen-side right after `update_flags` toggles by `togBQ`. -/
theorem bq_togFlags (f : Nat) (m : Move) :
    StateFlags.black_queen_castle_right (togFlags f m) =
      (StateFlags.black_queen_castle_right f).xor (togBQ f m) := by
  rw [bq_eq_testBit, bq_eq_testBit]
  cases h7 : f.testBit 7 <;> cases ht : togBQ f m <;>
    simp [togFlags, Nat.testBit_xor, testBit_condXor, h7, ht,
      (by decide : Nat.testBit 16 7 = false),
      (by decide : Nat.testBit 32 7 = false),
      (by decide : Nat.testBit 64 7 = false),
      (by decide : Nat.testBit 128 7 = true),
      (by decide : Nat.testBit 1 7 = false)]

/-- `update_flags` flips the side to move. -/
theorem white_play_togFlags (f : Nat) (m : Move) :
    StateFlags.is_white_to_play (togFlags f m) =
      !StateFlags.is_white_to_play f := by
  rw [white_play_eq_testBit, white_play_eq_testBit]
  simp only [togFlags, Nat.testBit_xor, testBit_condXor,
    (by decide : Nat.testBit 16 0 = false),
    (by decide : Nat.testBit 32 0 = false),
    (by decide : Nat.testBit 64 0 = false),
    (by decide : Nat.testBit 128 0 = false),
    (by decide : Nat.testBit 1 0 = true),
    Bool.and_false, Bool.and_true, Bool.xor_false, Bool.xor_true]

/-- The white king-side bit of the unmake `flag_diff` is `togWK`. -/
theorem wk_diff (f : Nat) (m : Move) :
    StateFlags.white_king_castle_right (togFlags f m ^^^ f) = togWK f m := by
  rw [wk_eq_testBit]
  cases h4 : f.testBit 4 <;> cases ht : togWK f m <;>
    simp [togFlags, Nat.testBit_xor, testBit_condXor, h4, ht,
      (by decide : Nat.testBit 16 4 = true),
      (by decide : Nat.testBit 32 4 = false),
      (by decide : Nat.testBit 64 4 = false),
      (by decide : Nat.testBit 128 4 = false),
      (by decide : Nat.testBit 1 4 = false)]

/-- The white queen-side bit of the unmake `flag_diff` is `togWQ`. -/
theorem wq_diff (f : Nat) (m : Move) :
    StateFlags.white_queen_castle_right (togFlags f m ^^^ f) = togWQ f m := by
  rw [wq_eq_testBit]
  cases h5 : f.testBit 5 <;> cases ht : togWQ f m <;>
    simp [togFlags, Nat.testBit_xor, testBit_condXor, h5, ht,
      (by decide : Nat.testBit 16 5 = false),
      (by decide : Nat.testBit 32 5 = true),
      (by decide : Nat.testBit 64 5 = false),
      (by decide : Nat.testBit 128 5 = false),
      (by decide : Nat.testBit 1 5 = false)]

/-- The black king-side bit of the unmake `flag_diff` is `togBK`. -/
theorem bk_diff (f : Nat) (m : Move) :
    StateFlags.black_king_castle_right (togFlags f m ^^^ f) = togBK f m := by
  rw [bk_eq_testBit]
  cases h6 : f.testBit 6 <;> cases ht : togBK f m <;>
    simp [togFlags, Nat.testBit_xor, testBit_condXor, h6, ht,
      (by decide : Nat.testBit 16 6 = false),
      (by decide : Nat.testBit 32 6 = false),
      (by decide : Nat.testBit 64 6 = true),
      (by decide : Nat.testBit 128 6 = false),
      (by decide : Nat.testBit 1 6 = false)]

/-- The black queen-side bit of the unmake `flag_diff` is `togBQ`. -/
theorem bq_diff (f : Nat) (m : Move) :
    StateFlags.black_queen_castle_right (togFlags f m ^^^ f) = togBQ f m := by
  rw [bq_eq_testBit]
  cases h7 : f.testBit 7 <;> cases ht : togBQ f m <;>
    simp [togFlags, Nat.testBit_xor, testBit_condXor, h7, ht,
      (by decide : Nat.testBit 16 7 = false),
      (by decide : Nat.testBit 32 7 = false),
      (by decide : Nat.testBit 64 7 = false),
      (by decide : Nat.testBit 128 7 = true),
      (by decide : Nat.testBit 1 7 = false)]

/-- The castling component evolves by the toggled numbers. -/
theorem hashCastles_togFlags (f : Nat) (m : Move) (zn : ZobristNumbers) :
    hashCastles (togFlags f m) zn = hashCastles f zn ^^^ togNums f m zn := by
  rw [hashCastles, hashCastles, togNums, wk_togFlags, wq_togFlags,
    bk_togFlags, bq_togFlags]
  simp only [condXor_xor]
  simp [Nat.xor_assoc, Nat.xor_comm, xor_left_comm]

/-- The side-to-move component evolves by the active-color number. -/
theorem hashColor_togFlags (f : Nat) (m : Move) (zn : ZobristNumbers) :
    hashColor (togFlags f m) zn = hashColor f zn ^^^ zn.active_color := by
  rw [hashColor, hashColor, white_play_togFlags]
  cases h : StateFlags.is_white_to_play f <;> simp [condXor]

/-- The four castling-term conditionals of `unmake_move`, folded. -/
theorem castle_chain (t1 t2 t3 t4 : Bool) (h c1 c2 c3 c4 : Nat) :
    (if t4 then
      (if t3 then
        (if t2 then (if t1 then h ^^^ c1 else h) ^^^ c2
          else (if t1 then h ^^^ c1 else h)) ^^^ c3
        else (if t2 then (if t1 then h ^^^ c1 else h) ^^^ c2
          else (if t1 then h ^^^ c1 else h))) ^^^ c4
      else (if t3 then
        (if t2 then (if t1 then h ^^^ c1 else h) ^^^ c2
          else (if t1 then h ^^^ c1 else h)) ^^^ c3
        else (if t2 then (if t1 then h ^^^ c1 else h) ^^^ c2
          else (if t1 then h ^^^ c1 else h)))) =
      h ^^^ (((condXor t1 c1 ^^^ condXor t2 c2) ^^^ condXor t3 c3) ^^^
        condXor t4 c4) := by
  cases t1 <;> cases t2 <;> cases t3 <;> cases t4 <;>
    simp [condXor, Nat.xor_assoc]

/-- The guarded en-passant hash update as a `condXor` term. -/
theorem ite_ep_xor (ep h x : Nat) :
    (if ep ≠ 0 then h ^^^ x else h) = h ^^^ condXor (!decide (ep = 0)) x := by
  rcases eq_or_ne ep 0 with he | he <;> simp [he, condXor]

/-- One-bit boards always carry an en-passant term. -/
theorem condXor_shift (k x : Nat) :
    condXor (!decide ((1 : Nat) <<< k = 0)) x = x := by
  simp [one_shift_ne_zero k, condXor]

/-- Shape invariant shared by every generated non-castle pseudo-legal
move: board squares, distinct origin and target, a friendly piece on
the origin, no friendly piece on the target. -/
def ValidCommon (F : ChessBoardSide) (m : Move) : Prop :=
  m.fromSq < 64 ∧ m.toSq < 64 ∧ m.fromSq ≠ m.toSq ∧
  F.union.testBit m.fromSq = true ∧ F.union.testBit m.toSq = false

instance (F : ChessBoardSide) (m : Move) : Decidable (ValidCommon F m) := by
  unfold ValidCommon
  infer_instance

/-- Shape invariant of a generated pseudo-legal move in its state, by
move code: the facts the generator guarantees that `make_move` and
`unmake_move` rely on (captures find an enemy piece where they clear
it, promotions move a pawn, castles find king and rook on their home
squares with the crossing squares free). -/
def ValidMove (s : GameState) (m : Move) : Prop :=
  let white := StateFlags.active_color s.flags = Color.white
  let F := if white then s.boards.white else s.boards.black
  let E := if white then s.boards.black else s.boards.white
  match m.code with
  | MoveCode.kingCastle =>
      (white ∧ F.king = 1 <<< 4 ∧ F.rook.testBit 7 = true ∧
        F.rook.testBit 5 = false) ∨
      (¬ white ∧ F.king = 1 <<< 60 ∧ F.rook.testBit 63 = true ∧
        F.rook.testBit 61 = false)
  | MoveCode.queenCastle =>
      (white ∧ F.king = 1 <<< 4 ∧ F.rook.testBit 0 = true ∧
        F.rook.testBit 3 = false) ∨
      (¬ white ∧ F.king = 1 <<< 60 ∧ F.rook.testBit 56 = true ∧
        F.rook.testBit 59 = false)
  | MoveCode.quietMove => ValidCommon F m
  | MoveCode.doublePawnPush =>
      ValidCommon F m ∧
      ((white ∧ m.fromSq + 8 < 64) ∨ (¬ white ∧ 8 ≤ m.fromSq))
  | MoveCode.capture => ValidCommon F m ∧ E.union.testBit m.toSq = true
  | MoveCode.enPassant =>
      ValidCommon F m ∧
      ((white ∧ 8 ≤ m.toSq ∧ E.union.testBit (m.toSq - 8) = true) ∨
       (¬ white ∧ m.toSq + 8 < 64 ∧ E.union.testBit (m.toSq + 8) = true))
  | MoveCode.knightPromotion | MoveCode.bishopPromotion
  | MoveCode.rookPromotion | MoveCode.queenPromotion =>
      ValidCommon F m ∧ F.pawn.testBit m.fromSq = true
  | MoveCode.knightPromotionCapture | MoveCode.bishopPromotionCapture
  | MoveCode.rookPromotionCapture | MoveCode.queenPromotionCapture =>
      ValidCommon F m ∧ F.pawn.testBit m.fromSq = true ∧
        E.union.testBit m.toSq = true

instance (s : GameState) (m : Move) : Decidable (ValidMove s m) :=
  let white := StateFlags.active_color s.flags = Color.white
  let F := if white then s.boards.white else s.boards.black
  let E := if white then s.boards.black else s.boards.white
  match hm : m.code with
  | MoveCode.quietMove =>
    decidable_of_iff (ValidCommon F m)
      (by unfold ValidMove; rw [hm])
  | MoveCode.doublePawnPush =>
    decidable_of_iff (ValidCommon F m ∧
      ((white ∧ m.fromSq + 8 < 64) ∨ (¬ white ∧ 8 ≤ m.fromSq)))
      (by unfold ValidMove; rw [hm])
  | MoveCode.kingCastle =>
    decidable_of_iff ((white ∧ F.king = 1 <<< 4 ∧ F.rook.testBit 7 = true ∧
        F.rook.testBit 5 = false) ∨
      (¬ white ∧ F.king = 1 <<< 60 ∧ F.rook.testBit 63 = true ∧
        F.rook.testBit 61 = false))
      (by unfold ValidMove; rw [hm])
  | MoveCode.queenCastle =>
    decidable_of_iff ((white ∧ F.king = 1 <<< 4 ∧ F.rook.testBit 0 = true ∧
        F.rook.testBit 3 = false) ∨
      (¬ white ∧ F.king = 1 <<< 60 ∧ F.rook.testBit 56 = true ∧
        F.rook.testBit 59 = false))
      (by unfold ValidMove; rw [hm])
  | MoveCode.capture =>
    decidable_of_iff (ValidCommon F m ∧ E.union.testBit m.toSq = true)
      (by unfold ValidMove; rw [hm])
  | MoveCode.enPassant =>
    decidable_of_iff (ValidCommon F m ∧
      ((white ∧ 8 ≤ m.toSq ∧ E.union.testBit (m.toSq - 8) = true) ∨
       (¬ white ∧ m.toSq + 8 < 64 ∧ E.union.testBit (m.toSq + 8) = true)))
      (by unfold ValidMove; rw [hm])
  | MoveCode.knightPromotion =>
    decidable_of_iff (ValidCommon F m ∧ F.pawn.testBit m.fromSq = true)
      (by unfold ValidMove; rw [hm])
  | MoveCode.bishopPromotion =>
    decidable_of_iff (ValidCommon F m ∧ F.pawn.testBit m.fromSq = true)
      (by unfold ValidMove; rw [hm])
  | MoveCode.rookPromotion =>
    decidable_of_iff (ValidCommon F m ∧ F.pawn.testBit m.fromSq = true)
      (by unfold ValidMove; rw [hm])
  | MoveCode.queenPromotion =>
    decidable_of_iff (ValidCommon F m ∧ F.pawn.testBit m.fromSq = true)
      (by unfold ValidMove; rw [hm])
  | MoveCode.knightPromotionCapture =>
    decidable_of_iff (ValidCommon F m ∧ F.pawn.testBit m.fromSq = true ∧
        E.union.testBit m.toSq = true)
      (by unfold ValidMove; rw [hm])
  | MoveCode.bishopPromotionCapture =>
    decidable_of_iff (ValidCommon F m ∧ F.pawn.testBit m.fromSq = true ∧
        E.union.testBit m.toSq = true)
      (by unfold ValidMove; rw [hm])
  | MoveCode.rookPromotionCapture =>
    decidable_of_iff (ValidCommon F m ∧ F.pawn.testBit m.fromSq = true ∧
        E.union.testBit m.toSq = true)
      (by unfold ValidMove; rw [hm])
  | MoveCode.queenPromotionCapture =>
    decidable_of_iff (ValidCommon F m ∧ F.pawn.testBit m.fromSq = true ∧
        E.union.testBit m.toSq = true)
      (by unfold ValidMove; rw [hm])

/-- Folding a move sequence through `make_move`. -/
def makeSeq (mu : MakeUnmaker) (ms : List Move) : MakeUnmaker :=
  ms.foldl MakeUnmaker.make_move mu

/-- A playable trace: every position along the way is well formed and
every move has the generated shape in its position (the reachable-state
invariant of the engine's own search/perft usage). -/
def ValidSeq (mu : MakeUnmaker) : List Move → Prop
  | [] => True
  | m :: ms => WFState mu.state ∧ ValidMove mu.state m ∧
      ValidSeq (MakeUnmaker.make_move mu m) ms

instance instDecValidSeq : ∀ (ms : List Move) (mu : MakeUnmaker),
    Decidable (ValidSeq mu ms)
  | [], _ => isTrue trivial
  | m :: ms, mu => by
      unfold ValidSeq
      have := instDecValidSeq ms (MakeUnmaker.make_move mu m)
      infer_instance

instance (mu : MakeUnmaker) (ms : List Move) : Decidable (ValidSeq mu ms) :=
  instDecValidSeq ms mu

/-- The moved-piece scan evaluated: the mover is the unique friendly
board holding the origin square. -/
theorem removeMovedPiece_eq (F : ChessBoardSide) (fz : ZobristSide)
    (sq h : Nat) (p0 : PieceType)
    (h0 : (F.get p0).testBit sq = true)
    (hother : ∀ q, q ≠ p0 → (F.get q).testBit sq = false) :
    MakeUnmaker.removeMovedPiece F fz sq h =
      (F.set p0 (F.get p0 &&& not64 (1 <<< sq)), h ^^^ ZobristSide.get fz p0 sq,
        some p0) := by
  rw [MakeUnmaker.removeMovedPiece, find_piece_eq F sq p0 h0 hother]

/-- The capture scan evaluated on a capture move: the victim is the
unique enemy board holding the capture square. -/
theorem removeCapturedPiece_eq (E : ChessBoardSide) (ez : ZobristSide)
    (sq h : Nat) (q0 : PieceType)
    (h0 : (E.get q0).testBit sq = true)
    (hother : ∀ q, q ≠ q0 → (E.get q).testBit sq = false) :
    MakeUnmaker.removeCapturedPiece E ez (1 <<< sq) sq true h =
      (E.set q0 (E.get q0 &&& not64 (1 <<< sq)), h ^^^ ZobristSide.get ez q0 sq,
        some q0) := by
  rw [MakeUnmaker.removeCapturedPiece, if_pos rfl,
    find_piece_eq E sq q0 h0 hother]

/-- XOR left cancellation, for hash-restoration bookkeeping. -/
theorem xor_cancel_left (a b : Nat) : a ^^^ (a ^^^ b) = b := by
  rw [← Nat.xor_assoc, Nat.xor_self, Nat.zero_xor]

/-- The freshly set destination bit reads back set. -/
theorem or_shift_testBit_self (b t : Nat) :
    (b ||| (1 <<< t)).testBit t = true := by
  rw [Nat.testBit_or, testBit_one_shift]
  simp

/-- An empty union square is empty on every piece board. -/
theorem get_testBit_false_of_union {a : ChessBoardSide} {i : Nat}
    (h : a.union.testBit i = false) (p : PieceType) :
    (a.get p).testBit i = false := by
  cases hb : (a.get p).testBit i
  · rfl
  · rw [union_testBit_of_get hb] at h
    cases h

/-- Piece boards of a bounded side are 64-bit. -/
theorem get_lt_of_bounded {a : ChessBoardSide} (h : boundedSide a)
    (p : PieceType) : a.get p < 2 ^ 64 := by
  obtain ⟨h1, h2, h3, h4, h5, h6⟩ := h
  cases p <;> assumption

/-- Flipping a different bit preserves a clear bit. -/
theorem testBit_xor_shift_false {b fr t : Nat} (h : b.testBit t = false)
    (hne : t ≠ fr) : (b ^^^ (1 <<< fr)).testBit t = false := by
  rw [Nat.testBit_xor, h, testBit_one_shift]
  simp [hne]

/-- Rebuilt `MakeUnmaker` records collapse to the original. -/
theorem mk_eq_self (mu : MakeUnmaker) (H : Nat)
    (hh : H = mu.zobrist_hash) :
    (⟨mu.state, H, mu.irreversible_stack, mu.zobrist_numbers⟩ :
      MakeUnmaker) = mu := by
  rw [hh]

/-- After a white move the active color is no longer white. -/
theorem active_togFlags_white (f : Nat) (m : Move)
    (hw : StateFlags.active_color f = Color.white) :
    (decide (StateFlags.active_color (togFlags f m) = Color.white))
      = false := by
  apply decide_eq_false
  rw [active_white_iff, white_play_togFlags]
  rw [active_white_iff] at hw
  rw [hw]
  simp

/-- After a black move the active color is white again. -/
theorem active_togFlags_black (f : Nat) (m : Move)
    (hb : ¬ StateFlags.active_color f = Color.white) :
    (decide (StateFlags.active_color (togFlags f m) = Color.white))
      = true := by
  apply decide_eq_true
  rw [active_white_iff, white_play_togFlags]
  rw [active_black_iff] at hb
  rw [hb]
  simp

/-! ### Per-case evaluations of `make_move` and `unmake_move` -/

/-- Evaluation of `make_move` on a white quiet move. -/
theorem make_quiet_white (mu : MakeUnmaker) (fr t : Nat) (p0 : PieceType)
    (hw : StateFlags.active_color mu.state.flags = Color.white)
    (hp0 : (mu.state.boards.white.get p0).testBit fr = true)
    (hoth : ∀ q, q ≠ p0 →
      (mu.state.boards.white.get q).testBit fr = false) :
    MakeUnmaker.make_move mu ⟨fr, t, MoveCode.quietMove⟩ =
      ⟨⟨⟨mu.state.boards.white.set p0
            ((mu.state.boards.white.get p0 &&& not64 (1 <<< fr)) |||
              (1 <<< t)),
          mu.state.boards.black⟩,
        0, togFlags mu.state.flags ⟨fr, t, MoveCode.quietMove⟩,
        mu.state.halfmove + 1⟩,
      ((((mu.zobrist_hash ^^^
          condXor (!decide (mu.state.en_passant = 0))
            (mu.zobrist_numbers.en_passant_file
              (ctz mu.state.en_passant % 8)) ^^^
          ZobristSide.get mu.zobrist_numbers.board.white p0 fr) ^^^
          ZobristSide.get mu.zobrist_numbers.board.white p0 t) ^^^
          togNums mu.state.flags ⟨fr, t, MoveCode.quietMove⟩
            mu.zobrist_numbers) ^^^
        mu.zobrist_numbers.active_color),
      ⟨mu.state.halfmove, mu.state.en_passant, mu.state.flags, none⟩ ::
        mu.irreversible_stack,
      mu.zobrist_numbers⟩ := by
  have hwt : (decide (StateFlags.active_color mu.state.flags = Color.white))
      = true := by
    rw [hw]; exact decide_eq_true rfl
  rw [MakeUnmaker.make_move]
  simp only [MakeUnmaker.make_non_castle, MakeUnmaker.get_en_passant_file,
    hwt, if_true, eq_self_iff_true, MoveCode.is_castle, MoveCode.is_capture,
    MoveCode.promotion, reduceCtorEq, if_false, ite_true, ite_false,
    decide_False, decide_True, ne_eq, not_true, not_false_eq_true]
  rw [removeMovedPiece_eq mu.state.boards.white
    mu.zobrist_numbers.board.white fr _ p0 hp0 hoth]
  simp only [MakeUnmaker.placeMovedPiece, MoveCode.promotion,
    MakeUnmaker.removeCapturedPiece, Bool.false_eq_true, if_false,
    ite_false, get_set_same, set_set_same]
  rw [update_flags_eq]
  rw [ite_ep_xor]

theorem unmake_noncap_white (W B : ChessBoardSide)
    (ep1 f1 hm1 H hm0 ep0 f0 : Nat)
    (rest : List IrreversibleInfo) (zn : ZobristNumbers)
    (fr t : Nat) (c : MoveCode) (p0 : PieceType)
    (hcst : c.is_castle = false) (hcap : c.is_capture = false)
    (hprom : c.promotion = none)
    (hb : (decide (StateFlags.active_color f1 = Color.white)) = false)
    (hp0 : (W.get p0).testBit t = true)
    (hoth : ∀ q, q ≠ p0 → (W.get q).testBit t = false) :
    MakeUnmaker.unmake_move
        ⟨⟨⟨W, B⟩, ep1, f1, hm1⟩, H, ⟨hm0, ep0, f0, none⟩ :: rest, zn⟩
        ⟨fr, t, c⟩ =
      some ⟨⟨⟨W.set p0 ((W.get p0 &&& not64 (1 <<< t)) ||| (1 <<< fr)), B⟩,
          ep0, f0, hm0⟩,
        (((((H ^^^ ZobristSide.get zn.board.white p0 t) ^^^
            ZobristSide.get zn.board.white p0 fr) ^^^
            condXor (!decide (ep1 = 0))
              (zn.en_passant_file (ctz ep1 % 8))) ^^^
            condXor (!decide (ep0 = 0))
              (zn.en_passant_file (ctz ep0 % 8))) ^^^
            zn.active_color) ^^^
          (((condXor (StateFlags.white_king_castle_right (f1 ^^^ f0))
              zn.castling.white_king_side ^^^
            condXor (StateFlags.white_queen_castle_right (f1 ^^^ f0))
              zn.castling.white_queen_side) ^^^
            condXor (StateFlags.black_king_castle_right (f1 ^^^ f0))
              zn.castling.black_king_side) ^^^
            condXor (StateFlags.black_queen_castle_right (f1 ^^^ f0))
              zn.castling.black_queen_side),
        rest, zn⟩ := by
  simp only [MakeUnmaker.unmake_move, MakeUnmaker.unmake_non_castle,
    MakeUnmaker.get_en_passant_file, hcst, hcap, hb, Bool.false_eq_true,
    if_false, ite_false, reduceCtorEq,
    eq_self_iff_true, if_true, ite_true, ne_eq]
  rw [removeMovedPiece_eq W zn.board.white t _ p0 hp0 hoth]
  simp only [MakeUnmaker.placeUnmovedPiece, hprom,
    MakeUnmaker.restoreCapturedPiece, Bool.false_eq_true, if_false,
    ite_false, get_set_same, set_set_same, Option.map_some']
  rw [ite_ep_xor, ite_ep_xor, castle_chain]

/-- Evaluation of `make_move` on a black quiet move. -/
theorem make_quiet_black (mu : MakeUnmaker) (fr t : Nat) (p0 : PieceType)
    (hw : ¬ StateFlags.active_color mu.state.flags = Color.white)
    (hp0 : (mu.state.boards.black.get p0).testBit fr = true)
    (hoth : ∀ q, q ≠ p0 →
      (mu.state.boards.black.get q).testBit fr = false) :
    MakeUnmaker.make_move mu ⟨fr, t, MoveCode.quietMove⟩ =
      ⟨⟨⟨mu.state.boards.white,
          mu.state.boards.black.set p0
            ((mu.state.boards.black.get p0 &&& not64 (1 <<< fr)) |||
              (1 <<< t))⟩,
        0, togFlags mu.state.flags ⟨fr, t, MoveCode.quietMove⟩,
        mu.state.halfmove + 1⟩,
      ((((mu.zobrist_hash ^^^
          condXor (!decide (mu.state.en_passant = 0))
            (mu.zobrist_numbers.en_passant_file
              (ctz mu.state.en_passant % 8)) ^^^
          ZobristSide.get mu.zobrist_numbers.board.black p0 fr) ^^^
          ZobristSide.get mu.zobrist_numbers.board.black p0 t) ^^^
          togNums mu.state.flags ⟨fr, t, MoveCode.quietMove⟩
            mu.zobrist_numbers) ^^^
        mu.zobrist_numbers.active_color),
      ⟨mu.state.halfmove, mu.state.en_passant, mu.state.flags, none⟩ ::
        mu.irreversible_stack,
      mu.zobrist_numbers⟩ := by
  have hwt : (decide (StateFlags.active_color mu.state.flags = Color.white))
      = false := decide_eq_false hw
  rw [MakeUnmaker.make_move]
  simp only [MakeUnmaker.make_non_castle, MakeUnmaker.get_en_passant_file,
    hwt, Bool.false_eq_true, if_true, if_false, eq_self_iff_true,
    MoveCode.is_castle, MoveCode.is_capture, MoveCode.promotion,
    reduceCtorEq, ite_true, ite_false, decide_False, decide_True, ne_eq,
    not_true, not_false_eq_true]
  rw [removeMovedPiece_eq mu.state.boards.black
    mu.zobrist_numbers.board.black fr _ p0 hp0 hoth]
  simp only [MakeUnmaker.placeMovedPiece, MoveCode.promotion,
    MakeUnmaker.removeCapturedPiece, Bool.false_eq_true, if_false,
    ite_false, get_set_same, set_set_same]
  rw [update_flags_eq]
  rw [ite_ep_xor]

/-- Evaluation of `unmake_move` on a black non-capture non-promotion
move. -/
theorem unmake_noncap_black (W B : ChessBoardSide)
    (ep1 f1 hm1 H hm0 ep0 f0 : Nat)
    (rest : List IrreversibleInfo) (zn : ZobristNumbers)
    (fr t : Nat) (c : MoveCode) (p0 : PieceType)
    (hcst : c.is_castle = false) (hcap : c.is_capture = false)
    (hprom : c.promotion = none)
    (hb : (decide (StateFlags.active_color f1 = Color.white)) = true)
    (hp0 : (B.get p0).testBit t = true)
    (hoth : ∀ q, q ≠ p0 → (B.get q).testBit t = false) :
    MakeUnmaker.unmake_move
        ⟨⟨⟨W, B⟩, ep1, f1, hm1⟩, H, ⟨hm0, ep0, f0, none⟩ :: rest, zn⟩
        ⟨fr, t, c⟩ =
      some ⟨⟨⟨W, B.set p0 ((B.get p0 &&& not64 (1 <<< t)) ||| (1 <<< fr))⟩,
          ep0, f0, hm0⟩,
        (((((H ^^^ ZobristSide.get zn.board.black p0 t) ^^^
            ZobristSide.get zn.board.black p0 fr) ^^^
            condXor (!decide (ep1 = 0))
              (zn.en_passant_file (ctz ep1 % 8))) ^^^
            condXor (!decide (ep0 = 0))
              (zn.en_passant_file (ctz ep0 % 8))) ^^^
            zn.active_color) ^^^
          (((condXor (StateFlags.white_king_castle_right (f1 ^^^ f0))
              zn.castling.white_king_side ^^^
            condXor (StateFlags.white_queen_castle_right (f1 ^^^ f0))
              zn.castling.white_queen_side) ^^^
            condXor (StateFlags.black_king_castle_right (f1 ^^^ f0))
              zn.castling.black_king_side) ^^^
            condXor (StateFlags.black_queen_castle_right (f1 ^^^ f0))
              zn.castling.black_queen_side),
        rest, zn⟩ := by
  simp only [MakeUnmaker.unmake_move, MakeUnmaker.unmake_non_castle,
    MakeUnmaker.get_en_passant_file, hcst, hcap, hb, Bool.false_eq_true,
    if_false, ite_false, reduceCtorEq,
    eq_self_iff_true, if_true, ite_true, ne_eq]
  rw [removeMovedPiece_eq B zn.board.black t _ p0 hp0 hoth]
  simp only [MakeUnmaker.placeUnmovedPiece, hprom,
    MakeUnmaker.restoreCapturedPiece, Bool.false_eq_true, if_false,
    ite_false, get_set_same, set_set_same, Option.map_some']
  rw [ite_ep_xor, ite_ep_xor, castle_chain]

set_option maxHeartbeats 1000000 in
theorem step_quiet_black (mu : MakeUnmaker) (fr t : Nat)
    (hwf : WFState mu.state)
    (hinv : mu.zobrist_hash = mu.state.hash mu.zobrist_numbers)
    (hw : ¬ StateFlags.active_color mu.state.flags = Color.white)
    (hvc : ValidCommon mu.state.boards.black ⟨fr, t, MoveCode.quietMove⟩) :
    MakeUnmaker.unmake_move
        (MakeUnmaker.make_move mu ⟨fr, t, MoveCode.quietMove⟩)
        ⟨fr, t, MoveCode.quietMove⟩ = some mu ∧
    (MakeUnmaker.make_move mu ⟨fr, t, MoveCode.quietMove⟩).zobrist_hash =
      (MakeUnmaker.make_move mu
          ⟨fr, t, MoveCode.quietMove⟩).state.hash
        (MakeUnmaker.make_move mu
          ⟨fr, t, MoveCode.quietMove⟩).zobrist_numbers := by
  obtain ⟨hbW, hbB, hdW, hdB, hdis, hkW, hkB, hepdis, hep64⟩ := hwf
  obtain ⟨hfr64, ht64, hne, hfrU, htU⟩ := hvc
  obtain ⟨p0, hp0⟩ := exists_piece_of_union hfrU
  have hoth := disjoint_unique_piece hdB hp0
  have hFw64 := get_lt_of_bounded hbB p0
  have hFt : (mu.state.boards.black.get p0).testBit t = false :=
    get_testBit_false_of_union htU p0
  rw [make_quiet_black mu fr t p0 hw hp0 hoth]
  constructor
  · have hp0' : ((mu.state.boards.black.set p0
        ((mu.state.boards.black.get p0 &&& not64 (1 <<< fr)) |||
          (1 <<< t))).get p0).testBit t = true := by
      rw [get_set_same]
      exact or_shift_testBit_self _ t
    have hoth' : ∀ q, q ≠ p0 → ((mu.state.boards.black.set p0
        ((mu.state.boards.black.get p0 &&& not64 (1 <<< fr)) |||
          (1 <<< t))).get q).testBit t = false := fun q hq => by
      rw [get_set_ne _ _ (Ne.symm hq)]
      exact get_testBit_false_of_union htU q
    rw [unmake_noncap_black _ _ _ _ _ _ _ _ _ _ _ _ _
      MoveCode.quietMove p0 rfl rfl rfl
      (active_togFlags_black _ _ hw) hp0' hoth']
    rw [get_set_same,
      set_then_clear (lt_of_le_of_lt Nat.and_le_left hFw64) ht64
        (testBit_and_false_left _ hFt),
      clear_then_set hFw64 hfr64 hp0, set_set_same, set_get_self]
    rw [wk_diff, wq_diff, bk_diff, bq_diff]
    refine congrArg some (mk_eq_self mu _ ?_)
    simp [togNums, condXor_false, condXor_true, Nat.xor_assoc,
      Nat.xor_comm, xor_left_comm, Nat.xor_self, xor_cancel_left,
      Nat.xor_zero, Nat.zero_xor]
  · have hv : hashBoard ((mu.state.boards.black.get p0 &&&
        not64 (1 <<< fr)) ||| (1 <<< t))
        (ZobristSide.get mu.zobrist_numbers.board.black p0) =
      hashBoard (mu.state.boards.black.get p0)
        (ZobristSide.get mu.zobrist_numbers.board.black p0) ^^^
        (ZobristSide.get mu.zobrist_numbers.board.black p0 fr ^^^
          ZobristSide.get mu.zobrist_numbers.board.black p0 t) := by
      rw [and_not64_eq_xor hFw64 hfr64 hp0,
        or_eq_xor (testBit_xor_shift_false hFt (Ne.symm hne)),
        hashBoard_flip (xor_pow_lt_64 hFw64 hfr64) ht64,
        hashBoard_flip hFw64 hfr64, Nat.xor_assoc]
    dsimp only
    rw [hash_decompose, hashBoards_set_black _ _ p0 _ _ hv,
      hashColor_togFlags, hashCastles_togFlags, hinv, hash_decompose]
    simp [hashEp, condXor_false, condXor_true, Nat.xor_assoc,
      Nat.xor_comm, xor_left_comm, Nat.xor_self, xor_cancel_left,
      Nat.xor_zero, Nat.zero_xor]

/-- Evaluation of `make_move` on a white double pawn push. -/
theorem make_dpp_white (mu : MakeUnmaker) (fr t : Nat) (p0 : PieceType)
    (hw : StateFlags.active_color mu.state.flags = Color.white)
    (hp0 : (mu.state.boards.white.get p0).testBit fr = true)
    (hoth : ∀ q, q ≠ p0 →
      (mu.state.boards.white.get q).testBit fr = false) :
    MakeUnmaker.make_move mu ⟨fr, t, MoveCode.doublePawnPush⟩ =
      ⟨⟨⟨mu.state.boards.white.set p0
            ((mu.state.boards.white.get p0 &&& not64 (1 <<< fr)) |||
              (1 <<< t)),
          mu.state.boards.black⟩,
        1 <<< (fr + 8),
        togFlags mu.state.flags ⟨fr, t, MoveCode.doublePawnPush⟩,
        mu.state.halfmove + 1⟩,
      (((((mu.zobrist_hash ^^^
          condXor (!decide (mu.state.en_passant = 0))
            (mu.zobrist_numbers.en_passant_file
              (ctz mu.state.en_passant % 8)) ^^^
          mu.zobrist_numbers.en_passant_file
            (ctz (1 <<< (fr + 8)) % 8)) ^^^
          ZobristSide.get mu.zobrist_numbers.board.white p0 fr) ^^^
          ZobristSide.get mu.zobrist_numbers.board.white p0 t) ^^^
          togNums mu.state.flags ⟨fr, t, MoveCode.doublePawnPush⟩
            mu.zobrist_numbers) ^^^
        mu.zobrist_numbers.active_color),
      ⟨mu.state.halfmove, mu.state.en_passant, mu.state.flags, none⟩ ::
        mu.irreversible_stack,
      mu.zobrist_numbers⟩ := by
  have hwt : (decide (StateFlags.active_color mu.state.flags = Color.white))
      = true := by
    rw [hw]; exact decide_eq_true rfl
  rw [MakeUnmaker.make_move]
  simp only [MakeUnmaker.make_non_castle, MakeUnmaker.get_en_passant_file,
    hwt, if_true, eq_self_iff_true, MoveCode.is_castle, MoveCode.is_capture,
    MoveCode.promotion, reduceCtorEq, if_false, ite_true, ite_false,
    decide_False, decide_True, ne_eq, not_true, not_false_eq_true,
    one_shift_ne_zero]
  rw [removeMovedPiece_eq mu.state.boards.white
    mu.zobrist_numbers.board.white fr _ p0 hp0 hoth]
  simp only [MakeUnmaker.placeMovedPiece, MoveCode.promotion,
    MakeUnmaker.removeCapturedPiece, Bool.false_eq_true, if_false,
    ite_false, get_set_same, set_set_same]
  rw [update_flags_eq]
  rw [ite_ep_xor]

set_option maxHeartbeats 1000000 in
theorem step_dpp_white (mu : MakeUnmaker) (fr t : Nat)
    (hwf : WFState mu.state)
    (hinv : mu.zobrist_hash = mu.state.hash mu.zobrist_numbers)
    (hw : StateFlags.active_color mu.state.flags = Color.white)
    (hvc : ValidCommon mu.state.boards.white
      ⟨fr, t, MoveCode.doublePawnPush⟩) :
    MakeUnmaker.unmake_move
        (MakeUnmaker.make_move mu ⟨fr, t, MoveCode.doublePawnPush⟩)
        ⟨fr, t, MoveCode.doublePawnPush⟩ = some mu ∧
    (MakeUnmaker.make_move mu
        ⟨fr, t, MoveCode.doublePawnPush⟩).zobrist_hash =
      (MakeUnmaker.make_move mu
          ⟨fr, t, MoveCode.doublePawnPush⟩).state.hash
        (MakeUnmaker.make_move mu
          ⟨fr, t, MoveCode.doublePawnPush⟩).zobrist_numbers := by
  obtain ⟨hbW, hbB, hdW, hdB, hdis, hkW, hkB, hepdis, hep64⟩ := hwf
  obtain ⟨hfr64, ht64, hne, hfrU, htU⟩ := hvc
  obtain ⟨p0, hp0⟩ := exists_piece_of_union hfrU
  have hoth := disjoint_unique_piece hdW hp0
  have hFw64 := get_lt_of_bounded hbW p0
  have hFt : (mu.state.boards.white.get p0).testBit t = false :=
    get_testBit_false_of_union htU p0
  rw [make_dpp_white mu fr t p0 hw hp0 hoth]
  constructor
  · have hp0' : ((mu.state.boards.white.set p0
        ((mu.state.boards.white.get p0 &&& not64 (1 <<< fr)) |||
          (1 <<< t))).get p0).testBit t = true := by
      rw [get_set_same]
      exact or_shift_testBit_self _ t
    have hoth' : ∀ q, q ≠ p0 → ((mu.state.boards.white.set p0
        ((mu.state.boards.white.get p0 &&& not64 (1 <<< fr)) |||
          (1 <<< t))).get q).testBit t = false := fun q hq => by
      rw [get_set_ne _ _ (Ne.symm hq)]
      exact get_testBit_false_of_union htU q
    rw [unmake_noncap_white _ _ _ _ _ _ _ _ _ _ _ _ _
      MoveCode.doublePawnPush p0 rfl rfl rfl
      (active_togFlags_white _ _ hw) hp0' hoth']
    rw [get_set_same,
      set_then_clear (lt_of_le_of_lt Nat.and_le_left hFw64) ht64
        (testBit_and_false_left _ hFt),
      clear_then_set hFw64 hfr64 hp0, set_set_same, set_get_self]
    rw [wk_diff, wq_diff, bk_diff, bq_diff]
    refine congrArg some (mk_eq_self mu _ ?_)
    simp [togNums, condXor_false, condXor_true, condXor_shift,
      Nat.xor_assoc, Nat.xor_comm, xor_left_comm, Nat.xor_self,
      xor_cancel_left, Nat.xor_zero, Nat.zero_xor]
  · have hv : hashBoard ((mu.state.boards.white.get p0 &&&
        not64 (1 <<< fr)) ||| (1 <<< t))
        (ZobristSide.get mu.zobrist_numbers.board.white p0) =
      hashBoard (mu.state.boards.white.get p0)
        (ZobristSide.get mu.zobrist_numbers.board.white p0) ^^^
        (ZobristSide.get mu.zobrist_numbers.board.white p0 fr ^^^
          ZobristSide.get mu.zobrist_numbers.board.white p0 t) := by
      rw [and_not64_eq_xor hFw64 hfr64 hp0,
        or_eq_xor (testBit_xor_shift_false hFt (Ne.symm hne)),
        hashBoard_flip (xor_pow_lt_64 hFw64 hfr64) ht64,
        hashBoard_flip hFw64 hfr64, Nat.xor_assoc]
    dsimp only
    rw [hash_decompose, hashBoards_set_white _ _ p0 _ _ hv,
      hashColor_togFlags, hashCastles_togFlags, hinv, hash_decompose]
    simp [hashEp, condXor_false, condXor_true, condXor_shift,
      Nat.xor_assoc, Nat.xor_comm, xor_left_comm, Nat.xor_self,
      xor_cancel_left, Nat.xor_zero, Nat.zero_xor]

/-- Evaluation of `make_move` on a black double pawn push. -/
theorem make_dpp_black (mu : MakeUnmaker) (fr t : Nat) (p0 : PieceType)
    (hw : ¬ StateFlags.active_color mu.state.flags = Color.white)
    (hp0 : (mu.state.boards.black.get p0).testBit fr = true)
    (hoth : ∀ q, q ≠ p0 →
      (mu.state.boards.black.get q).testBit fr = false) :
    MakeUnmaker.make_move mu ⟨fr, t, MoveCode.doublePawnPush⟩ =
      ⟨⟨⟨mu.state.boards.white,
          mu.state.boards.black.set p0
            ((mu.state.boards.black.get p0 &&& not64 (1 <<< fr)) |||
              (1 <<< t))⟩,
        1 <<< (fr - 8),
        togFlags mu.state.flags ⟨fr, t, MoveCode.doublePawnPush⟩,
        mu.state.halfmove + 1⟩,
      (((((mu.zobrist_hash ^^^
          condXor (!decide (mu.state.en_passant = 0))
            (mu.zobrist_numbers.en_passant_file
              (ctz mu.state.en_passant % 8)) ^^^
          mu.zobrist_numbers.en_passant_file
            (ctz (1 <<< (fr - 8)) % 8)) ^^^
          ZobristSide.get mu.zobrist_numbers.board.black p0 fr) ^^^
          ZobristSide.get mu.zobrist_numbers.board.black p0 t) ^^^
          togNums mu.state.flags ⟨fr, t, MoveCode.doublePawnPush⟩
            mu.zobrist_numbers) ^^^
        mu.zobrist_numbers.active_color),
      ⟨mu.state.halfmove, mu.state.en_passant, mu.state.flags, none⟩ ::
        mu.irreversible_stack,
      mu.zobrist_numbers⟩ := by
  have hwt : (decide (StateFlags.active_color mu.state.flags = Color.white))
      = false := decide_eq_false hw
  rw [MakeUnmaker.make_move]
  simp only [MakeUnmaker.make_non_castle, MakeUnmaker.get_en_passant_file,
    hwt, Bool.false_eq_true, if_true, if_false, eq_self_iff_true,
    MoveCode.is_castle, MoveCode.is_capture,
    MoveCode.promotion, reduceCtorEq, if_false, ite_true, ite_false,
    decide_False, decide_True, ne_eq, not_true, not_false_eq_true,
    one_shift_ne_zero]
  rw [removeMovedPiece_eq mu.state.boards.black
    mu.zobrist_numbers.board.black fr _ p0 hp0 hoth]
  simp only [MakeUnmaker.placeMovedPiece, MoveCode.promotion,
    MakeUnmaker.removeCapturedPiece, Bool.false_eq_true, if_false,
    ite_false, get_set_same, set_set_same]
  rw [update_flags_eq]
  rw [ite_ep_xor]

set_option maxHeartbeats 1000000 in
theorem step_dpp_black (mu : MakeUnmaker) (fr t : Nat)
    (hwf : WFState mu.state)
    (hinv : mu.zobrist_hash = mu.state.hash mu.zobrist_numbers)
    (hw : ¬ StateFlags.active_color mu.state.flags = Color.white)
    (hvc : ValidCommon mu.state.boards.black
      ⟨fr, t, MoveCode.doublePawnPush⟩) :
    MakeUnmaker.unmake_move
        (MakeUnmaker.make_move mu ⟨fr, t, MoveCode.doublePawnPush⟩)
        ⟨fr, t, MoveCode.doublePawnPush⟩ = some mu ∧
    (MakeUnmaker.make_move mu
        ⟨fr, t, MoveCode.doublePawnPush⟩).zobrist_hash =
      (MakeUnmaker.make_move mu
          ⟨fr, t, MoveCode.doublePawnPush⟩).state.hash
        (MakeUnmaker.make_move mu
          ⟨fr, t, MoveCode.doublePawnPush⟩).zobrist_numbers := by
  obtain ⟨hbW, hbB, hdW, hdB, hdis, hkW, hkB, hepdis, hep64⟩ := hwf
  obtain ⟨hfr64, ht64, hne, hfrU, htU⟩ := hvc
  obtain ⟨p0, hp0⟩ := exists_piece_of_union hfrU
  have hoth := disjoint_unique_piece hdB hp0
  have hFw64 := get_lt_of_bounded hbB p0
  have hFt : (mu.state.boards.black.get p0).testBit t = false :=
    get_testBit_false_of_union htU p0
  rw [make_dpp_black mu fr t p0 hw hp0 hoth]
  constructor
  · have hp0' : ((mu.state.boards.black.set p0
        ((mu.state.boards.black.get p0 &&& not64 (1 <<< fr)) |||
          (1 <<< t))).get p0).testBit t = true := by
      rw [get_set_same]
      exact or_shift_testBit_self _ t
    have hoth' : ∀ q, q ≠ p0 → ((mu.state.boards.black.set p0
        ((mu.state.boards.black.get p0 &&& not64 (1 <<< fr)) |||
          (1 <<< t))).get q).testBit t = false := fun q hq => by
      rw [get_set_ne _ _ (Ne.symm hq)]
      exact get_testBit_false_of_union htU q
    rw [unmake_noncap_black _ _ _ _ _ _ _ _ _ _ _ _ _
      MoveCode.doublePawnPush p0 rfl rfl rfl
      (active_togFlags_black _ _ hw) hp0' hoth']
    rw [get_set_same,
      set_then_clear (lt_of_le_of_lt Nat.and_le_left hFw64) ht64
        (testBit_and_false_left _ hFt),
      clear_then_set hFw64 hfr64 hp0, set_set_same, set_get_self]
    rw [wk_diff, wq_diff, bk_diff, bq_diff]
    refine congrArg some (mk_eq_self mu _ ?_)
    simp [togNums, condXor_false, condXor_true, condXor_shift,
      Nat.xor_assoc, Nat.xor_comm, xor_left_comm, Nat.xor_self,
      xor_cancel_left, Nat.xor_zero, Nat.zero_xor]
  · have hv : hashBoard ((mu.state.boards.black.get p0 &&&
        not64 (1 <<< fr)) ||| (1 <<< t))
        (ZobristSide.get mu.zobrist_numbers.board.black p0) =
      hashBoard (mu.state.boards.black.get p0)
        (ZobristSide.get mu.zobrist_numbers.board.black p0) ^^^
        (ZobristSide.get mu.zobrist_numbers.board.black p0 fr ^^^
          ZobristSide.get mu.zobrist_numbers.board.black p0 t) := by
      rw [and_not64_eq_xor hFw64 hfr64 hp0,
        or_eq_xor (testBit_xor_shift_false hFt (Ne.symm hne)),
        hashBoard_flip (xor_pow_lt_64 hFw64 hfr64) ht64,
        hashBoard_flip hFw64 hfr64, Nat.xor_assoc]
    dsimp only
    rw [hash_decompose, hashBoards_set_black _ _ p0 _ _ hv,
      hashColor_togFlags, hashCastles_togFlags, hinv, hash_decompose]
    simp [hashEp, condXor_false, condXor_true, condXor_shift,
      Nat.xor_assoc, Nat.xor_comm, xor_left_comm, Nat.xor_self,
      xor_cancel_left, Nat.xor_zero, Nat.zero_xor]

/-- Pulling two slots' deltas out of a twelve-term XOR chain. -/

theorem xor12_two_1_7 (A1 A2 A3 A4 A5 A6 A7 A8 A9 A10 A11 A12 d e : Nat) :
    (A1 ^^^ d) ^^^ A2 ^^^ A3 ^^^ A4 ^^^ A5 ^^^ A6 ^^^ (A7 ^^^ e) ^^^ A8 ^^^ A9 ^^^ A10 ^^^ A11 ^^^ A12 =
      ((A1 ^^^ A2 ^^^ A3 ^^^ A4 ^^^ A5 ^^^ A6 ^^^ A7 ^^^ A8 ^^^ A9 ^^^ A10 ^^^ A11 ^^^ A12) ^^^ d) ^^^ e := by
  simp [Nat.xor_assoc, Nat.xor_comm, xor_left_comm]

theorem xor12_two_1_8 (A1 A2 A3 A4 A5 A6 A7 A8 A9 A10 A11 A12 d e : Nat) :
    (A1 ^^^ d) ^^^ A2 ^^^ A3 ^^^ A4 ^^^ A5 ^^^ A6 ^^^ A7 ^^^ (A8 ^^^ e) ^^^ A9 ^^^ A10 ^^^ A11 ^^^ A12 =
      ((A1 ^^^ A2 ^^^ A3 ^^^ A4 ^^^ A5 ^^^ A6 ^^^ A7 ^^^ A8 ^^^ A9 ^^^ A10 ^^^ A11 ^^^ A12) ^^^ d) ^^^ e := by
  simp [Nat.xor_assoc, Nat.xor_comm, xor_left_comm]

theorem xor12_two_1_9 (A1 A2 A3 A4 A5 A6 A7 A8 A9 A10 A11 A12 d e : Nat) :
    (A1 ^^^ d) ^^^ A2 ^^^ A3 ^^^ A4 ^^^ A5 ^^^ A6 ^^^ A7 ^^^ A8 ^^^ (A9 ^^^ e) ^^^ A10 ^^^ A11 ^^^ A12 =
      ((A1 ^^^ A2 ^^^ A3 ^^^ A4 ^^^ A5 ^^^ A6 ^^^ A7 ^^^ A8 ^^^ A9 ^^^ A10 ^^^ A11 ^^^ A12) ^^^ d) ^^^ e := by
  simp [Nat.xor_assoc, Nat.xor_comm, xor_left_comm]

theorem xor12_two_1_10 (A1 A2 A3 A4 A5 A6 A7 A8 A9 A10 A11 A12 d e : Nat) :
    (A1 ^^^ d) ^^^ A2 ^^^ A3 ^^^ A4 ^^^ A5 ^^^ A6 ^^^ A7 ^^^ A8 ^^^ A9 ^^^ (A10 ^^^ e) ^^^ A11 ^^^ A12 =
      ((A1 ^^^ A2 ^^^ A3 ^^^ A4 ^^^ A5 ^^^ A6 ^^^ A7 ^^^ A8 ^^^ A9 ^^^ A10 ^^^ A11 ^^^ A12) ^^^ d) ^^^ e := by
  simp [Nat.xor_assoc, Nat.xor_comm, xor_left_comm]

theorem xor12_two_1_11 (A1 A2 A3 A4 A5 A6 A7 A8 A9 A10 A11 A12 d e : Nat) :
    (A1 ^^^ d) ^^^ A2 ^^^ A3 ^^^ A4 ^^^ A5 ^^^ A6 ^^^ A7 ^^^ A8 ^^^ A9 ^^^ A10 ^^^ (A11 ^^^ e) ^^^ A12 =
      ((A1 ^^^ A2 ^^^ A3 ^^^ A4 ^^^ A5 ^^^ A6 ^^^ A7 ^^^ A8 ^^^ A9 ^^^ A10 ^^^ A11 ^^^ A12) ^^^ d) ^^^ e := by
  simp [Nat.xor_assoc, Nat.xor_comm, xor_left_comm]

theorem xor12_two_1_12 (A1 A2 A3 A4 A5 A6 A7 A8 A9 A10 A11 A12 d e : Nat) :
    (A1 ^^^ d) ^^^ A2 ^^^ A3 ^^^ A4 ^^^ A5 ^^^ A6 ^^^ A7 ^^^ A8 ^^^ A9 ^^^ A10 ^^^ A11 ^^^ (A12 ^^^ e) =
      ((A1 ^^^ A2 ^^^ A3 ^^^ A4 ^^^ A5 ^^^ A6 ^^^ A7 ^^^ A8 ^^^ A9 ^^^ A10 ^^^ A11 ^^^ A12) ^^^ d) ^^^ e := by
  simp [Nat.xor_assoc, Nat.xor_comm, xor_left_comm]

theorem xor12_two_2_7 (A1 A2 A3 A4 A5 A6 A7 A8 A9 A10 A11 A12 d e : Nat) :
    A1 ^^^ (A2 ^^^ d) ^^^ A3 ^^^ A4 ^^^ A5 ^^^ A6 ^^^ (A7 ^^^ e) ^^^ A8 ^^^ A9 ^^^ A10 ^^^ A11 ^^^ A12 =
      ((A1 ^^^ A2 ^^^ A3 ^^^ A4 ^^^ A5 ^^^ A6 ^^^ A7 ^^^ A8 ^^^ A9 ^^^ A10 ^^^ A11 ^^^ A12) ^^^ d) ^^^ e := by
  simp [Nat.xor_assoc, Nat.xor_comm, xor_left_comm]

theorem xor12_two_2_8 (A1 A2 A3 A4 A5 A6 A7 A8 A9 A10 A11 A12 d e : Nat) :
    A1 ^^^ (A2 ^^^ d) ^^^ A3 ^^^ A4 ^^^ A5 ^^^ A6 ^^^ A7 ^^^ (A8 ^^^ e) ^^^ A9 ^^^ A10 ^^^ A11 ^^^ A12 =
      ((A1 ^^^ A2 ^^^ A3 ^^^ A4 ^^^ A5 ^^^ A6 ^^^ A7 ^^^ A8 ^^^ A9 ^^^ A10 ^^^ A11 ^^^ A12) ^^^ d) ^^^ e := by
  simp [Nat.xor_assoc, Nat.xor_comm, xor_left_comm]

theorem xor12_two_2_9 (A1 A2 A3 A4 A5 A6 A7 A8 A9 A10 A11 A12 d e : Nat) :
    A1 ^^^ (A2 ^^^ d) ^^^ A3 ^^^ A4 ^^^ A5 ^^^ A6 ^^^ A7 ^^^ A8 ^^^ (A9 ^^^ e) ^^^ A10 ^^^ A11 ^^^ A12 =
      ((A1 ^^^ A2 ^^^ A3 ^^^ A4 ^^^ A5 ^^^ A6 ^^^ A7 ^^^ A8 ^^^ A9 ^^^ A10 ^^^ A11 ^^^ A12) ^^^ d) ^^^ e := by
  simp [Nat.xor_assoc, Nat.xor_comm, xor_left_comm]

theorem xor12_two_2_10 (A1 A2 A3 A4 A5 A6 A7 A8 A9 A10 A11 A12 d e : Nat) :
    A1 ^^^ (A2 ^^^ d) ^^^ A3 ^^^ A4 ^^^ A5 ^^^ A6 ^^^ A7 ^^^ A8 ^^^ A9 ^^^ (A10 ^^^ e) ^^^ A11 ^^^ A12 =
      ((A1 ^^^ A2 ^^^ A3 ^^^ A4 ^^^ A5 ^^^ A6 ^^^ A7 ^^^ A8 ^^^ A9 ^^^ A10 ^^^ A11 ^^^ A12) ^^^ d) ^^^ e := by
  simp [Nat.xor_assoc, Nat.xor_comm, xor_left_comm]

theorem xor12_two_2_11 (A1 A2 A3 A4 A5 A6 A7 A8 A9 A10 A11 A12 d e : Nat) :
    A1 ^^^ (A2 ^^^ d) ^^^ A3 ^^^ A4 ^^^ A5 ^^^ A6 ^^^ A7 ^^^ A8 ^^^ A9 ^^^ A10 ^^^ (A11 ^^^ e) ^^^ A12 =
      ((A1 ^^^ A2 ^^^ A3 ^^^ A4 ^^^ A5 ^^^ A6 ^^^ A7 ^^^ A8 ^^^ A9 ^^^ A10 ^^^ A11 ^^^ A12) ^^^ d) ^^^ e := by
  simp [Nat.xor_assoc, Nat.xor_comm, xor_left_comm]

theorem xor12_two_2_12 (A1 A2 A3 A4 A5 A6 A7 A8 A9 A10 A11 A12 d e : Nat) :
    A1 ^^^ (A2 ^^^ d) ^^^ A3 ^^^ A4 ^^^ A5 ^^^ A6 ^^^ A7 ^^^ A8 ^^^ A9 ^^^ A10 ^^^ A11 ^^^ (A12 ^^^ e) =
      ((A1 ^^^ A2 ^^^ A3 ^^^ A4 ^^^ A5 ^^^ A6 ^^^ A7 ^^^ A8 ^^^ A9 ^^^ A10 ^^^ A11 ^^^ A12) ^^^ d) ^^^ e := by
  simp [Nat.xor_assoc, Nat.xor_comm, xor_left_comm]

theorem xor12_two_3_7 (A1 A2 A3 A4 A5 A6 A7 A8 A9 A10 A11 A12 d e : Nat) :
    A1 ^^^ A2 ^^^ (A3 ^^^ d) ^^^ A4 ^^^ A5 ^^^ A6 ^^^ (A7 ^^^ e) ^^^ A8 ^^^ A9 ^^^ A10 ^^^ A11 ^^^ A12 =
      ((A1 ^^^ A2 ^^^ A3 ^^^ A4 ^^^ A5 ^^^ A6 ^^^ A7 ^^^ A8 ^^^ A9 ^^^ A10 ^^^ A11 ^^^ A12) ^^^ d) ^^^ e := by
  simp [Nat.xor_assoc, Nat.xor_comm, xor_left_comm]

theorem xor12_two_3_8 (A1 A2 A3 A4 A5 A6 A7 A8 A9 A10 A11 A12 d e : Nat) :
    A1 ^^^ A2 ^^^ (A3 ^^^ d) ^^^ A4 ^^^ A5 ^^^ A6 ^^^ A7 ^^^ (A8 ^^^ e) ^^^ A9 ^^^ A10 ^^^ A11 ^^^ A12 =
      ((A1 ^^^ A2 ^^^ A3 ^^^ A4 ^^^ A5 ^^^ A6 ^^^ A7 ^^^ A8 ^^^ A9 ^^^ A10 ^^^ A11 ^^^ A12) ^^^ d) ^^^ e := by
  simp [Nat.xor_assoc, Nat.xor_comm, xor_left_comm]

theorem xor12_two_3_9 (A1 A2 A3 A4 A5 A6 A7 A8 A9 A10 A11 A12 d e : Nat) :
    A1 ^^^ A2 ^^^ (A3 ^^^ d) ^^^ A4 ^^^ A5 ^^^ A6 ^^^ A7 ^^^ A8 ^^^ (A9 ^^^ e) ^^^ A10 ^^^ A11 ^^^ A12 =
      ((A1 ^^^ A2 ^^^ A3 ^^^ A4 ^^^ A5 ^^^ A6 ^^^ A7 ^^^ A8 ^^^ A9 ^^^ A10 ^^^ A11 ^^^ A12) ^^^ d) ^^^ e := by
  simp [Nat.xor_assoc, Nat.xor_comm, xor_left_comm]

theorem xor12_two_3_10 (A1 A2 A3 A4 A5 A6 A7 A8 A9 A10 A11 A12 d e : Nat) :
    A1 ^^^ A2 ^^^ (A3 ^^^ d) ^^^ A4 ^^^ A5 ^^^ A6 ^^^ A7 ^^^ A8 ^^^ A9 ^^^ (A10 ^^^ e) ^^^ A11 ^^^ A12 =
      ((A1 ^^^ A2 ^^^ A3 ^^^ A4 ^^^ A5 ^^^ A6 ^^^ A7 ^^^ A8 ^^^ A9 ^^^ A10 ^^^ A11 ^^^ A12) ^^^ d) ^^^ e := by
  simp [Nat.xor_assoc, Nat.xor_comm, xor_left_comm]

theorem xor12_two_3_11 (A1 A2 A3 A4 A5 A6 A7 A8 A9 A10 A11 A12 d e : Nat) :
    A1 ^^^ A2 ^^^ (A3 ^^^ d) ^^^ A4 ^^^ A5 ^^^ A6 ^^^ A7 ^^^ A8 ^^^ A9 ^^^ A10 ^^^ (A11 ^^^ e) ^^^ A12 =
      ((A1 ^^^ A2 ^^^ A3 ^^^ A4 ^^^ A5 ^^^ A6 ^^^ A7 ^^^ A8 ^^^ A9 ^^^ A10 ^^^ A11 ^^^ A12) ^^^ d) ^^^ e := by
  simp [Nat.xor_assoc, Nat.xor_comm, xor_left_comm]

theorem xor12_two_3_12 (A1 A2 A3 A4 A5 A6 A7 A8 A9 A10 A11 A12 d e : Nat) :
    A1 ^^^ A2 ^^^ (A3 ^^^ d) ^^^ A4 ^^^ A5 ^^^ A6 ^^^ A7 ^^^ A8 ^^^ A9 ^^^ A10 ^^^ A11 ^^^ (A12 ^^^ e) =
      ((A1 ^^^ A2 ^^^ A3 ^^^ A4 ^^^ A5 ^^^ A6 ^^^ A7 ^^^ A8 ^^^ A9 ^^^ A10 ^^^ A11 ^^^ A12) ^^^ d) ^^^ e := by
  simp [Nat.xor_assoc, Nat.xor_comm, xor_left_comm]

theorem xor12_two_4_7 (A1 A2 A3 A4 A5 A6 A7 A8 A9 A10 A11 A12 d e : Nat) :
    A1 ^^^ A2 ^^^ A3 ^^^ (A4 ^^^ d) ^^^ A5 ^^^ A6 ^^^ (A7 ^^^ e) ^^^ A8 ^^^ A9 ^^^ A10 ^^^ A11 ^^^ A12 =
      ((A1 ^^^ A2 ^^^ A3 ^^^ A4 ^^^ A5 ^^^ A6 ^^^ A7 ^^^ A8 ^^^ A9 ^^^ A10 ^^^ A11 ^^^ A12) ^^^ d) ^^^ e := by
  simp [Nat.xor_assoc, Nat.xor_comm, xor_left_comm]

theorem xor12_two_4_8 (A1 A2 A3 A4 A5 A6 A7 A8 A9 A10 A11 A12 d e : Nat) :
    A1 ^^^ A2 ^^^ A3 ^^^ (A4 ^^^ d) ^^^ A5 ^^^ A6 ^^^ A7 ^^^ (A8 ^^^ e) ^^^ A9 ^^^ A10 ^^^ A11 ^^^ A12 =
      ((A1 ^^^ A2 ^^^ A3 ^^^ A4 ^^^ A5 ^^^ A6 ^^^ A7 ^^^ A8 ^^^ A9 ^^^ A10 ^^^ A11 ^^^ A12) ^^^ d) ^^^ e := by
  simp [Nat.xor_assoc, Nat.xor_comm, xor_left_comm]

theorem xor12_two_4_9 (A1 A2 A3 A4 A5 A6 A7 A8 A9 A10 A11 A12 d e : Nat) :
    A1 ^^^ A2 ^^^ A3 ^^^ (A4 ^^^ d) ^^^ A5 ^^^ A6 ^^^ A7 ^^^ A8 ^^^ (A9 ^^^ e) ^^^ A10 ^^^ A11 ^^^ A12 =
      ((A1 ^^^ A2 ^^^ A3 ^^^ A4 ^^^ A5 ^^^ A6 ^^^ A7 ^^^ A8 ^^^ A9 ^^^ A10 ^^^ A11 ^^^ A12) ^^^ d) ^^^ e := by
  simp [Nat.xor_assoc, Nat.xor_comm, xor_left_comm]

theorem xor12_two_4_10 (A1 A2 A3 A4 A5 A6 A7 A8 A9 A10 A11 A12 d e : Nat) :
    A1 ^^^ A2 ^^^ A3 ^^^ (A4 ^^^ d) ^^^ A5 ^^^ A6 ^^^ A7 ^^^ A8 ^^^ A9 ^^^ (A10 ^^^ e) ^^^ A11 ^^^ A12 =
      ((A1 ^^^ A2 ^^^ A3 ^^^ A4 ^^^ A5 ^^^ A6 ^^^ A7 ^^^ A8 ^^^ A9 ^^^ A10 ^^^ A11 ^^^ A12) ^^^ d) ^^^ e := by
  simp [Nat.xor_assoc, Nat.xor_comm, xor_left_comm]

theorem xor12_two_4_11 (A1 A2 A3 A4 A5 A6 A7 A8 A9 A10 A11 A12 d e : Nat) :
    A1 ^^^ A2 ^^^ A3 ^^^ (A4 ^^^ d) ^^^ A5 ^^^ A6 ^^^ A7 ^^^ A8 ^^^ A9 ^^^ A10 ^^^ (A11 ^^^ e) ^^^ A12 =
      ((A1 ^^^ A2 ^^^ A3 ^^^ A4 ^^^ A5 ^^^ A6 ^^^ A7 ^^^ A8 ^^^ A9 ^^^ A10 ^^^ A11 ^^^ A12) ^^^ d) ^^^ e := by
  simp [Nat.xor_assoc, Nat.xor_comm, xor_left_comm]

theorem xor12_two_4_12 (A1 A2 A3 A4 A5 A6 A7 A8 A9 A10 A11 A12 d e : Nat) :
    A1 ^^^ A2 ^^^ A3 ^^^ (A4 ^^^ d) ^^^ A5 ^^^ A6 ^^^ A7 ^^^ A8 ^^^ A9 ^^^ A10 ^^^ A11 ^^^ (A12 ^^^ e) =
      ((A1 ^^^ A2 ^^^ A3 ^^^ A4 ^^^ A5 ^^^ A6 ^^^ A7 ^^^ A8 ^^^ A9 ^^^ A10 ^^^ A11 ^^^ A12) ^^^ d) ^^^ e := by
  simp [Nat.xor_assoc, Nat.xor_comm, xor_left_comm]

theorem xor12_two_5_7 (A1 A2 A3 A4 A5 A6 A7 A8 A9 A10 A11 A12 d e : Nat) :
    A1 ^^^ A2 ^^^ A3 ^^^ A4 ^^^ (A5 ^^^ d) ^^^ A6 ^^^ (A7 ^^^ e) ^^^ A8 ^^^ A9 ^^^ A10 ^^^ A11 ^^^ A12 =
      ((A1 ^^^ A2 ^^^ A3 ^^^ A4 ^^^ A5 ^^^ A6 ^^^ A7 ^^^ A8 ^^^ A9 ^^^ A10 ^^^ A11 ^^^ A12) ^^^ d) ^^^ e := by
  simp [Nat.xor_assoc, Nat.xor_comm, xor_left_comm]

theorem xor12_two_5_8 (A1 A2 A3 A4 A5 A6 A7 A8 A9 A10 A11 A12 d e : Nat) :
    A1 ^^^ A2 ^^^ A3 ^^^ A4 ^^^ (A5 ^^^ d) ^^^ A6 ^^^ A7 ^^^ (A8 ^^^ e) ^^^ A9 ^^^ A10 ^^^ A11 ^^^ A12 =
      ((A1 ^^^ A2 ^^^ A3 ^^^ A4 ^^^ A5 ^^^ A6 ^^^ A7 ^^^ A8 ^^^ A9 ^^^ A10 ^^^ A11 ^^^ A12) ^^^ d) ^^^ e := by
  simp [Nat.xor_assoc, Nat.xor_comm, xor_left_comm]

theorem xor12_two_5_9 (A1 A2 A3 A4 A5 A6 A7 A8 A9 A10 A11 A12 d e : Nat) :
    A1 ^^^ A2 ^^^ A3 ^^^ A4 ^^^ (A5 ^^^ d) ^^^ A6 ^^^ A7 ^^^ A8 ^^^ (A9 ^^^ e) ^^^ A10 ^^^ A11 ^^^ A12 =
      ((A1 ^^^ A2 ^^^ A3 ^^^ A4 ^^^ A5 ^^^ A6 ^^^ A7 ^^^ A8 ^^^ A9 ^^^ A10 ^^^ A11 ^^^ A12) ^^^ d) ^^^ e := by
  simp [Nat.xor_assoc, Nat.xor_comm, xor_left_comm]

theorem xor12_two_5_10 (A1 A2 A3 A4 A5 A6 A7 A8 A9 A10 A11 A12 d e : Nat) :
    A1 ^^^ A2 ^^^ A3 ^^^ A4 ^^^ (A5 ^^^ d) ^^^ A6 ^^^ A7 ^^^ A8 ^^^ A9 ^^^ (A10 ^^^ e) ^^^ A11 ^^^ A12 =
      ((A1 ^^^ A2 ^^^ A3 ^^^ A4 ^^^ A5 ^^^ A6 ^^^ A7 ^^^ A8 ^^^ A9 ^^^ A10 ^^^ A11 ^^^ A12) ^^^ d) ^^^ e := by
  simp [Nat.xor_assoc, Nat.xor_comm, xor_left_comm]

theorem xor12_two_5_11 (A1 A2 A3 A4 A5 A6 A7 A8 A9 A10 A11 A12 d e : Nat) :
    A1 ^^^ A2 ^^^ A3 ^^^ A4 ^^^ (A5 ^^^ d) ^^^ A6 ^^^ A7 ^^^ A8 ^^^ A9 ^^^ A10 ^^^ (A11 ^^^ e) ^^^ A12 =
      ((A1 ^^^ A2 ^^^ A3 ^^^ A4 ^^^ A5 ^^^ A6 ^^^ A7 ^^^ A8 ^^^ A9 ^^^ A10 ^^^ A11 ^^^ A12) ^^^ d) ^^^ e := by
  simp [Nat.xor_assoc, Nat.xor_comm, xor_left_comm]

theorem xor12_two_5_12 (A1 A2 A3 A4 A5 A6 A7 A8 A9 A10 A11 A12 d e : Nat) :
    A1 ^^^ A2 ^^^ A3 ^^^ A4 ^^^ (A5 ^^^ d) ^^^ A6 ^^^ A7 ^^^ A8 ^^^ A9 ^^^ A10 ^^^ A11 ^^^ (A12 ^^^ e) =
      ((A1 ^^^ A2 ^^^ A3 ^^^ A4 ^^^ A5 ^^^ A6 ^^^ A7 ^^^ A8 ^^^ A9 ^^^ A10 ^^^ A11 ^^^ A12) ^^^ d) ^^^ e := by
  simp [Nat.xor_assoc, Nat.xor_comm, xor_left_comm]

theorem xor12_two_6_7 (A1 A2 A3 A4 A5 A6 A7 A8 A9 A10 A11 A12 d e : Nat) :
    A1 ^^^ A2 ^^^ A3 ^^^ A4 ^^^ A5 ^^^ (A6 ^^^ d) ^^^ (A7 ^^^ e) ^^^ A8 ^^^ A9 ^^^ A10 ^^^ A11 ^^^ A12 =
      ((A1 ^^^ A2 ^^^ A3 ^^^ A4 ^^^ A5 ^^^ A6 ^^^ A7 ^^^ A8 ^^^ A9 ^^^ A10 ^^^ A11 ^^^ A12) ^^^ d) ^^^ e := by
  simp [Nat.xor_assoc, Nat.xor_comm, xor_left_comm]

theorem xor12_two_6_8 (A1 A2 A3 A4 A5 A6 A7 A8 A9 A10 A11 A12 d e : Nat) :
    A1 ^^^ A2 ^^^ A3 ^^^ A4 ^^^ A5 ^^^ (A6 ^^^ d) ^^^ A7 ^^^ (A8 ^^^ e) ^^^ A9 ^^^ A10 ^^^ A11 ^^^ A12 =
      ((A1 ^^^ A2 ^^^ A3 ^^^ A4 ^^^ A5 ^^^ A6 ^^^ A7 ^^^ A8 ^^^ A9 ^^^ A10 ^^^ A11 ^^^ A12) ^^^ d) ^^^ e := by
  simp [Nat.xor_assoc, Nat.xor_comm, xor_left_comm]

theorem xor12_two_6_9 (A1 A2 A3 A4 A5 A6 A7 A8 A9 A10 A11 A12 d e : Nat) :
    A1 ^^^ A2 ^^^ A3 ^^^ A4 ^^^ A5 ^^^ (A6 ^^^ d) ^^^ A7 ^^^ A8 ^^^ (A9 ^^^ e) ^^^ A10 ^^^ A11 ^^^ A12 =
      ((A1 ^^^ A2 ^^^ A3 ^^^ A4 ^^^ A5 ^^^ A6 ^^^ A7 ^^^ A8 ^^^ A9 ^^^ A10 ^^^ A11 ^^^ A12) ^^^ d) ^^^ e := by
  simp [Nat.xor_assoc, Nat.xor_comm, xor_left_comm]

theorem xor12_two_6_10 (A1 A2 A3 A4 A5 A6 A7 A8 A9 A10 A11 A12 d e : Nat) :
    A1 ^^^ A2 ^^^ A3 ^^^ A4 ^^^ A5 ^^^ (A6 ^^^ d) ^^^ A7 ^^^ A8 ^^^ A9 ^^^ (A10 ^^^ e) ^^^ A11 ^^^ A12 =
      ((A1 ^^^ A2 ^^^ A3 ^^^ A4 ^^^ A5 ^^^ A6 ^^^ A7 ^^^ A8 ^^^ A9 ^^^ A10 ^^^ A11 ^^^ A12) ^^^ d) ^^^ e := by
  simp [Nat.xor_assoc, Nat.xor_comm, xor_left_comm]

theorem xor12_two_6_11 (A1 A2 A3 A4 A5 A6 A7 A8 A9 A10 A11 A12 d e : Nat) :
    A1 ^^^ A2 ^^^ A3 ^^^ A4 ^^^ A5 ^^^ (A6 ^^^ d) ^^^ A7 ^^^ A8 ^^^ A9 ^^^ A10 ^^^ (A11 ^^^ e) ^^^ A12 =
      ((A1 ^^^ A2 ^^^ A3 ^^^ A4 ^^^ A5 ^^^ A6 ^^^ A7 ^^^ A8 ^^^ A9 ^^^ A10 ^^^ A11 ^^^ A12) ^^^ d) ^^^ e := by
  simp [Nat.xor_assoc, Nat.xor_comm, xor_left_comm]

theorem xor12_two_6_12 (A1 A2 A3 A4 A5 A6 A7 A8 A9 A10 A11 A12 d e : Nat) :
    A1 ^^^ A2 ^^^ A3 ^^^ A4 ^^^ A5 ^^^ (A6 ^^^ d) ^^^ A7 ^^^ A8 ^^^ A9 ^^^ A10 ^^^ A11 ^^^ (A12 ^^^ e) =
      ((A1 ^^^ A2 ^^^ A3 ^^^ A4 ^^^ A5 ^^^ A6 ^^^ A7 ^^^ A8 ^^^ A9 ^^^ A10 ^^^ A11 ^^^ A12) ^^^ d) ^^^ e := by
  simp [Nat.xor_assoc, Nat.xor_comm, xor_left_comm]

/-- Replacing one white and one black piece board shifts `hashBoards`
by both deltas. -/
theorem hashBoards_set_both (W B : ChessBoardSide) (zn : ZobristNumbers)
    (p q : PieceType) (v w d e : Nat)
    (hv : hashBoard v (ZobristSide.get zn.board.white p) =
      hashBoard (W.get p) (ZobristSide.get zn.board.white p) ^^^ d)
    (hw : hashBoard w (ZobristSide.get zn.board.black q) =
      hashBoard (B.get q) (ZobristSide.get zn.board.black q) ^^^ e) :
    hashBoards ⟨W.set p v, B.set q w⟩ zn =
      ((hashBoards ⟨W, B⟩ zn) ^^^ d) ^^^ e := by
  cases p
  case pawn =>
    cases q
    case pawn =>
      simp only [hashBoards, ChessBoardSide.set, ChessBoardSide.get,
        ZobristSide.get] at hv hw ⊢
      rw [hv, hw]
      exact xor12_two_1_7 _ _ _ _ _ _ _ _ _ _ _ _ _ _
    case knight =>
      simp only [hashBoards, ChessBoardSide.set, ChessBoardSide.get,
        ZobristSide.get] at hv hw ⊢
      rw [hv, hw]
      exact xor12_two_1_8 _ _ _ _ _ _ _ _ _ _ _ _ _ _
    case bishop =>
      simp only [hashBoards, ChessBoardSide.set, ChessBoardSide.get,
        ZobristSide.get] at hv hw ⊢
      rw [hv, hw]
      exact xor12_two_1_9 _ _ _ _ _ _ _ _ _ _ _ _ _ _
    case rook =>
      simp only [hashBoards, ChessBoardSide.set, ChessBoardSide.get,
        ZobristSide.get] at hv hw ⊢
      rw [hv, hw]
      exact xor12_two_1_10 _ _ _ _ _ _ _ _ _ _ _ _ _ _
    case queen =>
      simp only [hashBoards, ChessBoardSide.set, ChessBoardSide.get,
        ZobristSide.get] at hv hw ⊢
      rw [hv, hw]
      exact xor12_two_1_11 _ _ _ _ _ _ _ _ _ _ _ _ _ _
    case king =>
      simp only [hashBoards, ChessBoardSide.set, ChessBoardSide.get,
        ZobristSide.get] at hv hw ⊢
      rw [hv, hw]
      exact xor12_two_1_12 _ _ _ _ _ _ _ _ _ _ _ _ _ _
  case knight =>
    cases q
    case pawn =>
      simp only [hashBoards, ChessBoardSide.set, ChessBoardSide.get,
        ZobristSide.get] at hv hw ⊢
      rw [hv, hw]
      exact xor12_two_2_7 _ _ _ _ _ _ _ _ _ _ _ _ _ _
    case knight =>
      simp only [hashBoards, ChessBoardSide.set, ChessBoardSide.get,
        ZobristSide.get] at hv hw ⊢
      rw [hv, hw]
      exact xor12_two_2_8 _ _ _ _ _ _ _ _ _ _ _ _ _ _
    case bishop =>
      simp only [hashBoards, ChessBoardSide.set, ChessBoardSide.get,
        ZobristSide.get] at hv hw ⊢
      rw [hv, hw]
      exact xor12_two_2_9 _ _ _ _ _ _ _ _ _ _ _ _ _ _
    case rook =>
      simp only [hashBoards, ChessBoardSide.set, ChessBoardSide.get,
        ZobristSide.get] at hv hw ⊢
      rw [hv, hw]
      exact xor12_two_2_10 _ _ _ _ _ _ _ _ _ _ _ _ _ _
    case queen =>
      simp only [hashBoards, ChessBoardSide.set, ChessBoardSide.get,
        ZobristSide.get] at hv hw ⊢
      rw [hv, hw]
      exact xor12_two_2_11 _ _ _ _ _ _ _ _ _ _ _ _ _ _
    case king =>
      simp only [hashBoards, ChessBoardSide.set, ChessBoardSide.get,
        ZobristSide.get] at hv hw ⊢
      rw [hv, hw]
      exact xor12_two_2_12 _ _ _ _ _ _ _ _ _ _ _ _ _ _
  case bishop =>
    cases q
    case pawn =>
      simp only [hashBoards, ChessBoardSide.set, ChessBoardSide.get,
        ZobristSide.get] at hv hw ⊢
      rw [hv, hw]
      exact xor12_two_3_7 _ _ _ _ _ _ _ _ _ _ _ _ _ _
    case knight =>
      simp only [hashBoards, ChessBoardSide.set, ChessBoardSide.get,
        ZobristSide.get] at hv hw ⊢
      rw [hv, hw]
      exact xor12_two_3_8 _ _ _ _ _ _ _ _ _ _ _ _ _ _
    case bishop =>
      simp only [hashBoards, ChessBoardSide.set, ChessBoardSide.get,
        ZobristSide.get] at hv hw ⊢
      rw [hv, hw]
      exact xor12_two_3_9 _ _ _ _ _ _ _ _ _ _ _ _ _ _
    case rook =>
      simp only [hashBoards, ChessBoardSide.set, ChessBoardSide.get,
        ZobristSide.get] at hv hw ⊢
      rw [hv, hw]
      exact xor12_two_3_10 _ _ _ _ _ _ _ _ _ _ _ _ _ _
    case queen =>
      simp only [hashBoards, ChessBoardSide.set, ChessBoardSide.get,
        ZobristSide.get] at hv hw ⊢
      rw [hv, hw]
      exact xor12_two_3_11 _ _ _ _ _ _ _ _ _ _ _ _ _ _
    case king =>
      simp only [hashBoards, ChessBoardSide.set, ChessBoardSide.get,
        ZobristSide.get] at hv hw ⊢
      rw [hv, hw]
      exact xor12_two_3_12 _ _ _ _ _ _ _ _ _ _ _ _ _ _
  case rook =>
    cases q
    case pawn =>
      simp only [hashBoards, ChessBoardSide.set, ChessBoardSide.get,
        ZobristSide.get] at hv hw ⊢
      rw [hv, hw]
      exact xor12_two_4_7 _ _ _ _ _ _ _ _ _ _ _ _ _ _
    case knight =>
      simp only [hashBoards, ChessBoardSide.set, ChessBoardSide.get,
        ZobristSide.get] at hv hw ⊢
      rw [hv, hw]
      exact xor12_two_4_8 _ _ _ _ _ _ _ _ _ _ _ _ _ _
    case bishop =>
      simp only [hashBoards, ChessBoardSide.set, ChessBoardSide.get,
        ZobristSide.get] at hv hw ⊢
      rw [hv, hw]
      exact xor12_two_4_9 _ _ _ _ _ _ _ _ _ _ _ _ _ _
    case rook =>
      simp only [hashBoards, ChessBoardSide.set, ChessBoardSide.get,
        ZobristSide.get] at hv hw ⊢
      rw [hv, hw]
      exact xor12_two_4_10 _ _ _ _ _ _ _ _ _ _ _ _ _ _
    case queen =>
      simp only [hashBoards, ChessBoardSide.set, ChessBoardSide.get,
        ZobristSide.get] at hv hw ⊢
      rw [hv, hw]
      exact xor12_two_4_11 _ _ _ _ _ _ _ _ _ _ _ _ _ _
    case king =>
      simp only [hashBoards, ChessBoardSide.set, ChessBoardSide.get,
        ZobristSide.get] at hv hw ⊢
      rw [hv, hw]
      exact xor12_two_4_12 _ _ _ _ _ _ _ _ _ _ _ _ _ _
  case queen =>
    cases q
    case pawn =>
      simp only [hashBoards, ChessBoardSide.set, ChessBoardSide.get,
        ZobristSide.get] at hv hw ⊢
      rw [hv, hw]
      exact xor12_two_5_7 _ _ _ _ _ _ _ _ _ _ _ _ _ _
    case knight =>
      simp only [hashBoards, ChessBoardSide.set, ChessBoardSide.get,
        ZobristSide.get] at hv hw ⊢
      rw [hv, hw]
      exact xor12_two_5_8 _ _ _ _ _ _ _ _ _ _ _ _ _ _
    case bishop =>
      simp only [hashBoards, ChessBoardSide.set, ChessBoardSide.get,
        ZobristSide.get] at hv hw ⊢
      rw [hv, hw]
      exact xor12_two_5_9 _ _ _ _ _ _ _ _ _ _ _ _ _ _
    case rook =>
      simp only [hashBoards, ChessBoardSide.set, ChessBoardSide.get,
        ZobristSide.get] at hv hw ⊢
      rw [hv, hw]
      exact xor12_two_5_10 _ _ _ _ _ _ _ _ _ _ _ _ _ _
    case queen =>
      simp only [hashBoards, ChessBoardSide.set, ChessBoardSide.get,
        ZobristSide.get] at hv hw ⊢
      rw [hv, hw]
      exact xor12_two_5_11 _ _ _ _ _ _ _ _ _ _ _ _ _ _
    case king =>
      simp only [hashBoards, ChessBoardSide.set, ChessBoardSide.get,
        ZobristSide.get] at hv hw ⊢
      rw [hv, hw]
      exact xor12_two_5_12 _ _ _ _ _ _ _ _ _ _ _ _ _ _
  case king =>
    cases q
    case pawn =>
      simp only [hashBoards, ChessBoardSide.set, ChessBoardSide.get,
        ZobristSide.get] at hv hw ⊢
      rw [hv, hw]
      exact xor12_two_6_7 _ _ _ _ _ _ _ _ _ _ _ _ _ _
    case knight =>
      simp only [hashBoards, ChessBoardSide.set, ChessBoardSide.get,
        ZobristSide.get] at hv hw ⊢
      rw [hv, hw]
      exact xor12_two_6_8 _ _ _ _ _ _ _ _ _ _ _ _ _ _
    case bishop =>
      simp only [hashBoards, ChessBoardSide.set, ChessBoardSide.get,
        ZobristSide.get] at hv hw ⊢
      rw [hv, hw]
      exact xor12_two_6_9 _ _ _ _ _ _ _ _ _ _ _ _ _ _
    case rook =>
      simp only [hashBoards, ChessBoardSide.set, ChessBoardSide.get,
        ZobristSide.get] at hv hw ⊢
      rw [hv, hw]
      exact xor12_two_6_10 _ _ _ _ _ _ _ _ _ _ _ _ _ _
    case queen =>
      simp only [hashBoards, ChessBoardSide.set, ChessBoardSide.get,
        ZobristSide.get] at hv hw ⊢
      rw [hv, hw]
      exact xor12_two_6_11 _ _ _ _ _ _ _ _ _ _ _ _ _ _
    case king =>
      simp only [hashBoards, ChessBoardSide.set, ChessBoardSide.get,
        ZobristSide.get] at hv hw ⊢
      rw [hv, hw]
      exact xor12_two_6_12 _ _ _ _ _ _ _ _ _ _ _ _ _ _

/-- Evaluation of `make_move` on a white capture. -/
theorem make_cap_white (mu : MakeUnmaker) (fr t : Nat) (p0 q0 : PieceType)
    (hw : StateFlags.active_color mu.state.flags = Color.white)
    (hp0 : (mu.state.boards.white.get p0).testBit fr = true)
    (hoth : ∀ q, q ≠ p0 →
      (mu.state.boards.white.get q).testBit fr = false)
    (hq0 : (mu.state.boards.black.get q0).testBit t = true)
    (hqoth : ∀ q, q ≠ q0 →
      (mu.state.boards.black.get q).testBit t = false) :
    MakeUnmaker.make_move mu ⟨fr, t, MoveCode.capture⟩ =
      ⟨⟨⟨mu.state.boards.white.set p0
            ((mu.state.boards.white.get p0 &&& not64 (1 <<< fr)) |||
              (1 <<< t)),
          mu.state.boards.black.set q0
            (mu.state.boards.black.get q0 &&& not64 (1 <<< t))⟩,
        0, togFlags mu.state.flags ⟨fr, t, MoveCode.capture⟩,
        mu.state.halfmove + 1⟩,
      (((((mu.zobrist_hash ^^^
          condXor (!decide (mu.state.en_passant = 0))
            (mu.zobrist_numbers.en_passant_file
              (ctz mu.state.en_passant % 8)) ^^^
          ZobristSide.get mu.zobrist_numbers.board.white p0 fr) ^^^
          ZobristSide.get mu.zobrist_numbers.board.white p0 t) ^^^
          ZobristSide.get mu.zobrist_numbers.board.black q0 t) ^^^
          togNums mu.state.flags ⟨fr, t, MoveCode.capture⟩
            mu.zobrist_numbers) ^^^
        mu.zobrist_numbers.active_color),
      ⟨mu.state.halfmove, mu.state.en_passant, mu.state.flags, some q0⟩ ::
        mu.irreversible_stack,
      mu.zobrist_numbers⟩ := by
  have hwt : (decide (StateFlags.active_color mu.state.flags = Color.white))
      = true := by
    rw [hw]; exact decide_eq_true rfl
  rw [MakeUnmaker.make_move]
  simp only [MakeUnmaker.make_non_castle, MakeUnmaker.get_en_passant_file,
    hwt, if_true, eq_self_iff_true, MoveCode.is_castle, MoveCode.is_capture,
    MoveCode.promotion, reduceCtorEq, if_false, ite_true, ite_false,
    decide_False, decide_True, ne_eq, not_true, not_false_eq_true]
  rw [removeMovedPiece_eq mu.state.boards.white
    mu.zobrist_numbers.board.white fr _ p0 hp0 hoth]
  simp only [MakeUnmaker.placeMovedPiece, MoveCode.promotion,
    get_set_same, set_set_same]
  rw [removeCapturedPiece_eq mu.state.boards.black
    mu.zobrist_numbers.board.black t _ q0 hq0 hqoth]
  rw [update_flags_eq]
  rw [ite_ep_xor]

/-- Evaluation of `unmake_move` on a white plain capture. -/
theorem unmake_cap_white (W B : ChessBoardSide)
    (ep1 f1 hm1 H hm0 ep0 f0 : Nat)
    (rest : List IrreversibleInfo) (zn : ZobristNumbers)
    (fr t : Nat) (p0 q0 : PieceType)
    (hb : (decide (StateFlags.active_color f1 = Color.white)) = false)
    (hp0 : (W.get p0).testBit t = true)
    (hoth : ∀ q, q ≠ p0 → (W.get q).testBit t = false) :
    MakeUnmaker.unmake_move
        ⟨⟨⟨W, B⟩, ep1, f1, hm1⟩, H, ⟨hm0, ep0, f0, some q0⟩ :: rest, zn⟩
        ⟨fr, t, MoveCode.capture⟩ =
      some ⟨⟨⟨W.set p0 ((W.get p0 &&& not64 (1 <<< t)) ||| (1 <<< fr)),
          B.set q0 (B.get q0 ||| (1 <<< t))⟩,
          ep0, f0, hm0⟩,
        ((((((H ^^^ ZobristSide.get zn.board.white p0 t) ^^^
            ZobristSide.get zn.board.white p0 fr) ^^^
            ZobristSide.get zn.board.black q0 t) ^^^
            condXor (!decide (ep1 = 0))
              (zn.en_passant_file (ctz ep1 % 8))) ^^^
            condXor (!decide (ep0 = 0))
              (zn.en_passant_file (ctz ep0 % 8))) ^^^
            zn.active_color) ^^^
          (((condXor (StateFlags.white_king_castle_right (f1 ^^^ f0))
              zn.castling.white_king_side ^^^
            condXor (StateFlags.white_queen_castle_right (f1 ^^^ f0))
              zn.castling.white_queen_side) ^^^
            condXor (StateFlags.black_king_castle_right (f1 ^^^ f0))
              zn.castling.black_king_side) ^^^
            condXor (StateFlags.black_queen_castle_right (f1 ^^^ f0))
              zn.castling.black_queen_side),
        rest, zn⟩ := by
  simp only [MakeUnmaker.unmake_move, MakeUnmaker.unmake_non_castle,
    MakeUnmaker.get_en_passant_file, hb, Bool.false_eq_true,
    if_false, ite_false, reduceCtorEq, MoveCode.is_castle,
    MoveCode.is_capture, eq_self_iff_true, if_true, ite_true, ne_eq]
  rw [removeMovedPiece_eq W zn.board.white t _ p0 hp0 hoth]
  simp only [MakeUnmaker.placeUnmovedPiece, MoveCode.promotion,
    MakeUnmaker.restoreCapturedPiece, eq_self_iff_true, if_true, ite_true,
    get_set_same, set_set_same, Option.map_some']
  rw [ite_ep_xor, ite_ep_xor, castle_chain]

set_option maxHeartbeats 1000000 in
theorem step_cap_white (mu : MakeUnmaker) (fr t : Nat)
    (hwf : WFState mu.state)
    (hinv : mu.zobrist_hash = mu.state.hash mu.zobrist_numbers)
    (hw : StateFlags.active_color mu.state.flags = Color.white)
    (hvc : ValidCommon mu.state.boards.white ⟨fr, t, MoveCode.capture⟩)
    (hcapE : mu.state.boards.black.union.testBit t = true) :
    MakeUnmaker.unmake_move
        (MakeUnmaker.make_move mu ⟨fr, t, MoveCode.capture⟩)
        ⟨fr, t, MoveCode.capture⟩ = some mu ∧
    (MakeUnmaker.make_move mu ⟨fr, t, MoveCode.capture⟩).zobrist_hash =
      (MakeUnmaker.make_move mu
          ⟨fr, t, MoveCode.capture⟩).state.hash
        (MakeUnmaker.make_move mu
          ⟨fr, t, MoveCode.capture⟩).zobrist_numbers := by
  obtain ⟨hbW, hbB, hdW, hdB, hdis, hkW, hkB, hepdis, hep64⟩ := hwf
  obtain ⟨hfr64, ht64, hne, hfrU, htU⟩ := hvc
  obtain ⟨p0, hp0⟩ := exists_piece_of_union hfrU
  have hoth := disjoint_unique_piece hdW hp0
  obtain ⟨q0, hq0⟩ := exists_piece_of_union hcapE
  have hqoth := disjoint_unique_piece hdB hq0
  have hFw64 := get_lt_of_bounded hbW p0
  have hBb64 := get_lt_of_bounded hbB q0
  have hFt : (mu.state.boards.white.get p0).testBit t = false :=
    get_testBit_false_of_union htU p0
  rw [make_cap_white mu fr t p0 q0 hw hp0 hoth hq0 hqoth]
  constructor
  · have hp0' : ((mu.state.boards.white.set p0
        ((mu.state.boards.white.get p0 &&& not64 (1 <<< fr)) |||
          (1 <<< t))).get p0).testBit t = true := by
      rw [get_set_same]
      exact or_shift_testBit_self _ t
    have hoth' : ∀ q, q ≠ p0 → ((mu.state.boards.white.set p0
        ((mu.state.boards.white.get p0 &&& not64 (1 <<< fr)) |||
          (1 <<< t))).get q).testBit t = false := fun q hq => by
      rw [get_set_ne _ _ (Ne.symm hq)]
      exact get_testBit_false_of_union htU q
    rw [unmake_cap_white _ _ _ _ _ _ _ _ _ _ _ _ _ p0 q0
      (active_togFlags_white _ _ hw) hp0' hoth']
    rw [get_set_same, get_set_same,
      set_then_clear (lt_of_le_of_lt Nat.and_le_left hFw64) ht64
        (testBit_and_false_left _ hFt),
      clear_then_set hFw64 hfr64 hp0,
      clear_then_set hBb64 ht64 hq0,
      set_set_same, set_set_same, set_get_self, set_get_self]
    rw [wk_diff, wq_diff, bk_diff, bq_diff]
    refine congrArg some (mk_eq_self mu _ ?_)
    simp [togNums, condXor_false, condXor_true, Nat.xor_assoc,
      Nat.xor_comm, xor_left_comm, Nat.xor_self, xor_cancel_left,
      Nat.xor_zero, Nat.zero_xor]
  · have hv : hashBoard ((mu.state.boards.white.get p0 &&&
        not64 (1 <<< fr)) ||| (1 <<< t))
        (ZobristSide.get mu.zobrist_numbers.board.white p0) =
      hashBoard (mu.state.boards.white.get p0)
        (ZobristSide.get mu.zobrist_numbers.board.white p0) ^^^
        (ZobristSide.get mu.zobrist_numbers.board.white p0 fr ^^^
          ZobristSide.get mu.zobrist_numbers.board.white p0 t) := by
      rw [and_not64_eq_xor hFw64 hfr64 hp0,
        or_eq_xor (testBit_xor_shift_false hFt (Ne.symm hne)),
        hashBoard_flip (xor_pow_lt_64 hFw64 hfr64) ht64,
        hashBoard_flip hFw64 hfr64, Nat.xor_assoc]
    have hv2 : hashBoard (mu.state.boards.black.get q0 &&&
        not64 (1 <<< t))
        (ZobristSide.get mu.zobrist_numbers.board.black q0) =
      hashBoard (mu.state.boards.black.get q0)
        (ZobristSide.get mu.zobrist_numbers.board.black q0) ^^^
        ZobristSide.get mu.zobrist_numbers.board.black q0 t := by
      rw [and_not64_eq_xor hBb64 ht64 hq0, hashBoard_flip hBb64 ht64]
    dsimp only
    rw [hash_decompose, hashBoards_set_both _ _ _ p0 q0 _ _ _ _ hv hv2,
      show (⟨mu.state.boards.white, mu.state.boards.black⟩ : ChessBoard) =
        mu.state.boards from rfl,
      hashColor_togFlags, hashCastles_togFlags, hinv, hash_decompose]
    simp [hashEp, condXor_false, condXor_true, Nat.xor_assoc,
      Nat.xor_comm, xor_left_comm, Nat.xor_self, xor_cancel_left,
      Nat.xor_zero, Nat.zero_xor]

/-- Evaluation of `make_move` on a black capture. -/
theorem make_cap_black (mu : MakeUnmaker) (fr t : Nat) (p0 q0 : PieceType)
    (hw : ¬ StateFlags.active_color mu.state.flags = Color.white)
    (hp0 : (mu.state.boards.black.get p0).testBit fr = true)
    (hoth : ∀ q, q ≠ p0 →
      (mu.state.boards.black.get q).testBit fr = false)
    (hq0 : (mu.state.boards.white.get q0).testBit t = true)
    (hqoth : ∀ q, q ≠ q0 →
      (mu.state.boards.white.get q).testBit t = false) :
    MakeUnmaker.make_move mu ⟨fr, t, MoveCode.capture⟩ =
      ⟨⟨⟨mu.state.boards.white.set q0
            (mu.state.boards.white.get q0 &&& not64 (1 <<< t)),
          mu.state.boards.black.set p0
            ((mu.state.boards.black.get p0 &&& not64 (1 <<< fr)) |||
              (1 <<< t))⟩,
        0, togFlags mu.state.flags ⟨fr, t, MoveCode.capture⟩,
        mu.state.halfmove + 1⟩,
      (((((mu.zobrist_hash ^^^
          condXor (!decide (mu.state.en_passant = 0))
            (mu.zobrist_numbers.en_passant_file
              (ctz mu.state.en_passant % 8)) ^^^
          ZobristSide.get mu.zobrist_numbers.board.black p0 fr) ^^^
          ZobristSide.get mu.zobrist_numbers.board.black p0 t) ^^^
          ZobristSide.get mu.zobrist_numbers.board.white q0 t) ^^^
          togNums mu.state.flags ⟨fr, t, MoveCode.capture⟩
            mu.zobrist_numbers) ^^^
        mu.zobrist_numbers.active_color),
      ⟨mu.state.halfmove, mu.state.en_passant, mu.state.flags, some q0⟩ ::
        mu.irreversible_stack,
      mu.zobrist_numbers⟩ := by
  have hwt : (decide (StateFlags.active_color mu.state.flags = Color.white))
      = false := decide_eq_false hw
  rw [MakeUnmaker.make_move]
  simp only [MakeUnmaker.make_non_castle, MakeUnmaker.get_en_passant_file,
    hwt, Bool.false_eq_true, if_true, if_false, eq_self_iff_true,
    MoveCode.is_castle, MoveCode.is_capture,
    MoveCode.promotion, reduceCtorEq, if_false, ite_true, ite_false,
    decide_False, decide_True, ne_eq, not_true, not_false_eq_true]
  rw [removeMovedPiece_eq mu.state.boards.black
    mu.zobrist_numbers.board.black fr _ p0 hp0 hoth]
  simp only [MakeUnmaker.placeMovedPiece, MoveCode.promotion,
    get_set_same, set_set_same]
  rw [removeCapturedPiece_eq mu.state.boards.white
    mu.zobrist_numbers.board.white t _ q0 hq0 hqoth]
  rw [update_flags_eq]
  rw [ite_ep_xor]

/-- Evaluation of `unmake_move` on a black plain capture. -/
theorem unmake_cap_black (W B : ChessBoardSide)
    (ep1 f1 hm1 H hm0 ep0 f0 : Nat)
    (rest : List IrreversibleInfo) (zn : ZobristNumbers)
    (fr t : Nat) (p0 q0 : PieceType)
    (hb : (decide (StateFlags.active_color f1 = Color.white)) = true)
    (hp0 : (B.get p0).testBit t = true)
    (hoth : ∀ q, q ≠ p0 → (B.get q).testBit t = false) :
    MakeUnmaker.unmake_move
        ⟨⟨⟨W, B⟩, ep1, f1, hm1⟩, H, ⟨hm0, ep0, f0, some q0⟩ :: rest, zn⟩
        ⟨fr, t, MoveCode.capture⟩ =
      some ⟨⟨⟨W.set q0 (W.get q0 ||| (1 <<< t)),
          B.set p0 ((B.get p0 &&& not64 (1 <<< t)) ||| (1 <<< fr))⟩,
          ep0, f0, hm0⟩,
        ((((((H ^^^ ZobristSide.get zn.board.black p0 t) ^^^
            ZobristSide.get zn.board.black p0 fr) ^^^
            ZobristSide.get zn.board.white q0 t) ^^^
            condXor (!decide (ep1 = 0))
              (zn.en_passant_file (ctz ep1 % 8))) ^^^
            condXor (!decide (ep0 = 0))
              (zn.en_passant_file (ctz ep0 % 8))) ^^^
            zn.active_color) ^^^
          (((condXor (StateFlags.white_king_castle_right (f1 ^^^ f0))
              zn.castling.white_king_side ^^^
            condXor (StateFlags.white_queen_castle_right (f1 ^^^ f0))
              zn.castling.white_queen_side) ^^^
            condXor (StateFlags.black_king_castle_right (f1 ^^^ f0))
              zn.castling.black_king_side) ^^^
            condXor (StateFlags.black_queen_castle_right (f1 ^^^ f0))
              zn.castling.black_queen_side),
        rest, zn⟩ := by
  simp only [MakeUnmaker.unmake_move, MakeUnmaker.unmake_non_castle,
    MakeUnmaker.get_en_passant_file, hb, Bool.false_eq_true,
    if_false, ite_false, reduceCtorEq, MoveCode.is_castle,
    MoveCode.is_capture, eq_self_iff_true, if_true, ite_true, ne_eq]
  rw [removeMovedPiece_eq B zn.board.black t _ p0 hp0 hoth]
  simp only [MakeUnmaker.placeUnmovedPiece, MoveCode.promotion,
    MakeUnmaker.restoreCapturedPiece, eq_self_iff_true, if_true, ite_true,
    get_set_same, set_set_same, Option.map_some']
  rw [ite_ep_xor, ite_ep_xor, castle_chain]

set_option maxHeartbeats 1000000 in
theorem step_cap_black (mu : MakeUnmaker) (fr t : Nat)
    (hwf : WFState mu.state)
    (hinv : mu.zobrist_hash = mu.state.hash mu.zobrist_numbers)
    (hw : ¬ StateFlags.active_color mu.state.flags = Color.white)
    (hvc : ValidCommon mu.state.boards.black ⟨fr, t, MoveCode.capture⟩)
    (hcapE : mu.state.boards.white.union.testBit t = true) :
    MakeUnmaker.unmake_move
        (MakeUnmaker.make_move mu ⟨fr, t, MoveCode.capture⟩)
        ⟨fr, t, MoveCode.capture⟩ = some mu ∧
    (MakeUnmaker.make_move mu ⟨fr, t, MoveCode.capture⟩).zobrist_hash =
      (MakeUnmaker.make_move mu
          ⟨fr, t, MoveCode.capture⟩).state.hash
        (MakeUnmaker.make_move mu
          ⟨fr, t, MoveCode.capture⟩).zobrist_numbers := by
  obtain ⟨hbW, hbB, hdW, hdB, hdis, hkW, hkB, hepdis, hep64⟩ := hwf
  obtain ⟨hfr64, ht64, hne, hfrU, htU⟩ := hvc
  obtain ⟨p0, hp0⟩ := exists_piece_of_union hfrU
  have hoth := disjoint_unique_piece hdB hp0
  obtain ⟨q0, hq0⟩ := exists_piece_of_union hcapE
  have hqoth := disjoint_unique_piece hdW hq0
  have hBb64 := get_lt_of_bounded hbB p0
  have hFw64 := get_lt_of_bounded hbW q0
  have hFt : (mu.state.boards.black.get p0).testBit t = false :=
    get_testBit_false_of_union htU p0
  rw [make_cap_black mu fr t p0 q0 hw hp0 hoth hq0 hqoth]
  constructor
  · have hp0' : ((mu.state.boards.black.set p0
        ((mu.state.boards.black.get p0 &&& not64 (1 <<< fr)) |||
          (1 <<< t))).get p0).testBit t = true := by
      rw [get_set_same]
      exact or_shift_testBit_self _ t
    have hoth' : ∀ q, q ≠ p0 → ((mu.state.boards.black.set p0
        ((mu.state.boards.black.get p0 &&& not64 (1 <<< fr)) |||
          (1 <<< t))).get q).testBit t = false := fun q hq => by
      rw [get_set_ne _ _ (Ne.symm hq)]
      exact get_testBit_false_of_union htU q
    rw [unmake_cap_black _ _ _ _ _ _ _ _ _ _ _ _ _ p0 q0
      (active_togFlags_black _ _ hw) hp0' hoth']
    rw [get_set_same, get_set_same,
      set_then_clear (lt_of_le_of_lt Nat.and_le_left hBb64) ht64
        (testBit_and_false_left _ hFt),
      clear_then_set hBb64 hfr64 hp0,
      clear_then_set hFw64 ht64 hq0,
      set_set_same, set_set_same, set_get_self, set_get_self]
    rw [wk_diff, wq_diff, bk_diff, bq_diff]
    refine congrArg some (mk_eq_self mu _ ?_)
    simp [togNums, condXor_false, condXor_true, Nat.xor_assoc,
      Nat.xor_comm, xor_left_comm, Nat.xor_self, xor_cancel_left,
      Nat.xor_zero, Nat.zero_xor]
  · have hv : hashBoard ((mu.state.boards.black.get p0 &&&
        not64 (1 <<< fr)) ||| (1 <<< t))
        (ZobristSide.get mu.zobrist_numbers.board.black p0) =
      hashBoard (mu.state.boards.black.get p0)
        (ZobristSide.get mu.zobrist_numbers.board.black p0) ^^^
        (ZobristSide.get mu.zobrist_numbers.board.black p0 fr ^^^
          ZobristSide.get mu.zobrist_numbers.board.black p0 t) := by
      rw [and_not64_eq_xor hBb64 hfr64 hp0,
        or_eq_xor (testBit_xor_shift_false hFt (Ne.symm hne)),
        hashBoard_flip (xor_pow_lt_64 hBb64 hfr64) ht64,
        hashBoard_flip hBb64 hfr64, Nat.xor_assoc]
    have hv2 : hashBoard (mu.state.boards.white.get q0 &&&
        not64 (1 <<< t))
        (ZobristSide.get mu.zobrist_numbers.board.white q0) =
      hashBoard (mu.state.boards.white.get q0)
        (ZobristSide.get mu.zobrist_numbers.board.white q0) ^^^
        ZobristSide.get mu.zobrist_numbers.board.white q0 t := by
      rw [and_not64_eq_xor hFw64 ht64 hq0, hashBoard_flip hFw64 ht64]
    dsimp only
    rw [hash_decompose, hashBoards_set_both _ _ _ q0 p0 _ _ _ _ hv2 hv,
      show (⟨mu.state.boards.white, mu.state.boards.black⟩ : ChessBoard) =
        mu.state.boards from rfl,
      hashColor_togFlags, hashCastles_togFlags, hinv, hash_decompose]
    simp [hashEp, condXor_false, condXor_true, Nat.xor_assoc,
      Nat.xor_comm, xor_left_comm, Nat.xor_self, xor_cancel_left,
      Nat.xor_zero, Nat.zero_xor]

/-- Evaluation of `make_move` on a white en-passant capture. -/
theorem make_ep_white (mu : MakeUnmaker) (fr t : Nat) (p0 q0 : PieceType)
    (h8t : 8 ≤ t)
    (hw : StateFlags.active_color mu.state.flags = Color.white)
    (hp0 : (mu.state.boards.white.get p0).testBit fr = true)
    (hoth : ∀ q, q ≠ p0 →
      (mu.state.boards.white.get q).testBit fr = false)
    (hq0 : (mu.state.boards.black.get q0).testBit (t - 8) = true)
    (hqoth : ∀ q, q ≠ q0 →
      (mu.state.boards.black.get q).testBit (t - 8) = false) :
    MakeUnmaker.make_move mu ⟨fr, t, MoveCode.enPassant⟩ =
      ⟨⟨⟨mu.state.boards.white.set p0
            ((mu.state.boards.white.get p0 &&& not64 (1 <<< fr)) |||
              (1 <<< t)),
          mu.state.boards.black.set q0
            (mu.state.boards.black.get q0 &&& not64 (1 <<< (t - 8)))⟩,
        0, togFlags mu.state.flags ⟨fr, t, MoveCode.enPassant⟩,
        mu.state.halfmove + 1⟩,
      (((((mu.zobrist_hash ^^^
          condXor (!decide (mu.state.en_passant = 0))
            (mu.zobrist_numbers.en_passant_file
              (ctz mu.state.en_passant % 8)) ^^^
          ZobristSide.get mu.zobrist_numbers.board.white p0 fr) ^^^
          ZobristSide.get mu.zobrist_numbers.board.white p0 t) ^^^
          ZobristSide.get mu.zobrist_numbers.board.black q0 (t - 8)) ^^^
          togNums mu.state.flags ⟨fr, t, MoveCode.enPassant⟩
            mu.zobrist_numbers) ^^^
        mu.zobrist_numbers.active_color),
      ⟨mu.state.halfmove, mu.state.en_passant, mu.state.flags, some q0⟩ ::
        mu.irreversible_stack,
      mu.zobrist_numbers⟩ := by
  have hwt : (decide (StateFlags.active_color mu.state.flags = Color.white))
      = true := by
    rw [hw]; exact decide_eq_true rfl
  rw [MakeUnmaker.make_move]
  simp only [MakeUnmaker.make_non_castle, MakeUnmaker.get_en_passant_file,
    hwt, if_true, eq_self_iff_true, MoveCode.is_castle, MoveCode.is_capture,
    MoveCode.promotion, reduceCtorEq, if_false, ite_true, ite_false,
    decide_False, decide_True, ne_eq, not_true, not_false_eq_true]
  rw [removeMovedPiece_eq mu.state.boards.white
    mu.zobrist_numbers.board.white fr _ p0 hp0 hoth]
  simp only [MakeUnmaker.placeMovedPiece, MoveCode.promotion,
    get_set_same, set_set_same]
  rw [one_shift_shiftRight8 h8t]
  rw [removeCapturedPiece_eq mu.state.boards.black
    mu.zobrist_numbers.board.black (t - 8) _ q0 hq0 hqoth]
  rw [update_flags_eq]
  rw [ite_ep_xor]

/-- Evaluation of `unmake_move` on a white en-passant capture. -/
theorem unmake_ep_white (W B : ChessBoardSide)
    (ep1 f1 hm1 H hm0 ep0 f0 : Nat)
    (rest : List IrreversibleInfo) (zn : ZobristNumbers)
    (fr t : Nat) (p0 q0 : PieceType) (h8t : 8 ≤ t)
    (hb : (decide (StateFlags.active_color f1 = Color.white)) = false)
    (hp0 : (W.get p0).testBit t = true)
    (hoth : ∀ q, q ≠ p0 → (W.get q).testBit t = false) :
    MakeUnmaker.unmake_move
        ⟨⟨⟨W, B⟩, ep1, f1, hm1⟩, H, ⟨hm0, ep0, f0, some q0⟩ :: rest, zn⟩
        ⟨fr, t, MoveCode.enPassant⟩ =
      some ⟨⟨⟨W.set p0 ((W.get p0 &&& not64 (1 <<< t)) ||| (1 <<< fr)),
          B.set q0 (B.get q0 ||| (1 <<< (t - 8)))⟩,
          ep0, f0, hm0⟩,
        ((((((H ^^^ ZobristSide.get zn.board.white p0 t) ^^^
            ZobristSide.get zn.board.white p0 fr) ^^^
            ZobristSide.get zn.board.black q0 (t - 8)) ^^^
            condXor (!decide (ep1 = 0))
              (zn.en_passant_file (ctz ep1 % 8))) ^^^
            condXor (!decide (ep0 = 0))
              (zn.en_passant_file (ctz ep0 % 8))) ^^^
            zn.active_color) ^^^
          (((condXor (StateFlags.white_king_castle_right (f1 ^^^ f0))
              zn.castling.white_king_side ^^^
            condXor (StateFlags.white_queen_castle_right (f1 ^^^ f0))
              zn.castling.white_queen_side) ^^^
            condXor (StateFlags.black_king_castle_right (f1 ^^^ f0))
              zn.castling.black_king_side) ^^^
            condXor (StateFlags.black_queen_castle_right (f1 ^^^ f0))
              zn.castling.black_queen_side),
        rest, zn⟩ := by
  simp only [MakeUnmaker.unmake_move, MakeUnmaker.unmake_non_castle,
    MakeUnmaker.get_en_passant_file, hb, Bool.false_eq_true,
    if_false, ite_false, reduceCtorEq, MoveCode.is_castle,
    MoveCode.is_capture, eq_self_iff_true, if_true, ite_true, ne_eq]
  rw [removeMovedPiece_eq W zn.board.white t _ p0 hp0 hoth]
  rw [one_shift_shiftRight8 h8t]
  simp only [MakeUnmaker.placeUnmovedPiece, MoveCode.promotion,
    MakeUnmaker.restoreCapturedPiece, eq_self_iff_true, if_true, ite_true,
    get_set_same, set_set_same, Option.map_some']
  rw [ite_ep_xor, ite_ep_xor, castle_chain]

set_option maxHeartbeats 1000000 in
theorem step_ep_white (mu : MakeUnmaker) (fr t : Nat)
    (hwf : WFState mu.state)
    (hinv : mu.zobrist_hash = mu.state.hash mu.zobrist_numbers)
    (hw : StateFlags.active_color mu.state.flags = Color.white)
    (hvc : ValidCommon mu.state.boards.white ⟨fr, t, MoveCode.enPassant⟩)
    (h8t : 8 ≤ t)
    (hcapE : mu.state.boards.black.union.testBit (t - 8) = true) :
    MakeUnmaker.unmake_move
        (MakeUnmaker.make_move mu ⟨fr, t, MoveCode.enPassant⟩)
        ⟨fr, t, MoveCode.enPassant⟩ = some mu ∧
    (MakeUnmaker.make_move mu ⟨fr, t, MoveCode.enPassant⟩).zobrist_hash =
      (MakeUnmaker.make_move mu
          ⟨fr, t, MoveCode.enPassant⟩).state.hash
        (MakeUnmaker.make_move mu
          ⟨fr, t, MoveCode.enPassant⟩).zobrist_numbers := by
  obtain ⟨hbW, hbB, hdW, hdB, hdis, hkW, hkB, hepdis, hep64⟩ := hwf
  obtain ⟨hfr64, ht64, hne, hfrU, htU⟩ := hvc
  obtain ⟨p0, hp0⟩ := exists_piece_of_union hfrU
  have hoth := disjoint_unique_piece hdW hp0
  obtain ⟨q0, hq0⟩ := exists_piece_of_union hcapE
  have hqoth := disjoint_unique_piece hdB hq0
  have hFw64 := get_lt_of_bounded hbW p0
  have hBb64 := get_lt_of_bounded hbB q0
  have ht64' : t < 64 := ht64
  have ht864 : t - 8 < 64 := by omega
  have hFt : (mu.state.boards.white.get p0).testBit t = false :=
    get_testBit_false_of_union htU p0
  rw [make_ep_white mu fr t p0 q0 h8t hw hp0 hoth hq0 hqoth]
  constructor
  · have hp0' : ((mu.state.boards.white.set p0
        ((mu.state.boards.white.get p0 &&& not64 (1 <<< fr)) |||
          (1 <<< t))).get p0).testBit t = true := by
      rw [get_set_same]
      exact or_shift_testBit_self _ t
    have hoth' : ∀ q, q ≠ p0 → ((mu.state.boards.white.set p0
        ((mu.state.boards.white.get p0 &&& not64 (1 <<< fr)) |||
          (1 <<< t))).get q).testBit t = false := fun q hq => by
      rw [get_set_ne _ _ (Ne.symm hq)]
      exact get_testBit_false_of_union htU q
    rw [unmake_ep_white _ _ _ _ _ _ _ _ _ _ _ _ _ p0 q0 h8t
      (active_togFlags_white _ _ hw) hp0' hoth']
    rw [get_set_same, get_set_same,
      set_then_clear (lt_of_le_of_lt Nat.and_le_left hFw64) ht64
        (testBit_and_false_left _ hFt),
      clear_then_set hFw64 hfr64 hp0,
      clear_then_set hBb64 ht864 hq0,
      set_set_same, set_set_same, set_get_self, set_get_self]
    rw [wk_diff, wq_diff, bk_diff, bq_diff]
    refine congrArg some (mk_eq_self mu _ ?_)
    simp [togNums, condXor_false, condXor_true, Nat.xor_assoc,
      Nat.xor_comm, xor_left_comm, Nat.xor_self, xor_cancel_left,
      Nat.xor_zero, Nat.zero_xor]
  · have hv : hashBoard ((mu.state.boards.white.get p0 &&&
        not64 (1 <<< fr)) ||| (1 <<< t))
        (ZobristSide.get mu.zobrist_numbers.board.white p0) =
      hashBoard (mu.state.boards.white.get p0)
        (ZobristSide.get mu.zobrist_numbers.board.white p0) ^^^
        (ZobristSide.get mu.zobrist_numbers.board.white p0 fr ^^^
          ZobristSide.get mu.zobrist_numbers.board.white p0 t) := by
      rw [and_not64_eq_xor hFw64 hfr64 hp0,
        or_eq_xor (testBit_xor_shift_false hFt (Ne.symm hne)),
        hashBoard_flip (xor_pow_lt_64 hFw64 hfr64) ht64,
        hashBoard_flip hFw64 hfr64, Nat.xor_assoc]
    have hv2 : hashBoard (mu.state.boards.black.get q0 &&&
        not64 (1 <<< (t - 8)))
        (ZobristSide.get mu.zobrist_numbers.board.black q0) =
      hashBoard (mu.state.boards.black.get q0)
        (ZobristSide.get mu.zobrist_numbers.board.black q0) ^^^
        ZobristSide.get mu.zobrist_numbers.board.black q0 (t - 8) := by
      rw [and_not64_eq_xor hBb64 ht864 hq0, hashBoard_flip hBb64 ht864]
    dsimp only
    rw [hash_decompose, hashBoards_set_both _ _ _ p0 q0 _ _ _ _ hv hv2,
      show (⟨mu.state.boards.white, mu.state.boards.black⟩ : ChessBoard) =
        mu.state.boards from rfl,
      hashColor_togFlags, hashCastles_togFlags, hinv, hash_decompose]
    simp [hashEp, condXor_false, condXor_true, Nat.xor_assoc,
      Nat.xor_comm, xor_left_comm, Nat.xor_self, xor_cancel_left,
      Nat.xor_zero, Nat.zero_xor]

/-- Evaluation of `make_move` on a black en-passant capture. -/
theorem make_ep_black (mu : MakeUnmaker) (fr t : Nat) (p0 q0 : PieceType)
    (ht8 : t + 8 < 64)
    (hw : ¬ StateFlags.active_color mu.state.flags = Color.white)
    (hp0 : (mu.state.boards.black.get p0).testBit fr = true)
    (hoth : ∀ q, q ≠ p0 →
      (mu.state.boards.black.get q).testBit fr = false)
    (hq0 : (mu.state.boards.white.get q0).testBit (t + 8) = true)
    (hqoth : ∀ q, q ≠ q0 →
      (mu.state.boards.white.get q).testBit (t + 8) = false) :
    MakeUnmaker.make_move mu ⟨fr, t, MoveCode.enPassant⟩ =
      ⟨⟨⟨mu.state.boards.white.set q0
            (mu.state.boards.white.get q0 &&& not64 (1 <<< (t + 8))),
          mu.state.boards.black.set p0
            ((mu.state.boards.black.get p0 &&& not64 (1 <<< fr)) |||
              (1 <<< t))⟩,
        0, togFlags mu.state.flags ⟨fr, t, MoveCode.enPassant⟩,
        mu.state.halfmove + 1⟩,
      (((((mu.zobrist_hash ^^^
          condXor (!decide (mu.state.en_passant = 0))
            (mu.zobrist_numbers.en_passant_file
              (ctz mu.state.en_passant % 8)) ^^^
          ZobristSide.get mu.zobrist_numbers.board.black p0 fr) ^^^
          ZobristSide.get mu.zobrist_numbers.board.black p0 t) ^^^
          ZobristSide.get mu.zobrist_numbers.board.white q0 (t + 8)) ^^^
          togNums mu.state.flags ⟨fr, t, MoveCode.enPassant⟩
            mu.zobrist_numbers) ^^^
        mu.zobrist_numbers.active_color),
      ⟨mu.state.halfmove, mu.state.en_passant, mu.state.flags, some q0⟩ ::
        mu.irreversible_stack,
      mu.zobrist_numbers⟩ := by
  have hwt : (decide (StateFlags.active_color mu.state.flags = Color.white))
      = false := decide_eq_false hw
  rw [MakeUnmaker.make_move]
  simp only [MakeUnmaker.make_non_castle, MakeUnmaker.get_en_passant_file,
    hwt, Bool.false_eq_true, if_true, if_false, eq_self_iff_true,
    MoveCode.is_castle, MoveCode.is_capture,
    MoveCode.promotion, reduceCtorEq, if_false, ite_true, ite_false,
    decide_False, decide_True, ne_eq, not_true, not_false_eq_true]
  rw [removeMovedPiece_eq mu.state.boards.black
    mu.zobrist_numbers.board.black fr _ p0 hp0 hoth]
  simp only [MakeUnmaker.placeMovedPiece, MoveCode.promotion,
    get_set_same, set_set_same]
  rw [one_shift_shl64 ht8]
  rw [removeCapturedPiece_eq mu.state.boards.white
    mu.zobrist_numbers.board.white (t + 8) _ q0 hq0 hqoth]
  rw [update_flags_eq]
  rw [ite_ep_xor]

/-- Evaluation of `unmake_move` on a black en-passant capture. -/
theorem unmake_ep_black (W B : ChessBoardSide)
    (ep1 f1 hm1 H hm0 ep0 f0 : Nat)
    (rest : List IrreversibleInfo) (zn : ZobristNumbers)
    (fr t : Nat) (p0 q0 : PieceType) (ht8 : t + 8 < 64)
    (hb : (decide (StateFlags.active_color f1 = Color.white)) = true)
    (hp0 : (B.get p0).testBit t = true)
    (hoth : ∀ q, q ≠ p0 → (B.get q).testBit t = false) :
    MakeUnmaker.unmake_move
        ⟨⟨⟨W, B⟩, ep1, f1, hm1⟩, H, ⟨hm0, ep0, f0, some q0⟩ :: rest, zn⟩
        ⟨fr, t, MoveCode.enPassant⟩ =
      some ⟨⟨⟨W.set q0 (W.get q0 ||| (1 <<< (t + 8))),
          B.set p0 ((B.get p0 &&& not64 (1 <<< t)) ||| (1 <<< fr))⟩,
          ep0, f0, hm0⟩,
        ((((((H ^^^ ZobristSide.get zn.board.black p0 t) ^^^
            ZobristSide.get zn.board.black p0 fr) ^^^
            ZobristSide.get zn.board.white q0 (t + 8)) ^^^
            condXor (!decide (ep1 = 0))
              (zn.en_passant_file (ctz ep1 % 8))) ^^^
            condXor (!decide (ep0 = 0))
              (zn.en_passant_file (ctz ep0 % 8))) ^^^
            zn.active_color) ^^^
          (((condXor (StateFlags.white_king_castle_right (f1 ^^^ f0))
              zn.castling.white_king_side ^^^
            condXor (StateFlags.white_queen_castle_right (f1 ^^^ f0))
              zn.castling.white_queen_side) ^^^
            condXor (StateFlags.black_king_castle_right (f1 ^^^ f0))
              zn.castling.black_king_side) ^^^
            condXor (StateFlags.black_queen_castle_right (f1 ^^^ f0))
              zn.castling.black_queen_side),
        rest, zn⟩ := by
  simp only [MakeUnmaker.unmake_move, MakeUnmaker.unmake_non_castle,
    MakeUnmaker.get_en_passant_file, hb, Bool.false_eq_true,
    if_false, ite_false, reduceCtorEq, MoveCode.is_castle,
    MoveCode.is_capture, eq_self_iff_true, if_true, ite_true, ne_eq]
  rw [removeMovedPiece_eq B zn.board.black t _ p0 hp0 hoth]
  rw [one_shift_shl64 ht8]
  simp only [MakeUnmaker.placeUnmovedPiece, MoveCode.promotion,
    MakeUnmaker.restoreCapturedPiece, eq_self_iff_true, if_true, ite_true,
    get_set_same, set_set_same, Option.map_some']
  rw [ite_ep_xor, ite_ep_xor, castle_chain]

set_option maxHeartbeats 1000000 in
theorem step_ep_black (mu : MakeUnmaker) (fr t : Nat)
    (hwf : WFState mu.state)
    (hinv : mu.zobrist_hash = mu.state.hash mu.zobrist_numbers)
    (hw : ¬ StateFlags.active_color mu.state.flags = Color.white)
    (hvc : ValidCommon mu.state.boards.black ⟨fr, t, MoveCode.enPassant⟩)
    (ht8 : t + 8 < 64)
    (hcapE : mu.state.boards.white.union.testBit (t + 8) = true) :
    MakeUnmaker.unmake_move
        (MakeUnmaker.make_move mu ⟨fr, t, MoveCode.enPassant⟩)
        ⟨fr, t, MoveCode.enPassant⟩ = some mu ∧
    (MakeUnmaker.make_move mu ⟨fr, t, MoveCode.enPassant⟩).zobrist_hash =
      (MakeUnmaker.make_move mu
          ⟨fr, t, MoveCode.enPassant⟩).state.hash
        (MakeUnmaker.make_move mu
          ⟨fr, t, MoveCode.enPassant⟩).zobrist_numbers := by
  obtain ⟨hbW, hbB, hdW, hdB, hdis, hkW, hkB, hepdis, hep64⟩ := hwf
  obtain ⟨hfr64, ht64, hne, hfrU, htU⟩ := hvc
  obtain ⟨p0, hp0⟩ := exists_piece_of_union hfrU
  have hoth := disjoint_unique_piece hdB hp0
  obtain ⟨q0, hq0⟩ := exists_piece_of_union hcapE
  have hqoth := disjoint_unique_piece hdW hq0
  have hBb64 := get_lt_of_bounded hbB p0
  have hFw64 := get_lt_of_bounded hbW q0
  have hFt : (mu.state.boards.black.get p0).testBit t = false :=
    get_testBit_false_of_union htU p0
  rw [make_ep_black mu fr t p0 q0 ht8 hw hp0 hoth hq0 hqoth]
  constructor
  · have hp0' : ((mu.state.boards.black.set p0
        ((mu.state.boards.black.get p0 &&& not64 (1 <<< fr)) |||
          (1 <<< t))).get p0).testBit t = true := by
      rw [get_set_same]
      exact or_shift_testBit_self _ t
    have hoth' : ∀ q, q ≠ p0 → ((mu.state.boards.black.set p0
        ((mu.state.boards.black.get p0 &&& not64 (1 <<< fr)) |||
          (1 <<< t))).get q).testBit t = false := fun q hq => by
      rw [get_set_ne _ _ (Ne.symm hq)]
      exact get_testBit_false_of_union htU q
    rw [unmake_ep_black _ _ _ _ _ _ _ _ _ _ _ _ _ p0 q0 ht8
      (active_togFlags_black _ _ hw) hp0' hoth']
    rw [get_set_same, get_set_same,
      set_then_clear (lt_of_le_of_lt Nat.and_le_left hBb64) ht64
        (testBit_and_false_left _ hFt),
      clear_then_set hBb64 hfr64 hp0,
      clear_then_set hFw64 ht8 hq0,
      set_set_same, set_set_same, set_get_self, set_get_self]
    rw [wk_diff, wq_diff, bk_diff, bq_diff]
    refine congrArg some (mk_eq_self mu _ ?_)
    simp [togNums, condXor_false, condXor_true, Nat.xor_assoc,
      Nat.xor_comm, xor_left_comm, Nat.xor_self, xor_cancel_left,
      Nat.xor_zero, Nat.zero_xor]
  · have hv : hashBoard ((mu.state.boards.black.get p0 &&&
        not64 (1 <<< fr)) ||| (1 <<< t))
        (ZobristSide.get mu.zobrist_numbers.board.black p0) =
      hashBoard (mu.state.boards.black.get p0)
        (ZobristSide.get mu.zobrist_numbers.board.black p0) ^^^
        (ZobristSide.get mu.zobrist_numbers.board.black p0 fr ^^^
          ZobristSide.get mu.zobrist_numbers.board.black p0 t) := by
      rw [and_not64_eq_xor hBb64 hfr64 hp0,
        or_eq_xor (testBit_xor_shift_false hFt (Ne.symm hne)),
        hashBoard_flip (xor_pow_lt_64 hBb64 hfr64) ht64,
        hashBoard_flip hBb64 hfr64, Nat.xor_assoc]
    have hv2 : hashBoard (mu.state.boards.white.get q0 &&&
        not64 (1 <<< (t + 8)))
        (ZobristSide.get mu.zobrist_numbers.board.white q0) =
      hashBoard (mu.state.boards.white.get q0)
        (ZobristSide.get mu.zobrist_numbers.board.white q0) ^^^
        ZobristSide.get mu.zobrist_numbers.board.white q0 (t + 8) := by
      rw [and_not64_eq_xor hFw64 ht8 hq0, hashBoard_flip hFw64 ht8]
    dsimp only
    rw [hash_decompose, hashBoards_set_both _ _ _ q0 p0 _ _ _ _ hv2 hv,
      show (⟨mu.state.boards.white, mu.state.boards.black⟩ : ChessBoard) =
        mu.state.boards from rfl,
      hashColor_togFlags, hashCastles_togFlags, hinv, hash_decompose]
    simp [hashEp, condXor_false, condXor_true, Nat.xor_assoc,
      Nat.xor_comm, xor_left_comm, Nat.xor_self, xor_cancel_left,
      Nat.xor_zero, Nat.zero_xor]

/-- One side's contribution to `hashBoards`. -/
def hashSide (s : ChessBoardSide) (z : ZobristSide) : Nat :=
  hashBoard s.pawn z.pawn ^^^ hashBoard s.knight z.knight ^^^
    hashBoard s.bishop z.bishop ^^^ hashBoard s.rook z.rook ^^^
    hashBoard s.queen z.queen ^^^ hashBoard s.king z.king

/-- `hashBoards` splits into the two sides' contributions. -/
theorem hashBoards_eq_sides (bd : ChessBoard) (zn : ZobristNumbers) :
    hashBoards bd zn = hashSide bd.white zn.board.white ^^^
      hashSide bd.black zn.board.black := by
  simp [hashBoards, hashSide, Nat.xor_assoc]

/-- Pulling one slot's delta out of a six-term XOR chain. -/
theorem xor6_slot1 (A1 A2 A3 A4 A5 A6 d : Nat) :
    (A1 ^^^ d) ^^^ A2 ^^^ A3 ^^^ A4 ^^^ A5 ^^^ A6 = (A1 ^^^ A2 ^^^ A3 ^^^ A4 ^^^ A5 ^^^ A6) ^^^ d := by
  simp [Nat.xor_assoc, Nat.xor_comm, xor_left_comm]
theorem xor6_slot2 (A1 A2 A3 A4 A5 A6 d : Nat) :
    A1 ^^^ (A2 ^^^ d) ^^^ A3 ^^^ A4 ^^^ A5 ^^^ A6 = (A1 ^^^ A2 ^^^ A3 ^^^ A4 ^^^ A5 ^^^ A6) ^^^ d := by
  simp [Nat.xor_assoc, Nat.xor_comm, xor_left_comm]
theorem xor6_slot3 (A1 A2 A3 A4 A5 A6 d : Nat) :
    A1 ^^^ A2 ^^^ (A3 ^^^ d) ^^^ A4 ^^^ A5 ^^^ A6 = (A1 ^^^ A2 ^^^ A3 ^^^ A4 ^^^ A5 ^^^ A6) ^^^ d := by
  simp [Nat.xor_assoc, Nat.xor_comm, xor_left_comm]
theorem xor6_slot4 (A1 A2 A3 A4 A5 A6 d : Nat) :
    A1 ^^^ A2 ^^^ A3 ^^^ (A4 ^^^ d) ^^^ A5 ^^^ A6 = (A1 ^^^ A2 ^^^ A3 ^^^ A4 ^^^ A5 ^^^ A6) ^^^ d := by
  simp [Nat.xor_assoc, Nat.xor_comm, xor_left_comm]
theorem xor6_slot5 (A1 A2 A3 A4 A5 A6 d : Nat) :
    A1 ^^^ A2 ^^^ A3 ^^^ A4 ^^^ (A5 ^^^ d) ^^^ A6 = (A1 ^^^ A2 ^^^ A3 ^^^ A4 ^^^ A5 ^^^ A6) ^^^ d := by
  simp [Nat.xor_assoc, Nat.xor_comm, xor_left_comm]
theorem xor6_slot6 (A1 A2 A3 A4 A5 A6 d : Nat) :
    A1 ^^^ A2 ^^^ A3 ^^^ A4 ^^^ A5 ^^^ (A6 ^^^ d) = (A1 ^^^ A2 ^^^ A3 ^^^ A4 ^^^ A5 ^^^ A6) ^^^ d := by
  simp [Nat.xor_assoc, Nat.xor_comm, xor_left_comm]

/-- Replacing one piece board shifts the side hash by its delta. -/
theorem hashSide_set (s : ChessBoardSide) (z : ZobristSide) (p : PieceType)
    (v d : Nat)
    (hv : hashBoard v (ZobristSide.get z p) =
      hashBoard (s.get p) (ZobristSide.get z p) ^^^ d) :
    hashSide (s.set p v) z = hashSide s z ^^^ d := by
  cases p
  case pawn =>
    simp only [hashSide, ChessBoardSide.set, ChessBoardSide.get,
      ZobristSide.get] at hv ⊢
    rw [hv]
    exact xor6_slot1 _ _ _ _ _ _ _
  case knight =>
    simp only [hashSide, ChessBoardSide.set, ChessBoardSide.get,
      ZobristSide.get] at hv ⊢
    rw [hv]
    exact xor6_slot2 _ _ _ _ _ _ _
  case bishop =>
    simp only [hashSide, ChessBoardSide.set, ChessBoardSide.get,
      ZobristSide.get] at hv ⊢
    rw [hv]
    exact xor6_slot3 _ _ _ _ _ _ _
  case rook =>
    simp only [hashSide, ChessBoardSide.set, ChessBoardSide.get,
      ZobristSide.get] at hv ⊢
    rw [hv]
    exact xor6_slot4 _ _ _ _ _ _ _
  case queen =>
    simp only [hashSide, ChessBoardSide.set, ChessBoardSide.get,
      ZobristSide.get] at hv ⊢
    rw [hv]
    exact xor6_slot5 _ _ _ _ _ _ _
  case king =>
    simp only [hashSide, ChessBoardSide.set, ChessBoardSide.get,
      ZobristSide.get] at hv ⊢
    rw [hv]
    exact xor6_slot6 _ _ _ _ _ _ _

/-- Field read of a write to another piece's board. -/
theorem pawn_set_ne (s : ChessBoardSide) (p : PieceType)
    (h : PieceType.pawn ≠ p) (v : Nat) : (s.set p v).pawn = s.pawn := by
  cases p <;> first | exact absurd rfl h | rfl

/-- Field read of a pawn-board write. -/
theorem pawn_set_pawn (s : ChessBoardSide) (v : Nat) :
    (s.set PieceType.pawn v).pawn = v := rfl

/-- The promotion unmake write chain collapses to the original side. -/
theorem promo_collapse (F : ChessBoardSide) (p : PieceType)
    (h : PieceType.pawn ≠ p) (a : Nat) :
    ((F.set PieceType.pawn a).set p (F.get p)).set PieceType.pawn
      (F.get PieceType.pawn) = F := by
  cases p <;> first | exact absurd rfl h | rfl

/-- Evaluation of `make_move` on a white non-capture promotion. -/
theorem make_promo_white (mu : MakeUnmaker) (fr t : Nat) (c : MoveCode)
    (pt : PieceType) (hprom : c.promotion = some pt)
    (hcst : c.is_castle = false) (hcap : c.is_capture = false)
    (hdpp : c ≠ MoveCode.doublePawnPush) (hnep : c ≠ MoveCode.enPassant)
    (hptp : PieceType.pawn ≠ pt)
    (hw : StateFlags.active_color mu.state.flags = Color.white)
    (hp0 : (mu.state.boards.white.get PieceType.pawn).testBit fr = true)
    (hoth : ∀ q, q ≠ PieceType.pawn →
      (mu.state.boards.white.get q).testBit fr = false) :
    MakeUnmaker.make_move mu ⟨fr, t, c⟩ =
      ⟨⟨⟨(mu.state.boards.white.set PieceType.pawn
            (mu.state.boards.white.get PieceType.pawn &&&
              not64 (1 <<< fr))).set pt
            (mu.state.boards.white.get pt ||| (1 <<< t)),
          mu.state.boards.black⟩,
        0, togFlags mu.state.flags ⟨fr, t, c⟩,
        mu.state.halfmove + 1⟩,
      ((((mu.zobrist_hash ^^^
          condXor (!decide (mu.state.en_passant = 0))
            (mu.zobrist_numbers.en_passant_file
              (ctz mu.state.en_passant % 8)) ^^^
          ZobristSide.get mu.zobrist_numbers.board.white PieceType.pawn
            fr) ^^^
          ZobristSide.get mu.zobrist_numbers.board.white pt t) ^^^
          togNums mu.state.flags ⟨fr, t, c⟩ mu.zobrist_numbers) ^^^
        mu.zobrist_numbers.active_color),
      ⟨mu.state.halfmove, mu.state.en_passant, mu.state.flags, none⟩ ::
        mu.irreversible_stack,
      mu.zobrist_numbers⟩ := by
  have hwt : (decide (StateFlags.active_color mu.state.flags = Color.white))
      = true := by
    rw [hw]; exact decide_eq_true rfl
  rw [MakeUnmaker.make_move]
  simp only [MakeUnmaker.make_non_castle, MakeUnmaker.get_en_passant_file,
    hwt, hcst, hcap, hdpp, hnep, Bool.false_eq_true, if_true, if_false,
    eq_self_iff_true, reduceCtorEq, ite_true, ite_false,
    decide_False, decide_True, ne_eq, not_true, not_false_eq_true]
  rw [removeMovedPiece_eq mu.state.boards.white
    mu.zobrist_numbers.board.white fr _ PieceType.pawn hp0 hoth]
  simp only [MakeUnmaker.placeMovedPiece, hprom,
    MakeUnmaker.removeCapturedPiece, Bool.false_eq_true, if_false,
    ite_false]
  rw [get_set_ne _ _ hptp]
  rw [update_flags_eq]
  rw [ite_ep_xor]

/-- Evaluation of `unmake_move` on a white non-capture promotion. -/
theorem unmake_promo_white (W B : ChessBoardSide)
    (ep1 f1 hm1 H hm0 ep0 f0 : Nat)
    (rest : List IrreversibleInfo) (zn : ZobristNumbers)
    (fr t : Nat) (c : MoveCode) (pt : PieceType)
    (hprom : c.promotion = some pt) (hcst : c.is_castle = false)
    (hcap : c.is_capture = false) (hnep : c ≠ MoveCode.enPassant)
    (hb : (decide (StateFlags.active_color f1 = Color.white)) = false)
    (hp0 : (W.get pt).testBit t = true)
    (hoth : ∀ q, q ≠ pt → (W.get q).testBit t = false) :
    MakeUnmaker.unmake_move
        ⟨⟨⟨W, B⟩, ep1, f1, hm1⟩, H, ⟨hm0, ep0, f0, none⟩ :: rest, zn⟩
        ⟨fr, t, c⟩ =
      some ⟨⟨⟨(W.set pt (W.get pt &&& not64 (1 <<< t))).set PieceType.pawn
            ((W.set pt (W.get pt &&& not64 (1 <<< t))).pawn |||
              (1 <<< fr)), B⟩,
          ep0, f0, hm0⟩,
        (((((H ^^^ ZobristSide.get zn.board.white pt t) ^^^
            zn.board.white.pawn fr) ^^^
            condXor (!decide (ep1 = 0))
              (zn.en_passant_file (ctz ep1 % 8))) ^^^
            condXor (!decide (ep0 = 0))
              (zn.en_passant_file (ctz ep0 % 8))) ^^^
            zn.active_color) ^^^
          (((condXor (StateFlags.white_king_castle_right (f1 ^^^ f0))
              zn.castling.white_king_side ^^^
            condXor (StateFlags.white_queen_castle_right (f1 ^^^ f0))
              zn.castling.white_queen_side) ^^^
            condXor (StateFlags.black_king_castle_right (f1 ^^^ f0))
              zn.castling.black_king_side) ^^^
            condXor (StateFlags.black_queen_castle_right (f1 ^^^ f0))
              zn.castling.black_queen_side),
        rest, zn⟩ := by
  simp only [MakeUnmaker.unmake_move, MakeUnmaker.unmake_non_castle,
    MakeUnmaker.get_en_passant_file, hcst, hcap, hnep, hb,
    Bool.false_eq_true, if_false, ite_false, reduceCtorEq,
    eq_self_iff_true, if_true, ite_true, ne_eq]
  rw [removeMovedPiece_eq W zn.board.white t _ pt hp0 hoth]
  simp only [MakeUnmaker.placeUnmovedPiece, hprom,
    MakeUnmaker.restoreCapturedPiece, Bool.false_eq_true, if_false,
    ite_false, Option.map_some']
  rw [ite_ep_xor, ite_ep_xor, castle_chain]

set_option maxHeartbeats 1000000 in
theorem step_promo_white (mu : MakeUnmaker) (fr t : Nat) (c : MoveCode)
    (pt : PieceType) (hprom : c.promotion = some pt)
    (hcst : c.is_castle = false) (hcap : c.is_capture = false)
    (hdpp : c ≠ MoveCode.doublePawnPush) (hnep : c ≠ MoveCode.enPassant)
    (hptp : PieceType.pawn ≠ pt)
    (hwf : WFState mu.state)
    (hinv : mu.zobrist_hash = mu.state.hash mu.zobrist_numbers)
    (hw : StateFlags.active_color mu.state.flags = Color.white)
    (hvc : ValidCommon mu.state.boards.white ⟨fr, t, c⟩)
    (hpw : mu.state.boards.white.pawn.testBit fr = true) :
    MakeUnmaker.unmake_move (MakeUnmaker.make_move mu ⟨fr, t, c⟩)
        ⟨fr, t, c⟩ = some mu ∧
    (MakeUnmaker.make_move mu ⟨fr, t, c⟩).zobrist_hash =
      (MakeUnmaker.make_move mu ⟨fr, t, c⟩).state.hash
        (MakeUnmaker.make_move mu ⟨fr, t, c⟩).zobrist_numbers := by
  obtain ⟨hbW, hbB, hdW, hdB, hdis, hkW, hkB, hepdis, hep64⟩ := hwf
  obtain ⟨hfr64, ht64, hne, hfrU, htU⟩ := hvc
  have hp0 : (mu.state.boards.white.get PieceType.pawn).testBit fr = true :=
    hpw
  have hoth := disjoint_unique_piece hdW hp0
  have hFwP64 := get_lt_of_bounded hbW PieceType.pawn
  have hFwT64 := get_lt_of_bounded hbW pt
  have hFtP : (mu.state.boards.white.get PieceType.pawn).testBit t = false :=
    get_testBit_false_of_union htU PieceType.pawn
  have hFtT : (mu.state.boards.white.get pt).testBit t = false :=
    get_testBit_false_of_union htU pt
  rw [make_promo_white mu fr t c pt hprom hcst hcap hdpp hnep hptp hw hp0
    hoth]
  constructor
  · have hp0' : (((mu.state.boards.white.set PieceType.pawn
        (mu.state.boards.white.get PieceType.pawn &&& not64 (1 <<< fr))).set
          pt (mu.state.boards.white.get pt ||| (1 <<< t))).get pt).testBit t
        = true := by
      rw [get_set_same]
      exact or_shift_testBit_self _ t
    have hoth' : ∀ q, q ≠ pt → (((mu.state.boards.white.set PieceType.pawn
        (mu.state.boards.white.get PieceType.pawn &&& not64 (1 <<< fr))).set
          pt (mu.state.boards.white.get pt ||| (1 <<< t))).get q).testBit t
        = false := fun q hq => by
      rw [get_set_ne _ _ (Ne.symm hq)]
      rcases eq_or_ne q PieceType.pawn with rfl | hqp
      · rw [get_set_same]
        exact testBit_and_false_left _ hFtP
      · rw [get_set_ne _ _ (Ne.symm hqp)]
        exact get_testBit_false_of_union htU q
    rw [unmake_promo_white _ _ _ _ _ _ _ _ _ _ _ _ _ c pt hprom hcst hcap
      hnep (active_togFlags_white _ _ hw) hp0' hoth']
    rw [get_set_same,
      set_then_clear hFwT64 ht64 hFtT,
      set_set_same, pawn_set_ne _ _ hptp, pawn_set_pawn,
      clear_then_set hFwP64 hfr64 hp0,
      promo_collapse _ _ hptp]
    rw [wk_diff, wq_diff, bk_diff, bq_diff]
    refine congrArg some (mk_eq_self mu _ ?_)
    simp [togNums, condXor_false, condXor_true, ZobristSide.get,
      Nat.xor_assoc, Nat.xor_comm, xor_left_comm, Nat.xor_self,
      xor_cancel_left, Nat.xor_zero, Nat.zero_xor]
  · have hvpt : hashBoard (mu.state.boards.white.get pt ||| (1 <<< t))
        (ZobristSide.get mu.zobrist_numbers.board.white pt) =
      hashBoard ((mu.state.boards.white.set PieceType.pawn
          (mu.state.boards.white.get PieceType.pawn &&&
            not64 (1 <<< fr))).get pt)
        (ZobristSide.get mu.zobrist_numbers.board.white pt) ^^^
        ZobristSide.get mu.zobrist_numbers.board.white pt t := by
      rw [get_set_ne _ _ hptp, or_eq_xor hFtT, hashBoard_flip hFwT64 ht64]
    have hvpawn : hashBoard (mu.state.boards.white.get PieceType.pawn &&&
        not64 (1 <<< fr))
        (ZobristSide.get mu.zobrist_numbers.board.white PieceType.pawn) =
      hashBoard (mu.state.boards.white.get PieceType.pawn)
        (ZobristSide.get mu.zobrist_numbers.board.white PieceType.pawn) ^^^
        ZobristSide.get mu.zobrist_numbers.board.white PieceType.pawn
          fr := by
      rw [and_not64_eq_xor hFwP64 hfr64 hp0, hashBoard_flip hFwP64 hfr64]
    dsimp only
    rw [hash_decompose, hashBoards_eq_sides]
    rw [hashSide_set _ _ pt _ _ hvpt, hashSide_set _ _ PieceType.pawn _ _
      hvpawn]
    rw [hashColor_togFlags, hashCastles_togFlags, hinv, hash_decompose,
      hashBoards_eq_sides]
    simp [hashEp, condXor_false, condXor_true, ZobristSide.get,
      Nat.xor_assoc, Nat.xor_comm, xor_left_comm, Nat.xor_self,
      xor_cancel_left, Nat.xor_zero, Nat.zero_xor]

/-- Evaluation of `make_move` on a white capture promotion. -/
theorem make_promocap_white (mu : MakeUnmaker) (fr t : Nat) (c : MoveCode)
    (pt : PieceType) (q0 : PieceType) (hprom : c.promotion = some pt)
    (hcst : c.is_castle = false) (hcap : c.is_capture = true)
    (hdpp : c ≠ MoveCode.doublePawnPush) (hnep : c ≠ MoveCode.enPassant)
    (hptp : PieceType.pawn ≠ pt)
    (hw : StateFlags.active_color mu.state.flags = Color.white)
    (hp0 : (mu.state.boards.white.get PieceType.pawn).testBit fr = true)
    (hoth : ∀ q, q ≠ PieceType.pawn →
      (mu.state.boards.white.get q).testBit fr = false)
    (hq0 : (mu.state.boards.black.get q0).testBit t = true)
    (hqoth : ∀ q, q ≠ q0 →
      (mu.state.boards.black.get q).testBit t = false) :
    MakeUnmaker.make_move mu ⟨fr, t, c⟩ =
      ⟨⟨⟨(mu.state.boards.white.set PieceType.pawn
            (mu.state.boards.white.get PieceType.pawn &&&
              not64 (1 <<< fr))).set pt
            (mu.state.boards.white.get pt ||| (1 <<< t)),
          mu.state.boards.black.set q0
            (mu.state.boards.black.get q0 &&& not64 (1 <<< t))⟩,
        0, togFlags mu.state.flags ⟨fr, t, c⟩,
        mu.state.halfmove + 1⟩,
      (((((mu.zobrist_hash ^^^
          condXor (!decide (mu.state.en_passant = 0))
            (mu.zobrist_numbers.en_passant_file
              (ctz mu.state.en_passant % 8)) ^^^
          ZobristSide.get mu.zobrist_numbers.board.white PieceType.pawn
            fr) ^^^
          ZobristSide.get mu.zobrist_numbers.board.white pt t) ^^^
          ZobristSide.get mu.zobrist_numbers.board.black q0 t) ^^^
          togNums mu.state.flags ⟨fr, t, c⟩ mu.zobrist_numbers) ^^^
        mu.zobrist_numbers.active_color),
      ⟨mu.state.halfmove, mu.state.en_passant, mu.state.flags, some q0⟩ ::
        mu.irreversible_stack,
      mu.zobrist_numbers⟩ := by
  have hwt : (decide (StateFlags.active_color mu.state.flags = Color.white))
      = true := by
    rw [hw]; exact decide_eq_true rfl
  rw [MakeUnmaker.make_move]
  simp only [MakeUnmaker.make_non_castle, MakeUnmaker.get_en_passant_file,
    hwt, hcst, hcap, hdpp, hnep, Bool.false_eq_true, if_true, if_false,
    eq_self_iff_true, reduceCtorEq, ite_true, ite_false,
    decide_False, decide_True, ne_eq, not_true, not_false_eq_true]
  rw [removeMovedPiece_eq mu.state.boards.white
    mu.zobrist_numbers.board.white fr _ PieceType.pawn hp0 hoth]
  simp only [MakeUnmaker.placeMovedPiece, hprom]
  rw [get_set_ne _ _ hptp]
  rw [removeCapturedPiece_eq mu.state.boards.black
    mu.zobrist_numbers.board.black t _ q0 hq0 hqoth]
  rw [update_flags_eq]
  rw [ite_ep_xor]

/-- Evaluation of `unmake_move` on a white capture promotion. -/
theorem unmake_promocap_white (W B : ChessBoardSide)
    (ep1 f1 hm1 H hm0 ep0 f0 : Nat)
    (rest : List IrreversibleInfo) (zn : ZobristNumbers)
    (fr t : Nat) (c : MoveCode) (pt : PieceType) (q0 : PieceType)
    (hprom : c.promotion = some pt) (hcst : c.is_castle = false)
    (hcap : c.is_capture = true) (hnep : c ≠ MoveCode.enPassant)
    (hb : (decide (StateFlags.active_color f1 = Color.white)) = false)
    (hp0 : (W.get pt).testBit t = true)
    (hoth : ∀ q, q ≠ pt → (W.get q).testBit t = false) :
    MakeUnmaker.unmake_move
        ⟨⟨⟨W, B⟩, ep1, f1, hm1⟩, H, ⟨hm0, ep0, f0, some q0⟩ :: rest, zn⟩
        ⟨fr, t, c⟩ =
      some ⟨⟨⟨(W.set pt (W.get pt &&& not64 (1 <<< t))).set PieceType.pawn
            ((W.set pt (W.get pt &&& not64 (1 <<< t))).pawn |||
              (1 <<< fr)),
          B.set q0 (B.get q0 ||| (1 <<< t))⟩,
          ep0, f0, hm0⟩,
        ((((((H ^^^ ZobristSide.get zn.board.white pt t) ^^^
            zn.board.white.pawn fr) ^^^
            ZobristSide.get zn.board.black q0 t) ^^^
            condXor (!decide (ep1 = 0))
              (zn.en_passant_file (ctz ep1 % 8))) ^^^
            condXor (!decide (ep0 = 0))
              (zn.en_passant_file (ctz ep0 % 8))) ^^^
            zn.active_color) ^^^
          (((condXor (StateFlags.white_king_castle_right (f1 ^^^ f0))
              zn.castling.white_king_side ^^^
            condXor (StateFlags.white_queen_castle_right (f1 ^^^ f0))
              zn.castling.white_queen_side) ^^^
            condXor (StateFlags.black_king_castle_right (f1 ^^^ f0))
              zn.castling.black_king_side) ^^^
            condXor (StateFlags.black_queen_castle_right (f1 ^^^ f0))
              zn.castling.black_queen_side),
        rest, zn⟩ := by
  simp only [MakeUnmaker.unmake_move, MakeUnmaker.unmake_non_castle,
    MakeUnmaker.get_en_passant_file, hcst, hcap, hnep, hb,
    Bool.false_eq_true, if_false, ite_false, reduceCtorEq,
    eq_self_iff_true, if_true, ite_true, ne_eq]
  rw [removeMovedPiece_eq W zn.board.white t _ pt hp0 hoth]
  simp only [MakeUnmaker.placeUnmovedPiece, hprom,
    MakeUnmaker.restoreCapturedPiece, eq_self_iff_true, if_true, ite_true,
    Option.map_some']
  rw [ite_ep_xor, ite_ep_xor, castle_chain]

set_option maxHeartbeats 1000000 in
theorem step_promocap_white (mu : MakeUnmaker) (fr t : Nat) (c : MoveCode)
    (pt : PieceType) (hprom : c.promotion = some pt)
    (hcst : c.is_castle = false) (hcap : c.is_capture = true)
    (hdpp : c ≠ MoveCode.doublePawnPush) (hnep : c ≠ MoveCode.enPassant)
    (hptp : PieceType.pawn ≠ pt)
    (hwf : WFState mu.state)
    (hinv : mu.zobrist_hash = mu.state.hash mu.zobrist_numbers)
    (hw : StateFlags.active_color mu.state.flags = Color.white)
    (hvc : ValidCommon mu.state.boards.white ⟨fr, t, c⟩)
    (hpw : mu.state.boards.white.pawn.testBit fr = true)
    (hcapE : mu.state.boards.black.union.testBit t = true) :
    MakeUnmaker.unmake_move (MakeUnmaker.make_move mu ⟨fr, t, c⟩)
        ⟨fr, t, c⟩ = some mu ∧
    (MakeUnmaker.make_move mu ⟨fr, t, c⟩).zobrist_hash =
      (MakeUnmaker.make_move mu ⟨fr, t, c⟩).state.hash
        (MakeUnmaker.make_move mu ⟨fr, t, c⟩).zobrist_numbers := by
  obtain ⟨hbW, hbB, hdW, hdB, hdis, hkW, hkB, hepdis, hep64⟩ := hwf
  obtain ⟨hfr64, ht64, hne, hfrU, htU⟩ := hvc
  have hp0 : (mu.state.boards.white.get PieceType.pawn).testBit fr = true :=
    hpw
  have hoth := disjoint_unique_piece hdW hp0
  obtain ⟨q0, hq0⟩ := exists_piece_of_union hcapE
  have hqoth := disjoint_unique_piece hdB hq0
  have hFwP64 := get_lt_of_bounded hbW PieceType.pawn
  have hFwT64 := get_lt_of_bounded hbW pt
  have hBb64 := get_lt_of_bounded hbB q0
  have hFtP : (mu.state.boards.white.get PieceType.pawn).testBit t = false :=
    get_testBit_false_of_union htU PieceType.pawn
  have hFtT : (mu.state.boards.white.get pt).testBit t = false :=
    get_testBit_false_of_union htU pt
  rw [make_promocap_white mu fr t c pt q0 hprom hcst hcap hdpp hnep hptp hw
    hp0 hoth hq0 hqoth]
  constructor
  · have hp0' : (((mu.state.boards.white.set PieceType.pawn
        (mu.state.boards.white.get PieceType.pawn &&& not64 (1 <<< fr))).set
          pt (mu.state.boards.white.get pt ||| (1 <<< t))).get pt).testBit t
        = true := by
      rw [get_set_same]
      exact or_shift_testBit_self _ t
    have hoth' : ∀ q, q ≠ pt → (((mu.state.boards.white.set PieceType.pawn
        (mu.state.boards.white.get PieceType.pawn &&& not64 (1 <<< fr))).set
          pt (mu.state.boards.white.get pt ||| (1 <<< t))).get q).testBit t
        = false := fun q hq => by
      rw [get_set_ne _ _ (Ne.symm hq)]
      rcases eq_or_ne q PieceType.pawn with rfl | hqp
      · rw [get_set_same]
        exact testBit_and_false_left _ hFtP
      · rw [get_set_ne _ _ (Ne.symm hqp)]
        exact get_testBit_false_of_union htU q
    rw [unmake_promocap_white _ _ _ _ _ _ _ _ _ _ _ _ _ c pt q0 hprom hcst
      hcap hnep (active_togFlags_white _ _ hw) hp0' hoth']
    rw [get_set_same, get_set_same,
      set_then_clear hFwT64 ht64 hFtT,
      set_set_same, pawn_set_ne _ _ hptp, pawn_set_pawn,
      clear_then_set hFwP64 hfr64 hp0,
      promo_collapse _ _ hptp,
      clear_then_set hBb64 ht64 hq0,
      set_set_same, set_get_self]
    rw [wk_diff, wq_diff, bk_diff, bq_diff]
    refine congrArg some (mk_eq_self mu _ ?_)
    simp [togNums, condXor_false, condXor_true, ZobristSide.get,
      Nat.xor_assoc, Nat.xor_comm, xor_left_comm, Nat.xor_self,
      xor_cancel_left, Nat.xor_zero, Nat.zero_xor]
  · have hvpt : hashBoard (mu.state.boards.white.get pt ||| (1 <<< t))
        (ZobristSide.get mu.zobrist_numbers.board.white pt) =
      hashBoard ((mu.state.boards.white.set PieceType.pawn
          (mu.state.boards.white.get PieceType.pawn &&&
            not64 (1 <<< fr))).get pt)
        (ZobristSide.get mu.zobrist_numbers.board.white pt) ^^^
        ZobristSide.get mu.zobrist_numbers.board.white pt t := by
      rw [get_set_ne _ _ hptp, or_eq_xor hFtT, hashBoard_flip hFwT64 ht64]
    have hvpawn : hashBoard (mu.state.boards.white.get PieceType.pawn &&&
        not64 (1 <<< fr))
        (ZobristSide.get mu.zobrist_numbers.board.white PieceType.pawn) =
      hashBoard (mu.state.boards.white.get PieceType.pawn)
        (ZobristSide.get mu.zobrist_numbers.board.white PieceType.pawn) ^^^
        ZobristSide.get mu.zobrist_numbers.board.white PieceType.pawn
          fr := by
      rw [and_not64_eq_xor hFwP64 hfr64 hp0, hashBoard_flip hFwP64 hfr64]
    have hvq : hashBoard (mu.state.boards.black.get q0 &&&
        not64 (1 <<< t))
        (ZobristSide.get mu.zobrist_numbers.board.black q0) =
      hashBoard (mu.state.boards.black.get q0)
        (ZobristSide.get mu.zobrist_numbers.board.black q0) ^^^
        ZobristSide.get mu.zobrist_numbers.board.black q0 t := by
      rw [and_not64_eq_xor hBb64 ht64 hq0, hashBoard_flip hBb64 ht64]
    dsimp only
    rw [hash_decompose, hashBoards_eq_sides]
    rw [hashSide_set _ _ pt _ _ hvpt, hashSide_set _ _ PieceType.pawn _ _
      hvpawn, hashSide_set _ _ q0 _ _ hvq]
    rw [hashColor_togFlags, hashCastles_togFlags, hinv, hash_decompose,
      hashBoards_eq_sides]
    simp [hashEp, condXor_false, condXor_true, ZobristSide.get,
      Nat.xor_assoc, Nat.xor_comm, xor_left_comm, Nat.xor_self,
      xor_cancel_left, Nat.xor_zero, Nat.zero_xor]

/-- Evaluation of `make_move` on a black non-capture promotion. -/
theorem make_promo_black (mu : MakeUnmaker) (fr t : Nat) (c : MoveCode)
    (pt : PieceType) (hprom : c.promotion = some pt)
    (hcst : c.is_castle = false) (hcap : c.is_capture = false)
    (hdpp : c ≠ MoveCode.doublePawnPush) (hnep : c ≠ MoveCode.enPassant)
    (hptp : PieceType.pawn ≠ pt)
    (hw : ¬ StateFlags.active_color mu.state.flags = Color.white)
    (hp0 : (mu.state.boards.black.get PieceType.pawn).testBit fr = true)
    (hoth : ∀ q, q ≠ PieceType.pawn →
      (mu.state.boards.black.get q).testBit fr = false) :
    MakeUnmaker.make_move mu ⟨fr, t, c⟩ =
      ⟨⟨⟨mu.state.boards.white,
          (mu.state.boards.black.set PieceType.pawn
            (mu.state.boards.black.get PieceType.pawn &&&
              not64 (1 <<< fr))).set pt
            (mu.state.boards.black.get pt ||| (1 <<< t))⟩,
        0, togFlags mu.state.flags ⟨fr, t, c⟩,
        mu.state.halfmove + 1⟩,
      ((((mu.zobrist_hash ^^^
          condXor (!decide (mu.state.en_passant = 0))
            (mu.zobrist_numbers.en_passant_file
              (ctz mu.state.en_passant % 8)) ^^^
          ZobristSide.get mu.zobrist_numbers.board.black PieceType.pawn
            fr) ^^^
          ZobristSide.get mu.zobrist_numbers.board.black pt t) ^^^
          togNums mu.state.flags ⟨fr, t, c⟩ mu.zobrist_numbers) ^^^
        mu.zobrist_numbers.active_color),
      ⟨mu.state.halfmove, mu.state.en_passant, mu.state.flags, none⟩ ::
        mu.irreversible_stack,
      mu.zobrist_numbers⟩ := by
  have hwt : (decide (StateFlags.active_color mu.state.flags = Color.white))
      = false := decide_eq_false hw
  rw [MakeUnmaker.make_move]
  simp only [MakeUnmaker.make_non_castle, MakeUnmaker.get_en_passant_file,
    hwt, hcst, hcap, hdpp, hnep, Bool.false_eq_true, if_true, if_false,
    eq_self_iff_true, reduceCtorEq, ite_true, ite_false,
    decide_False, decide_True, ne_eq, not_true, not_false_eq_true]
  rw [removeMovedPiece_eq mu.state.boards.black
    mu.zobrist_numbers.board.black fr _ PieceType.pawn hp0 hoth]
  simp only [MakeUnmaker.placeMovedPiece, hprom,
    MakeUnmaker.removeCapturedPiece, Bool.false_eq_true, if_false,
    ite_false]
  rw [get_set_ne _ _ hptp]
  rw [update_flags_eq]
  rw [ite_ep_xor]

/-- Evaluation of `unmake_move` on a black non-capture promotion. -/
theorem unmake_promo_black (W B : ChessBoardSide)
    (ep1 f1 hm1 H hm0 ep0 f0 : Nat)
    (rest : List IrreversibleInfo) (zn : ZobristNumbers)
    (fr t : Nat) (c : MoveCode) (pt : PieceType)
    (hprom : c.promotion = some pt) (hcst : c.is_castle = false)
    (hcap : c.is_capture = false) (hnep : c ≠ MoveCode.enPassant)
    (hb : (decide (StateFlags.active_color f1 = Color.white)) = true)
    (hp0 : (B.get pt).testBit t = true)
    (hoth : ∀ q, q ≠ pt → (B.get q).testBit t = false) :
    MakeUnmaker.unmake_move
        ⟨⟨⟨W, B⟩, ep1, f1, hm1⟩, H, ⟨hm0, ep0, f0, none⟩ :: rest, zn⟩
        ⟨fr, t, c⟩ =
      some ⟨⟨⟨W,
          (B.set pt (B.get pt &&& not64 (1 <<< t))).set PieceType.pawn
            ((B.set pt (B.get pt &&& not64 (1 <<< t))).pawn |||
              (1 <<< fr))⟩,
          ep0, f0, hm0⟩,
        (((((H ^^^ ZobristSide.get zn.board.black pt t) ^^^
            zn.board.black.pawn fr) ^^^
            condXor (!decide (ep1 = 0))
              (zn.en_passant_file (ctz ep1 % 8))) ^^^
            condXor (!decide (ep0 = 0))
              (zn.en_passant_file (ctz ep0 % 8))) ^^^
            zn.active_color) ^^^
          (((condXor (StateFlags.white_king_castle_right (f1 ^^^ f0))
              zn.castling.white_king_side ^^^
            condXor (StateFlags.white_queen_castle_right (f1 ^^^ f0))
              zn.castling.white_queen_side) ^^^
            condXor (StateFlags.black_king_castle_right (f1 ^^^ f0))
              zn.castling.black_king_side) ^^^
            condXor (StateFlags.black_queen_castle_right (f1 ^^^ f0))
              zn.castling.black_queen_side),
        rest, zn⟩ := by
  simp only [MakeUnmaker.unmake_move, MakeUnmaker.unmake_non_castle,
    MakeUnmaker.get_en_passant_file, hcst, hcap, hnep, hb,
    Bool.false_eq_true, if_false, ite_false, reduceCtorEq,
    eq_self_iff_true, if_true, ite_true, ne_eq]
  rw [removeMovedPiece_eq B zn.board.black t _ pt hp0 hoth]
  simp only [MakeUnmaker.placeUnmovedPiece, hprom,
    MakeUnmaker.restoreCapturedPiece, Bool.false_eq_true, if_false,
    ite_false, Option.map_some']
  rw [ite_ep_xor, ite_ep_xor, castle_chain]

set_option maxHeartbeats 1000000 in
theorem step_promo_black (mu : MakeUnmaker) (fr t : Nat) (c : MoveCode)
    (pt : PieceType) (hprom : c.promotion = some pt)
    (hcst : c.is_castle = false) (hcap : c.is_capture = false)
    (hdpp : c ≠ MoveCode.doublePawnPush) (hnep : c ≠ MoveCode.enPassant)
    (hptp : PieceType.pawn ≠ pt)
    (hwf : WFState mu.state)
    (hinv : mu.zobrist_hash = mu.state.hash mu.zobrist_numbers)
    (hw : ¬ StateFlags.active_color mu.state.flags = Color.white)
    (hvc : ValidCommon mu.state.boards.black ⟨fr, t, c⟩)
    (hpw : mu.state.boards.black.pawn.testBit fr = true) :
    MakeUnmaker.unmake_move (MakeUnmaker.make_move mu ⟨fr, t, c⟩)
        ⟨fr, t, c⟩ = some mu ∧
    (MakeUnmaker.make_move mu ⟨fr, t, c⟩).zobrist_hash =
      (MakeUnmaker.make_move mu ⟨fr, t, c⟩).state.hash
        (MakeUnmaker.make_move mu ⟨fr, t, c⟩).zobrist_numbers := by
  obtain ⟨hbW, hbB, hdW, hdB, hdis, hkW, hkB, hepdis, hep64⟩ := hwf
  obtain ⟨hfr64, ht64, hne, hfrU, htU⟩ := hvc
  have hp0 : (mu.state.boards.black.get PieceType.pawn).testBit fr = true :=
    hpw
  have hoth := disjoint_unique_piece hdB hp0
  have hBp64 := get_lt_of_bounded hbB PieceType.pawn
  have hBt64 := get_lt_of_bounded hbB pt
  have hFtP : (mu.state.boards.black.get PieceType.pawn).testBit t = false :=
    get_testBit_false_of_union htU PieceType.pawn
  have hFtT : (mu.state.boards.black.get pt).testBit t = false :=
    get_testBit_false_of_union htU pt
  rw [make_promo_black mu fr t c pt hprom hcst hcap hdpp hnep hptp hw hp0
    hoth]
  constructor
  · have hp0' : (((mu.state.boards.black.set PieceType.pawn
        (mu.state.boards.black.get PieceType.pawn &&& not64 (1 <<< fr))).set
          pt (mu.state.boards.black.get pt ||| (1 <<< t))).get pt).testBit t
        = true := by
      rw [get_set_same]
      exact or_shift_testBit_self _ t
    have hoth' : ∀ q, q ≠ pt → (((mu.state.boards.black.set PieceType.pawn
        (mu.state.boards.black.get PieceType.pawn &&& not64 (1 <<< fr))).set
          pt (mu.state.boards.black.get pt ||| (1 <<< t))).get q).testBit t
        = false := fun q hq => by
      rw [get_set_ne _ _ (Ne.symm hq)]
      rcases eq_or_ne q PieceType.pawn with rfl | hqp
      · rw [get_set_same]
        exact testBit_and_false_left _ hFtP
      · rw [get_set_ne _ _ (Ne.symm hqp)]
        exact get_testBit_false_of_union htU q
    rw [unmake_promo_black _ _ _ _ _ _ _ _ _ _ _ _ _ c pt hprom hcst hcap
      hnep (active_togFlags_black _ _ hw) hp0' hoth']
    rw [get_set_same,
      set_then_clear hBt64 ht64 hFtT,
      set_set_same, pawn_set_ne _ _ hptp, pawn_set_pawn,
      clear_then_set hBp64 hfr64 hp0,
      promo_collapse _ _ hptp]
    rw [wk_diff, wq_diff, bk_diff, bq_diff]
    refine congrArg some (mk_eq_self mu _ ?_)
    simp [togNums, condXor_false, condXor_true, ZobristSide.get,
      Nat.xor_assoc, Nat.xor_comm, xor_left_comm, Nat.xor_self,
      xor_cancel_left, Nat.xor_zero, Nat.zero_xor]
  · have hvpt : hashBoard (mu.state.boards.black.get pt ||| (1 <<< t))
        (ZobristSide.get mu.zobrist_numbers.board.black pt) =
      hashBoard ((mu.state.boards.black.set PieceType.pawn
          (mu.state.boards.black.get PieceType.pawn &&&
            not64 (1 <<< fr))).get pt)
        (ZobristSide.get mu.zobrist_numbers.board.black pt) ^^^
        ZobristSide.get mu.zobrist_numbers.board.black pt t := by
      rw [get_set_ne _ _ hptp, or_eq_xor hFtT, hashBoard_flip hBt64 ht64]
    have hvpawn : hashBoard (mu.state.boards.black.get PieceType.pawn &&&
        not64 (1 <<< fr))
        (ZobristSide.get mu.zobrist_numbers.board.black PieceType.pawn) =
      hashBoard (mu.state.boards.black.get PieceType.pawn)
        (ZobristSide.get mu.zobrist_numbers.board.black PieceType.pawn) ^^^
        ZobristSide.get mu.zobrist_numbers.board.black PieceType.pawn
          fr := by
      rw [and_not64_eq_xor hBp64 hfr64 hp0, hashBoard_flip hBp64 hfr64]
    dsimp only
    rw [hash_decompose, hashBoards_eq_sides]
    rw [hashSide_set _ _ pt _ _ hvpt, hashSide_set _ _ PieceType.pawn _ _
      hvpawn]
    rw [hashColor_togFlags, hashCastles_togFlags, hinv, hash_decompose,
      hashBoards_eq_sides]
    simp [hashEp, condXor_false, condXor_true, ZobristSide.get,
      Nat.xor_assoc, Nat.xor_comm, xor_left_comm, Nat.xor_self,
      xor_cancel_left, Nat.xor_zero, Nat.zero_xor]

/-- Evaluation of `make_move` on a black capture promotion. -/
theorem make_promocap_black (mu : MakeUnmaker) (fr t : Nat) (c : MoveCode)
    (pt : PieceType) (q0 : PieceType) (hprom : c.promotion = some pt)
    (hcst : c.is_castle = false) (hcap : c.is_capture = true)
    (hdpp : c ≠ MoveCode.doublePawnPush) (hnep : c ≠ MoveCode.enPassant)
    (hptp : PieceType.pawn ≠ pt)
    (hw : ¬ StateFlags.active_color mu.state.flags = Color.white)
    (hp0 : (mu.state.boards.black.get PieceType.pawn).testBit fr = true)
    (hoth : ∀ q, q ≠ PieceType.pawn →
      (mu.state.boards.black.get q).testBit fr = false)
    (hq0 : (mu.state.boards.white.get q0).testBit t = true)
    (hqoth : ∀ q, q ≠ q0 →
      (mu.state.boards.white.get q).testBit t = false) :
    MakeUnmaker.make_move mu ⟨fr, t, c⟩ =
      ⟨⟨⟨mu.state.boards.white.set q0
            (mu.state.boards.white.get q0 &&& not64 (1 <<< t)),
          (mu.state.boards.black.set PieceType.pawn
            (mu.state.boards.black.get PieceType.pawn &&&
              not64 (1 <<< fr))).set pt
            (mu.state.boards.black.get pt ||| (1 <<< t))⟩,
        0, togFlags mu.state.flags ⟨fr, t, c⟩,
        mu.state.halfmove + 1⟩,
      (((((mu.zobrist_hash ^^^
          condXor (!decide (mu.state.en_passant = 0))
            (mu.zobrist_numbers.en_passant_file
              (ctz mu.state.en_passant % 8)) ^^^
          ZobristSide.get mu.zobrist_numbers.board.black PieceType.pawn
            fr) ^^^
          ZobristSide.get mu.zobrist_numbers.board.black pt t) ^^^
          ZobristSide.get mu.zobrist_numbers.board.white q0 t) ^^^
          togNums mu.state.flags ⟨fr, t, c⟩ mu.zobrist_numbers) ^^^
        mu.zobrist_numbers.active_color),
      ⟨mu.state.halfmove, mu.state.en_passant, mu.state.flags, some q0⟩ ::
        mu.irreversible_stack,
      mu.zobrist_numbers⟩ := by
  have hwt : (decide (StateFlags.active_color mu.state.flags = Color.white))
      = false := decide_eq_false hw
  rw [MakeUnmaker.make_move]
  simp only [MakeUnmaker.make_non_castle, MakeUnmaker.get_en_passant_file,
    hwt, hcst, hcap, hdpp, hnep, Bool.false_eq_true, if_true, if_false,
    eq_self_iff_true, reduceCtorEq, ite_true, ite_false,
    decide_False, decide_True, ne_eq, not_true, not_false_eq_true]
  rw [removeMovedPiece_eq mu.state.boards.black
    mu.zobrist_numbers.board.black fr _ PieceType.pawn hp0 hoth]
  simp only [MakeUnmaker.placeMovedPiece, hprom]
  rw [get_set_ne _ _ hptp]
  rw [removeCapturedPiece_eq mu.state.boards.white
    mu.zobrist_numbers.board.white t _ q0 hq0 hqoth]
  rw [update_flags_eq]
  rw [ite_ep_xor]

/-- Evaluation of `unmake_move` on a black capture promotion. -/
theorem unmake_promocap_black (W B : ChessBoardSide)
    (ep1 f1 hm1 H hm0 ep0 f0 : Nat)
    (rest : List IrreversibleInfo) (zn : ZobristNumbers)
    (fr t : Nat) (c : MoveCode) (pt : PieceType) (q0 : PieceType)
    (hprom : c.promotion = some pt) (hcst : c.is_castle = false)
    (hcap : c.is_capture = true) (hnep : c ≠ MoveCode.enPassant)
    (hb : (decide (StateFlags.active_color f1 = Color.white)) = true)
    (hp0 : (B.get pt).testBit t = true)
    (hoth : ∀ q, q ≠ pt → (B.get q).testBit t = false) :
    MakeUnmaker.unmake_move
        ⟨⟨⟨W, B⟩, ep1, f1, hm1⟩, H, ⟨hm0, ep0, f0, some q0⟩ :: rest, zn⟩
        ⟨fr, t, c⟩ =
      some ⟨⟨⟨W.set q0 (W.get q0 ||| (1 <<< t)),
          (B.set pt (B.get pt &&& not64 (1 <<< t))).set PieceType.pawn
            ((B.set pt (B.get pt &&& not64 (1 <<< t))).pawn |||
              (1 <<< fr))⟩,
          ep0, f0, hm0⟩,
        ((((((H ^^^ ZobristSide.get zn.board.black pt t) ^^^
            zn.board.black.pawn fr) ^^^
            ZobristSide.get zn.board.white q0 t) ^^^
            condXor (!decide (ep1 = 0))
              (zn.en_passant_file (ctz ep1 % 8))) ^^^
            condXor (!decide (ep0 = 0))
              (zn.en_passant_file (ctz ep0 % 8))) ^^^
            zn.active_color) ^^^
          (((condXor (StateFlags.white_king_castle_right (f1 ^^^ f0))
              zn.castling.white_king_side ^^^
            condXor (StateFlags.white_queen_castle_right (f1 ^^^ f0))
              zn.castling.white_queen_side) ^^^
            condXor (StateFlags.black_king_castle_right (f1 ^^^ f0))
              zn.castling.black_king_side) ^^^
            condXor (StateFlags.black_queen_castle_right (f1 ^^^ f0))
              zn.castling.black_queen_side),
        rest, zn⟩ := by
  simp only [MakeUnmaker.unmake_move, MakeUnmaker.unmake_non_castle,
    MakeUnmaker.get_en_passant_file, hcst, hcap, hnep, hb,
    Bool.false_eq_true, if_false, ite_false, reduceCtorEq,
    eq_self_iff_true, if_true, ite_true, ne_eq]
  rw [removeMovedPiece_eq B zn.board.black t _ pt hp0 hoth]
  simp only [MakeUnmaker.placeUnmovedPiece, hprom,
    MakeUnmaker.restoreCapturedPiece, eq_self_iff_true, if_true, ite_true,
    Option.map_some']
  rw [ite_ep_xor, ite_ep_xor, castle_chain]

set_option maxHeartbeats 1000000 in
theorem step_promocap_black (mu : MakeUnmaker) (fr t : Nat) (c : MoveCode)
    (pt : PieceType) (hprom : c.promotion = some pt)
    (hcst : c.is_castle = false) (hcap : c.is_capture = true)
    (hdpp : c ≠ MoveCode.doublePawnPush) (hnep : c ≠ MoveCode.enPassant)
    (hptp : PieceType.pawn ≠ pt)
    (hwf : WFState mu.state)
    (hinv : mu.zobrist_hash = mu.state.hash mu.zobrist_numbers)
    (hw : ¬ StateFlags.active_color mu.state.flags = Color.white)
    (hvc : ValidCommon mu.state.boards.black ⟨fr, t, c⟩)
    (hpw : mu.state.boards.black.pawn.testBit fr = true)
    (hcapE : mu.state.boards.white.union.testBit t = true) :
    MakeUnmaker.unmake_move (MakeUnmaker.make_move mu ⟨fr, t, c⟩)
        ⟨fr, t, c⟩ = some mu ∧
    (MakeUnmaker.make_move mu ⟨fr, t, c⟩).zobrist_hash =
      (MakeUnmaker.make_move mu ⟨fr, t, c⟩).state.hash
        (MakeUnmaker.make_move mu ⟨fr, t, c⟩).zobrist_numbers := by
  obtain ⟨hbW, hbB, hdW, hdB, hdis, hkW, hkB, hepdis, hep64⟩ := hwf
  obtain ⟨hfr64, ht64, hne, hfrU, htU⟩ := hvc
  have hp0 : (mu.state.boards.black.get PieceType.pawn).testBit fr = true :=
    hpw
  have hoth := disjoint_unique_piece hdB hp0
  obtain ⟨q0, hq0⟩ := exists_piece_of_union hcapE
  have hqoth := disjoint_unique_piece hdW hq0
  have hBp64 := get_lt_of_bounded hbB PieceType.pawn
  have hBt64 := get_lt_of_bounded hbB pt
  have hWq64 := get_lt_of_bounded hbW q0
  have hFtP : (mu.state.boards.black.get PieceType.pawn).testBit t = false :=
    get_testBit_false_of_union htU PieceType.pawn
  have hFtT : (mu.state.boards.black.get pt).testBit t = false :=
    get_testBit_false_of_union htU pt
  rw [make_promocap_black mu fr t c pt q0 hprom hcst hcap hdpp hnep hptp hw
    hp0 hoth hq0 hqoth]
  constructor
  · have hp0' : (((mu.state.boards.black.set PieceType.pawn
        (mu.state.boards.black.get PieceType.pawn &&& not64 (1 <<< fr))).set
          pt (mu.state.boards.black.get pt ||| (1 <<< t))).get pt).testBit t
        = true := by
      rw [get_set_same]
      exact or_shift_testBit_self _ t
    have hoth' : ∀ q, q ≠ pt → (((mu.state.boards.black.set PieceType.pawn
        (mu.state.boards.black.get PieceType.pawn &&& not64 (1 <<< fr))).set
          pt (mu.state.boards.black.get pt ||| (1 <<< t))).get q).testBit t
        = false := fun q hq => by
      rw [get_set_ne _ _ (Ne.symm hq)]
      rcases eq_or_ne q PieceType.pawn with rfl | hqp
      · rw [get_set_same]
        exact testBit_and_false_left _ hFtP
      · rw [get_set_ne _ _ (Ne.symm hqp)]
        exact get_testBit_false_of_union htU q
    rw [unmake_promocap_black _ _ _ _ _ _ _ _ _ _ _ _ _ c pt q0 hprom hcst
      hcap hnep (active_togFlags_black _ _ hw) hp0' hoth']
    rw [get_set_same, get_set_same,
      set_then_clear hBt64 ht64 hFtT,
      set_set_same, set_set_same, pawn_set_ne _ _ hptp, pawn_set_pawn,
      clear_then_set hBp64 hfr64 hp0,
      promo_collapse _ _ hptp,
      clear_then_set hWq64 ht64 hq0,
      set_get_self]
    rw [wk_diff, wq_diff, bk_diff, bq_diff]
    refine congrArg some (mk_eq_self mu _ ?_)
    simp [togNums, condXor_false, condXor_true, ZobristSide.get,
      Nat.xor_assoc, Nat.xor_comm, xor_left_comm, Nat.xor_self,
      xor_cancel_left, Nat.xor_zero, Nat.zero_xor]
  · have hvpt : hashBoard (mu.state.boards.black.get pt ||| (1 <<< t))
        (ZobristSide.get mu.zobrist_numbers.board.black pt) =
      hashBoard ((mu.state.boards.black.set PieceType.pawn
          (mu.state.boards.black.get PieceType.pawn &&&
            not64 (1 <<< fr))).get pt)
        (ZobristSide.get mu.zobrist_numbers.board.black pt) ^^^
        ZobristSide.get mu.zobrist_numbers.board.black pt t := by
      rw [get_set_ne _ _ hptp, or_eq_xor hFtT, hashBoard_flip hBt64 ht64]
    have hvpawn : hashBoard (mu.state.boards.black.get PieceType.pawn &&&
        not64 (1 <<< fr))
        (ZobristSide.get mu.zobrist_numbers.board.black PieceType.pawn) =
      hashBoard (mu.state.boards.black.get PieceType.pawn)
        (ZobristSide.get mu.zobrist_numbers.board.black PieceType.pawn) ^^^
        ZobristSide.get mu.zobrist_numbers.board.black PieceType.pawn
          fr := by
      rw [and_not64_eq_xor hBp64 hfr64 hp0, hashBoard_flip hBp64 hfr64]
    have hvq : hashBoard (mu.state.boards.white.get q0 &&&
        not64 (1 <<< t))
        (ZobristSide.get mu.zobrist_numbers.board.white q0) =
      hashBoard (mu.state.boards.white.get q0)
        (ZobristSide.get mu.zobrist_numbers.board.white q0) ^^^
        ZobristSide.get mu.zobrist_numbers.board.white q0 t := by
      rw [and_not64_eq_xor hWq64 ht64 hq0, hashBoard_flip hWq64 ht64]
    dsimp only
    rw [hash_decompose, hashBoards_eq_sides]
    rw [hashSide_set _ _ pt _ _ hvpt, hashSide_set _ _ PieceType.pawn _ _
      hvpawn, hashSide_set _ _ q0 _ _ hvq]
    rw [hashColor_togFlags, hashCastles_togFlags, hinv, hash_decompose,
      hashBoards_eq_sides]
    simp [hashEp, condXor_false, condXor_true, ZobristSide.get,
      Nat.xor_assoc, Nat.xor_comm, xor_left_comm, Nat.xor_self,
      xor_cancel_left, Nat.xor_zero, Nat.zero_xor]

/-- The hash of a one-bit board is that square's number. -/
theorem hashBoard_single (k : Nat) (hk : k < 64) (nums : Nat → Nat) :
    hashBoard (1 <<< k) nums = nums k := by
  have h := @hashBoard_flip 0 k (by norm_num) hk nums
  rw [Nat.zero_xor] at h
  rw [h, show hashBoard 0 nums = 0 from rfl, Nat.zero_xor]

/-- Evaluation of `make_move` on a white king-side castle. -/
theorem make_castle_wk (mu : MakeUnmaker) (fr t : Nat)
    (hw : StateFlags.active_color mu.state.flags = Color.white) :
    MakeUnmaker.make_move mu ⟨fr, t, MoveCode.kingCastle⟩ =
      ⟨⟨⟨⟨mu.state.boards.white.pawn, mu.state.boards.white.knight,
          mu.state.boards.white.bishop,
          (mu.state.boards.white.rook &&& not64 (1 <<< 7)) ||| (1 <<< 5),
          mu.state.boards.white.queen, 1 <<< 6⟩,
          mu.state.boards.black⟩,
        0, togFlags mu.state.flags ⟨fr, t, MoveCode.kingCastle⟩,
        mu.state.halfmove + 1⟩,
      (((mu.zobrist_hash ^^^
          (mu.zobrist_numbers.board.white.king 6 ^^^
            mu.zobrist_numbers.board.white.king 4 ^^^
            mu.zobrist_numbers.board.white.rook 7 ^^^
            mu.zobrist_numbers.board.white.rook 5) ^^^
          condXor (!decide (mu.state.en_passant = 0))
            (mu.zobrist_numbers.en_passant_file
              (ctz mu.state.en_passant % 8))) ^^^
          togNums mu.state.flags ⟨fr, t, MoveCode.kingCastle⟩
            mu.zobrist_numbers) ^^^
        mu.zobrist_numbers.active_color),
      ⟨mu.state.halfmove, mu.state.en_passant, mu.state.flags, none⟩ ::
        mu.irreversible_stack,
      mu.zobrist_numbers⟩ := by
  have hnb : ¬ StateFlags.active_color mu.state.flags = Color.black := by
    rw [hw]; exact fun h => nomatch h
  rw [MakeUnmaker.make_move]
  simp only [MakeUnmaker.make_castle, MakeUnmaker.get_en_passant_file,
    MoveCode.is_castle, hnb, if_true, if_false, ite_true, ite_false,
    eq_self_iff_true, reduceCtorEq, decide_False, decide_True, ne_eq,
    not_true, not_false_eq_true]
  rw [update_flags_eq]
  rw [ite_ep_xor]

/-- Evaluation of `unmake_move` on a white king-side castle. -/
theorem unmake_castle_wk (W B : ChessBoardSide)
    (ep1 f1 hm1 H hm0 ep0 f0 : Nat)
    (rest : List IrreversibleInfo) (zn : ZobristNumbers) (fr t : Nat)
    (hb : (decide (StateFlags.active_color f1 = Color.white)) = false) :
    MakeUnmaker.unmake_move
        ⟨⟨⟨W, B⟩, ep1, f1, hm1⟩, H, ⟨hm0, ep0, f0, none⟩ :: rest, zn⟩
        ⟨fr, t, MoveCode.kingCastle⟩ =
      some ⟨⟨⟨⟨W.pawn, W.knight, W.bishop,
            (W.rook &&& not64 (1 <<< 5)) ||| (1 <<< 7), W.queen,
            1 <<< 4⟩, B⟩,
          ep0, f0, hm0⟩,
        ((((H ^^^ (zn.board.white.king 6 ^^^ zn.board.white.king 4) ^^^
            (zn.board.white.rook 5 ^^^ zn.board.white.rook 7)) ^^^
            condXor (!decide (ep1 = 0))
              (zn.en_passant_file (ctz ep1 % 8))) ^^^
            condXor (!decide (ep0 = 0))
              (zn.en_passant_file (ctz ep0 % 8))) ^^^
            zn.active_color) ^^^
          (((condXor (StateFlags.white_king_castle_right (f1 ^^^ f0))
              zn.castling.white_king_side ^^^
            condXor (StateFlags.white_queen_castle_right (f1 ^^^ f0))
              zn.castling.white_queen_side) ^^^
            condXor (StateFlags.black_king_castle_right (f1 ^^^ f0))
              zn.castling.black_king_side) ^^^
            condXor (StateFlags.black_queen_castle_right (f1 ^^^ f0))
              zn.castling.black_queen_side),
        rest, zn⟩ := by
  have hnw : ¬ StateFlags.active_color f1 = Color.white :=
    of_decide_eq_false hb
  simp only [MakeUnmaker.unmake_move, MakeUnmaker.unmake_castle,
    MakeUnmaker.get_en_passant_file, MoveCode.is_castle, hnw,
    Bool.false_eq_true, if_false, ite_false, reduceCtorEq,
    eq_self_iff_true, if_true, ite_true, ne_eq]
  rw [ite_ep_xor, ite_ep_xor, castle_chain]

set_option maxHeartbeats 1000000 in
theorem step_castle_wk (mu : MakeUnmaker) (fr t : Nat)
    (hwf : WFState mu.state)
    (hinv : mu.zobrist_hash = mu.state.hash mu.zobrist_numbers)
    (hw : StateFlags.active_color mu.state.flags = Color.white)
    (hking : mu.state.boards.white.king = 1 <<< 4)
    (hr7 : mu.state.boards.white.rook.testBit 7 = true)
    (hr5 : mu.state.boards.white.rook.testBit 5 = false) :
    MakeUnmaker.unmake_move
        (MakeUnmaker.make_move mu ⟨fr, t, MoveCode.kingCastle⟩)
        ⟨fr, t, MoveCode.kingCastle⟩ = some mu ∧
    (MakeUnmaker.make_move mu ⟨fr, t, MoveCode.kingCastle⟩).zobrist_hash =
      (MakeUnmaker.make_move mu
          ⟨fr, t, MoveCode.kingCastle⟩).state.hash
        (MakeUnmaker.make_move mu
          ⟨fr, t, MoveCode.kingCastle⟩).zobrist_numbers := by
  obtain ⟨hbW, hbB, hdW, hdB, hdis, hkW, hkB, hepdis, hep64⟩ := hwf
  have hrk64 : mu.state.boards.white.rook < 2 ^ 64 :=
    get_lt_of_bounded hbW PieceType.rook
  rw [make_castle_wk mu fr t hw]
  constructor
  · rw [unmake_castle_wk _ _ _ _ _ _ _ _ _ _ _ _ _
      (active_togFlags_white _ _ hw)]
    rw [set_then_clear (lt_of_le_of_lt Nat.and_le_left hrk64) (by decide)
        (testBit_and_false_left _ hr5),
      clear_then_set hrk64 (by decide) hr7]
    rw [← hking]
    rw [wk_diff, wq_diff, bk_diff, bq_diff]
    refine congrArg some (mk_eq_self mu _ ?_)
    simp [togNums, condXor_false, condXor_true, Nat.xor_assoc,
      Nat.xor_comm, xor_left_comm, Nat.xor_self, xor_cancel_left,
      Nat.xor_zero, Nat.zero_xor]
  · have hv : hashBoard ((mu.state.boards.white.rook &&& not64 (1 <<< 7))
        ||| (1 <<< 5))
        (ZobristSide.get mu.zobrist_numbers.board.white PieceType.rook) =
      hashBoard ((mu.state.boards.white.set PieceType.king
          (1 <<< 6)).get PieceType.rook)
        (ZobristSide.get mu.zobrist_numbers.board.white PieceType.rook) ^^^
        (ZobristSide.get mu.zobrist_numbers.board.white PieceType.rook 7 ^^^
          ZobristSide.get mu.zobrist_numbers.board.white PieceType.rook
            5) := by
      rw [get_set_ne _ _ (show PieceType.king ≠ PieceType.rook by decide),
        and_not64_eq_xor hrk64 (by decide) hr7,
        or_eq_xor (testBit_xor_shift_false hr5 (by decide)),
        hashBoard_flip (xor_pow_lt_64 hrk64 (by decide)) (by decide),
        hashBoard_flip hrk64 (by decide), Nat.xor_assoc]
      rfl
    have hk : hashBoard (1 <<< 6)
        (ZobristSide.get mu.zobrist_numbers.board.white PieceType.king) =
      hashBoard (mu.state.boards.white.get PieceType.king)
        (ZobristSide.get mu.zobrist_numbers.board.white PieceType.king) ^^^
        (ZobristSide.get mu.zobrist_numbers.board.white PieceType.king 6 ^^^
          ZobristSide.get mu.zobrist_numbers.board.white PieceType.king
            4) := by
      have hkg : mu.state.boards.white.get PieceType.king = 1 <<< 4 := hking
      rw [hkg, hashBoard_single 6 (by decide), hashBoard_single 4
        (by decide)]
      simp [Nat.xor_assoc, Nat.xor_comm, xor_left_comm, Nat.xor_self,
        xor_cancel_left, Nat.xor_zero, Nat.zero_xor]
    dsimp only
    rw [show (⟨mu.state.boards.white.pawn, mu.state.boards.white.knight,
        mu.state.boards.white.bishop,
        (mu.state.boards.white.rook &&& not64 (1 <<< 7)) ||| (1 <<< 5),
        mu.state.boards.white.queen, 1 <<< 6⟩ : ChessBoardSide) =
      (mu.state.boards.white.set PieceType.king (1 <<< 6)).set
        PieceType.rook
        ((mu.state.boards.white.rook &&& not64 (1 <<< 7)) ||| (1 <<< 5))
      from rfl]
    rw [hash_decompose, hashBoards_eq_sides]
    rw [hashSide_set _ _ PieceType.rook _ _ hv,
      hashSide_set _ _ PieceType.king _ _ hk]
    rw [hashColor_togFlags, hashCastles_togFlags, hinv, hash_decompose,
      hashBoards_eq_sides]
    simp [hashEp, condXor_false, condXor_true, ZobristSide.get,
      Nat.xor_assoc, Nat.xor_comm, xor_left_comm, Nat.xor_self,
      xor_cancel_left, Nat.xor_zero, Nat.zero_xor]

/-- Evaluation of `make_move` on a white queen-side castle. -/
theorem make_castle_wq (mu : MakeUnmaker) (fr t : Nat)
    (hw : StateFlags.active_color mu.state.flags = Color.white) :
    MakeUnmaker.make_move mu ⟨fr, t, MoveCode.queenCastle⟩ =
      ⟨⟨⟨⟨mu.state.boards.white.pawn, mu.state.boards.white.knight,
          mu.state.boards.white.bishop,
          (mu.state.boards.white.rook &&& not64 (1 <<< 0)) ||| (1 <<< 3),
          mu.state.boards.white.queen, 1 <<< 2⟩,
          mu.state.boards.black⟩,
        0, togFlags mu.state.flags ⟨fr, t, MoveCode.queenCastle⟩,
        mu.state.halfmove + 1⟩,
      (((mu.zobrist_hash ^^^
          (mu.zobrist_numbers.board.white.king 2 ^^^
            mu.zobrist_numbers.board.white.king 4 ^^^
            mu.zobrist_numbers.board.white.rook 0 ^^^
            mu.zobrist_numbers.board.white.rook 3) ^^^
          condXor (!decide (mu.state.en_passant = 0))
            (mu.zobrist_numbers.en_passant_file
              (ctz mu.state.en_passant % 8))) ^^^
          togNums mu.state.flags ⟨fr, t, MoveCode.queenCastle⟩
            mu.zobrist_numbers) ^^^
        mu.zobrist_numbers.active_color),
      ⟨mu.state.halfmove, mu.state.en_passant, mu.state.flags, none⟩ ::
        mu.irreversible_stack,
      mu.zobrist_numbers⟩ := by
  have hnb : ¬ StateFlags.active_color mu.state.flags = Color.black := by
    rw [hw]; exact fun h => nomatch h
  rw [MakeUnmaker.make_move]
  simp only [MakeUnmaker.make_castle, MakeUnmaker.get_en_passant_file,
    MoveCode.is_castle, hnb, if_true, if_false, ite_true, ite_false,
    eq_self_iff_true, reduceCtorEq, decide_False, decide_True, ne_eq,
    not_true, not_false_eq_true]
  rw [update_flags_eq]
  rw [ite_ep_xor]

/-- Evaluation of `unmake_move` on a white queen-side castle. -/
theorem unmake_castle_wq (W B : ChessBoardSide)
    (ep1 f1 hm1 H hm0 ep0 f0 : Nat)
    (rest : List IrreversibleInfo) (zn : ZobristNumbers) (fr t : Nat)
    (hb : (decide (StateFlags.active_color f1 = Color.white)) = false) :
    MakeUnmaker.unmake_move
        ⟨⟨⟨W, B⟩, ep1, f1, hm1⟩, H, ⟨hm0, ep0, f0, none⟩ :: rest, zn⟩
        ⟨fr, t, MoveCode.queenCastle⟩ =
      some ⟨⟨⟨⟨W.pawn, W.knight, W.bishop,
            (W.rook &&& not64 (1 <<< 3)) ||| (1 <<< 0), W.queen,
            1 <<< 4⟩, B⟩,
          ep0, f0, hm0⟩,
        ((((H ^^^ (zn.board.white.king 2 ^^^ zn.board.white.king 4) ^^^
            (zn.board.white.rook 3 ^^^ zn.board.white.rook 0)) ^^^
            condXor (!decide (ep1 = 0))
              (zn.en_passant_file (ctz ep1 % 8))) ^^^
            condXor (!decide (ep0 = 0))
              (zn.en_passant_file (ctz ep0 % 8))) ^^^
            zn.active_color) ^^^
          (((condXor (StateFlags.white_king_castle_right (f1 ^^^ f0))
              zn.castling.white_king_side ^^^
            condXor (StateFlags.white_queen_castle_right (f1 ^^^ f0))
              zn.castling.white_queen_side) ^^^
            condXor (StateFlags.black_king_castle_right (f1 ^^^ f0))
              zn.castling.black_king_side) ^^^
            condXor (StateFlags.black_queen_castle_right (f1 ^^^ f0))
              zn.castling.black_queen_side),
        rest, zn⟩ := by
  have hnw : ¬ StateFlags.active_color f1 = Color.white :=
    of_decide_eq_false hb
  simp only [MakeUnmaker.unmake_move, MakeUnmaker.unmake_castle,
    MakeUnmaker.get_en_passant_file, MoveCode.is_castle, hnw,
    Bool.false_eq_true, if_false, ite_false, reduceCtorEq,
    eq_self_iff_true, if_true, ite_true, ne_eq]
  rw [ite_ep_xor, ite_ep_xor, castle_chain]

set_option maxHeartbeats 1000000 in
theorem step_castle_wq (mu : MakeUnmaker) (fr t : Nat)
    (hwf : WFState mu.state)
    (hinv : mu.zobrist_hash = mu.state.hash mu.zobrist_numbers)
    (hw : StateFlags.active_color mu.state.flags = Color.white)
    (hking : mu.state.boards.white.king = 1 <<< 4)
    (hr0 : mu.state.boards.white.rook.testBit 0 = true)
    (hr3 : mu.state.boards.white.rook.testBit 3 = false) :
    MakeUnmaker.unmake_move
        (MakeUnmaker.make_move mu ⟨fr, t, MoveCode.queenCastle⟩)
        ⟨fr, t, MoveCode.queenCastle⟩ = some mu ∧
    (MakeUnmaker.make_move mu ⟨fr, t, MoveCode.queenCastle⟩).zobrist_hash =
      (MakeUnmaker.make_move mu
          ⟨fr, t, MoveCode.queenCastle⟩).state.hash
        (MakeUnmaker.make_move mu
          ⟨fr, t, MoveCode.queenCastle⟩).zobrist_numbers := by
  obtain ⟨hbW, hbB, hdW, hdB, hdis, hkW, hkB, hepdis, hep64⟩ := hwf
  have hrk64 : mu.state.boards.white.rook < 2 ^ 64 :=
    get_lt_of_bounded hbW PieceType.rook
  rw [make_castle_wq mu fr t hw]
  constructor
  · rw [unmake_castle_wq _ _ _ _ _ _ _ _ _ _ _ _ _
      (active_togFlags_white _ _ hw)]
    rw [set_then_clear (lt_of_le_of_lt Nat.and_le_left hrk64) (by decide)
        (testBit_and_false_left _ hr3),
      clear_then_set hrk64 (by decide) hr0]
    rw [← hking]
    rw [wk_diff, wq_diff, bk_diff, bq_diff]
    refine congrArg some (mk_eq_self mu _ ?_)
    simp [togNums, condXor_false, condXor_true, Nat.xor_assoc,
      Nat.xor_comm, xor_left_comm, Nat.xor_self, xor_cancel_left,
      Nat.xor_zero, Nat.zero_xor]
  · have hv : hashBoard ((mu.state.boards.white.rook &&& not64 (1 <<< 0))
        ||| (1 <<< 3))
        (ZobristSide.get mu.zobrist_numbers.board.white PieceType.rook) =
      hashBoard ((mu.state.boards.white.set PieceType.king
          (1 <<< 2)).get PieceType.rook)
        (ZobristSide.get mu.zobrist_numbers.board.white PieceType.rook) ^^^
        (ZobristSide.get mu.zobrist_numbers.board.white PieceType.rook 0 ^^^
          ZobristSide.get mu.zobrist_numbers.board.white PieceType.rook
            3) := by
      rw [get_set_ne _ _ (show PieceType.king ≠ PieceType.rook by decide),
        and_not64_eq_xor hrk64 (by decide) hr0,
        or_eq_xor (testBit_xor_shift_false hr3 (by decide)),
        hashBoard_flip (xor_pow_lt_64 hrk64 (by decide)) (by decide),
        hashBoard_flip hrk64 (by decide), Nat.xor_assoc]
      rfl
    have hk : hashBoard (1 <<< 2)
        (ZobristSide.get mu.zobrist_numbers.board.white PieceType.king) =
      hashBoard (mu.state.boards.white.get PieceType.king)
        (ZobristSide.get mu.zobrist_numbers.board.white PieceType.king) ^^^
        (ZobristSide.get mu.zobrist_numbers.board.white PieceType.king 2 ^^^
          ZobristSide.get mu.zobrist_numbers.board.white PieceType.king
            4) := by
      have hkg : mu.state.boards.white.get PieceType.king = 1 <<< 4 := hking
      rw [hkg, hashBoard_single 2 (by decide), hashBoard_single 4
        (by decide)]
      simp [Nat.xor_assoc, Nat.xor_comm, xor_left_comm, Nat.xor_self,
        xor_cancel_left, Nat.xor_zero, Nat.zero_xor]
    dsimp only
    rw [show (⟨mu.state.boards.white.pawn, mu.state.boards.white.knight,
        mu.state.boards.white.bishop,
        (mu.state.boards.white.rook &&& not64 (1 <<< 0)) ||| (1 <<< 3),
        mu.state.boards.white.queen, 1 <<< 2⟩ : ChessBoardSide) =
      (mu.state.boards.white.set PieceType.king (1 <<< 2)).set
        PieceType.rook
        ((mu.state.boards.white.rook &&& not64 (1 <<< 0)) ||| (1 <<< 3))
      from rfl]
    rw [hash_decompose, hashBoards_eq_sides]
    rw [hashSide_set _ _ PieceType.rook _ _ hv,
      hashSide_set _ _ PieceType.king _ _ hk]
    rw [hashColor_togFlags, hashCastles_togFlags, hinv, hash_decompose,
      hashBoards_eq_sides]
    simp [hashEp, condXor_false, condXor_true, ZobristSide.get,
      Nat.xor_assoc, Nat.xor_comm, xor_left_comm, Nat.xor_self,
      xor_cancel_left, Nat.xor_zero, Nat.zero_xor]

/-- Evaluation of `make_move` on a black king-side castle. -/
theorem make_castle_bk (mu : MakeUnmaker) (fr t : Nat)
    (hw : ¬ StateFlags.active_color mu.state.flags = Color.white) :
    MakeUnmaker.make_move mu ⟨fr, t, MoveCode.kingCastle⟩ =
      ⟨⟨⟨mu.state.boards.white,
          ⟨mu.state.boards.black.pawn, mu.state.boards.black.knight,
          mu.state.boards.black.bishop,
          (mu.state.boards.black.rook &&& not64 (1 <<< 63)) ||| (1 <<< 61),
          mu.state.boards.black.queen, 1 <<< 62⟩⟩,
        0, togFlags mu.state.flags ⟨fr, t, MoveCode.kingCastle⟩,
        mu.state.halfmove + 1⟩,
      (((mu.zobrist_hash ^^^
          (mu.zobrist_numbers.board.black.king 62 ^^^
            mu.zobrist_numbers.board.black.king 60 ^^^
            mu.zobrist_numbers.board.black.rook 63 ^^^
            mu.zobrist_numbers.board.black.rook 61) ^^^
          condXor (!decide (mu.state.en_passant = 0))
            (mu.zobrist_numbers.en_passant_file
              (ctz mu.state.en_passant % 8))) ^^^
          togNums mu.state.flags ⟨fr, t, MoveCode.kingCastle⟩
            mu.zobrist_numbers) ^^^
        mu.zobrist_numbers.active_color),
      ⟨mu.state.halfmove, mu.state.en_passant, mu.state.flags, none⟩ ::
        mu.irreversible_stack,
      mu.zobrist_numbers⟩ := by
  have hab : StateFlags.active_color mu.state.flags = Color.black := by
    cases hc : StateFlags.active_color mu.state.flags
    · exact absurd hc hw
    · rfl
  rw [MakeUnmaker.make_move]
  simp only [MakeUnmaker.make_castle, MakeUnmaker.get_en_passant_file,
    MoveCode.is_castle, hab, if_true, if_false, ite_true, ite_false,
    eq_self_iff_true, reduceCtorEq, decide_False, decide_True, ne_eq,
    not_true, not_false_eq_true]
  rw [update_flags_eq]
  rw [ite_ep_xor]

/-- Evaluation of `unmake_move` on a black king-side castle. -/
theorem unmake_castle_bk (W B : ChessBoardSide)
    (ep1 f1 hm1 H hm0 ep0 f0 : Nat)
    (rest : List IrreversibleInfo) (zn : ZobristNumbers) (fr t : Nat)
    (hb : (decide (StateFlags.active_color f1 = Color.white)) = true) :
    MakeUnmaker.unmake_move
        ⟨⟨⟨W, B⟩, ep1, f1, hm1⟩, H, ⟨hm0, ep0, f0, none⟩ :: rest, zn⟩
        ⟨fr, t, MoveCode.kingCastle⟩ =
      some ⟨⟨⟨W,
          ⟨B.pawn, B.knight, B.bishop,
            (B.rook &&& not64 (1 <<< 61)) ||| (1 <<< 63), B.queen,
            1 <<< 60⟩⟩,
          ep0, f0, hm0⟩,
        ((((H ^^^ (zn.board.black.king 62 ^^^ zn.board.black.king 60) ^^^
            (zn.board.black.rook 61 ^^^ zn.board.black.rook 63)) ^^^
            condXor (!decide (ep1 = 0))
              (zn.en_passant_file (ctz ep1 % 8))) ^^^
            condXor (!decide (ep0 = 0))
              (zn.en_passant_file (ctz ep0 % 8))) ^^^
            zn.active_color) ^^^
          (((condXor (StateFlags.white_king_castle_right (f1 ^^^ f0))
              zn.castling.white_king_side ^^^
            condXor (StateFlags.white_queen_castle_right (f1 ^^^ f0))
              zn.castling.white_queen_side) ^^^
            condXor (StateFlags.black_king_castle_right (f1 ^^^ f0))
              zn.castling.black_king_side) ^^^
            condXor (StateFlags.black_queen_castle_right (f1 ^^^ f0))
              zn.castling.black_queen_side),
        rest, zn⟩ := by
  have hbw : StateFlags.active_color f1 = Color.white :=
    of_decide_eq_true hb
  simp only [MakeUnmaker.unmake_move, MakeUnmaker.unmake_castle,
    MakeUnmaker.get_en_passant_file, MoveCode.is_castle, hbw,
    Bool.false_eq_true, if_false, ite_false, reduceCtorEq,
    eq_self_iff_true, if_true, ite_true, ne_eq]
  rw [ite_ep_xor, ite_ep_xor, castle_chain]

set_option maxHeartbeats 1000000 in
theorem step_castle_bk (mu : MakeUnmaker) (fr t : Nat)
    (hwf : WFState mu.state)
    (hinv : mu.zobrist_hash = mu.state.hash mu.zobrist_numbers)
    (hw : ¬ StateFlags.active_color mu.state.flags = Color.white)
    (hking : mu.state.boards.black.king = 1 <<< 60)
    (hr63 : mu.state.boards.black.rook.testBit 63 = true)
    (hr61 : mu.state.boards.black.rook.testBit 61 = false) :
    MakeUnmaker.unmake_move
        (MakeUnmaker.make_move mu ⟨fr, t, MoveCode.kingCastle⟩)
        ⟨fr, t, MoveCode.kingCastle⟩ = some mu ∧
    (MakeUnmaker.make_move mu ⟨fr, t, MoveCode.kingCastle⟩).zobrist_hash =
      (MakeUnmaker.make_move mu
          ⟨fr, t, MoveCode.kingCastle⟩).state.hash
        (MakeUnmaker.make_move mu
          ⟨fr, t, MoveCode.kingCastle⟩).zobrist_numbers := by
  obtain ⟨hbW, hbB, hdW, hdB, hdis, hkW, hkB, hepdis, hep64⟩ := hwf
  have hrk64 : mu.state.boards.black.rook < 2 ^ 64 :=
    get_lt_of_bounded hbB PieceType.rook
  rw [make_castle_bk mu fr t hw]
  constructor
  · rw [unmake_castle_bk _ _ _ _ _ _ _ _ _ _ _ _ _
      (active_togFlags_black _ _ hw)]
    rw [set_then_clear (lt_of_le_of_lt Nat.and_le_left hrk64) (by decide)
        (testBit_and_false_left _ hr61),
      clear_then_set hrk64 (by decide) hr63]
    rw [← hking]
    rw [wk_diff, wq_diff, bk_diff, bq_diff]
    refine congrArg some (mk_eq_self mu _ ?_)
    simp [togNums, condXor_false, condXor_true, Nat.xor_assoc,
      Nat.xor_comm, xor_left_comm, Nat.xor_self, xor_cancel_left,
      Nat.xor_zero, Nat.zero_xor]
  · have hv : hashBoard ((mu.state.boards.black.rook &&& not64 (1 <<< 63))
        ||| (1 <<< 61))
        (ZobristSide.get mu.zobrist_numbers.board.black PieceType.rook) =
      hashBoard ((mu.state.boards.black.set PieceType.king
          (1 <<< 62)).get PieceType.rook)
        (ZobristSide.get mu.zobrist_numbers.board.black PieceType.rook) ^^^
        (ZobristSide.get mu.zobrist_numbers.board.black PieceType.rook 63 ^^^
          ZobristSide.get mu.zobrist_numbers.board.black PieceType.rook
            61) := by
      rw [get_set_ne _ _ (show PieceType.king ≠ PieceType.rook by decide),
        and_not64_eq_xor hrk64 (by decide) hr63,
        or_eq_xor (testBit_xor_shift_false hr61 (by decide)),
        hashBoard_flip (xor_pow_lt_64 hrk64 (by decide)) (by decide),
        hashBoard_flip hrk64 (by decide), Nat.xor_assoc]
      rfl
    have hk : hashBoard (1 <<< 62)
        (ZobristSide.get mu.zobrist_numbers.board.black PieceType.king) =
      hashBoard (mu.state.boards.black.get PieceType.king)
        (ZobristSide.get mu.zobrist_numbers.board.black PieceType.king) ^^^
        (ZobristSide.get mu.zobrist_numbers.board.black PieceType.king 62 ^^^
          ZobristSide.get mu.zobrist_numbers.board.black PieceType.king
            60) := by
      have hkg : mu.state.boards.black.get PieceType.king = 1 <<< 60 := hking
      rw [hkg, hashBoard_single 62 (by decide), hashBoard_single 60
        (by decide)]
      simp [Nat.xor_assoc, Nat.xor_comm, xor_left_comm, Nat.xor_self,
        xor_cancel_left, Nat.xor_zero, Nat.zero_xor]
    dsimp only
    rw [show (⟨mu.state.boards.black.pawn, mu.state.boards.black.knight,
        mu.state.boards.black.bishop,
        (mu.state.boards.black.rook &&& not64 (1 <<< 63)) ||| (1 <<< 61),
        mu.state.boards.black.queen, 1 <<< 62⟩ : ChessBoardSide) =
      (mu.state.boards.black.set PieceType.king (1 <<< 62)).set
        PieceType.rook
        ((mu.state.boards.black.rook &&& not64 (1 <<< 63)) ||| (1 <<< 61))
      from rfl]
    rw [hash_decompose, hashBoards_eq_sides]
    rw [hashSide_set _ _ PieceType.rook _ _ hv,
      hashSide_set _ _ PieceType.king _ _ hk]
    rw [hashColor_togFlags, hashCastles_togFlags, hinv, hash_decompose,
      hashBoards_eq_sides]
    simp [hashEp, condXor_false, condXor_true, ZobristSide.get,
      Nat.xor_assoc, Nat.xor_comm, xor_left_comm, Nat.xor_self,
      xor_cancel_left, Nat.xor_zero, Nat.zero_xor]

/-- Evaluation of `make_move` on a black queen-side castle. -/
theorem make_castle_bq (mu : MakeUnmaker) (fr t : Nat)
    (hw : ¬ StateFlags.active_color mu.state.flags = Color.white) :
    MakeUnmaker.make_move mu ⟨fr, t, MoveCode.queenCastle⟩ =
      ⟨⟨⟨mu.state.boards.white,
          ⟨mu.state.boards.black.pawn, mu.state.boards.black.knight,
          mu.state.boards.black.bishop,
          (mu.state.boards.black.rook &&& not64 (1 <<< 56)) ||| (1 <<< 59),
          mu.state.boards.black.queen, 1 <<< 58⟩⟩,
        0, togFlags mu.state.flags ⟨fr, t, MoveCode.queenCastle⟩,
        mu.state.halfmove + 1⟩,
      (((mu.zobrist_hash ^^^
          (mu.zobrist_numbers.board.black.king 58 ^^^
            mu.zobrist_numbers.board.black.king 60 ^^^
            mu.zobrist_numbers.board.black.rook 56 ^^^
            mu.zobrist_numbers.board.black.rook 59) ^^^
          condXor (!decide (mu.state.en_passant = 0))
            (mu.zobrist_numbers.en_passant_file
              (ctz mu.state.en_passant % 8))) ^^^
          togNums mu.state.flags ⟨fr, t, MoveCode.queenCastle⟩
            mu.zobrist_numbers) ^^^
        mu.zobrist_numbers.active_color),
      ⟨mu.state.halfmove, mu.state.en_passant, mu.state.flags, none⟩ ::
        mu.irreversible_stack,
      mu.zobrist_numbers⟩ := by
  have hab : StateFlags.active_color mu.state.flags = Color.black := by
    cases hc : StateFlags.active_color mu.state.flags
    · exact absurd hc hw
    · rfl
  rw [MakeUnmaker.make_move]
  simp only [MakeUnmaker.make_castle, MakeUnmaker.get_en_passant_file,
    MoveCode.is_castle, hab, if_true, if_false, ite_true, ite_false,
    eq_self_iff_true, reduceCtorEq, decide_False, decide_True, ne_eq,
    not_true, not_false_eq_true]
  rw [update_flags_eq]
  rw [ite_ep_xor]

/-- Evaluation of `unmake_move` on a black queen-side castle. -/
theorem unmake_castle_bq (W B : ChessBoardSide)
    (ep1 f1 hm1 H hm0 ep0 f0 : Nat)
    (rest : List IrreversibleInfo) (zn : ZobristNumbers) (fr t : Nat)
    (hb : (decide (StateFlags.active_color f1 = Color.white)) = true) :
    MakeUnmaker.unmake_move
        ⟨⟨⟨W, B⟩, ep1, f1, hm1⟩, H, ⟨hm0, ep0, f0, none⟩ :: rest, zn⟩
        ⟨fr, t, MoveCode.queenCastle⟩ =
      some ⟨⟨⟨W,
          ⟨B.pawn, B.knight, B.bishop,
            (B.rook &&& not64 (1 <<< 59)) ||| (1 <<< 56), B.queen,
            1 <<< 60⟩⟩,
          ep0, f0, hm0⟩,
        ((((H ^^^ (zn.board.black.king 58 ^^^ zn.board.black.king 60) ^^^
            (zn.board.black.rook 59 ^^^ zn.board.black.rook 56)) ^^^
            condXor (!decide (ep1 = 0))
              (zn.en_passant_file (ctz ep1 % 8))) ^^^
            condXor (!decide (ep0 = 0))
              (zn.en_passant_file (ctz ep0 % 8))) ^^^
            zn.active_color) ^^^
          (((condXor (StateFlags.white_king_castle_right (f1 ^^^ f0))
              zn.castling.white_king_side ^^^
            condXor (StateFlags.white_queen_castle_right (f1 ^^^ f0))
              zn.castling.white_queen_side) ^^^
            condXor (StateFlags.black_king_castle_right (f1 ^^^ f0))
              zn.castling.black_king_side) ^^^
            condXor (StateFlags.black_queen_castle_right (f1 ^^^ f0))
              zn.castling.black_queen_side),
        rest, zn⟩ := by
  have hbw : StateFlags.active_color f1 = Color.white :=
    of_decide_eq_true hb
  simp only [MakeUnmaker.unmake_move, MakeUnmaker.unmake_castle,
    MakeUnmaker.get_en_passant_file, MoveCode.is_castle, hbw,
    Bool.false_eq_true, if_false, ite_false, reduceCtorEq,
    eq_self_iff_true, if_true, ite_true, ne_eq]
  rw [ite_ep_xor, ite_ep_xor, castle_chain]

set_option maxHeartbeats 1000000 in
theorem step_castle_bq (mu : MakeUnmaker) (fr t : Nat)
    (hwf : WFState mu.state)
    (hinv : mu.zobrist_hash = mu.state.hash mu.zobrist_numbers)
    (hw : ¬ StateFlags.active_color mu.state.flags = Color.white)
    (hking : mu.state.boards.black.king = 1 <<< 60)
    (hr56 : mu.state.boards.black.rook.testBit 56 = true)
    (hr59 : mu.state.boards.black.rook.testBit 59 = false) :
    MakeUnmaker.unmake_move
        (MakeUnmaker.make_move mu ⟨fr, t, MoveCode.queenCastle⟩)
        ⟨fr, t, MoveCode.queenCastle⟩ = some mu ∧
    (MakeUnmaker.make_move mu ⟨fr, t, MoveCode.queenCastle⟩).zobrist_hash =
      (MakeUnmaker.make_move mu
          ⟨fr, t, MoveCode.queenCastle⟩).state.hash
        (MakeUnmaker.make_move mu
          ⟨fr, t, MoveCode.queenCastle⟩).zobrist_numbers := by
  obtain ⟨hbW, hbB, hdW, hdB, hdis, hkW, hkB, hepdis, hep64⟩ := hwf
  have hrk64 : mu.state.boards.black.rook < 2 ^ 64 :=
    get_lt_of_bounded hbB PieceType.rook
  rw [make_castle_bq mu fr t hw]
  constructor
  · rw [unmake_castle_bq _ _ _ _ _ _ _ _ _ _ _ _ _
      (active_togFlags_black _ _ hw)]
    rw [set_then_clear (lt_of_le_of_lt Nat.and_le_left hrk64) (by decide)
        (testBit_and_false_left _ hr59),
      clear_then_set hrk64 (by decide) hr56]
    rw [← hking]
    rw [wk_diff, wq_diff, bk_diff, bq_diff]
    refine congrArg some (mk_eq_self mu _ ?_)
    simp [togNums, condXor_false, condXor_true, Nat.xor_assoc,
      Nat.xor_comm, xor_left_comm, Nat.xor_self, xor_cancel_left,
      Nat.xor_zero, Nat.zero_xor]
  · have hv : hashBoard ((mu.state.boards.black.rook &&& not64 (1 <<< 56))
        ||| (1 <<< 59))
        (ZobristSide.get mu.zobrist_numbers.board.black PieceType.rook) =
      hashBoard ((mu.state.boards.black.set PieceType.king
          (1 <<< 58)).get PieceType.rook)
        (ZobristSide.get mu.zobrist_numbers.board.black PieceType.rook) ^^^
        (ZobristSide.get mu.zobrist_numbers.board.black PieceType.rook 56 ^^^
          ZobristSide.get mu.zobrist_numbers.board.black PieceType.rook
            59) := by
      rw [get_set_ne _ _ (show PieceType.king ≠ PieceType.rook by decide),
        and_not64_eq_xor hrk64 (by decide) hr56,
        or_eq_xor (testBit_xor_shift_false hr59 (by decide)),
        hashBoard_flip (xor_pow_lt_64 hrk64 (by decide)) (by decide),
        hashBoard_flip hrk64 (by decide), Nat.xor_assoc]
      rfl
    have hk : hashBoard (1 <<< 58)
        (ZobristSide.get mu.zobrist_numbers.board.black PieceType.king) =
      hashBoard (mu.state.boards.black.get PieceType.king)
        (ZobristSide.get mu.zobrist_numbers.board.black PieceType.king) ^^^
        (ZobristSide.get mu.zobrist_numbers.board.black PieceType.king 58 ^^^
          ZobristSide.get mu.zobrist_numbers.board.black PieceType.king
            60) := by
      have hkg : mu.state.boards.black.get PieceType.king = 1 <<< 60 := hking
      rw [hkg, hashBoard_single 58 (by decide), hashBoard_single 60
        (by decide)]
      simp [Nat.xor_assoc, Nat.xor_comm, xor_left_comm, Nat.xor_self,
        xor_cancel_left, Nat.xor_zero, Nat.zero_xor]
    dsimp only
    rw [show (⟨mu.state.boards.black.pawn, mu.state.boards.black.knight,
        mu.state.boards.black.bishop,
        (mu.state.boards.black.rook &&& not64 (1 <<< 56)) ||| (1 <<< 59),
        mu.state.boards.black.queen, 1 <<< 58⟩ : ChessBoardSide) =
      (mu.state.boards.black.set PieceType.king (1 <<< 58)).set
        PieceType.rook
        ((mu.state.boards.black.rook &&& not64 (1 <<< 56)) ||| (1 <<< 59))
      from rfl]
    rw [hash_decompose, hashBoards_eq_sides]
    rw [hashSide_set _ _ PieceType.rook _ _ hv,
      hashSide_set _ _ PieceType.king _ _ hk]
    rw [hashColor_togFlags, hashCastles_togFlags, hinv, hash_decompose,
      hashBoards_eq_sides]
    simp [hashEp, condXor_false, condXor_true, ZobristSide.get,
      Nat.xor_assoc, Nat.xor_comm, xor_left_comm, Nat.xor_self,
      xor_cancel_left, Nat.xor_zero, Nat.zero_xor]

set_option maxHeartbeats 1000000 in
theorem step_quiet_white (mu : MakeUnmaker) (fr t : Nat)
    (hwf : WFState mu.state)
    (hinv : mu.zobrist_hash = mu.state.hash mu.zobrist_numbers)
    (hw : StateFlags.active_color mu.state.flags = Color.white)
    (hvc : ValidCommon mu.state.boards.white ⟨fr, t, MoveCode.quietMove⟩) :
    MakeUnmaker.unmake_move
        (MakeUnmaker.make_move mu ⟨fr, t, MoveCode.quietMove⟩)
        ⟨fr, t, MoveCode.quietMove⟩ = some mu ∧
    (MakeUnmaker.make_move mu ⟨fr, t, MoveCode.quietMove⟩).zobrist_hash =
      (MakeUnmaker.make_move mu
          ⟨fr, t, MoveCode.quietMove⟩).state.hash
        (MakeUnmaker.make_move mu
          ⟨fr, t, MoveCode.quietMove⟩).zobrist_numbers := by
  obtain ⟨hbW, hbB, hdW, hdB, hdis, hkW, hkB, hepdis, hep64⟩ := hwf
  obtain ⟨hfr64, ht64, hne, hfrU, htU⟩ := hvc
  obtain ⟨p0, hp0⟩ := exists_piece_of_union hfrU
  have hoth := disjoint_unique_piece hdW hp0
  have hFw64 := get_lt_of_bounded hbW p0
  have hFt : (mu.state.boards.white.get p0).testBit t = false :=
    get_testBit_false_of_union htU p0
  rw [make_quiet_white mu fr t p0 hw hp0 hoth]
  constructor
  · have hp0' : ((mu.state.boards.white.set p0
        ((mu.state.boards.white.get p0 &&& not64 (1 <<< fr)) |||
          (1 <<< t))).get p0).testBit t = true := by
      rw [get_set_same]
      exact or_shift_testBit_self _ t
    have hoth' : ∀ q, q ≠ p0 → ((mu.state.boards.white.set p0
        ((mu.state.boards.white.get p0 &&& not64 (1 <<< fr)) |||
          (1 <<< t))).get q).testBit t = false := fun q hq => by
      rw [get_set_ne _ _ (Ne.symm hq)]
      exact get_testBit_false_of_union htU q
    rw [unmake_noncap_white _ _ _ _ _ _ _ _ _ _ _ _ _
      MoveCode.quietMove p0 rfl rfl rfl
      (active_togFlags_white _ _ hw) hp0' hoth']
    rw [get_set_same,
      set_then_clear (lt_of_le_of_lt Nat.and_le_left hFw64) ht64
        (testBit_and_false_left _ hFt),
      clear_then_set hFw64 hfr64 hp0, set_set_same, set_get_self]
    rw [wk_diff, wq_diff, bk_diff, bq_diff]
    refine congrArg some (mk_eq_self mu _ ?_)
    simp [togNums, condXor_false, condXor_true, Nat.xor_assoc,
      Nat.xor_comm, xor_left_comm, Nat.xor_self, xor_cancel_left,
      Nat.xor_zero, Nat.zero_xor]
  · have hv : hashBoard ((mu.state.boards.white.get p0 &&&
        not64 (1 <<< fr)) ||| (1 <<< t))
        (ZobristSide.get mu.zobrist_numbers.board.white p0) =
      hashBoard (mu.state.boards.white.get p0)
        (ZobristSide.get mu.zobrist_numbers.board.white p0) ^^^
        (ZobristSide.get mu.zobrist_numbers.board.white p0 fr ^^^
          ZobristSide.get mu.zobrist_numbers.board.white p0 t) := by
      rw [and_not64_eq_xor hFw64 hfr64 hp0,
        or_eq_xor (testBit_xor_shift_false hFt (Ne.symm hne)),
        hashBoard_flip (xor_pow_lt_64 hFw64 hfr64) ht64,
        hashBoard_flip hFw64 hfr64, Nat.xor_assoc]
    dsimp only
    rw [hash_decompose, hashBoards_set_white _ _ p0 _ _ hv,
      hashColor_togFlags, hashCastles_togFlags, hinv, hash_decompose]
    simp [hashEp, condXor_false, condXor_true, Nat.xor_assoc,
      Nat.xor_comm, xor_left_comm, Nat.xor_self, xor_cancel_left,
      Nat.xor_zero, Nat.zero_xor]

set_option maxHeartbeats 1000000 in
/-- One make/unmake round trip for any generated-shape move on a
well-formed position whose incremental hash is correct. -/
theorem mk_unmk_step (mu : MakeUnmaker) (m : Move)
    (hwf : WFState mu.state)
    (hinv : mu.zobrist_hash = mu.state.hash mu.zobrist_numbers)
    (hv : ValidMove mu.state m) :
    MakeUnmaker.unmake_move (MakeUnmaker.make_move mu m) m = some mu ∧
    (MakeUnmaker.make_move mu m).zobrist_hash =
      (MakeUnmaker.make_move mu m).state.hash
        (MakeUnmaker.make_move mu m).zobrist_numbers := by
  obtain ⟨fr, t, c⟩ := m
  cases c
  case quietMove =>
    simp only [ValidMove] at hv
    by_cases hw : StateFlags.active_color mu.state.flags = Color.white
    · rw [if_pos hw] at hv
      exact step_quiet_white mu fr t hwf hinv hw hv
    · rw [if_neg hw] at hv
      exact step_quiet_black mu fr t hwf hinv hw hv
  case doublePawnPush =>
    simp only [ValidMove] at hv
    obtain ⟨hvc, hrange⟩ := hv
    by_cases hw : StateFlags.active_color mu.state.flags = Color.white
    · rw [if_pos hw] at hvc
      exact step_dpp_white mu fr t hwf hinv hw hvc
    · rw [if_neg hw] at hvc
      exact step_dpp_black mu fr t hwf hinv hw hvc
  case kingCastle =>
    simp only [ValidMove] at hv
    rcases hv with ⟨hww, hk, h7, h5⟩ | ⟨hwb, hk, h63, h61⟩
    · rw [if_pos hww] at hk h7 h5
      exact step_castle_wk mu fr t hwf hinv hww hk h7 h5
    · rw [if_neg hwb] at hk h63 h61
      exact step_castle_bk mu fr t hwf hinv hwb hk h63 h61
  case queenCastle =>
    simp only [ValidMove] at hv
    rcases hv with ⟨hww, hk, h0, h3⟩ | ⟨hwb, hk, h56, h59⟩
    · rw [if_pos hww] at hk h0 h3
      exact step_castle_wq mu fr t hwf hinv hww hk h0 h3
    · rw [if_neg hwb] at hk h56 h59
      exact step_castle_bq mu fr t hwf hinv hwb hk h56 h59
  case capture =>
    simp only [ValidMove] at hv
    obtain ⟨hvc, hcapE⟩ := hv
    by_cases hw : StateFlags.active_color mu.state.flags = Color.white
    · rw [if_pos hw] at hvc hcapE
      exact step_cap_white mu fr t hwf hinv hw hvc hcapE
    · rw [if_neg hw] at hvc hcapE
      exact step_cap_black mu fr t hwf hinv hw hvc hcapE
  case enPassant =>
    simp only [ValidMove] at hv
    rcases hv with ⟨hvc, ⟨hww, h8t, hcapE⟩ | ⟨hwb, ht8, hcapE⟩⟩
    · rw [if_pos hww] at hvc hcapE
      exact step_ep_white mu fr t hwf hinv hww hvc h8t hcapE
    · rw [if_neg hwb] at hvc hcapE
      exact step_ep_black mu fr t hwf hinv hwb hvc ht8 hcapE
  case knightPromotion =>
    simp only [ValidMove] at hv
    obtain ⟨hvc, hpw⟩ := hv
    by_cases hw : StateFlags.active_color mu.state.flags = Color.white
    · rw [if_pos hw] at hvc hpw
      exact step_promo_white mu fr t MoveCode.knightPromotion PieceType.knight
        rfl rfl rfl (fun h => nomatch h) (fun h => nomatch h)
        (fun h => nomatch h) hwf hinv hw hvc hpw
    · rw [if_neg hw] at hvc hpw
      exact step_promo_black mu fr t MoveCode.knightPromotion PieceType.knight
        rfl rfl rfl (fun h => nomatch h) (fun h => nomatch h)
        (fun h => nomatch h) hwf hinv hw hvc hpw
  case bishopPromotion =>
    simp only [ValidMove] at hv
    obtain ⟨hvc, hpw⟩ := hv
    by_cases hw : StateFlags.active_color mu.state.flags = Color.white
    · rw [if_pos hw] at hvc hpw
      exact step_promo_white mu fr t MoveCode.bishopPromotion PieceType.bishop
        rfl rfl rfl (fun h => nomatch h) (fun h => nomatch h)
        (fun h => nomatch h) hwf hinv hw hvc hpw
    · rw [if_neg hw] at hvc hpw
      exact step_promo_black mu fr t MoveCode.bishopPromotion PieceType.bishop
        rfl rfl rfl (fun h => nomatch h) (fun h => nomatch h)
        (fun h => nomatch h) hwf hinv hw hvc hpw
  case rookPromotion =>
    simp only [ValidMove] at hv
    obtain ⟨hvc, hpw⟩ := hv
    by_cases hw : StateFlags.active_color mu.state.flags = Color.white
    · rw [if_pos hw] at hvc hpw
      exact step_promo_white mu fr t MoveCode.rookPromotion PieceType.rook
        rfl rfl rfl (fun h => nomatch h) (fun h => nomatch h)
        (fun h => nomatch h) hwf hinv hw hvc hpw
    · rw [if_neg hw] at hvc hpw
      exact step_promo_black mu fr t MoveCode.rookPromotion PieceType.rook
        rfl rfl rfl (fun h => nomatch h) (fun h => nomatch h)
        (fun h => nomatch h) hwf hinv hw hvc hpw
  case queenPromotion =>
    simp only [ValidMove] at hv
    obtain ⟨hvc, hpw⟩ := hv
    by_cases hw : StateFlags.active_color mu.state.flags = Color.white
    · rw [if_pos hw] at hvc hpw
      exact step_promo_white mu fr t MoveCode.queenPromotion PieceType.queen
        rfl rfl rfl (fun h => nomatch h) (fun h => nomatch h)
        (fun h => nomatch h) hwf hinv hw hvc hpw
    · rw [if_neg hw] at hvc hpw
      exact step_promo_black mu fr t MoveCode.queenPromotion PieceType.queen
        rfl rfl rfl (fun h => nomatch h) (fun h => nomatch h)
        (fun h => nomatch h) hwf hinv hw hvc hpw
  case knightPromotionCapture =>
    simp only [ValidMove] at hv
    obtain ⟨hvc, hpw, hcapE⟩ := hv
    by_cases hw : StateFlags.active_color mu.state.flags = Color.white
    · rw [if_pos hw] at hvc hpw hcapE
      exact step_promocap_white mu fr t MoveCode.knightPromotionCapture PieceType.knight
        rfl rfl rfl (fun h => nomatch h) (fun h => nomatch h)
        (fun h => nomatch h) hwf hinv hw hvc hpw hcapE
    · rw [if_neg hw] at hvc hpw hcapE
      exact step_promocap_black mu fr t MoveCode.knightPromotionCapture PieceType.knight
        rfl rfl rfl (fun h => nomatch h) (fun h => nomatch h)
        (fun h => nomatch h) hwf hinv hw hvc hpw hcapE
  case bishopPromotionCapture =>
    simp only [ValidMove] at hv
    obtain ⟨hvc, hpw, hcapE⟩ := hv
    by_cases hw : StateFlags.active_color mu.state.flags = Color.white
    · rw [if_pos hw] at hvc hpw hcapE
      exact step_promocap_white mu fr t MoveCode.bishopPromotionCapture PieceType.bishop
        rfl rfl rfl (fun h => nomatch h) (fun h => nomatch h)
        (fun h => nomatch h) hwf hinv hw hvc hpw hcapE
    · rw [if_neg hw] at hvc hpw hcapE
      exact step_promocap_black mu fr t MoveCode.bishopPromotionCapture PieceType.bishop
        rfl rfl rfl (fun h => nomatch h) (fun h => nomatch h)
        (fun h => nomatch h) hwf hinv hw hvc hpw hcapE
  case rookPromotionCapture =>
    simp only [ValidMove] at hv
    obtain ⟨hvc, hpw, hcapE⟩ := hv
    by_cases hw : StateFlags.active_color mu.state.flags = Color.white
    · rw [if_pos hw] at hvc hpw hcapE
      exact step_promocap_white mu fr t MoveCode.rookPromotionCapture PieceType.rook
        rfl rfl rfl (fun h => nomatch h) (fun h => nomatch h)
        (fun h => nomatch h) hwf hinv hw hvc hpw hcapE
    · rw [if_neg hw] at hvc hpw hcapE
      exact step_promocap_black mu fr t MoveCode.rookPromotionCapture PieceType.rook
        rfl rfl rfl (fun h => nomatch h) (fun h => nomatch h)
        (fun h => nomatch h) hwf hinv hw hvc hpw hcapE
  case queenPromotionCapture =>
    simp only [ValidMove] at hv
    obtain ⟨hvc, hpw, hcapE⟩ := hv
    by_cases hw : StateFlags.active_color mu.state.flags = Color.white
    · rw [if_pos hw] at hvc hpw hcapE
      exact step_promocap_white mu fr t MoveCode.queenPromotionCapture PieceType.queen
        rfl rfl rfl (fun h => nomatch h) (fun h => nomatch h)
        (fun h => nomatch h) hwf hinv hw hvc hpw hcapE
    · rw [if_neg hw] at hvc hpw hcapE
      exact step_promocap_black mu fr t MoveCode.queenPromotionCapture PieceType.queen
        rfl rfl rfl (fun h => nomatch h) (fun h => nomatch h)
        (fun h => nomatch h) hwf hinv hw hvc hpw hcapE

/-- C1: for every reachable `GameState` (a well-formed position whose
incremental hash is correct, as every position produced by the engine
is) and every sequence of `make_move`/`unmake_move` calls in which each
`unmake_move` pops the move most recently made, the `MakeUnmaker` after
a `make_move` followed by its matching `unmake_move` is bit-for-bit the
one before the `make_move`, and the incrementally maintained
`zobrist_hash` equals the from-scratch `GameState.hash` of the current
state both immediately after each `make_move` and after each
`unmake_move`. -/
theorem make_unmake_roundtrip (ms : List Move) :
    ∀ (mu : MakeUnmaker),
      mu.zobrist_hash = mu.state.hash mu.zobrist_numbers →
      ValidSeq mu ms →
      ∀ q m, (q ++ [m]) <+: ms →
        MakeUnmaker.unmake_move (makeSeq mu (q ++ [m])) m =
          some (makeSeq mu q) ∧
        (makeSeq mu (q ++ [m])).zobrist_hash =
          (makeSeq mu (q ++ [m])).state.hash
            (makeSeq mu (q ++ [m])).zobrist_numbers ∧
        (makeSeq mu q).zobrist_hash =
          (makeSeq mu q).state.hash (makeSeq mu q).zobrist_numbers := by
  induction ms with
  | nil =>
    intro mu hinv hseq q m hpre
    have hlen := hpre.length_le
    simp at hlen
  | cons a tl ih =>
    intro mu hinv hseq q m hpre
    obtain ⟨hwf, hva, hseq'⟩ := hseq
    have hstep := mk_unmk_step mu a hwf hinv hva
    cases q with
    | nil =>
      obtain ⟨r, hr⟩ := hpre
      simp only [List.cons_append, List.nil_append] at hr
      injection hr with h1 h2
      subst h1
      exact ⟨hstep.1, hstep.2, hinv⟩
    | cons b q' =>
      obtain ⟨r, hr⟩ := hpre
      simp only [List.cons_append] at hr
      injection hr with h1 h2
      subst h1
      exact ih (MakeUnmaker.make_move mu b) hstep.2 hseq' q' m ⟨r, h2⟩

/-- A small well-formed position used to instantiate C1. -/
def c1State : GameState :=
  ⟨⟨⟨1 <<< 12, 0, 0, 0, 0, 1 <<< 4⟩, ⟨0, 0, 0, 0, 0, 1 <<< 60⟩⟩, 0, 0, 0⟩

/-- The engine wrapper on that position. -/
def c1Mu : MakeUnmaker := MakeUnmaker.new c1State

theorem make_unmake_roundtrip_witness :
    (c1Mu.zobrist_hash = c1Mu.state.hash c1Mu.zobrist_numbers) ∧
    ValidSeq c1Mu [⟨12, 28, MoveCode.doublePawnPush⟩] ∧
    (([] ++ [(⟨12, 28, MoveCode.doublePawnPush⟩ : Move)]) <+:
      [(⟨12, 28, MoveCode.doublePawnPush⟩ : Move)]) ∧
    (MakeUnmaker.unmake_move
        (makeSeq c1Mu ([] ++ [⟨12, 28, MoveCode.doublePawnPush⟩]))
        ⟨12, 28, MoveCode.doublePawnPush⟩ = some (makeSeq c1Mu []) ∧
      (makeSeq c1Mu
          ([] ++ [⟨12, 28, MoveCode.doublePawnPush⟩])).zobrist_hash =
        (makeSeq c1Mu
            ([] ++ [⟨12, 28, MoveCode.doublePawnPush⟩])).state.hash
          (makeSeq c1Mu
            ([] ++ [⟨12, 28, MoveCode.doublePawnPush⟩])).zobrist_numbers ∧
      (makeSeq c1Mu []).zobrist_hash =
        (makeSeq c1Mu []).state.hash (makeSeq c1Mu []).zobrist_numbers) :=
  ⟨rfl, by decide, ⟨[], rfl⟩,
    make_unmake_roundtrip [⟨12, 28, MoveCode.doublePawnPush⟩] c1Mu rfl
      (by decide) [] ⟨12, 28, MoveCode.doublePawnPush⟩ ⟨[], rfl⟩⟩

end Chess
